import Mathlib

/-!
# MidiSequencer: the Standard MIDI File parser of `file_parser.cpp`

A shallow embedding of `MIDI_PLAY::parseFile` and the functions it calls
(`read_byte`, `read_32_le`, `read_int`, `read_var`, `skip`, `read_riff`,
`read_smf`, `read_track`, `tick_comp`), followed by theorems about them.

Modelling conventions.

* The `FILE *` stream is the list of bytes not yet read (`rest`) together
  with the end-of-file indicator that `feof` tests (`eof`).  `getc` at the
  end of the stream returns `EOF = -1` and sets the indicator; `ungetc`
  pushes one byte back and clears it.
* A C++ `int` is an `Int`; the bit operations `&`, `|`, `<<` and the
  additions that can leave the 32-bit range are taken in two's complement
  (`wrap32`).  The counter `file_offset` is kept as an unbounded integer: it
  moves by one per `read_byte`, the parser compares it only with track ends
  less than `2^28` above it, and it can reach `2^31` only on a stream of
  about 2 GiB or while `read_riff` skips a chunk declared that long.
* A loop of the source is a recursion over a number of iterations computed
  from the state when the loop starts; `Run.nofuel` marks a loop cut short,
  which is proved never to happen (last section).
* A `double` is an exact rational (`ℚ`).  A division by zero gives `0` in
  `ℚ`, not an infinity, so statements about durations assume `PPQ ≠ 0`
  where the quotient matters.
* The Qt message boxes and widget updates have no effect on the parser's
  state and are left out.  The return code of the one ALSA call whose
  failure makes `read_smf` return (`snd_seq_set_queue_tempo`) is a parameter.
* The local `struct event Event` of `read_track` is not initialised by the
  source (line 233): when the function is entered its scalar fields hold what
  the stack held, and only its `sysex` vector is constructed, empty.  The
  state carries these indeterminate values as the list `residues`, one per
  call of `read_track` to come; an empty list stands for bytes that are zero.
  The union `data` is kept as its four bytes in memory order, little-endian
  as on the x86 targets of ALSA.
-/

namespace MidiSequencer

/-! ## Machine integers -/

/-- The bit pattern of an `int` read as an `unsigned int`: the value modulo
`2^32`. -/
def toU32 : Int → Nat
  | Int.ofNat n => n % 4294967296
  | Int.negSucc n => 4294967295 - n % 4294967296

/-- The `int` with a given 32-bit pattern (two's complement). -/
def ofU32 (n : Nat) : Int :=
  if n < 2147483648 then Int.ofNat n else Int.negSucc (4294967295 - n)

/-- Conversion of an integer to the 32-bit two's-complement `int` range. -/
def wrap32 (x : Int) : Int := ofU32 (toU32 x)

/-- C++ `a & b` on `int`. -/
def band (a b : Int) : Int := ofU32 (toU32 a &&& toU32 b)

/-- C++ `a | b` on `int`. -/
def bor (a b : Int) : Int := ofU32 (toU32 a ||| toU32 b)

/-- C++ `a << k` on `int`. -/
def shl (a : Int) (k : Nat) : Int := wrap32 (a * 2 ^ k)

/-- `MAKE_ID(c1, c2, c3, c4)` of `file_parser.cpp`, line 25. -/
def MAKE_ID (c1 c2 c3 c4 : Char) : Int :=
  bor (bor (bor (c1.toNat : Int) (shl (c2.toNat : Int) 8)) (shl (c3.toNat : Int) 16))
    (shl (c4.toNat : Int) 24)

/-! ## Data model -/

/-- One byte of the input file. -/
abbrev Byte := Fin 256

/-- The anonymous union `data` of `struct event` (`midi_play.h`): the members
`unsigned char d[3]`, `int tempo` and `unsigned int length` share these four
bytes. -/
structure data_union where
  b0 : Nat
  b1 : Nat
  b2 : Nat
  b3 : Nat
deriving DecidableEq, Repr

/-- Reading the member `data.length`. -/
def data_union.length (u : data_union) : Nat :=
  u.b0 + 256 * u.b1 + 65536 * u.b2 + 16777216 * u.b3

/-- Reading the member `data.tempo`. -/
def data_union.tempo (u : data_union) : Int := wrap32 (u.length : Int)

/-- Storing a 32-bit value through `data.tempo` or `data.length`. -/
def data_union.ofInt (v : Int) : data_union :=
  { b0 := toU32 v % 256
    b1 := toU32 v / 256 % 256
    b2 := toU32 v / 65536 % 256
    b3 := toU32 v / 16777216 % 256 }

/-- The `struct event` of `midi_play.h` (the unused `next` pointer is left out). -/
structure event where
  type : Nat
  port : Nat
  tick : Nat
  data : data_union
  sysex : List Nat
deriving DecidableEq, Repr

/-- Event type codes of ALSA's `seq_event.h`. -/
def SND_SEQ_EVENT_NOTEON : Nat := 6
def SND_SEQ_EVENT_NOTEOFF : Nat := 7
def SND_SEQ_EVENT_KEYPRESS : Nat := 8
def SND_SEQ_EVENT_CONTROLLER : Nat := 10
def SND_SEQ_EVENT_PGMCHANGE : Nat := 11
def SND_SEQ_EVENT_CHANPRESS : Nat := 12
def SND_SEQ_EVENT_PITCHBEND : Nat := 13
def SND_SEQ_EVENT_TEMPO : Nat := 35
def SND_SEQ_EVENT_SYSEX : Nat := 130

/-- The variables the parser reads and writes: the globals of
`file_parser.cpp` (lines 27-35), the static members `song_length_seconds`,
`BPM`, `PPQ`, `sf`, `minor_key`, the member `all_events`, and the stream;
and, in `residues`, the values the uninitialised local `Event` of
`read_track` (line 233) holds when the function is entered, for the calls to
come, the next call first. -/
structure State where
  rest : List Byte
  eof : Bool
  file_offset : Int
  smpte_timing : Int
  prev_tick : Int
  BPM : ℚ
  PPQ : ℚ
  song_length_seconds : ℚ
  sf : Int
  minor_key : Bool
  queue_tempo : Int × Int
  all_events : List event
  residues : List event
deriving DecidableEq

/-- What a call does: it returns, or its behaviour is undefined in C++
(`all_events.back()` on an empty vector), or the model's loop bound ran out. -/
inductive Run (α : Type) where
  | ret (a : α)
  | undef
  | nofuel
deriving DecidableEq

/-! ## Helper functions (lines 38-84) -/

/-- `read_byte`, lines 41-44. -/
@[irreducible] def read_byte (s : State) : Int × State :=
  match s.rest with
  | [] => (-1, { s with file_offset := s.file_offset + 1, eof := true })
  | b :: r => ((b.val : Int), { s with file_offset := s.file_offset + 1, rest := r })

/-- `ungetc(c, file)` for a byte value `c`. -/
def ungetc (c : Int) (s : State) : State :=
  { s with rest := Fin.ofNat c.toNat :: s.rest, eof := false }

/-- `read_32_le`, lines 45-51. -/
def read_32_le (s : State) : Int × State :=
  let (c0, s) := read_byte s
  let value := c0
  let (c1, s) := read_byte s
  let value := bor value (shl c1 8)
  let (c2, s) := read_byte s
  let value := bor value (shl c2 16)
  let (c3, s) := read_byte s
  let value := bor value (shl c3 24)
  (if !s.eof then value else -1, s)

/-- `read_id`, lines 38-40. -/
def read_id (s : State) : Int × State := read_32_le s

/-- The `do ... while (--bytes)` loop of `read_int`, with `n + 1` rounds left. -/
def read_int_loop : Nat → Int → State → Int × State
  | n, value, s =>
    let (c, s) := read_byte s
    if c = -1 then (-1, s)
    else
      let value := bor (shl value 8) c
      match n with
      | 0 => (value, s)
      | n + 1 => read_int_loop n value s

/-- `read_int`, lines 52-61; the source calls it with `bytes` 2 or 4. -/
def read_int (bytes : Nat) (s : State) : Int × State :=
  read_int_loop (bytes - 1) 0 s

/-- `read_var`, lines 62-80. -/
def read_var (s : State) : Int × State :=
  let (c, s) := read_byte s
  let value := band c 0x7f
  if band c 0x80 ≠ 0 then
    let (c, s) := read_byte s
    let value := bor (shl value 7) (band c 0x7f)
    if band c 0x80 ≠ 0 then
      let (c, s) := read_byte s
      let value := bor (shl value 7) (band c 0x7f)
      if band c 0x80 ≠ 0 then
        let (c, s) := read_byte s
        let value := bor (shl value 7) c
        if band c 0x80 ≠ 0 then (-1, s)
        else (if !s.eof then value else -1, s)
      else (if !s.eof then value else -1, s)
    else (if !s.eof then value else -1, s)
  else (if !s.eof then value else -1, s)

/-- The loop of `skip` run `n` times. -/
def skip_loop : Nat → State → State
  | 0, s => s
  | n + 1, s => skip_loop n (read_byte s).2

/-- `skip`, lines 81-84. -/
def skip (bytes : Int) (s : State) : State := skip_loop bytes.toNat s

/-! ## `read_track` (lines 228-504) -/

/-- The locals of `read_track` that live across loop iterations (lines 230-233). -/
structure Locals where
  tick : Int
  last_cmd : Nat
  port : Nat
  Event : event
deriving DecidableEq

/-- The value of `Event` when `read_track` starts on a stack of zero bytes. -/
def Event_init : event :=
  { type := 0, port := 0, tick := 0, data := ⟨0, 0, 0, 0⟩, sysex := [] }

/-- The value of `Event` when `read_track` starts in `s` (line 233): the
scalar fields are not initialised and hold the head of `residues`, the vector
`sysex` is constructed empty. -/
def State.Event0 (s : State) : event :=
  match s.residues with
  | [] => Event_init
  | e :: _ => { e with sysex := [] }

/-- The state after a call of `read_track` has returned: the next call finds
the next of the indeterminate values in its `Event`. -/
def State.next_call (s : State) : State := { s with residues := s.residues.tail }

/-- The value `cmd_type[x]` holds after the first `switch (x)` (lines 261-283). -/
def cmd_type (x : Nat) : Nat :=
  if x = 0x8 then SND_SEQ_EVENT_NOTEOFF
  else if x = 0x9 then SND_SEQ_EVENT_NOTEON
  else if x = 0xA then SND_SEQ_EVENT_KEYPRESS
  else if x = 0xB then SND_SEQ_EVENT_CONTROLLER
  else if x = 0xC then SND_SEQ_EVENT_PGMCHANGE
  else if x = 0xD then SND_SEQ_EVENT_CHANPRESS
  else if x = 0xE then SND_SEQ_EVENT_PITCHBEND
  else 0

/-- How one iteration of the `while` loop of `read_track` ends: at the
bottom of the loop with new locals, or by leaving the function with a
return code (`1` from the end-of-track case, `0` through `_error`). -/
inductive Step where
  | next (L : Locals) (s : State)
  | exit (rc : Int) (s : State)
deriving DecidableEq

/-- The payload loop `for (; c < len; ++c) Event.sysex.push_back(read_byte())`
(lines 326-327) run `n` times. -/
def sysex_loop : Nat → List Nat → State → List Nat × State
  | 0, sysex, s => (sysex, s)
  | n + 1, sysex, s =>
    let (c, s) := read_byte s
    sysex_loop n (sysex ++ [toU32 c % 256]) s

/-- Cases `0xf0` and `0xf7` (lines 311-346). The assignments to the fields of
`Event` are gathered in one record; the bytes go on the end of the vector
`Event.sysex` as the previous iterations left it. -/
def read_track_sysex (tick : Int) (last_cmd port : Nat) (Event : event) (cmd : Nat)
    (s : State) : Step :=
  let (len, s) := read_var s
  if len < 0 then .exit 0 s
  else
    let sysex0 : List Nat := if cmd = 0xf0 then Event.sysex ++ [0xf0] else Event.sysex
    let c : Int := if cmd = 0xf0 then 1 else 0
    let len : Int := if cmd = 0xf0 then len + 1 else len
    let (sysex, s) := sysex_loop (len - c).toNat sysex0 s
    let Event : event :=
      { type := SND_SEQ_EVENT_SYSEX, port := port, tick := toU32 tick,
        data := data_union.ofInt len, sysex := sysex }
    .next ⟨tick, last_cmd, port, Event⟩ { s with all_events := s.all_events ++ [Event] }

/-- The quarter-note branch of the tempo case (lines 365-375); `tempo` is the
value of `Event.data.tempo` after its three assignments. -/
def read_track_tempo (tick : Int) (last_cmd port : Nat) (Event : event) (len : Int)
    (s : State) : Step :=
  let (c1, s) := read_byte s
  let (c2, s) := read_byte s
  let (c3, s) := read_byte s
  let tempo : Int := bor (bor (shl c1 16) (shl c2 8)) c3
  let Event : event :=
    { type := SND_SEQ_EVENT_TEMPO, port := port, tick := toU32 tick,
      data := data_union.ofInt tempo, sysex := Event.sysex }
  let s := skip (len - 3) { s with all_events := s.all_events ++ [Event] }
  .next ⟨tick, last_cmd, port, Event⟩
    { s with
      song_length_seconds :=
        s.song_length_seconds
          + (60000 / (s.BPM * s.PPQ)) * (wrap32 (tick - s.prev_tick) : ℚ) / 1000
      prev_tick := tick
      BPM := 1000000 / (tempo : ℚ) * 60 }

/-- Case `0xff`, the meta events (lines 347-492). -/
def read_track_meta (track_end tick : Int) (last_cmd port : Nat) (Event : event)
    (s : State) : Step :=
  let (c, s) := read_byte s
  let (len, s) := read_var s
  if len < 0 then .exit 0 s
  else if c = 0x21 then
    if len < 1 then .exit 0 s
    else .next ⟨tick, last_cmd, port, Event⟩ (skip len s)
  else if c = 0x2f then
    .exit 1 (skip (track_end - s.file_offset) s)
  else if c = 0x51 then
    if len < 3 then .exit 0 s
    else if s.smpte_timing ≠ 0 then
      .next ⟨tick, last_cmd, port, Event⟩ (skip len s)
    else read_track_tempo tick last_cmd port Event len s
  else if c = 0x59 then
    if len < 2 then .exit 0 s
    else
      let (c1, s) := read_byte s
      let (c2, s) := read_byte s
      .next ⟨tick, last_cmd, port, Event⟩ { s with sf := c1, minor_key := decide (c2 ≠ 0) }
  else
    .next ⟨tick, last_cmd, port, Event⟩ (skip len s)

/-- The second `switch (x)` of the loop body (lines 284-499), for the
effective status byte `cmd`. -/
def read_track_dispatch (track_end tick : Int) (last_cmd port : Nat) (Event : event)
    (cmd : Nat) (s : State) : Step :=
  let x := cmd >>> 4
  if x = 0x8 ∨ x = 0x9 ∨ x = 0xa ∨ x = 0xb ∨ x = 0xe then
    let (c1, s) := read_byte s
    let (c2, s) := read_byte s
    let Event : event :=
      { type := cmd_type (cmd >>> 4), port := port, tick := toU32 tick,
        data := { b0 := cmd &&& 0x0f, b1 := (band c1 0x7f).toNat, b2 := (band c2 0x7f).toNat,
                  b3 := Event.data.b3 },
        sysex := Event.sysex }
    .next ⟨tick, last_cmd, port, Event⟩ { s with all_events := s.all_events ++ [Event] }
  else if x = 0xc ∨ x = 0xd then
    let (c1, s) := read_byte s
    let Event : event :=
      { type := cmd_type (cmd >>> 4), port := port, tick := toU32 tick,
        data := { b0 := cmd &&& 0x0f, b1 := (band c1 0x7f).toNat, b2 := Event.data.b2,
                  b3 := Event.data.b3 },
        sysex := Event.sysex }
    .next ⟨tick, last_cmd, port, Event⟩ { s with all_events := s.all_events ++ [Event] }
  else if x = 0xf then
    if cmd = 0xf0 ∨ cmd = 0xf7 then read_track_sysex tick last_cmd port Event cmd s
    else if cmd = 0xff then read_track_meta track_end tick last_cmd port Event s
    else .exit 0 s
  else .exit 0 s

/-- One iteration of the `while` loop of `read_track` (lines 236-499). -/
def read_track_body (track_end : Int) (L : Locals) (s : State) : Step :=
  let (delta_ticks, s) := read_var s
  if delta_ticks < 0 then .exit 0 s
  else
    let tick := wrap32 (L.tick + delta_ticks)
    let (c, s) := read_byte s
    if c < 0 then .exit 0 s
    else if band c 0x80 ≠ 0 then
      let cmd := c.toNat
      let last_cmd := if cmd < 0xf0 then cmd else L.last_cmd
      read_track_dispatch track_end tick last_cmd L.port L.Event cmd s
    else
      let s := { ungetc c s with file_offset := s.file_offset - 1 }
      let cmd := L.last_cmd
      if cmd = 0 then .exit 0 s
      else read_track_dispatch track_end tick L.last_cmd L.port L.Event cmd s

/-- The `while (file_offset < track_end)` loop of `read_track`, bounded by
`fuel` iterations. -/
def read_track_loop (track_end : Int) : Nat → Locals → State → Run (Int × State)
  | fuel, L, s =>
    if s.file_offset < track_end then
      match fuel with
      | 0 => .nofuel
      | fuel + 1 =>
        match read_track_body track_end L s with
        | .next L s => read_track_loop track_end fuel L s
        | .exit rc s => .ret (rc, s)
    else .ret (0, s)

/-- `read_track`, lines 228-504. Every iteration that stays in the loop moves
`file_offset` forward, so `track_end - file_offset` iterations are enough. -/
def read_track (track_end : Int) (s : State) : Run (Int × State) :=
  read_track_loop track_end (track_end - s.file_offset).toNat ⟨0, 0, 0, s.Event0⟩ s

/-! ## `read_smf` (lines 120-226) -/

/-- `tick_comp`, lines 224-226. -/
def tick_comp (e1 e2 : event) : Bool := decide (e1.tick < e2.tick)

/-- `std::stable_sort(first, last, comp)`: the stable sort for the strict
order `comp`, as a merge sort that keeps `a` before `b` unless `comp b a`. -/
def stable_sort (comp : event → event → Bool) (l : List event) : List event :=
  l.mergeSort (fun a b => !comp b a)

/-- The time-division part of `read_smf` (lines 146-179): the values given to
`snd_seq_queue_tempo_set_tempo` and `snd_seq_queue_tempo_set_ppq`, or `none`
on the `default:` branch that returns 0. -/
def read_smf_tempo (time_division : Int) : Option (Int × Int) :=
  let smpte_timing : Int := if band time_division 0x8000 ≠ 0 then 1 else 0
  if smpte_timing = 0 then some (500000, time_division)
  else
    let i := 0x80 - band (time_division / 256) 0x7f
    let time_division := band time_division 0xff
    if i = 24 then some (500000, 12 * time_division)
    else if i = 25 then some (400000, 10 * time_division)
    else if i = 29 then some (100000000, 2997 * time_division)
    else if i = 30 then some (500000, 15 * time_division)
    else none

/-- The header part of `read_smf` (lines 123-189): `none` when it returns 0,
otherwise the number of tracks. `err` is the value returned by
`snd_seq_set_queue_tempo`. -/
def read_smf_header (err : Int) (s : State) : Option Nat × State :=
  let (header_len, s) := read_int 4 s
  if header_len < 6 then (none, s)
  else
    let (type, s) := read_int 2 s
    if type ≠ 0 ∧ type ≠ 1 then (none, s)
    else
      let (num_tracks, s) := read_int 2 s
      if num_tracks < 1 ∨ num_tracks > 1000 then (none, s)
      else
        let (time_division, s) := read_int 2 s
        if time_division < 0 then (none, s)
        else
          let smpte_timing : Int := if band time_division 0x8000 ≠ 0 then 1 else 0
          match read_smf_tempo time_division with
          | none => (none, { s with smpte_timing := smpte_timing })
          | some q =>
            if err < 0 then
              (none, { s with smpte_timing := smpte_timing, queue_tempo := q, PPQ := (q.2 : ℚ) })
            else
              (some num_tracks.toNat,
                { s with
                  smpte_timing := smpte_timing
                  queue_tempo := q
                  PPQ := (q.2 : ℚ)
                  BPM := 60000000 / (q.1 : ℚ)
                  song_length_seconds := 0
                  prev_tick := 0 })

/-- One round of the chunk search `for (;;)` of lines 194-208: on the left
the outcome when the round leaves the loop (`none` when it returns 0, the
length of the track found on `break`), on the right the state after
`skip(len)`. -/
def read_smf_search_body (s : State) : (Option Int × State) ⊕ State :=
  let (id, s) := read_id s
  let (len, s) := read_int 4 s
  if s.eof then .inl (none, s)
  else if len < 0 ∨ len ≥ 0x10000000 then .inl (none, s)
  else if id = MAKE_ID 'M' 'T' 'r' 'k' then .inl (some len, s)
  else .inr (skip len s)

/-- The chunk search of lines 194-208, bounded by `fuel` skipped chunks. -/
def read_smf_search : Nat → State → Run (Option Int × State)
  | fuel, s =>
    match read_smf_search_body s with
    | .inl r => .ret r
    | .inr s =>
      match fuel with
      | 0 => .nofuel
      | fuel + 1 => read_smf_search fuel s

/-- The loop over the tracks (lines 191-212) with `n` tracks left: return
code 0 when an iteration returns 0, and 1 when the loop runs to its end. A
chunk that is skipped holds at least its eight header bytes, so the number of
bytes left bounds the search. -/
def read_smf_tracks : Nat → State → Run (Int × State)
  | 0, s => .ret (1, s)
  | n + 1, s =>
    match read_smf_search s.rest.length s with
    | .ret (none, s) => .ret (0, s)
    | .ret (some len, s) =>
      match read_track (s.file_offset + len) s with
      | .ret (rc, s) => if rc = 0 then .ret (0, s) else read_smf_tracks n s.next_call
      | .undef => .undef
      | .nofuel => .nofuel
    | .undef => .undef
    | .nofuel => .nofuel

/-- The end of `read_smf` (lines 213-221): the sort and the last piece of the
song length. -/
def read_smf_finish (s : State) : Run (Int × State) :=
  let sorted := stable_sort tick_comp s.all_events
  match sorted.getLast? with
  | none => .undef
  | some back =>
    if s.song_length_seconds = 0 then
      .ret (1, { s with
                 all_events := sorted
                 song_length_seconds :=
                   (60000 / (s.BPM * s.PPQ)) * (back.tick : ℚ) / 1000 })
    else
      .ret (1, { s with
                 all_events := sorted
                 song_length_seconds :=
                   s.song_length_seconds
                     + (60000 / (s.BPM * s.PPQ))
                         * (toU32 ((back.tick : Int) - s.prev_tick) : ℚ) / 1000 })

/-- `read_smf`, lines 120-222. -/
def read_smf (err : Int) (s : State) : Run (Int × State) :=
  match read_smf_header err s with
  | (none, s) => .ret (0, s)
  | (some num_tracks, s) =>
    match read_smf_tracks num_tracks s with
    | .ret (rc, s) => if rc = 0 then .ret (0, s) else read_smf_finish s
    | .undef => .undef
    | .nofuel => .nofuel

/-! ## `read_riff` and `parseFile` -/

/-- One round of the search for the "data" chunk (lines 101-113): on the left
the outcome when the round leaves the loop (`true` on `break`, `false` when
the function returns 0), on the right the state after `skip`. -/
def read_riff_search_body (s : State) : (Bool × State) ⊕ State :=
  let (id, s) := read_id s
  let (len, s) := read_32_le s
  if s.eof then .inl (false, s)
  else if id = MAKE_ID 'd' 'a' 't' 'a' then .inl (true, s)
  else if len < 0 then .inl (false, s)
  else .inr (skip (band (wrap32 (len + 1)) (-2)) s)

/-- The search for the "data" chunk, bounded by `fuel` skipped chunks. -/
def read_riff_search : Nat → State → Run (Bool × State)
  | fuel, s =>
    match read_riff_search_body s with
    | .inl r => .ret r
    | .inr s =>
      match fuel with
      | 0 => .nofuel
      | fuel + 1 => read_riff_search fuel s

/-- `read_riff`, lines 88-118. -/
def read_riff (err : Int) (s : State) : Run (Int × State) :=
  let (_, s) := read_byte s
  let (_, s) := read_byte s
  let (_, s) := read_byte s
  let (_, s) := read_byte s
  let (id, s) := read_id s
  if id ≠ MAKE_ID 'R' 'M' 'I' 'D' then .ret (0, s)
  else
    match read_riff_search s.rest.length s with
    | .ret (false, s) => .ret (0, s)
    | .ret (true, s) =>
      let (id, s) := read_id s
      if id ≠ MAKE_ID 'M' 'T' 'h' 'd' then .ret (0, s)
      else read_smf err s
    | .undef => .undef
    | .nofuel => .nofuel

/-- `parseFile`, lines 506-529, on a file that opens and holds `content`; `s`
carries the values the variables have when it is called. -/
def parseFile (err : Int) (content : List Byte) (s : State) : Run (Int × State) :=
  let s := { s with rest := content, eof := false, file_offset := 0 }
  let (id, s) := read_id s
  if id = MAKE_ID 'M' 'T' 'h' 'd' then read_smf err s
  else if id = MAKE_ID 'R' 'I' 'F' 'F' then read_riff err s
  else .ret (0, s)

/-- The variables as `on_Open_button_clicked` leaves them before the first
`parseFile` of a process (`midi_play.cpp`, line 117: `all_events.clear()`),
with zero bytes where `read_track` will find its local `Event`. -/
def State.start : State :=
  { rest := [], eof := false, file_offset := 0, smpte_timing := 0, prev_tick := 0,
    BPM := 0, PPQ := 0, song_length_seconds := 0, sf := 0, minor_key := false,
    queue_tempo := (0, 0), all_events := [], residues := [] }

/-- Byte values of an ASCII string. -/
def ascii (t : String) : List Byte := t.toList.map (fun c => Fin.ofNat c.toNat)

/-! ## Inputs and specification-side definitions -/

/-- The file of the end-to-end example: format 1, one track, ppq 96. -/
def file_one_note : List Byte :=
  ascii "MThd" ++ [0, 0, 0, 6, 0, 1, 0, 1, 0, 96] ++ ascii "MTrk" ++ [0, 0, 0, 12]
    ++ [0x00, 0x90, 0x3C, 0x40, 0x60, 0x80, 0x3C, 0x40, 0x00, 0xFF, 0x2F, 0x00]

/-- The state `parseFile` leaves after `file_one_note`. -/
def file_one_note_result : State :=
  { rest := [], eof := false, file_offset := 34, smpte_timing := 0, prev_tick := 0,
    BPM := 120, PPQ := 96, song_length_seconds := 1 / 2, sf := 0, minor_key := false,
    queue_tempo := (500000, 96),
    residues := [],
    all_events :=
      [{ type := 6, port := 0, tick := 0, data := ⟨0, 60, 64, 0⟩, sysex := [] },
       { type := 7, port := 0, tick := 96, data := ⟨0, 60, 64, 0⟩, sysex := [] }] }

/-- A format-1 file with two tracks, ppq 96: the first holds a note-on at
tick 0 and a note-off at tick 10, the second a program change at tick 0 and a
note-on at tick 5. -/
def file_two_tracks : List Byte :=
  ascii "MThd" ++ [0, 0, 0, 6, 0, 1, 0, 2, 0, 96]
    ++ ascii "MTrk" ++ [0, 0, 0, 12]
    ++ [0x00, 0x90, 0x3C, 0x40, 0x0A, 0x80, 0x3C, 0x40, 0x00, 0xFF, 0x2F, 0x00]
    ++ ascii "MTrk" ++ [0, 0, 0, 11]
    ++ [0x00, 0xC1, 0x05, 0x05, 0x91, 0x40, 0x7F, 0x00, 0xFF, 0x2F, 0x00]

/-- The state `parseFile` leaves after `file_two_tracks`. -/
def file_two_tracks_result : State :=
  { rest := [], eof := false, file_offset := 53, smpte_timing := 0, prev_tick := 0,
    BPM := 120, PPQ := 96, song_length_seconds := 5 / 96, sf := 0, minor_key := false,
    queue_tempo := (500000, 96),
    residues := [],
    all_events :=
      [{ type := 6, port := 0, tick := 0, data := ⟨0, 60, 64, 0⟩, sysex := [] },
       { type := 11, port := 0, tick := 0, data := ⟨1, 5, 0, 0⟩, sysex := [] },
       { type := 6, port := 0, tick := 5, data := ⟨1, 64, 127, 0⟩, sysex := [] },
       { type := 7, port := 0, tick := 10, data := ⟨0, 60, 64, 0⟩, sysex := [] }] }

/-- The track of the running-status example: note-on 3C/40 at delta 0, then
delta 5 and the bare data bytes 3C 41, then end of track. -/
def track_running_status : List Byte :=
  [0x00, 0x90, 0x3C, 0x40, 0x05, 0x3C, 0x41, 0x00, 0xFF, 0x2F, 0x00]

/-- The stream of `track_running_status` after its first event. -/
def state_running_status : State :=
  { State.start with rest := [0x05, 0x3C, 0x41, 0x00, 0xFF, 0x2F, 0x00], file_offset := 4 }

/-- The state with the offset counter moved by `k`. -/
def State.shift (k : Int) (s : State) : State := { s with file_offset := s.file_offset + k }

/-- The end of an iteration with the offset counter moved by `k`. -/
def Step.shift (k : Int) : Step → Step
  | .next L s => .next L (s.shift k)
  | .exit rc s => .exit rc (s.shift k)

/-- The result of a call with the offset counter moved by `k`. -/
def Run.shift {α : Type} (k : Int) : Run (α × State) → Run (α × State)
  | .ret (a, s) => .ret (a, s.shift k)
  | .undef => .undef
  | .nofuel => .nofuel

/-- A stream holding the SMF header fields after "MThd" with the SMPTE time
division 0xE704: 25 frames per second, 4 ticks per frame. -/
def state_smpte_header : State :=
  { State.start with rest := [0, 0, 0, 6, 0, 1, 0, 1, 0xE7, 0x04] }

/-- A file with SMPTE timing (25 frames per second, 4 ticks per frame) whose
track holds a tempo meta-event, a note-on at tick 0 and a note-off at tick 40. -/
def file_smpte : List Byte :=
  ascii "MThd" ++ [0, 0, 0, 6, 0, 1, 0, 1, 0xE7, 0x04] ++ ascii "MTrk" ++ [0, 0, 0, 19]
    ++ [0x00, 0xFF, 0x51, 0x03, 0x07, 0xA1, 0x20, 0x00, 0x90, 0x3C, 0x40,
        0x28, 0x80, 0x3C, 0x40, 0x00, 0xFF, 0x2F, 0x00]

/-- The state `parseFile` leaves after `file_smpte`. -/
def file_smpte_result : State :=
  { rest := [], eof := false, file_offset := 41, smpte_timing := 1, prev_tick := 0,
    BPM := 150, PPQ := 40, song_length_seconds := 2 / 5, sf := 0, minor_key := false,
    queue_tempo := (400000, 40),
    residues := [],
    all_events :=
      [{ type := 6, port := 0, tick := 0, data := ⟨0, 60, 64, 0⟩, sysex := [] },
       { type := 7, port := 0, tick := 40, data := ⟨0, 60, 64, 0⟩, sysex := [] }] }

/-- One step of the tempo-segment integral of the specification: a tempo
change at tick `e.tick` closes the segment that began at tick `st.2.1` with
tempo `st.2.2`, adding `(end - start) * tempo / (1000000 * ppq)` seconds, and
starts the next segment with its own tempo; other events change nothing. -/
def tempo_segment_step (ppq : ℚ) (st : ℚ × Nat × Int) (e : event) : ℚ × Nat × Int :=
  if e.type = SND_SEQ_EVENT_TEMPO then
    (st.1 + ((e.tick : ℚ) - (st.2.1 : ℚ)) * (st.2.2 : ℚ) / (1000000 * ppq), e.tick,
      e.data.tempo)
  else st

/-- The total duration as the specification defines it on a timeline in tick
order: the first segment starts at tick 0 with tempo 500000, every tempo
change in turn closes a segment, and the final segment runs from the last
tempo change to the tick of the last event. -/
def tempo_integral (ppq : ℚ) (events : List event) : ℚ :=
  let st := events.foldl (tempo_segment_step ppq) (0, 0, 500000)
  match events.getLast? with
  | none => 0
  | some last => st.1 + ((last.tick : ℚ) - (st.2.1 : ℚ)) * (st.2.2 : ℚ) / (1000000 * ppq)

/-- A format-1 file, ppq 96, with tempo meta-events in both tracks: the first
track sets tempo 1000000 at tick 192, the second sets tempo 250000 at tick 48
and holds a note-on at tick 144. -/
def file_two_tempo_tracks : List Byte :=
  ascii "MThd" ++ [0, 0, 0, 6, 0, 1, 0, 2, 0, 96]
    ++ ascii "MTrk" ++ [0, 0, 0, 12]
    ++ [0x81, 0x40, 0xFF, 0x51, 0x03, 0x0F, 0x42, 0x40, 0x00, 0xFF, 0x2F, 0x00]
    ++ ascii "MTrk" ++ [0, 0, 0, 15]
    ++ [0x30, 0xFF, 0x51, 0x03, 0x03, 0xD0, 0x90, 0x60, 0x90, 0x3C, 0x40,
        0x00, 0xFF, 0x2F, 0x00]

/-- The state `parseFile` leaves after `file_two_tempo_tracks`. -/
def file_two_tempo_tracks_result : State :=
  { rest := [], eof := false, file_offset := 57, smpte_timing := 0, prev_tick := 48,
    BPM := 240, PPQ := 96, song_length_seconds := -1 / 8, sf := 0, minor_key := false,
    queue_tempo := (500000, 96),
    residues := [],
    all_events :=
      [{ type := 35, port := 0, tick := 48, data := ⟨144, 208, 3, 0⟩, sysex := [] },
       { type := 6, port := 0, tick := 144, data := ⟨0, 60, 64, 0⟩, sysex := [] },
       { type := 35, port := 0, tick := 192, data := ⟨64, 66, 15, 0⟩, sysex := [] }] }

/-- The standard MIDI variable-length encoding as the specification describes
it: 7 bits per byte, most significant group first, the high bit set on every
byte but the last, at most four bytes. -/
def vlq_encode (v : Nat) : List Byte :=
  if v < 0x80 then [Fin.ofNat v]
  else if v < 0x4000 then [Fin.ofNat (0x80 + v / 0x80), Fin.ofNat (v % 0x80)]
  else if v < 0x200000 then
    [Fin.ofNat (0x80 + v / 0x4000), Fin.ofNat (0x80 + v / 0x80 % 0x80), Fin.ofNat (v % 0x80)]
  else
    [Fin.ofNat (0x80 + v / 0x200000 % 0x80), Fin.ofNat (0x80 + v / 0x4000 % 0x80),
     Fin.ofNat (0x80 + v / 0x80 % 0x80), Fin.ofNat (v % 0x80)]

/-- A byte with a clear high bit stands among the first four bytes. -/
def vlq_terminated : List Byte → Bool
  | b1 :: r1 =>
    if b1.val < 0x80 then true else
    match r1 with
    | b2 :: r2 =>
      if b2.val < 0x80 then true else
      match r2 with
      | b3 :: r3 =>
        if b3.val < 0x80 then true else
        match r3 with
        | b4 :: _ => decide (b4.val < 0x80)
        | [] => false
      | [] => false
    | [] => false
  | [] => false

/-- The type of the variables other than the stream: `smpte_timing`,
`prev_tick`, `BPM`, `PPQ`, `song_length_seconds`, `sf`, `minor_key`, the queue
tempo and `all_events`. -/
abbrev Vars : Type := Int × Int × ℚ × ℚ × ℚ × Int × Bool × (Int × Int) × List event

/-- The variables of the state other than the stream and its offset. -/
def State.vars (s : State) : Vars :=
  (s.smpte_timing, s.prev_tick, s.BPM, s.PPQ, s.song_length_seconds, s.sf, s.minor_key,
    s.queue_tempo, s.all_events)

/-- The state in which a loop iteration ends. -/
def Step.state : Step → State
  | .next _ s => s
  | .exit _ s => s

/-- Between `s` and `t` the events `l` were appended to `all_events`, the
timing set by the header was left alone, and the song length, the tick of the
last tempo change and `BPM` moved only if a tempo event was appended under
quarter-note timing. -/
def Emits (s t : State) (l : List event) : Prop :=
  t.all_events = s.all_events ++ l ∧ t.PPQ = s.PPQ ∧ t.smpte_timing = s.smpte_timing ∧
    t.queue_tempo = s.queue_tempo ∧
    ((s.smpte_timing ≠ 0 ∨ ∀ e ∈ l, e.type ≠ SND_SEQ_EVENT_TEMPO) →
      t.song_length_seconds = s.song_length_seconds ∧ t.prev_tick = s.prev_tick ∧
        t.BPM = s.BPM)

/-- What the caller of a parsing function can see of a call: the return code
and the variables other than the stream. -/
def Run.outcome : Run (Int × State) → Run (Int × Vars)
  | .ret (rc, s) => .ret (rc, s.vars)
  | .undef => .undef
  | .nofuel => .nofuel

/-- The bounds a channel-voice event keeps whatever bytes it read: the channel
nibble is at most 15 and the data bytes the case reads are at most 127 (two
for the kinds of status nibbles 8, 9, A, B, E, one for those of C, D). -/
def channel_voice_masked (e : event) : Prop :=
  (e.type = SND_SEQ_EVENT_NOTEOFF ∨ e.type = SND_SEQ_EVENT_NOTEON
      ∨ e.type = SND_SEQ_EVENT_KEYPRESS ∨ e.type = SND_SEQ_EVENT_CONTROLLER
      ∨ e.type = SND_SEQ_EVENT_PITCHBEND →
    e.data.b0 ≤ 15 ∧ e.data.b1 ≤ 127 ∧ e.data.b2 ≤ 127) ∧
  (e.type = SND_SEQ_EVENT_PGMCHANGE ∨ e.type = SND_SEQ_EVENT_CHANPRESS →
    e.data.b0 ≤ 15 ∧ e.data.b1 ≤ 127)

/-- What an event pushed by a loop iteration carries from the locals: the port,
the tick counter as an `unsigned int`, and masked channel-voice data. -/
def pushed_with (port : Nat) (tick : Int) (e : event) : Prop :=
  e.port = port ∧ e.tick = toU32 tick ∧ channel_voice_masked e

/-- A format-1 file whose single track holds only the end-of-track event
`00 FF 2F 00`. -/
def file_no_events : List Byte :=
  ascii "MThd" ++ [0, 0, 0, 6, 0, 1, 0, 1, 0, 96] ++ ascii "MTrk" ++ [0, 0, 0, 4]
    ++ [0x00, 0xFF, 0x2F, 0x00]

/-- A track with a port meta-event (`FF 21 01 05`) before a note-on. -/
def track_port_meta : List Byte :=
  [0x00, 0xFF, 0x21, 0x01, 0x05, 0x00, 0x90, 0x3C, 0x40, 0x00, 0xFF, 0x2F, 0x00]

/-- The state `read_track` leaves after `track_port_meta`. -/
def track_port_meta_result : State :=
  { State.start with
    file_offset := 13
    all_events := [{ type := 6, port := 0, tick := 0, data := ⟨0, 60, 64, 0⟩, sysex := [] }] }

/-- The state in which the second track event of `file_two_tracks` is
dispatched: the stream is at the data bytes of `91 40 7F`. -/
def state_note_on_data : State :=
  { State.start with rest := [0x40, 0x7F, 0x00, 0xFF, 0x2F, 0x00], file_offset := 5 }

/-- A track whose key-signature meta-event declares three payload bytes
(`FF 59 03 02 00 7F`) before the end of track. -/
def track_key_signature : List Byte :=
  [0x00, 0xFF, 0x59, 0x03, 0x02, 0x00, 0x7F, 0x00, 0xFF, 0x2F, 0x00]

/-- The stream of `track_key_signature` when its meta-event is dispatched,
after the delta-time and the status byte `FF`. -/
def state_key_signature : State :=
  { State.start with
    rest := [0x59, 0x03, 0x02, 0x00, 0x7F, 0x00, 0xFF, 0x2F, 0x00], file_offset := 2 }

/-- The state `read_track` leaves after `track_key_signature`. -/
def track_key_signature_result : State :=
  { State.start with rest := [0x00, 0xFF, 0x2F, 0x00], file_offset := 7, sf := 2 }

/-- A track with two SysEx messages, `F0 02 7E F7` and `F0 02 7D F7`. -/
def track_two_sysex : List Byte :=
  [0x00, 0xF0, 0x02, 0x7E, 0xF7, 0x00, 0xF0, 0x02, 0x7D, 0xF7, 0x00, 0xFF, 0x2F, 0x00]

/-- The state `read_track` leaves after `track_two_sysex`. -/
def track_two_sysex_result : State :=
  { State.start with
    file_offset := 14
    all_events :=
      [{ type := 130, port := 0, tick := 0, data := ⟨3, 0, 0, 0⟩, sysex := [0xF0, 0x7E, 0xF7] },
       { type := 130, port := 0, tick := 0, data := ⟨3, 0, 0, 0⟩,
         sysex := [0xF0, 0x7E, 0xF7, 0xF0, 0x7D, 0xF7] }] }

/-- A format-1 file with two tracks: a note-on and a note-off, then a track
whose first event has the invalid status byte `F1`. -/
def file_bad_second_track : List Byte :=
  ascii "MThd" ++ [0, 0, 0, 6, 0, 1, 0, 2, 0, 96]
    ++ ascii "MTrk" ++ [0, 0, 0, 12]
    ++ [0x00, 0x90, 0x3C, 0x40, 0x60, 0x80, 0x3C, 0x40, 0x00, 0xFF, 0x2F, 0x00]
    ++ ascii "MTrk" ++ [0, 0, 0, 4] ++ [0x00, 0xF1, 0x00, 0x00]

/-- The state `parseFile` leaves after `file_bad_second_track`. -/
def file_bad_second_track_result : State :=
  { rest := [0x00, 0x00], eof := false, file_offset := 44, smpte_timing := 0, prev_tick := 0,
    BPM := 120, PPQ := 96, song_length_seconds := 0, sf := 0, minor_key := false,
    queue_tempo := (500000, 96),
    residues := [],
    all_events :=
      [{ type := 6, port := 0, tick := 0, data := ⟨0, 60, 64, 0⟩, sysex := [] },
       { type := 7, port := 0, tick := 96, data := ⟨0, 60, 64, 0⟩, sysex := [] }] }

/-- Bookkeeping along the loop of `read_track`: every event the loop pushes,
in the order of the pushes, paired with the sum of the delta-times decoded by
`read_var` at the start of the iterations up to and including the one that
pushed it. The sum is an unbounded integer that starts at `sum`. -/
def read_track_sums (track_end : Int) : Nat → Int → Locals → State → List (Int × event)
  | 0, _, _, _ => []
  | fuel + 1, sum, L, s =>
    if s.file_offset < track_end then
      if (read_var s).1 < 0 then []
      else
        ((read_track_body track_end L s).state.all_events.drop s.all_events.length).map
            (fun e => (sum + (read_var s).1, e))
          ++ (match read_track_body track_end L s with
              | .next L1 s1 => read_track_sums track_end fuel (sum + (read_var s).1) L1 s1
              | .exit _ _ => [])
    else []

/-- The events of one call of `read_track` with the sums of the delta-times,
counted from 0 as the local `tick` is. -/
def read_track_tick_sums (track_end : Int) (s : State) : List (Int × event) :=
  read_track_sums track_end (track_end - s.file_offset).toNat 0 ⟨0, 0, 0, s.Event0⟩ s

/-- A track of 17 note-ons (the last 16 in running status), each after the
largest delta-time `FF FF FF 7F`. -/
def track_tick_overflow : List Byte :=
  [0xFF, 0xFF, 0xFF, 0x7F, 0x90, 0x3C, 0x40]
    ++ (List.replicate 16 [0xFF, 0xFF, 0xFF, 0x7F, 0x3C, 0x40]).flatten
    ++ [0x00, 0xFF, 0x2F, 0x00]

/-- The state `read_track` leaves after `track_tick_overflow`. -/
def track_tick_overflow_result : State :=
  { State.start with
    file_offset := 107
    all_events := (List.range 17).map (fun i =>
      { type := 6, port := 0, tick := 268435455 * (i + 1) % 4294967296,
        data := ⟨0, 60, 64, 0⟩, sysex := [] }) }
/-- The state `read_track` leaves after `track_running_status`. -/
def track_running_status_result : State :=
  { State.start with
    file_offset := 11
    all_events :=
      [{ type := 6, port := 0, tick := 0, data := ⟨0, 60, 64, 0⟩, sysex := [] },
       { type := 6, port := 0, tick := 5, data := ⟨0, 60, 65, 0⟩, sysex := [] }] }

/-- While the end-of-file indicator is clear, the offset counter plus the
number of bytes left is the offset `E` of the end of the input. -/
def ends_at (E : Int) (s : State) : Prop :=
  s.eof = false → s.file_offset + (s.rest.length : Int) = E

/-- The state after the four fields a meta-event starts with when the
iteration of `read_track` begins in `s`: the delta-time, the status byte, the
meta type and the length. -/
def after_meta_length (s : State) : State :=
  (read_var (read_byte (read_byte (read_var s).2).2).2).2

/-- A stream on which a track chunk declared 7 bytes long ends inside its
end-of-track event: `00 FF 2F` are the last bytes of the chunk and the length
byte is taken from the `M` of the next chunk header. -/
def stream_eot_past_end : List Byte :=
  [0x00, 0x90, 0x3C, 0x40, 0x00, 0xFF, 0x2F, 0x4D, 0x54, 0x72, 0x6B]

/-- The state `read_track` leaves on `stream_eot_past_end` with track end 7. -/
def stream_eot_past_end_result : State :=
  { State.start with
    rest := [0x54, 0x72, 0x6B]
    file_offset := 8
    all_events := [{ type := 6, port := 0, tick := 0, data := ⟨0, 60, 64, 0⟩, sysex := [] }] }

/-- A format-1 file with one track declared 20 bytes long of which only 12
are present; they end with the end-of-track event. -/
def file_truncated_last_track : List Byte :=
  ascii "MThd" ++ [0, 0, 0, 6, 0, 1, 0, 1, 0, 96] ++ ascii "MTrk" ++ [0, 0, 0, 20]
    ++ [0x00, 0x90, 0x3C, 0x40, 0x60, 0x80, 0x3C, 0x40, 0x00, 0xFF, 0x2F, 0x00]

/-- The state `parseFile` leaves after `file_truncated_last_track`. -/
def file_truncated_last_track_result : State :=
  { rest := [], eof := true, file_offset := 42, smpte_timing := 0, prev_tick := 0,
    BPM := 120, PPQ := 96, song_length_seconds := 1 / 2, sf := 0, minor_key := false,
    queue_tempo := (500000, 96),
    residues := [],
    all_events :=
      [{ type := 6, port := 0, tick := 0, data := ⟨0, 60, 64, 0⟩, sysex := [] },
       { type := 7, port := 0, tick := 96, data := ⟨0, 60, 64, 0⟩, sysex := [] }] }

/-- The stream of `file_truncated_last_track` after the header chunk. -/
def state_truncated_tracks : State :=
  { State.start with
    rest := ascii "MTrk" ++ [0, 0, 0, 20]
      ++ [0x00, 0x90, 0x3C, 0x40, 0x60, 0x80, 0x3C, 0x40, 0x00, 0xFF, 0x2F, 0x00]
    file_offset := 14 }

/-- The state of `state_truncated_tracks` after the chunk header `MTrk 00000014`. -/
def state_truncated_track : State :=
  { State.start with
    rest := [0x00, 0x90, 0x3C, 0x40, 0x60, 0x80, 0x3C, 0x40, 0x00, 0xFF, 0x2F, 0x00]
    file_offset := 22 }

/-- The state `read_smf_tracks` leaves from `state_truncated_tracks`. -/
def state_truncated_tracks_result : State :=
  { State.start with
    eof := true
    file_offset := 42
    all_events :=
      [{ type := 6, port := 0, tick := 0, data := ⟨0, 60, 64, 0⟩, sysex := [] },
       { type := 7, port := 0, tick := 96, data := ⟨0, 60, 64, 0⟩, sysex := [] }] }

/-- The state with the variables other than the stream replaced by `g` of
their values; the stream and its offset stay. -/
def State.mapVars (g : Vars → Vars) (s : State) : State :=
  { rest := s.rest, eof := s.eof, file_offset := s.file_offset,
    smpte_timing := (g s.vars).1, prev_tick := (g s.vars).2.1, BPM := (g s.vars).2.2.1,
    PPQ := (g s.vars).2.2.2.1, song_length_seconds := (g s.vars).2.2.2.2.1,
    sf := (g s.vars).2.2.2.2.2.1, minor_key := (g s.vars).2.2.2.2.2.2.1,
    queue_tempo := (g s.vars).2.2.2.2.2.2.2.1, all_events := (g s.vars).2.2.2.2.2.2.2.2,
    residues := s.residues }

/-- The variables with the key signature replaced by `k`. -/
def keyVars (k : Int × Bool) (v : Vars) : Vars :=
  (v.1, v.2.1, v.2.2.1, v.2.2.2.1, v.2.2.2.2.1, k.1, k.2, v.2.2.2.2.2.2.2.1, v.2.2.2.2.2.2.2.2)

/-- The state with `sf` and `minor_key` replaced by `k`. -/
def State.setKey (k : Int × Bool) (s : State) : State := s.mapVars (keyVars k)

/-- The step with the key signature of its state replaced. -/
def Step.setKey (k : Int × Bool) : Step → Step
  | .next L s => .next L (s.setKey k)
  | .exit rc s => .exit rc (s.setKey k)

/-- The outcome with the key signature of its state replaced. -/
def Run.setKey {α : Type} (k : Int × Bool) : Run (α × State) → Run (α × State)
  | .ret (a, s) => .ret (a, s.setKey k)
  | .undef => .undef
  | .nofuel => .nofuel

/-- The outcome with the variables of its state replaced through `g`. -/
def Run.mapVars {α : Type} (g : Vars → Vars) : Run (α × State) → Run (α × State)
  | .ret (a, s) => .ret (a, s.mapVars g)
  | .undef => .undef
  | .nofuel => .nofuel

/-- What the caller keeps of a parse: nothing when it returns 0 (the caller
shows a message and returns), otherwise the return code and the state. -/
def Run.success : Run (Int × State) → Run (Option (Int × State))
  | .ret (rc, s) => if rc = 0 then .ret none else .ret (some (rc, s))
  | .undef => .undef
  | .nofuel => .nofuel

/-- The timeline of a parse without its key signature: on success the events,
`PPQ`, the SMPTE flag and the song length. -/
def Run.timeline : Run (Int × State) → Run (Option (List event × ℚ × Int × ℚ))
  | .ret (rc, s) =>
    if rc = 0 then .ret none
    else .ret (some (s.all_events, s.PPQ, s.smpte_timing, s.song_length_seconds))
  | .undef => .undef
  | .nofuel => .nofuel

/-- A format-1 file, ppq 96, whose track holds the key signature
`FF 59 02 02 01` (two sharps, minor) and a note-on. -/
def file_key_signature : List Byte :=
  ascii "MThd" ++ [0, 0, 0, 6, 0, 1, 0, 1, 0, 96] ++ ascii "MTrk" ++ [0, 0, 0, 14]
    ++ [0x00, 0xFF, 0x59, 0x02, 0x02, 0x01, 0x00, 0x90, 0x3C, 0x40, 0x00, 0xFF, 0x2F, 0x00]

/-- The state `parseFile` leaves after `file_key_signature`. -/
def file_key_signature_result : State :=
  { rest := [], eof := false, file_offset := 36, smpte_timing := 0, prev_tick := 0,
    BPM := 120, PPQ := 96, song_length_seconds := 0, sf := 2, minor_key := true,
    queue_tempo := (500000, 96),
    residues := [],
    all_events := [{ type := 6, port := 0, tick := 0, data := ⟨0, 60, 64, 0⟩, sysex := [] }] }

/-- The iterations of the loop of `read_track` in the order they run: the
locals and the state each one starts with. -/
def read_track_iterations (track_end : Int) : Nat → Locals → State → List (Locals × State)
  | 0, _, _ => []
  | fuel + 1, L, s =>
    if s.file_offset < track_end then
      (L, s) :: (match read_track_body track_end L s with
                 | .next L1 s1 => read_track_iterations track_end fuel L1 s1
                 | .exit _ _ => [])
    else []

/-- The iterations of one call of `read_track`. -/
def read_track_iters (track_end : Int) (s : State) : List (Locals × State) :=
  read_track_iterations track_end (track_end - s.file_offset).toNat ⟨0, 0, 0, s.Event0⟩ s

/-- The delta-time the iteration that starts in `t` decodes (line 239). -/
def delta_time (t : State) : Int := (read_var t).1

/-- The byte the iteration that starts in `t` reads where a status byte is
expected (line 243), `-1` at the end of the input. -/
def status_byte (t : State) : Int := (read_byte (read_var t).2).1

/-- The byte after the status byte, the type of a meta-event (line 348). -/
def meta_type (t : State) : Int := (read_byte (read_byte (read_var t).2).2).1

/-- The length a meta-event declares (line 349), `-1` when it does not decode. -/
def meta_length (t : State) : Int :=
  (read_var (read_byte (read_byte (read_var t).2).2).2).1

/-- The running status after an iteration that read `c` where a status byte
is expected: `c` when it is a channel-voice status byte, else what it was. -/
def next_last_cmd (last_cmd : Nat) (c : Int) : Nat :=
  if 0x80 ≤ c ∧ c ≤ 0xEF then c.toNat else last_cmd

/-- A track whose tempo meta-event declares two bytes, `FF 51 02 07 A1`,
before the end of track. -/
def track_short_tempo : List Byte :=
  [0x00, 0xFF, 0x51, 0x02, 0x07, 0xA1, 0x00, 0xFF, 0x2F, 0x00]

/-- The state in which `read_track` starts on `track_short_tempo` under SMPTE
timing. -/
def state_short_tempo_smpte : State :=
  { State.start with rest := track_short_tempo, smpte_timing := 1 }

/-- A track with a note-on followed by the status byte `F4`. -/
def track_invalid_status : List Byte :=
  [0x00, 0x90, 0x3C, 0x40, 0x00, 0xF4, 0x00, 0x00, 0xFF, 0x2F, 0x00]

/-- The locals and the state of the second iteration of `read_track` on
`track_invalid_status`. -/
def iteration_invalid_status : Locals × State :=
  (⟨0, 0x90, 0, { type := 6, port := 0, tick := 0, data := ⟨0, 60, 64, 0⟩, sysex := [] }⟩,
    { State.start with
      rest := [0x00, 0xF4, 0x00, 0x00, 0xFF, 0x2F, 0x00]
      file_offset := 4
      all_events := [{ type := 6, port := 0, tick := 0, data := ⟨0, 60, 64, 0⟩, sysex := [] }] })

/-- A track that starts with a text meta-event and goes on with the bare data
bytes `3C 40`: no channel status precedes them. -/
def track_no_running_status : List Byte :=
  [0x00, 0xFF, 0x01, 0x01, 0x41, 0x00, 0x3C, 0x40, 0x00, 0xFF, 0x2F, 0x00]

/-- The locals and the state of the second iteration of `read_track` on
`track_no_running_status`. -/
def iteration_no_running_status : Locals × State :=
  (⟨0, 0, 0, Event_init⟩,
    { State.start with rest := [0x00, 0x3C, 0x40, 0x00, 0xFF, 0x2F, 0x00], file_offset := 5 })

/-- The stream of `track_two_sysex` after the delta-time and the status byte
of its first event. -/
def state_sysex_payload : State :=
  { State.start with rest := [0x02, 0x7E, 0xF7, 0x00, 0xF0, 0x02, 0x7D, 0xF7, 0x00, 0xFF, 0x2F, 0x00],
                     file_offset := 2 }

/-- The locals and the state after the first SysEx event of `track_two_sysex`. -/
def step_sysex_payload : Locals × State :=
  (⟨0, 0, 0, { type := 130, port := 0, tick := 0, data := ⟨3, 0, 0, 0⟩,
               sysex := [0xF0, 0x7E, 0xF7] }⟩,
    { State.start with
      rest := [0x00, 0xF0, 0x02, 0x7D, 0xF7, 0x00, 0xFF, 0x2F, 0x00]
      file_offset := 5
      all_events := [{ type := 130, port := 0, tick := 0, data := ⟨3, 0, 0, 0⟩,
                       sysex := [0xF0, 0x7E, 0xF7] }] })

/-- A track with a note-on, a text meta-event, the bare data bytes `3E 40`,
and the end of track. -/
def track_status_after_meta : List Byte :=
  [0x00, 0x90, 0x3C, 0x40, 0x00, 0xFF, 0x01, 0x01, 0x41, 0x00, 0x3E, 0x40,
   0x00, 0xFF, 0x2F, 0x00]

/-- The first two iterations of `read_track` on `track_status_after_meta`:
the note-on and the text meta-event. -/
def iterations_before_data_byte : List (Locals × State) :=
  [(⟨0, 0, 0, Event_init⟩, { State.start with rest := track_status_after_meta }),
   (⟨0, 0x90, 0, { type := 6, port := 0, tick := 0, data := ⟨0, 60, 64, 0⟩, sysex := [] }⟩,
    { State.start with
      rest := [0x00, 0xFF, 0x01, 0x01, 0x41, 0x00, 0x3E, 0x40, 0x00, 0xFF, 0x2F, 0x00]
      file_offset := 4
      all_events := [{ type := 6, port := 0, tick := 0, data := ⟨0, 60, 64, 0⟩, sysex := [] }] })]

/-- The third iteration on `track_status_after_meta`, which reads the data
byte `3E` at the status position. -/
def iteration_data_byte : Locals × State :=
  (⟨0, 0x90, 0, { type := 6, port := 0, tick := 0, data := ⟨0, 60, 64, 0⟩, sysex := [] }⟩,
    { State.start with
      rest := [0x00, 0x3E, 0x40, 0x00, 0xFF, 0x2F, 0x00]
      file_offset := 9
      all_events := [{ type := 6, port := 0, tick := 0, data := ⟨0, 60, 64, 0⟩, sysex := [] }] })

/-- The fourth iteration on `track_status_after_meta`, the end of track. -/
def iteration_after_data_byte : Locals × State :=
  (⟨0, 0x90, 0, { type := 6, port := 0, tick := 0, data := ⟨0, 62, 64, 0⟩, sysex := [] }⟩,
    { State.start with
      rest := [0x00, 0xFF, 0x2F, 0x00]
      file_offset := 12
      all_events := [{ type := 6, port := 0, tick := 0, data := ⟨0, 60, 64, 0⟩, sysex := [] },
                     { type := 6, port := 0, tick := 0, data := ⟨0, 62, 64, 0⟩, sysex := [] }] })

/-- A header declared 6 bytes long, format 1, ppq 96, whose track-count field
holds the bytes `n0 n1`; no chunk follows. -/
def state_header_count (n0 n1 : Byte) : State :=
  { State.start with rest := [0, 0, 0, 6, 0, 1, n0, n1, 0, 96] }

/-- The bytes of `file_one_note` after the length field of its header. -/
def one_note_after_header_len : List Byte :=
  [0, 1, 0, 1, 0, 96] ++ ascii "MTrk" ++ [0, 0, 0, 12]
    ++ [0x00, 0x90, 0x3C, 0x40, 0x60, 0x80, 0x3C, 0x40, 0x00, 0xFF, 0x2F, 0x00]

/-- The states in which the rounds of the chunk search of lines 194-208 start,
for a search bounded by `fuel` skipped chunks. -/
def read_smf_search_rounds : Nat → State → List State
  | fuel, s =>
    s :: (match read_smf_search_body s with
          | .inl _ => []
          | .inr s1 =>
            match fuel with
            | 0 => []
            | fuel + 1 => read_smf_search_rounds fuel s1)

/-- The stream after a header: a chunk "XXXX" of one byte, then a chunk "MTrk"
whose length field is 0x80000000. -/
def state_negative_chunk_length : State :=
  { State.start with
    rest := ascii "XXXX" ++ [0, 0, 0, 1, 9] ++ ascii "MTrk" ++ [0x80, 0, 0, 0]
    file_offset := 14 }

/-- The second round of the chunk search on `state_negative_chunk_length`. -/
def round_negative_chunk_length : State :=
  { State.start with rest := ascii "MTrk" ++ [0x80, 0, 0, 0], file_offset := 23 }

/-- The state with the bytes `X` added at the end of the stream. -/
def State.append (X : List Byte) (s : State) : State := { s with rest := s.rest ++ X }

/-- The track chunk of `file_one_note`. -/
def one_note_track_chunk : List Byte :=
  ascii "MTrk" ++ [0, 0, 0, 12]
    ++ [0x00, 0x90, 0x3C, 0x40, 0x60, 0x80, 0x3C, 0x40, 0x00, 0xFF, 0x2F, 0x00]

/-! ## Bookkeeping for the statements about whole parses -/

/-- The events one call of `read_track` pushes, in the order of the pushes. -/
def read_track_pushed (track_end : Int) (s : State) : List event :=
  (read_track_tick_sums track_end s).map Prod.snd

/-- The calls of `read_track` that the track loop of `read_smf` makes with `n`
tracks left, in the order it makes them: the argument `track_end` and the
state at the call. The last call of the list is the one that failed when the
loop returns 0 from `read_track`. -/
def read_smf_tracks_calls : Nat → State → List (Int × State)
  | 0, _ => []
  | n + 1, s =>
    match read_smf_search s.rest.length s with
    | .ret (none, _) => []
    | .ret (some len, s) =>
      (s.file_offset + len, s) ::
        (match read_track (s.file_offset + len) s with
         | .ret (rc, s1) => if rc = 0 then [] else read_smf_tracks_calls n s1.next_call
         | .undef => []
         | .nofuel => [])
    | .undef => []
    | .nofuel => []

/-- The calls of `read_track` made by `read_smf`. -/
def read_smf_calls (err : Int) (s : State) : List (Int × State) :=
  match read_smf_header err s with
  | (none, _) => []
  | (some num_tracks, s) => read_smf_tracks_calls num_tracks s

/-- The calls of `read_track` made by `read_riff`. -/
def read_riff_calls (err : Int) (s : State) : List (Int × State) :=
  let (_, s) := read_byte s
  let (_, s) := read_byte s
  let (_, s) := read_byte s
  let (_, s) := read_byte s
  let (id, s) := read_id s
  if id ≠ MAKE_ID 'R' 'M' 'I' 'D' then []
  else
    match read_riff_search s.rest.length s with
    | .ret (false, _) => []
    | .ret (true, s) =>
      let (id, s) := read_id s
      if id ≠ MAKE_ID 'M' 'T' 'h' 'd' then []
      else read_smf_calls err s
    | .undef => []
    | .nofuel => []

/-- The calls of `read_track` made by `parseFile`: one per track chunk it
reads, in file order. -/
def parseFile_calls (err : Int) (content : List Byte) (s : State) : List (Int × State) :=
  let s := { s with rest := content, eof := false, file_offset := 0 }
  let (id, s) := read_id s
  if id = MAKE_ID 'M' 'T' 'h' 'd' then read_smf_calls err s
  else if id = MAKE_ID 'R' 'I' 'F' 'F' then read_riff_calls err s
  else []

/-- The events `parseFile` pushes on `all_events`, in the order of the pushes:
those of its calls of `read_track`, call after call. -/
def parseFile_pushed (err : Int) (content : List Byte) (s : State) : List event :=
  ((parseFile_calls err content s).map (fun c => read_track_pushed c.1 c.2)).flatten

/-- The event with zero in the bytes of `data` that `read_track` leaves as they
were when it pushes an event of this type: `d[2]` and the fourth byte of the
union for a program change or a channel pressure (lines 300-307), the fourth
byte for the other channel messages (lines 286-298). -/
def event.written (e : event) : event :=
  if e.type = SND_SEQ_EVENT_PGMCHANGE ∨ e.type = SND_SEQ_EVENT_CHANPRESS then
    { e with data := { e.data with b2 := 0, b3 := 0 } }
  else if e.type = SND_SEQ_EVENT_NOTEOFF ∨ e.type = SND_SEQ_EVENT_NOTEON
      ∨ e.type = SND_SEQ_EVENT_KEYPRESS ∨ e.type = SND_SEQ_EVENT_CONTROLLER
      ∨ e.type = SND_SEQ_EVENT_PITCHBEND then
    { e with data := { e.data with b3 := 0 } }
  else e

/-- The state without what the uninitialised `Event` brings in: the events
reduced to the bytes that were assigned, no indeterminate values to come. -/
def State.written (s : State) : State :=
  { s with all_events := s.all_events.map event.written, residues := [] }

/-- The locals with the scalar fields of `Event` set to zero; its `sysex`
vector stays. -/
def Locals.written (L : Locals) : Locals :=
  ⟨L.tick, L.last_cmd, L.port, { Event_init with sysex := L.Event.sysex }⟩

/-- The step reduced by `State.written` and `Locals.written`. -/
def Step.written : Step → Step
  | .next L s => .next L.written s.written
  | .exit rc s => .exit rc s.written

/-- The outcome with its state reduced by `State.written`. -/
def Run.written {α : Type} : Run (α × State) → Run (α × State)
  | .ret (a, s) => .ret (a, s.written)
  | .undef => .undef
  | .nofuel => .nofuel

/-- The key signature held by the state: `sf` and `minor_key`. -/
def State.key (s : State) : Int × Bool := (s.sf, s.minor_key)

/-- An iteration of `read_track` that starts in `t` is a key-signature event:
it decodes a delta-time, reads the status byte FF and the type 59 and decodes
a length of at least 2, so that it reaches the assignments to `sf` and
`minor_key` (lines 379-381). -/
def key_signature_at (t : State) : Bool :=
  decide (0 ≤ delta_time t ∧ status_byte t = 0xff ∧ meta_type t = 0x59 ∧ 2 ≤ meta_length t)

/-- A stack residue for the local `Event`: the bytes a note-on 3C/7F of
channel 1 leaves. -/
def residue_note_on : event :=
  { type := 6, port := 3, tick := 77, data := ⟨1, 60, 127, 9⟩, sysex := [0xF0] }

/-! # Theorems -/

/-! ## Machine-integer lemmas -/

theorem toU32_eq (x : Int) : (toU32 x : Int) = x % 4294967296 := by
  cases x with
  | ofNat n => simp only [toU32, Int.ofNat_eq_coe]; omega
  | negSucc n => simp only [toU32, Int.negSucc_eq]; omega

theorem toU32_lt (x : Int) : toU32 x < 4294967296 := by
  have := toU32_eq x
  omega

theorem ofU32_ofNat (n : Nat) (h : n < 2147483648) : ofU32 n = (n : Int) := by
  simp [ofU32, h]

theorem wrap32_eq (x : Int) : wrap32 x = (x + 2147483648) % 4294967296 - 2147483648 := by
  have h1 := toU32_eq x
  have h2 := toU32_lt x
  unfold wrap32 ofU32
  split
  · simp only [Int.ofNat_eq_coe]; omega
  · simp only [Int.negSucc_eq]; omega

theorem wrap32_ofNat (n : Nat) (h : n < 2147483648) : wrap32 (n : Int) = (n : Int) := by
  rw [wrap32_eq]; omega

theorem wrap32_range (x : Int) : -2147483648 ≤ wrap32 x ∧ wrap32 x < 2147483648 := by
  rw [wrap32_eq]; omega

theorem toU32_ofNat (n : Nat) (h : n < 4294967296) : toU32 (n : Int) = n := by
  have := toU32_eq (n : Int)
  omega

theorem band_ofNat (a b : Nat) (ha : a < 2147483648) (hb : b < 4294967296) :
    band (a : Int) (b : Int) = ((a &&& b : Nat) : Int) := by
  unfold band
  rw [toU32_ofNat a (by omega), toU32_ofNat b hb]
  exact ofU32_ofNat _ (lt_of_le_of_lt Nat.and_le_left ha)

theorem bor_ofNat (a b : Nat) (ha : a < 2147483648) (hb : b < 2147483648) :
    bor (a : Int) (b : Int) = ((a ||| b : Nat) : Int) := by
  unfold bor
  rw [toU32_ofNat a (by omega), toU32_ofNat b (by omega)]
  exact ofU32_ofNat _ (Nat.or_lt_two_pow (n := 31) ha hb)

theorem shl_ofNat (a k : Nat) (h : a * 2 ^ k < 2147483648) :
    shl (a : Int) k = ((a * 2 ^ k : Nat) : Int) := by
  unfold shl
  have := wrap32_ofNat (a * 2 ^ k) h
  push_cast at this ⊢
  exact this

/-- Appending a 7-bit group: `(x << 7) | y`. -/
theorem bor_shl7 (x y : Nat) (hx : x < 16777216) (hy : y < 128) :
    bor (shl (x : Int) 7) (y : Int) = ((x * 128 + y : Nat) : Int) := by
  rw [shl_ofNat x 7 (by omega), bor_ofNat _ _ (by omega) (by omega)]
  have h := Nat.mul_add_lt_is_or (i := 7) (b := y) (by omega) x
  rw [Nat.mul_comm x (2 ^ 7), ← h]
  push_cast
  ring

set_option maxRecDepth 100000 in
theorem band_0x80_byte : ∀ c : Byte, (band (c.val : Int) 0x80 ≠ 0) = (128 ≤ c.val) := by
  decide

set_option maxRecDepth 100000 in
theorem band_0x7f_byte : ∀ c : Byte, band (c.val : Int) 0x7f = ((c.val % 128 : Nat) : Int) := by
  decide

/-! ## `read_var` -/

theorem read_byte_cons (s : State) (b : Byte) (r : List Byte) (h : s.rest = b :: r) :
    read_byte s = ((b.val : Int), { s with file_offset := s.file_offset + 1, rest := r }) := by
  simp [read_byte, h]

theorem read_byte_nil (s : State) (h : s.rest = []) :
    read_byte s = (-1, { s with file_offset := s.file_offset + 1, eof := true }) := by
  simp [read_byte, h]

/-- One-byte quantity. -/
theorem read_var_one (s : State) (b1 : Byte) (r : List Byte) (he : s.eof = false)
    (h : s.rest = b1 :: r) (h1 : b1.val < 128) :
    read_var s = ((b1.val : Int), { s with file_offset := s.file_offset + 1, rest := r }) := by
  obtain ⟨rest, eof, off, a1, a2, a3, a4, a5, a6, a7, a8, a9⟩ := s
  simp only at he h
  subst he h
  have e1 : ¬ (128 ≤ b1.val) := by omega
  simp [read_var, read_byte, band_0x80_byte, band_0x7f_byte, e1]
  omega

/-- Two-byte quantity. -/
theorem read_var_two (s : State) (b1 b2 : Byte) (r : List Byte) (he : s.eof = false)
    (h : s.rest = b1 :: b2 :: r) (h1 : 128 ≤ b1.val) (h2 : b2.val < 128) :
    read_var s = (((b1.val % 128 * 128 + b2.val : Nat) : Int),
      { s with file_offset := s.file_offset + 2, rest := r }) := by
  obtain ⟨rest, eof, off, a1, a2, a3, a4, a5, a6, a7, a8, a9⟩ := s
  simp only at he h
  subst he h
  have e2 : ¬ (128 ≤ b2.val) := by omega
  simp only [read_var, read_byte, band_0x80_byte, band_0x7f_byte, h1, e2, if_true, if_false]
  rw [bor_shl7 _ _ (by omega) (by omega)]
  simp
  omega

/-- Three-byte quantity. -/
theorem read_var_three (s : State) (b1 b2 b3 : Byte) (r : List Byte) (he : s.eof = false)
    (h : s.rest = b1 :: b2 :: b3 :: r) (h1 : 128 ≤ b1.val) (h2 : 128 ≤ b2.val)
    (h3 : b3.val < 128) :
    read_var s = ((((b1.val % 128 * 128 + b2.val % 128) * 128 + b3.val : Nat) : Int),
      { s with file_offset := s.file_offset + 3, rest := r }) := by
  obtain ⟨rest, eof, off, a1, a2, a3, a4, a5, a6, a7, a8, a9⟩ := s
  simp only at he h
  subst he h
  have e3 : ¬ (128 ≤ b3.val) := by omega
  simp only [read_var, read_byte, band_0x80_byte, band_0x7f_byte, h1, h2, e3, if_true, if_false]
  rw [bor_shl7 _ _ (by omega) (by omega), bor_shl7 _ _ (by omega) (by omega)]
  simp
  omega

/-- Four-byte quantity. -/
theorem read_var_four (s : State) (b1 b2 b3 b4 : Byte) (r : List Byte) (he : s.eof = false)
    (h : s.rest = b1 :: b2 :: b3 :: b4 :: r) (h1 : 128 ≤ b1.val) (h2 : 128 ≤ b2.val)
    (h3 : 128 ≤ b3.val) (h4 : b4.val < 128) :
    read_var s =
      (((((b1.val % 128 * 128 + b2.val % 128) * 128 + b3.val % 128) * 128 + b4.val : Nat) : Int),
      { s with file_offset := s.file_offset + 4, rest := r }) := by
  obtain ⟨rest, eof, off, a1, a2, a3, a4, a5, a6, a7, a8, a9⟩ := s
  simp only at he h
  subst he h
  have e4 : ¬ (128 ≤ b4.val) := by omega
  simp only [read_var, read_byte, band_0x80_byte, band_0x7f_byte, h1, h2, h3, e4, if_true,
    if_false]
  rw [bor_shl7 _ _ (by omega) (by omega), bor_shl7 _ _ (by omega) (by omega),
    bor_shl7 _ _ (by omega) (by omega)]
  simp
  omega

/-- Without a terminating byte among the first four, `read_var` returns -1. -/
theorem read_var_fail (s : State) (hwf : s.eof = true → s.rest = [])
    (h : vlq_terminated s.rest = false) : (read_var s).1 = -1 := by
  obtain ⟨rest, eof, off, a1, a2, a3, a4, a5, a6, a7, a8, a9⟩ := s
  simp only at hwf h
  have em : band (-1) 0x80 ≠ 0 := by decide
  rcases rest with _ | ⟨b1, _ | ⟨b2, _ | ⟨b3, _ | ⟨b4, r⟩⟩⟩⟩
  · simp [read_var, read_byte, em]
  · have h1 : 128 ≤ b1.val := by
      by_contra hc; simp [vlq_terminated, Nat.lt_of_not_le hc] at h
    simp [read_var, read_byte, em, band_0x80_byte, h1]
  · have h1 : 128 ≤ b1.val := by
      by_contra hc; simp [vlq_terminated, Nat.lt_of_not_le hc] at h
    have h2 : 128 ≤ b2.val := by
      by_contra hc; simp [vlq_terminated, Nat.lt_of_not_le hc] at h
    simp [read_var, read_byte, em, band_0x80_byte, h1, h2]
  · have h1 : 128 ≤ b1.val := by
      by_contra hc; simp [vlq_terminated, Nat.lt_of_not_le hc] at h
    have h2 : 128 ≤ b2.val := by
      by_contra hc; simp [vlq_terminated, Nat.lt_of_not_le hc] at h
    have h3 : 128 ≤ b3.val := by
      by_contra hc; simp [vlq_terminated, Nat.lt_of_not_le hc] at h
    simp [read_var, read_byte, em, band_0x80_byte, h1, h2, h3]
  · have h1 : 128 ≤ b1.val := by
      by_contra hc; simp [vlq_terminated, Nat.lt_of_not_le hc] at h
    have h2 : 128 ≤ b2.val := by
      by_contra hc; simp [vlq_terminated, Nat.lt_of_not_le hc] at h
    have h3 : 128 ≤ b3.val := by
      by_contra hc; simp [vlq_terminated, Nat.lt_of_not_le hc] at h
    have h4 : 128 ≤ b4.val := by
      by_contra hc; simp [vlq_terminated, Nat.lt_of_not_le hc] at h
    simp [read_var, read_byte, band_0x80_byte, h1, h2, h3, h4]

/-- With a terminating byte among the first four and the end-of-file
indicator clear, `read_var` returns a 28-bit value and consumes one to four
bytes. -/
theorem read_var_ok (s : State) (he : s.eof = false) (h : vlq_terminated s.rest = true) :
    ∃ v n : Nat, v < 268435456 ∧ 1 ≤ n ∧ n ≤ 4 ∧ n ≤ s.rest.length ∧
      read_var s = ((v : Int),
        { s with file_offset := s.file_offset + (n : Int), rest := s.rest.drop n }) := by
  rcases hr : s.rest with _ | ⟨b1, r1⟩
  · simp [hr, vlq_terminated] at h
  by_cases h1 : b1.val < 128
  · exact ⟨b1.val, 1, by omega, by omega, by omega, by simp,
      by simpa using read_var_one s b1 r1 he hr h1⟩
  rcases r1 with _ | ⟨b2, r2⟩
  · simp [hr, vlq_terminated, h1] at h
  by_cases h2 : b2.val < 128
  · exact ⟨b1.val % 128 * 128 + b2.val, 2, by omega, by omega, by omega, by simp,
      by simpa using read_var_two s b1 b2 r2 he hr (by omega) h2⟩
  rcases r2 with _ | ⟨b3, r3⟩
  · simp [hr, vlq_terminated, h1, h2] at h
  by_cases h3 : b3.val < 128
  · exact ⟨(b1.val % 128 * 128 + b2.val % 128) * 128 + b3.val, 3, by omega, by omega,
      by omega, by simp,
      by simpa using read_var_three s b1 b2 b3 r3 he hr (by omega) (by omega) h3⟩
  rcases r3 with _ | ⟨b4, r4⟩
  · simp [hr, vlq_terminated, h1, h2, h3] at h
  have h4 : b4.val < 128 := by simpa [hr, vlq_terminated, h1, h2, h3] using h
  exact ⟨((b1.val % 128 * 128 + b2.val % 128) * 128 + b3.val % 128) * 128 + b4.val, 4,
      by omega, by omega, by omega, by simp,
      by simpa using read_var_four s b1 b2 b3 b4 r4 he hr (by omega) (by omega) (by omega) h4⟩

/-- C3: for every value `v` in `[0, 0x0FFFFFFF]`, `read_var` applied to the
standard variable-length encoding of `v` (one to four bytes) returns `v` and
advances the offset by exactly the number of encoded bytes, leaving the
bytes after the encoding unread; the encoding of 128 is `0x81 0x00`. -/
theorem read_var_vlq_encode (v : Nat) (hv : v ≤ 0x0FFFFFFF) (s : State) (tail : List Byte)
    (he : s.eof = false) (h : s.rest = vlq_encode v ++ tail) :
    read_var s = ((v : Int),
        { s with file_offset := s.file_offset + ((vlq_encode v).length : Int), rest := tail })
      ∧ 1 ≤ (vlq_encode v).length ∧ (vlq_encode v).length ≤ 4
      ∧ vlq_encode 128 = [0x81, 0x00] := by
  refine ⟨?_, ?_, ?_, by decide⟩
  · unfold vlq_encode at h ⊢
    by_cases c1 : v < 0x80
    · rw [if_pos c1] at h ⊢
      have := read_var_one s _ tail he h (by simp [Fin.ofNat]; omega)
      rw [this]
      simp [Fin.ofNat]
      omega
    rw [if_neg c1] at h ⊢
    by_cases c2 : v < 0x4000
    · rw [if_pos c2] at h ⊢
      have := read_var_two s _ _ tail he h (by simp [Fin.ofNat]; omega)
        (by simp [Fin.ofNat]; omega)
      rw [this]
      simp [Fin.ofNat]
      omega
    rw [if_neg c2] at h ⊢
    by_cases c3 : v < 0x200000
    · rw [if_pos c3] at h ⊢
      have := read_var_three s _ _ _ tail he h (by simp [Fin.ofNat]; omega)
        (by simp [Fin.ofNat]; omega) (by simp [Fin.ofNat]; omega)
      rw [this]
      simp [Fin.ofNat]
      omega
    rw [if_neg c3] at h ⊢
    have := read_var_four s _ _ _ _ tail he h (by simp [Fin.ofNat]; omega)
      (by simp [Fin.ofNat]; omega) (by simp [Fin.ofNat]; omega) (by simp [Fin.ofNat]; omega)
    rw [this]
    simp [Fin.ofNat]
    omega
  · unfold vlq_encode; split_ifs <;> simp
  · unfold vlq_encode; split_ifs <;> simp

/-- The encoding of 128 followed by one more byte decodes to 128 with the
offset moved from 7 to 9. -/
theorem read_var_vlq_encode_witness :
    read_var { State.start with rest := [0x81, 0x00, 0x55], file_offset := 7 }
        = (128, { State.start with rest := [0x55], file_offset := 9 })
      ∧ vlq_encode 128 = [0x81, 0x00] := by
  have h := read_var_vlq_encode 128 (by decide)
    { State.start with rest := [0x81, 0x00, 0x55], file_offset := 7 } [0x55] rfl (by decide)
  refine ⟨?_, h.2.2.2⟩
  have h1 := h.1
  have e : vlq_encode 128 = [0x81, 0x00] := by decide
  rw [e] at h1
  simpa using h1

/-- C4: on a stream in which the end-of-file indicator is set only once the
bytes are used up, `read_var` returns -1 exactly when no byte with a clear
high bit stands among the first four bytes (four continuation bytes, or the
input ends first), and otherwise returns a value in `[0, 0x0FFFFFFF]`. -/
theorem read_var_fails_iff (s : State) (hwf : s.eof = true → s.rest = []) :
    (vlq_terminated s.rest = false → (read_var s).1 = -1)
      ∧ (vlq_terminated s.rest = true →
          0 ≤ (read_var s).1 ∧ (read_var s).1 ≤ 0x0FFFFFFF) := by
  refine ⟨read_var_fail s hwf, fun h => ?_⟩
  have he : s.eof = false := by
    cases hE : s.eof with
    | false => rfl
    | true => rw [hwf hE] at h; simp [vlq_terminated] at h
  obtain ⟨v, n, hv, -, -, -, hr⟩ := read_var_ok s he h
  rw [hr]
  simp only
  omega

/-- Four continuation bytes fail; the same stream cut after three bytes
fails; 0x81 0x00 succeeds. -/
theorem read_var_fails_iff_witness :
    (read_var { State.start with rest := [0x81, 0x82, 0x83, 0x84, 0x05] }).1 = -1
      ∧ (read_var { State.start with rest := [0x81, 0x82, 0x83] }).1 = -1
      ∧ (0 ≤ (read_var { State.start with rest := [0x81, 0x00] }).1
          ∧ (read_var { State.start with rest := [0x81, 0x00] }).1 ≤ 0x0FFFFFFF) :=
  ⟨(read_var_fails_iff { State.start with rest := [0x81, 0x82, 0x83, 0x84, 0x05] }
      (by decide)).1 (by decide),
   (read_var_fails_iff { State.start with rest := [0x81, 0x82, 0x83] } (by decide)).1
      (by decide),
   (read_var_fails_iff { State.start with rest := [0x81, 0x00] } (by decide)).2 (by decide)⟩

/-! ## The sort at the end of `read_smf` -/

/-- A successful `read_smf` went through the header, the track loop and the
final sort. -/
theorem read_smf_success (err : Int) (s s' : State) (rc : Int)
    (h : read_smf err s = .ret (rc, s')) (hrc : rc ≠ 0) :
    ∃ (n : Nat) (sh s1 : State) (rc1 : Int), read_smf_header err s = (some n, sh) ∧
      read_smf_tracks n sh = .ret (rc1, s1) ∧ rc1 ≠ 0 ∧ read_smf_finish s1 = .ret (rc, s') := by
  unfold read_smf at h
  rcases hh : read_smf_header err s with ⟨_ | n, sh⟩
  · rw [hh] at h
    simp only [Run.ret.injEq, Prod.mk.injEq] at h
    exact absurd h.1.symm hrc
  · rw [hh] at h
    simp only at h
    rcases ht : read_smf_tracks n sh with ⟨rc1, s1⟩ | _ | _
    · rw [ht] at h
      simp only at h
      by_cases h0 : rc1 = 0
      · rw [if_pos h0] at h
        simp only [Run.ret.injEq, Prod.mk.injEq] at h
        exact absurd h.1.symm hrc
      · rw [if_neg h0] at h
        exact ⟨n, sh, s1, rc1, rfl, ht, h0, h⟩
    · rw [ht] at h; simp at h
    · rw [ht] at h; simp at h

/-- The event list `read_smf_finish` leaves is the sorted one. -/
theorem read_smf_finish_events (s1 s' : State) (rc : Int)
    (h : read_smf_finish s1 = .ret (rc, s')) :
    s'.all_events = stable_sort tick_comp s1.all_events ∧ rc = 1 := by
  unfold read_smf_finish at h
  simp only at h
  split at h
  · simp at h
  · split at h
    · simp only [Run.ret.injEq, Prod.mk.injEq] at h
      obtain ⟨h1, h2⟩ := h
      subst h2
      exact ⟨rfl, h1.symm⟩
    · simp only [Run.ret.injEq, Prod.mk.injEq] at h
      obtain ⟨h1, h2⟩ := h
      subst h2
      exact ⟨rfl, h1.symm⟩

theorem stable_sort_sorted (l : List event) :
    (stable_sort tick_comp l).Pairwise (fun a b => a.tick ≤ b.tick) := by
  have h : (l.mergeSort (fun a b : event => !tick_comp b a)).Pairwise
      (fun a b => (!tick_comp b a) = true) :=
    List.sorted_mergeSort (by intro a b c; simp [tick_comp]; omega)
      (by intro a b; simp [tick_comp]; omega) l
  unfold stable_sort
  refine h.imp ?_
  intro a b hab
  simpa [tick_comp] using hab

/-! ## What the reading functions leave alone -/

theorem read_byte_vars (s : State) : (read_byte s).2.vars = s.vars := by
  unfold read_byte; split <;> rfl

theorem ungetc_vars (c : Int) (s : State) : (ungetc c s).vars = s.vars := rfl

theorem read_32_le_vars (s : State) : (read_32_le s).2.vars = s.vars := by
  simp only [read_32_le, read_byte_vars]

theorem read_id_vars (s : State) : (read_id s).2.vars = s.vars := read_32_le_vars s

theorem read_int_loop_vars (n : Nat) (v : Int) (s : State) :
    (read_int_loop n v s).2.vars = s.vars := by
  induction n generalizing v s with
  | zero =>
    unfold read_int_loop
    dsimp only
    split <;> exact read_byte_vars s
  | succ n ih =>
    unfold read_int_loop
    dsimp only
    split
    · exact read_byte_vars s
    · rw [ih]; exact read_byte_vars s

theorem read_int_vars (n : Nat) (s : State) : (read_int n s).2.vars = s.vars :=
  read_int_loop_vars _ _ s

theorem read_var_vars (s : State) : (read_var s).2.vars = s.vars := by
  unfold read_var
  dsimp only
  split_ifs <;> simp only [read_byte_vars]

theorem skip_loop_vars (n : Nat) (s : State) : (skip_loop n s).vars = s.vars := by
  induction n generalizing s with
  | zero => rfl
  | succ n ih => unfold skip_loop; rw [ih, read_byte_vars]

theorem skip_vars (n : Int) (s : State) : (skip n s).vars = s.vars := skip_loop_vars _ s

theorem sysex_loop_vars (n : Nat) (l : List Nat) (s : State) :
    (sysex_loop n l s).2.vars = s.vars := by
  induction n generalizing l s with
  | zero => rfl
  | succ n ih => unfold sysex_loop; dsimp only; rw [ih, read_byte_vars]

theorem vars_eq {s t : State} (h : t.vars = s.vars) :
    t.smpte_timing = s.smpte_timing ∧ t.prev_tick = s.prev_tick ∧ t.BPM = s.BPM ∧
      t.PPQ = s.PPQ ∧ t.song_length_seconds = s.song_length_seconds ∧ t.sf = s.sf ∧
      t.minor_key = s.minor_key ∧ t.queue_tempo = s.queue_tempo ∧
      t.all_events = s.all_events := by
  simpa [State.vars] using h

theorem Emits.of_vars {s t : State} (h : t.vars = s.vars) : Emits s t [] := by
  obtain ⟨h1, h2, h3, h4, h5, h6, h7, h8, h9⟩ := vars_eq h
  exact ⟨by simp [h9], h4, h1, h8, fun _ => ⟨h5, h2, h3⟩⟩

theorem Emits.trans {s t u : State} {l m : List event} (h1 : Emits s t l) (h2 : Emits t u m) :
    Emits s u (l ++ m) := by
  obtain ⟨a1, a2, a3, a4, a5⟩ := h1
  obtain ⟨b1, b2, b3, b4, b5⟩ := h2
  refine ⟨by rw [b1, a1, List.append_assoc], b2.trans a2, b3.trans a3, b4.trans a4, ?_⟩
  intro h
  have ha := a5 (h.imp id (fun h e he => h e (List.mem_append_left _ he)))
  have hb := b5 (by
    rcases h with h | h
    · left; rw [a3]; exact h
    · right; exact fun e he => h e (List.mem_append_right _ he))
  exact ⟨hb.1.trans ha.1, hb.2.1.trans ha.2.1, hb.2.2.trans ha.2.2⟩

/-! ## What one loop iteration of `read_track` changes -/

theorem Emits.push {s t : State} (h : t.vars = s.vars) (e : event) :
    Emits s { t with all_events := t.all_events ++ [e] } [e] := by
  obtain ⟨h1, h2, h3, h4, h5, h6, h7, h8, h9⟩ := vars_eq h
  exact ⟨by simp [h9], h4, h1, h8, fun _ => ⟨h5, h2, h3⟩⟩

theorem read_track_sysex_emits (tick : Int) (last_cmd port : Nat) (Event : event) (cmd : Nat)
    (s : State) : ∃ l, Emits s (read_track_sysex tick last_cmd port Event cmd s).state l := by
  unfold read_track_sysex
  dsimp only
  split
  · exact ⟨[], Emits.of_vars (read_var_vars s)⟩
  · refine ⟨_, Emits.push ?_ _⟩
    rw [sysex_loop_vars, read_var_vars]

theorem Emits.tempo {s t : State} (hv : t.vars = s.vars) (hs : s.smpte_timing = 0) (e : event)
    (he : e.type = SND_SEQ_EVENT_TEMPO) (n : Int) (x : ℚ) (p : Int) (b : ℚ) :
    Emits s { skip n { t with all_events := t.all_events ++ [e] } with
              song_length_seconds := x, prev_tick := p, BPM := b } [e] := by
  obtain ⟨h1, h2, h3, h4, h5, h6, h7, h8, h9⟩ := vars_eq hv
  obtain ⟨k1, k2, k3, k4, k5, k6, k7, k8, k9⟩ :=
    vars_eq (skip_vars n { t with all_events := t.all_events ++ [e] })
  refine ⟨?_, ?_, ?_, ?_, ?_⟩
  · exact k9.trans (by rw [h9])
  · exact k4.trans h4
  · exact k1.trans h1
  · exact k8.trans h8
  · intro hc
    rcases hc with hc | hc
    · exact absurd hs hc
    · exact absurd he (hc _ (List.mem_singleton.mpr rfl))

theorem read_track_meta_emits (track_end tick : Int) (last_cmd port : Nat) (Event : event)
    (s : State) : ∃ l, Emits s (read_track_meta track_end tick last_cmd port Event s).state l := by
  have hv : (read_var (read_byte s).2).2.vars = s.vars := by rw [read_var_vars, read_byte_vars]
  unfold read_track_meta
  dsimp only
  split
  · exact ⟨[], Emits.of_vars hv⟩
  split
  · split
    · exact ⟨[], Emits.of_vars hv⟩
    · exact ⟨[], Emits.of_vars (by rw [Step.state, skip_vars, hv])⟩
  split
  · exact ⟨[], Emits.of_vars (by rw [Step.state, skip_vars, hv])⟩
  split
  · split
    · exact ⟨[], Emits.of_vars hv⟩
    split
    · exact ⟨[], Emits.of_vars (by rw [Step.state, skip_vars, hv])⟩
    · rename_i hs
      have hs0 : s.smpte_timing = 0 := by
        have := (vars_eq hv).1
        rw [this] at hs
        simpa using hs
      have h3 : (read_byte (read_byte (read_byte (read_var (read_byte s).2).2).2).2).2.vars
          = s.vars := by
        simp only [read_byte_vars, hv]
      unfold read_track_tempo
      exact ⟨_, Emits.tempo h3 hs0 _ rfl _ _ _ _⟩
  split
  · split
    · exact ⟨[], Emits.of_vars hv⟩
    · refine ⟨[], ?_⟩
      have h2 : (read_byte (read_byte (read_var (read_byte s).2).2).2).2.vars = s.vars := by
        simp only [read_byte_vars, hv]
      obtain ⟨h1, h2, h3', h4, h5, h6, h7, h8, h9⟩ := vars_eq h2
      exact ⟨by simp [Step.state, h9], h4, h1, h8, fun _ => ⟨h5, h2, h3'⟩⟩
  · exact ⟨[], Emits.of_vars (by rw [Step.state, skip_vars, hv])⟩

theorem read_track_dispatch_emits (track_end tick : Int) (last_cmd port : Nat) (Event : event)
    (cmd : Nat) (s : State) :
    ∃ l, Emits s (read_track_dispatch track_end tick last_cmd port Event cmd s).state l := by
  unfold read_track_dispatch
  dsimp only
  split
  · exact ⟨_, Emits.push (by simp only [read_byte_vars]) _⟩
  split
  · exact ⟨_, Emits.push (by simp only [read_byte_vars]) _⟩
  split
  · split
    · exact read_track_sysex_emits _ _ _ _ _ _
    split
    · exact read_track_meta_emits _ _ _ _ _ _
    · exact ⟨[], Emits.of_vars rfl⟩
  · exact ⟨[], Emits.of_vars rfl⟩

theorem read_track_body_emits (track_end : Int) (L : Locals) (s : State) :
    ∃ l, Emits s (read_track_body track_end L s).state l := by
  unfold read_track_body
  dsimp only
  split
  · exact ⟨[], Emits.of_vars (read_var_vars s)⟩
  have hv : (read_byte (read_var s).2).2.vars = s.vars := by rw [read_byte_vars, read_var_vars]
  split
  · exact ⟨[], Emits.of_vars hv⟩
  split
  · obtain ⟨l, hl⟩ := read_track_dispatch_emits track_end (wrap32 (L.tick + (read_var s).1))
      (if (read_byte (read_var s).2).1.toNat < 0xf0 then (read_byte (read_var s).2).1.toNat
        else L.last_cmd) L.port L.Event (read_byte (read_var s).2).1.toNat
      (read_byte (read_var s).2).2
    exact ⟨_, (Emits.of_vars hv).trans hl⟩
  have hu : ({ ungetc (read_byte (read_var s).2).1 (read_byte (read_var s).2).2 with
      file_offset := (read_byte (read_var s).2).2.file_offset - 1 } : State).vars = s.vars := by
    rw [← hv]; rfl
  split
  · exact ⟨[], Emits.of_vars hu⟩
  · obtain ⟨l, hl⟩ := read_track_dispatch_emits track_end (wrap32 (L.tick + (read_var s).1))
      L.last_cmd L.port L.Event L.last_cmd
      { ungetc (read_byte (read_var s).2).1 (read_byte (read_var s).2).2 with
        file_offset := (read_byte (read_var s).2).2.file_offset - 1 }
    exact ⟨_, (Emits.of_vars hu).trans hl⟩

theorem read_track_loop_emits (track_end : Int) (fuel : Nat) (L : Locals) (s s' : State)
    (rc : Int) (h : read_track_loop track_end fuel L s = .ret (rc, s')) :
    ∃ l, Emits s s' l := by
  induction fuel generalizing L s with
  | zero =>
    unfold read_track_loop at h
    split at h
    · simp at h
    · simp only [Run.ret.injEq, Prod.mk.injEq] at h
      rw [← h.2]
      exact ⟨[], Emits.of_vars rfl⟩
  | succ n ih =>
    unfold read_track_loop at h
    split at h
    · obtain ⟨l, hl⟩ := read_track_body_emits track_end L s
      dsimp only at h
      split at h
      · rename_i L1 s1 hb
        rw [hb] at hl
        obtain ⟨m, hm⟩ := ih L1 s1 h
        exact ⟨_, hl.trans hm⟩
      · rename_i rc1 s1 hb
        rw [hb] at hl
        simp only [Run.ret.injEq, Prod.mk.injEq] at h
        rw [← h.2]
        exact ⟨_, hl⟩
    · simp only [Run.ret.injEq, Prod.mk.injEq] at h
      rw [← h.2]
      exact ⟨[], Emits.of_vars rfl⟩

theorem read_track_emits (track_end : Int) (s s' : State) (rc : Int)
    (h : read_track track_end s = .ret (rc, s')) : ∃ l, Emits s s' l :=
  read_track_loop_emits _ _ _ _ _ _ h

theorem read_smf_search_body_vars (s : State) :
    (∀ r, read_smf_search_body s = .inl r → r.2.vars = s.vars) ∧
    (∀ t, read_smf_search_body s = .inr t → t.vars = s.vars) := by
  have hv : (read_int 4 (read_id s).2).2.vars = s.vars := by rw [read_int_vars, read_id_vars]
  unfold read_smf_search_body
  dsimp only
  split
  · exact ⟨fun r h => (by cases h; exact hv), fun t h => (by cases h)⟩
  split
  · exact ⟨fun r h => (by cases h; exact hv), fun t h => (by cases h)⟩
  split
  · exact ⟨fun r h => (by cases h; exact hv), fun t h => (by cases h)⟩
  · exact ⟨fun r h => (by cases h), fun t h => (by cases h; rw [skip_vars, hv])⟩

theorem read_smf_search_vars (fuel : Nat) (s s' : State) (r : Option Int)
    (h : read_smf_search fuel s = .ret (r, s')) : s'.vars = s.vars := by
  induction fuel generalizing s with
  | zero =>
    unfold read_smf_search at h
    split at h
    · rename_i r1 hb
      cases h
      exact (read_smf_search_body_vars s).1 _ hb
    · simp at h
  | succ n ih =>
    unfold read_smf_search at h
    split at h
    · rename_i r1 hb
      cases h
      exact (read_smf_search_body_vars s).1 _ hb
    · rename_i s1 hb
      exact (ih _ h).trans ((read_smf_search_body_vars s).2 _ hb)

theorem read_smf_tracks_emits (n : Nat) (s s' : State) (rc : Int)
    (h : read_smf_tracks n s = .ret (rc, s')) : ∃ l, Emits s s' l := by
  induction n generalizing s with
  | zero =>
    unfold read_smf_tracks at h
    simp only [Run.ret.injEq, Prod.mk.injEq] at h
    rw [← h.2]
    exact ⟨[], Emits.of_vars rfl⟩
  | succ n ih =>
    unfold read_smf_tracks at h
    split at h
    · rename_i s1 hs
      simp only [Run.ret.injEq, Prod.mk.injEq] at h
      rw [← h.2]
      exact ⟨[], Emits.of_vars (read_smf_search_vars _ _ _ _ hs)⟩
    · rename_i len s1 hs
      have e1 := Emits.of_vars (read_smf_search_vars _ _ _ _ hs)
      split at h
      · rename_i rc1 s2 ht
        obtain ⟨l, hl⟩ := read_track_emits _ _ _ _ ht
        split at h
        · simp only [Run.ret.injEq, Prod.mk.injEq] at h
          rw [← h.2]
          exact ⟨_, e1.trans hl⟩
        · obtain ⟨m, hm⟩ := ih _ h
          exact ⟨_, (e1.trans hl).trans hm⟩
      · simp at h
      · simp at h
    · simp at h
    · simp at h

theorem stable_sort_perm (l : List event) : (stable_sort tick_comp l).Perm l :=
  List.mergeSort_perm l _

/-- The events of one tick stand in the sorted list in the order they had. -/
theorem stable_sort_filter (l : List event) (t : Nat) :
    (stable_sort tick_comp l).filter (fun e => decide (e.tick = t))
      = l.filter (fun e => decide (e.tick = t)) := by
  have hc : (l.filter (fun e => decide (e.tick = t))).Pairwise
      (fun a b => (!tick_comp b a) = true) := by
    apply List.pairwise_of_forall_mem_list
    intro a ha b hb
    have h1 := (List.mem_filter.mp ha).2
    have h2 := (List.mem_filter.mp hb).2
    simp only [decide_eq_true_eq] at h1 h2
    simp [tick_comp, h1, h2]
  have hs : List.Sublist (l.filter (fun e => decide (e.tick = t)))
      (l.mergeSort (fun a b : event => !tick_comp b a)) :=
    List.sublist_mergeSort (by intro a b c; simp [tick_comp]; omega)
      (by intro a b; simp [tick_comp]; omega) hc (List.filter_sublist l)
  have hf := hs.filter (fun e => decide (e.tick = t))
  rw [List.filter_filter] at hf
  simp only [Bool.and_self] at hf
  exact (hf.eq_of_length (((stable_sort_perm l).filter _).length_eq).symm).symm

theorem read_smf_header_vars (err : Int) (s sh : State) (r : Option Nat)
    (h : read_smf_header err s = (r, sh)) : sh.all_events = s.all_events := by
  have h1 : (read_int 4 s).2.vars = s.vars := read_int_vars _ _
  have h2 : (read_int 2 (read_int 4 s).2).2.vars = s.vars := by rw [read_int_vars, h1]
  have h3 : (read_int 2 (read_int 2 (read_int 4 s).2).2).2.vars = s.vars := by
    rw [read_int_vars, h2]
  have h4 : (read_int 2 (read_int 2 (read_int 2 (read_int 4 s).2).2).2).2.vars = s.vars := by
    rw [read_int_vars, h3]
  unfold read_smf_header at h
  dsimp only at h
  split at h
  · cases h; exact (vars_eq h1).2.2.2.2.2.2.2.2
  split at h
  · cases h; exact (vars_eq h2).2.2.2.2.2.2.2.2
  split at h
  · cases h; exact (vars_eq h3).2.2.2.2.2.2.2.2
  split at h
  · cases h; exact (vars_eq h4).2.2.2.2.2.2.2.2
  split at h
  · cases h; exact (vars_eq h4).2.2.2.2.2.2.2.2
  split at h
  · cases h; exact (vars_eq h4).2.2.2.2.2.2.2.2
  · cases h; exact (vars_eq h4).2.2.2.2.2.2.2.2


theorem read_riff_search_body_vars (s : State) :
    (∀ r, read_riff_search_body s = .inl r → r.2.vars = s.vars) ∧
    (∀ t, read_riff_search_body s = .inr t → t.vars = s.vars) := by
  have hv : (read_32_le (read_id s).2).2.vars = s.vars := by rw [read_32_le_vars, read_id_vars]
  unfold read_riff_search_body
  dsimp only
  split
  · exact ⟨fun r h => (by cases h; exact hv), fun t h => (by cases h)⟩
  split
  · exact ⟨fun r h => (by cases h; exact hv), fun t h => (by cases h)⟩
  split
  · exact ⟨fun r h => (by cases h; exact hv), fun t h => (by cases h)⟩
  · exact ⟨fun r h => (by cases h), fun t h => (by cases h; rw [skip_vars, hv])⟩

theorem read_riff_search_vars (fuel : Nat) (s s' : State) (r : Bool)
    (h : read_riff_search fuel s = .ret (r, s')) : s'.vars = s.vars := by
  induction fuel generalizing s with
  | zero =>
    unfold read_riff_search at h
    split at h
    · rename_i r1 hb
      cases h
      exact (read_riff_search_body_vars s).1 _ hb
    · simp at h
  | succ n ih =>
    unfold read_riff_search at h
    split at h
    · rename_i r1 hb
      cases h
      exact (read_riff_search_body_vars s).1 _ hb
    · rename_i s1 hb
      exact (ih _ h).trans ((read_riff_search_body_vars s).2 _ hb)

/-- A successful `read_riff` is a successful `read_smf` from a state with the
same variables. -/
theorem read_riff_success (err : Int) (s s' : State) (rc : Int)
    (h : read_riff err s = .ret (rc, s')) (hrc : rc ≠ 0) :
    ∃ s0, s0.vars = s.vars ∧ read_smf err s0 = .ret (rc, s') := by
  have hv : (read_id (read_byte (read_byte (read_byte (read_byte s).2).2).2).2).2.vars
      = s.vars := by
    simp only [read_id_vars, read_byte_vars]
  unfold read_riff at h
  dsimp only at h
  split at h
  · simp only [Run.ret.injEq, Prod.mk.injEq] at h
    exact absurd h.1.symm hrc
  · split at h
    · simp only [Run.ret.injEq, Prod.mk.injEq] at h
      exact absurd h.1.symm hrc
    · rename_i s1 hs
      split at h
      · simp only [Run.ret.injEq, Prod.mk.injEq] at h
        exact absurd h.1.symm hrc
      · refine ⟨_, ?_, h⟩
        rw [read_id_vars, read_riff_search_vars _ _ _ _ hs, hv]
    · simp at h
    · simp at h

/-- A successful `parseFile` is a successful `read_smf` from a state with the
same variables. -/
theorem parseFile_success (err : Int) (content : List Byte) (s s' : State) (rc : Int)
    (h : parseFile err content s = .ret (rc, s')) (hrc : rc ≠ 0) :
    ∃ s0, s0.vars = s.vars ∧ read_smf err s0 = .ret (rc, s') := by
  unfold parseFile at h
  dsimp only at h
  split at h
  · exact ⟨_, by rw [read_id_vars]; rfl, h⟩
  · split at h
    · obtain ⟨s0, h0, h1⟩ := read_riff_success err _ s' rc h hrc
      exact ⟨s0, by rw [h0, read_id_vars]; rfl, h1⟩
    · simp only [Run.ret.injEq, Prod.mk.injEq] at h
      exact absurd h.1.symm hrc

/-! ## C1: the order of `all_events` -/

/-- C1: whenever `parseFile` succeeds, the event list `all_events` it leaves
is sorted by tick in non-decreasing order: every earlier element has a tick
at most that of every later one. -/
theorem parseFile_sorted (err : Int) (content : List Byte) (s s' : State) (rc : Int)
    (h : parseFile err content s = .ret (rc, s')) (hrc : rc ≠ 0) :
    s'.all_events.Pairwise (fun a b => a.tick ≤ b.tick) := by
  obtain ⟨s0, -, h0⟩ := parseFile_success err content s s' rc h hrc
  obtain ⟨n, sh, s1, rc1, -, -, -, hf⟩ := read_smf_success err s0 s' rc h0 hrc
  rw [(read_smf_finish_events s1 s' rc hf).1]
  exact stable_sort_sorted _

theorem parseFile_file_one_note :
    parseFile 0 file_one_note State.start = .ret (1, file_one_note_result) := by
  decide!

theorem parseFile_file_two_tracks :
    parseFile 0 file_two_tracks State.start = .ret (1, file_two_tracks_result) := by
  decide!

/-- The two-track file decodes, and its four events come out in tick order
0, 0, 5, 10. -/
theorem parseFile_sorted_witness :
    parseFile 0 file_two_tracks State.start = .ret (1, file_two_tracks_result)
      ∧ file_two_tracks_result.all_events.Pairwise (fun a b => a.tick ≤ b.tick) :=
  ⟨parseFile_file_two_tracks,
   parseFile_sorted 0 file_two_tracks State.start file_two_tracks_result 1
     parseFile_file_two_tracks (by decide)⟩

theorem read_track_sysex_next (tick : Int) (last_cmd port : Nat) (Event : event) (cmd : Nat)
    (s s' : State) (L' : Locals)
    (h : read_track_sysex tick last_cmd port Event cmd s = .next L' s') :
    L'.tick = tick ∧ L'.last_cmd = last_cmd ∧ L'.port = port := by
  unfold read_track_sysex at h
  dsimp only at h
  split at h
  · cases h
  · cases h; exact ⟨rfl, rfl, rfl⟩

theorem read_track_meta_next (track_end tick : Int) (last_cmd port : Nat) (Event : event)
    (s s' : State) (L' : Locals)
    (h : read_track_meta track_end tick last_cmd port Event s = .next L' s') :
    L'.tick = tick ∧ L'.last_cmd = last_cmd ∧ L'.port = port := by
  unfold read_track_meta read_track_tempo at h
  dsimp only at h
  split_ifs at h <;> cases h <;> exact ⟨rfl, rfl, rfl⟩

theorem read_track_dispatch_next (track_end tick : Int) (last_cmd port : Nat) (Event : event)
    (cmd : Nat) (s s' : State) (L' : Locals)
    (h : read_track_dispatch track_end tick last_cmd port Event cmd s = .next L' s') :
    L'.tick = tick ∧ L'.last_cmd = last_cmd ∧ L'.port = port := by
  unfold read_track_dispatch at h
  dsimp only at h
  split at h
  · cases h; exact ⟨rfl, rfl, rfl⟩
  split at h
  · cases h; exact ⟨rfl, rfl, rfl⟩
  split at h
  · split at h
    · exact read_track_sysex_next _ _ _ _ _ _ _ _ h
    split at h
    · exact read_track_meta_next _ _ _ _ _ _ _ _ h
    · cases h
  · cases h

/-- A value `read_var` returns that is not negative was read with the
end-of-file indicator clear. -/
theorem read_var_nonneg_eof (s : State) (h : 0 ≤ (read_var s).1) : (read_var s).2.eof = false := by
  unfold read_var at h ⊢
  dsimp only at h ⊢
  split_ifs at h ⊢ <;> simp_all


/-- After `ungetc` the stream stands where it stood before the byte was read. -/
theorem unget_read_byte (s1 : State) (d : Byte) (r : List Byte) (he : s1.eof = false)
    (hr : s1.rest = d :: r) :
    ({ ungetc (read_byte s1).1 (read_byte s1).2 with
        file_offset := (read_byte s1).2.file_offset - 1 } : State) = s1 := by
  obtain ⟨rest, eof, off, a1, a2, a3, a4, a5, a6, a7, a8, a9⟩ := s1
  simp only at he hr
  subst he hr
  simp [read_byte, ungetc, Fin.ofNat]
  apply Fin.ext
  simp only
  omega

/-! ## C5: running status -/

/-- C5: running status. (1) When an iteration of the loop of `read_track`
reads, after the delta-time, a channel-voice status byte `c` (0x80..0xEF) and
stays in the loop, `c` is the running status of the next iteration. (2) When
the running status is a channel-voice status and the byte after the
delta-time has its high bit clear, the iteration is the dispatch for that
status on the stream that still holds this byte, so that it is read again as
the first data byte. (3) The track 00 90 3C 40, 05 3C 41, 00 FF 2F 00 yields
two note-on events on channel 0, the second with note 0x3C and velocity 0x41
at tick 5. -/
theorem read_track_running_status (track_end : Int) (L : Locals) (s : State) :
    (∀ (c : Byte) (r : List Byte) (L' : Locals) (s' : State),
        0 ≤ (read_var s).1 → (read_var s).2.rest = c :: r → 0x80 ≤ c.val → c.val ≤ 0xEF →
        read_track_body track_end L s = .next L' s' → L'.last_cmd = c.val)
    ∧ (∀ (d : Byte) (r : List Byte),
        0x80 ≤ L.last_cmd → L.last_cmd ≤ 0xEF →
        0 ≤ (read_var s).1 → (read_var s).2.rest = d :: r → d.val < 0x80 →
        read_track_body track_end L s
          = read_track_dispatch track_end (wrap32 (L.tick + (read_var s).1)) L.last_cmd L.port
              L.Event L.last_cmd (read_var s).2)
    ∧ (match read_track 11 { State.start with rest := track_running_status } with
        | .ret (rc, s') => (rc, s'.all_events)
        | _ => (0, []))
        = (1, [{ type := SND_SEQ_EVENT_NOTEON, port := 0, tick := 0, data := ⟨0, 0x3C, 0x40, 0⟩,
                 sysex := [] },
               { type := SND_SEQ_EVENT_NOTEON, port := 0, tick := 5, data := ⟨0, 0x3C, 0x41, 0⟩,
                 sysex := [] }]) := by
  refine ⟨?_, ?_, by decide!⟩
  · intro c r L' s' hv hr h1 h2 hb
    have he := read_var_nonneg_eof s hv
    have hrb := read_byte_cons _ c r hr
    unfold read_track_body at hb
    dsimp only at hb
    rw [if_neg (by omega)] at hb
    rw [hrb] at hb
    dsimp only at hb
    rw [if_neg (by omega), if_pos (by rw [band_0x80_byte]; exact h1)] at hb
    have := (read_track_dispatch_next _ _ _ _ _ _ _ _ _ hb).2.1
    rw [this]
    simp
    omega
  · intro d r h1 h2 hv hr hd
    have he := read_var_nonneg_eof s hv
    have hu := unget_read_byte _ d r he hr
    have hrb := read_byte_cons _ d r hr
    unfold read_track_body
    dsimp only
    rw [if_neg (by omega)]
    have hc : ¬ (read_byte (read_var s).2).1 < 0 := by rw [hrb]; simp
    have hb : ¬ (band (read_byte (read_var s).2).1 0x80 ≠ 0) := by
      rw [hrb]; dsimp only; rw [band_0x80_byte]; omega
    rw [if_neg hc, if_neg hb, if_neg (by omega), hu]


/-- With running status 0x90 and the stream 05 3C 41 ..., the iteration is the
note-on dispatch on the stream 3C 41 ..., which emits a note-on with note
0x3C and velocity 0x41. -/
theorem read_track_running_status_witness :
    read_track_body 11 ⟨0, 0x90, 0, Event_init⟩ state_running_status
      = read_track_dispatch 11 (wrap32 (0 + (read_var state_running_status).1)) 0x90 0
          Event_init 0x90 (read_var state_running_status).2 :=
  (read_track_running_status 11 ⟨0, 0x90, 0, Event_init⟩ state_running_status).2.1
    0x3C [0x41, 0x00, 0xFF, 0x2F, 0x00] (by decide) (by decide) (by decide!) (by decide!)
    (by decide)

/-! ## C6: the offset counter only matters relative to the track ends -/

theorem shift_eof (k : Int) (s : State) : (s.shift k).eof = s.eof := rfl

theorem shift_rest (k : Int) (s : State) : (s.shift k).rest = s.rest := rfl

theorem shift_smpte_timing (k : Int) (s : State) :
    (s.shift k).smpte_timing = s.smpte_timing := rfl

theorem shift_file_offset (k : Int) (s : State) :
    (s.shift k).file_offset = s.file_offset + k := rfl

theorem shift_vars (k : Int) (s : State) : (s.shift k).vars = s.vars := rfl

theorem read_byte_shift (k : Int) (s : State) :
    read_byte (s.shift k) = ((read_byte s).1, (read_byte s).2.shift k) := by
  unfold read_byte State.shift
  cases s.rest with
  | nil => simp only [State.mk.injEq, Prod.mk.injEq, true_and, and_true]; omega
  | cons b r => simp only [State.mk.injEq, Prod.mk.injEq, true_and, and_true]; omega

theorem read_32_le_shift (k : Int) (s : State) :
    read_32_le (s.shift k) = ((read_32_le s).1, (read_32_le s).2.shift k) := by
  simp only [read_32_le, read_byte_shift, shift_eof]

theorem read_id_shift (k : Int) (s : State) :
    read_id (s.shift k) = ((read_id s).1, (read_id s).2.shift k) := read_32_le_shift k s

theorem read_int_loop_shift (k : Int) (n : Nat) (v : Int) (s : State) :
    read_int_loop n v (s.shift k)
      = ((read_int_loop n v s).1, (read_int_loop n v s).2.shift k) := by
  induction n generalizing v s with
  | zero =>
    unfold read_int_loop
    simp only [read_byte_shift]
    split <;> rfl
  | succ n ih =>
    unfold read_int_loop
    simp only [read_byte_shift]
    split
    · rfl
    · exact ih _ _

theorem read_int_shift (k : Int) (n : Nat) (s : State) :
    read_int n (s.shift k) = ((read_int n s).1, (read_int n s).2.shift k) :=
  read_int_loop_shift k _ _ s

theorem read_var_shift (k : Int) (s : State) :
    read_var (s.shift k) = ((read_var s).1, (read_var s).2.shift k) := by
  unfold read_var
  simp only [read_byte_shift, shift_eof]
  split_ifs <;> rfl

theorem skip_loop_shift (k : Int) (n : Nat) (s : State) :
    skip_loop n (s.shift k) = (skip_loop n s).shift k := by
  induction n generalizing s with
  | zero => rfl
  | succ n ih => unfold skip_loop; rw [read_byte_shift]; exact ih _

theorem skip_shift (k : Int) (n : Int) (s : State) : skip n (s.shift k) = (skip n s).shift k :=
  skip_loop_shift k _ s

theorem sysex_loop_shift (k : Int) (n : Nat) (l : List Nat) (s : State) :
    sysex_loop n l (s.shift k) = ((sysex_loop n l s).1, (sysex_loop n l s).2.shift k) := by
  induction n generalizing l s with
  | zero => rfl
  | succ n ih => unfold sysex_loop; simp only [read_byte_shift]; exact ih _ _

theorem read_track_sysex_shift (k : Int) (tick : Int) (last_cmd port : Nat) (Event : event)
    (cmd : Nat) (s : State) :
    read_track_sysex tick last_cmd port Event cmd (s.shift k)
      = (read_track_sysex tick last_cmd port Event cmd s).shift k := by
  unfold read_track_sysex
  simp only [read_var_shift, sysex_loop_shift]
  split <;> rfl

theorem shift_mk_all_events (k : Int) (t : State) (X : List event) :
    State.mk (t.shift k).rest (t.shift k).eof (t.shift k).file_offset (t.shift k).smpte_timing
        (t.shift k).prev_tick (t.shift k).BPM (t.shift k).PPQ (t.shift k).song_length_seconds
        (t.shift k).sf (t.shift k).minor_key (t.shift k).queue_tempo X (t.shift k).residues
      = State.shift k { t with all_events := X } := rfl

theorem read_track_tempo_shift (k : Int) (tick : Int) (last_cmd port : Nat) (Event : event)
    (len : Int) (s : State) :
    read_track_tempo tick last_cmd port Event len (s.shift k)
      = (read_track_tempo tick last_cmd port Event len s).shift k := by
  unfold read_track_tempo
  simp only [read_byte_shift, shift_mk_all_events, skip_shift]
  rfl

theorem read_track_meta_shift (k : Int) (track_end tick : Int) (last_cmd port : Nat)
    (Event : event) (s : State) :
    read_track_meta (track_end + k) tick last_cmd port Event (s.shift k)
      = (read_track_meta track_end tick last_cmd port Event s).shift k := by
  unfold read_track_meta
  simp only [read_byte_shift, read_var_shift, skip_shift, read_track_tempo_shift]
  have e : track_end + k - ((read_var (read_byte s).2).2.shift k).file_offset
      = track_end - (read_var (read_byte s).2).2.file_offset := by
    simp only [State.shift]; omega
  rw [e, shift_smpte_timing]
  split_ifs <;> rfl


theorem read_track_dispatch_shift (k : Int) (track_end tick : Int) (last_cmd port : Nat)
    (Event : event) (cmd : Nat) (s : State) :
    read_track_dispatch (track_end + k) tick last_cmd port Event cmd (s.shift k)
      = (read_track_dispatch track_end tick last_cmd port Event cmd s).shift k := by
  unfold read_track_dispatch
  simp only [read_byte_shift, read_track_sysex_shift, read_track_meta_shift]
  split_ifs <;> rfl

theorem read_track_body_shift (k : Int) (track_end : Int) (L : Locals) (s : State) :
    read_track_body (track_end + k) L (s.shift k)
      = (read_track_body track_end L s).shift k := by
  unfold read_track_body
  simp only [read_var_shift, read_byte_shift]
  have e : ∀ (c : Int) (t : State),
      ({ ungetc c (t.shift k) with file_offset := (t.shift k).file_offset - 1 } : State)
        = State.shift k { ungetc c t with file_offset := t.file_offset - 1 } := by
    intro c t
    simp only [ungetc, State.shift, State.mk.injEq, true_and, and_true]
    omega
  rw [e]
  simp only [read_track_dispatch_shift]
  split_ifs <;> rfl

theorem read_track_loop_shift (k : Int) (track_end : Int) (fuel : Nat) (L : Locals) (s : State) :
    read_track_loop (track_end + k) fuel L (s.shift k)
      = (read_track_loop track_end fuel L s).shift k := by
  induction fuel generalizing L s with
  | zero =>
    unfold read_track_loop
    have e : ((s.shift k).file_offset < track_end + k) = (s.file_offset < track_end) := by
      simp only [State.shift, eq_iff_iff]; omega
    simp only [e]
    split <;> rfl
  | succ n ih =>
    unfold read_track_loop
    have e : ((s.shift k).file_offset < track_end + k) = (s.file_offset < track_end) := by
      simp only [State.shift, eq_iff_iff]; omega
    simp only [e, read_track_body_shift]
    split
    · cases hb : read_track_body track_end L s with
      | next L1 s1 => simp only [Step.shift]; exact ih _ _
      | exit rc s1 => rfl
    · rfl

theorem read_track_shift (k : Int) (track_end : Int) (s : State) :
    read_track (track_end + k) (s.shift k) = (read_track track_end s).shift k := by
  unfold read_track
  have e : (track_end + k - (s.shift k).file_offset).toNat
      = (track_end - s.file_offset).toNat := by
    simp only [State.shift]; congr 1; omega
  rw [e]
  exact read_track_loop_shift _ _ _ _ _


theorem read_smf_search_body_shift (k : Int) (s : State) :
    read_smf_search_body (s.shift k)
      = (match read_smf_search_body s with
          | .inl (r, t) => .inl (r, t.shift k)
          | .inr t => .inr (t.shift k)) := by
  unfold read_smf_search_body
  simp only [read_id_shift, read_int_shift, shift_eof, skip_shift]
  split_ifs <;> rfl

theorem read_smf_search_shift (k : Int) (fuel : Nat) (s : State) :
    read_smf_search fuel (s.shift k) = (read_smf_search fuel s).shift k := by
  induction fuel generalizing s with
  | zero =>
    unfold read_smf_search
    rw [read_smf_search_body_shift]
    rcases read_smf_search_body s with ⟨r, t⟩ | t <;> rfl
  | succ n ih =>
    unfold read_smf_search
    rw [read_smf_search_body_shift]
    rcases read_smf_search_body s with ⟨r, t⟩ | t
    · rfl
    · exact ih _

theorem read_smf_tracks_shift (k : Int) (n : Nat) (s : State) :
    read_smf_tracks n (s.shift k) = (read_smf_tracks n s).shift k := by
  induction n generalizing s with
  | zero => rfl
  | succ n ih =>
    unfold read_smf_tracks
    rw [shift_rest, read_smf_search_shift]
    rcases read_smf_search s.rest.length s with ⟨_ | len, t⟩ | _ | _
    · rfl
    · simp only [Run.shift]
      have e : (t.shift k).file_offset + len = t.file_offset + len + k := by
        simp only [State.shift]; omega
      rw [e, read_track_shift]
      rcases read_track (t.file_offset + len) t with ⟨rc, u⟩ | _ | _
      · simp only [Run.shift]
        split
        · rfl
        · exact ih u.next_call
      · rfl
      · rfl
    · rfl
    · rfl

theorem read_smf_header_shift (k : Int) (err : Int) (s : State) :
    read_smf_header err (s.shift k)
      = ((read_smf_header err s).1, (read_smf_header err s).2.shift k) := by
  unfold read_smf_header
  simp only [read_int_shift]
  split_ifs <;> first | rfl | (split <;> rfl)

theorem read_smf_finish_shift (k : Int) (s : State) :
    read_smf_finish (s.shift k) = (read_smf_finish s).shift k := by
  unfold read_smf_finish
  simp only [show (s.shift k).all_events = s.all_events from rfl,
    show (s.shift k).song_length_seconds = s.song_length_seconds from rfl]
  split
  · rfl
  · split_ifs <;> rfl

theorem read_smf_shift (k : Int) (err : Int) (s : State) :
    read_smf err (s.shift k) = (read_smf err s).shift k := by
  unfold read_smf
  rw [read_smf_header_shift]
  rcases read_smf_header err s with ⟨_ | n, t⟩
  · rfl
  · simp only
    rw [read_smf_tracks_shift]
    rcases read_smf_tracks n t with ⟨rc, u⟩ | _ | _
    · simp only [Run.shift]
      split
      · rfl
      · exact read_smf_finish_shift _ _
    · rfl
    · rfl


theorem read_byte_mk (b : Byte) (r : List Byte) (eof : Bool) (off : Int) (a1 a2 : Int)
    (a3 a4 a5 : ℚ) (a6 : Int) (a7 : Bool) (a8 : Int × Int) (a9 a10 : List event) :
    read_byte (State.mk (b :: r) eof off a1 a2 a3 a4 a5 a6 a7 a8 a9 a10)
      = ((b.val : Int), State.mk r eof (off + 1) a1 a2 a3 a4 a5 a6 a7 a8 a9 a10) := by
  unfold read_byte; rfl

theorem read_32_le_mk (b0 b1 b2 b3 : Byte) (r : List Byte) (off : Int) (a1 a2 : Int)
    (a3 a4 a5 : ℚ) (a6 : Int) (a7 : Bool) (a8 : Int × Int) (a9 a10 : List event) :
    read_32_le (State.mk (b0 :: b1 :: b2 :: b3 :: r) false off a1 a2 a3 a4 a5 a6 a7 a8 a9 a10)
      = (bor (bor (bor (b0.val : Int) (shl (b1.val : Int) 8)) (shl (b2.val : Int) 16))
            (shl (b3.val : Int) 24),
          State.mk r false (off + 1 + 1 + 1 + 1) a1 a2 a3 a4 a5 a6 a7 a8 a9 a10) := by
  simp only [read_32_le, read_byte_mk]
  rfl

theorem ascii_RIFF : ascii "RIFF" = [82, 73, 70, 70] := by decide
theorem ascii_RMID : ascii "RMID" = [82, 77, 73, 68] := by decide
theorem ascii_data : ascii "data" = [100, 97, 116, 97] := by decide
theorem ascii_MThd : ascii "MThd" = [77, 84, 104, 100] := by decide

theorem id_RIFF :
    bor (bor (bor (((82 : Byte).val : Nat) : Int) (shl (((73 : Byte).val : Nat) : Int) 8))
      (shl (((70 : Byte).val : Nat) : Int) 16)) (shl (((70 : Byte).val : Nat) : Int) 24)
      = MAKE_ID 'R' 'I' 'F' 'F' := by decide!

theorem id_RMID :
    bor (bor (bor (((82 : Byte).val : Nat) : Int) (shl (((77 : Byte).val : Nat) : Int) 8))
      (shl (((73 : Byte).val : Nat) : Int) 16)) (shl (((68 : Byte).val : Nat) : Int) 24)
      = MAKE_ID 'R' 'M' 'I' 'D' := by decide!

theorem id_data :
    bor (bor (bor (((100 : Byte).val : Nat) : Int) (shl (((97 : Byte).val : Nat) : Int) 8))
      (shl (((116 : Byte).val : Nat) : Int) 16)) (shl (((97 : Byte).val : Nat) : Int) 24)
      = MAKE_ID 'd' 'a' 't' 'a' := by decide!

theorem id_MThd :
    bor (bor (bor (((77 : Byte).val : Nat) : Int) (shl (((84 : Byte).val : Nat) : Int) 8))
      (shl (((104 : Byte).val : Nat) : Int) 16)) (shl (((100 : Byte).val : Nat) : Int) 24)
      = MAKE_ID 'M' 'T' 'h' 'd' := by decide!

theorem RIFF_ne_MThd : ¬ (MAKE_ID 'R' 'I' 'F' 'F' = MAKE_ID 'M' 'T' 'h' 'd') := by decide!

theorem parseFile_riff_shift (err : Int) (a1 a2 a3 a4 c1 c2 c3 c4 : Byte) (T : List Byte)
    (s : State) :
    parseFile err (ascii "RIFF" ++ [a1, a2, a3, a4] ++ ascii "RMID" ++ ascii "data"
        ++ [c1, c2, c3, c4] ++ (ascii "MThd" ++ T)) s
      = (parseFile err (ascii "MThd" ++ T) s).shift 20 := by
  unfold parseFile
  simp only [ascii_RIFF, ascii_RMID, ascii_data, ascii_MThd, List.cons_append, List.nil_append,
    read_id, read_32_le_mk, id_RIFF, id_MThd, RIFF_ne_MThd, if_true, if_false]
  unfold read_riff
  simp only [read_byte_mk, read_id, read_32_le_mk, id_RMID, ne_eq, not_true_eq_false, if_false]
  rw [read_riff_search]
  unfold read_riff_search_body
  simp only [read_id, read_32_le_mk, id_data, id_MThd, Bool.false_eq_true, if_true, if_false,
    ne_eq, not_true_eq_false]
  rw [← read_smf_shift]
  congr 1


theorem outcome_shift (k : Int) (r : Run (Int × State)) : (r.shift k).outcome = r.outcome := by
  rcases r with ⟨rc, s⟩ | _ | _ <;> rfl

/-- C6: RIFF unwrapping. For every byte string beginning with "MThd" and
every value of the two 4-byte length fields, `parseFile` on the buffer
"RIFF" len "RMID" "data" len S ends exactly as `parseFile` on S alone, with
the offset counter 20 higher: the same return code (or the same undefined
behaviour), the same stream left over, and the same events, PPQ, SMPTE flag,
song length and other variables. -/
theorem parseFile_riff (err : Int) (a1 a2 a3 a4 c1 c2 c3 c4 : Byte) (T : List Byte)
    (s : State) :
    parseFile err (ascii "RIFF" ++ [a1, a2, a3, a4] ++ ascii "RMID" ++ ascii "data"
        ++ [c1, c2, c3, c4] ++ (ascii "MThd" ++ T)) s
      = (parseFile err (ascii "MThd" ++ T) s).shift 20
    ∧ (parseFile err (ascii "RIFF" ++ [a1, a2, a3, a4] ++ ascii "RMID" ++ ascii "data"
        ++ [c1, c2, c3, c4] ++ (ascii "MThd" ++ T)) s).outcome
      = (parseFile err (ascii "MThd" ++ T) s).outcome := by
  have h := parseFile_riff_shift err a1 a2 a3 a4 c1 c2 c3 c4 T s
  exact ⟨h, by rw [h, outcome_shift]⟩

/-! ## C7: the time division -/

theorem and_two_pow_15 (td : Nat) : td &&& 32768 = if td.testBit 15 then 32768 else 0 := by
  apply Nat.eq_of_testBit_eq
  intro i
  have e : (32768 : Nat) = 2 ^ 15 := by norm_num
  rw [Nat.testBit_and, e, Nat.testBit_two_pow]
  by_cases h : 15 = i
  · subst h
    cases hb : td.testBit 15 <;> simp [Nat.testBit_two_pow]
    decide
  · have : decide (15 = i) = false := by simpa using h
    rw [this, Bool.and_false]
    split
    · rw [Nat.testBit_two_pow]; simp [h]
    · simp

theorem band_0x8000 (td : Nat) (h : td < 65536) :
    (band (td : Int) 0x8000 ≠ 0) ↔ 32768 ≤ td := by
  have hb := band_ofNat td 0x8000 (by omega) (by norm_num)
  simp only [Nat.cast_ofNat] at hb
  rw [hb]
  have e := and_two_pow_15 td
  rw [Nat.testBit_to_div_mod] at e
  simp only [Nat.reducePow] at e
  norm_cast
  rw [e]
  by_cases c : td / 32768 % 2 = 1
  · simp [c]; omega
  · simp [c]; omega

theorem band_0xff (n : Nat) (h : n < 2147483648) : band (n : Int) 0xff = ((n % 256 : Nat) : Int) := by
  have hb := band_ofNat n 0xff h (by norm_num)
  simp only [Nat.cast_ofNat] at hb
  rw [hb]
  have := Nat.and_pow_two_sub_one_eq_mod n 8
  norm_num at this
  rw [this]

theorem band_0x7f (n : Nat) (h : n < 2147483648) : band (n : Int) 0x7f = ((n % 128 : Nat) : Int) := by
  have hb := band_ofNat n 0x7f h (by norm_num)
  simp only [Nat.cast_ofNat] at hb
  rw [hb]
  have := Nat.and_pow_two_sub_one_eq_mod n 7
  norm_num at this
  rw [this]

/-- The time-division resolution of `read_smf` on a SMPTE value. -/
theorem read_smf_tempo_smpte (td : Nat) (h1 : 0x8000 ≤ td) (h2 : td < 0x10000) :
    read_smf_tempo (td : Int)
      = if (0x80 : Int) - ((td / 256 % 128 : Nat) : Int) = 24 then
          some (500000, 12 * ((td % 256 : Nat) : Int))
        else if (0x80 : Int) - ((td / 256 % 128 : Nat) : Int) = 25 then
          some (400000, 10 * ((td % 256 : Nat) : Int))
        else if (0x80 : Int) - ((td / 256 % 128 : Nat) : Int) = 29 then
          some (100000000, 2997 * ((td % 256 : Nat) : Int))
        else if (0x80 : Int) - ((td / 256 % 128 : Nat) : Int) = 30 then
          some (500000, 15 * ((td % 256 : Nat) : Int))
        else none := by
  unfold read_smf_tempo
  have hb : band (td : Int) 0x8000 ≠ 0 := (band_0x8000 td h2).mpr h1
  have hd : ((td : Int) / 256) = ((td / 256 : Nat) : Int) := by norm_cast
  dsimp only
  rw [if_pos hb, if_neg (by norm_num), hd, band_0x7f (td / 256) (by omega),
    band_0xff td (by omega)]

theorem read_smf_tempo_quarter (td : Nat) (h : td < 0x8000) :
    read_smf_tempo (td : Int) = some (500000, (td : Int)) := by
  unfold read_smf_tempo
  have hb : ¬ (band (td : Int) 0x8000 ≠ 0) := by
    rw [band_0x8000 td (by omega)]; omega
  dsimp only
  rw [if_neg hb, if_pos rfl]


/-- The header part of `read_smf` once the four fields pass the checks on
them. -/
theorem read_smf_header_eq (err : Int) (s : State)
    (h1 : 6 ≤ (read_int 4 s).1)
    (h2 : (read_int 2 (read_int 4 s).2).1 = 0 ∨ (read_int 2 (read_int 4 s).2).1 = 1)
    (h3 : 1 ≤ (read_int 2 (read_int 2 (read_int 4 s).2).2).1)
    (h3' : (read_int 2 (read_int 2 (read_int 4 s).2).2).1 ≤ 1000)
    (h4 : 0 ≤ (read_int 2 (read_int 2 (read_int 2 (read_int 4 s).2).2).2).1) :
    read_smf_header err s
      = (match read_smf_tempo (read_int 2 (read_int 2 (read_int 2 (read_int 4 s).2).2).2).1 with
        | none =>
          (none, { (read_int 2 (read_int 2 (read_int 2 (read_int 4 s).2).2).2).2 with
                   smpte_timing :=
                     if band (read_int 2 (read_int 2 (read_int 2 (read_int 4 s).2).2).2).1 0x8000
                        ≠ 0 then 1 else 0 })
        | some q =>
          if err < 0 then
            (none, { (read_int 2 (read_int 2 (read_int 2 (read_int 4 s).2).2).2).2 with
                     smpte_timing :=
                       if band (read_int 2 (read_int 2 (read_int 2 (read_int 4 s).2).2).2).1
                          0x8000 ≠ 0 then 1 else 0
                     queue_tempo := q
                     PPQ := (q.2 : ℚ) })
          else
            (some (read_int 2 (read_int 2 (read_int 4 s).2).2).1.toNat,
              { (read_int 2 (read_int 2 (read_int 2 (read_int 4 s).2).2).2).2 with
                smpte_timing :=
                  if band (read_int 2 (read_int 2 (read_int 2 (read_int 4 s).2).2).2).1 0x8000
                     ≠ 0 then 1 else 0
                queue_tempo := q
                PPQ := (q.2 : ℚ)
                BPM := 60000000 / (q.1 : ℚ)
                song_length_seconds := 0
                prev_tick := 0 })) := by
  unfold read_smf_header
  dsimp only
  rw [if_neg (by omega), if_neg (by omega), if_neg (by omega), if_neg (by omega)]
  all_goals rfl

/-- C7: SMPTE time-division resolution. For a header whose length, format
and track-count fields pass their checks and whose time-division field `td`
has the top bit set, with `fps = 0x80 - ((td >> 8) & 0x7f)` and
`tpf = td & 0xff`: the values given to the queue tempo are (500000, 12 tpf)
for 24, (400000, 10 tpf) for 25, (100000000, 2997 tpf) for 29 and
(500000, 15 tpf) for 30 frames per second; for every other `fps` `read_smf`
returns 0; when a pair is resolved and the ALSA call succeeds the header part
stores it as queue tempo, `PPQ` and `BPM` with the SMPTE flag set; and
`td = 0x8000 | ((0x80-25)<<8) | 4` gives tempo 400000 and ppq 40. -/
theorem read_smf_smpte (err : Int) (s : State) (td : Nat)
    (h1 : 6 ≤ (read_int 4 s).1)
    (h2 : (read_int 2 (read_int 4 s).2).1 = 0 ∨ (read_int 2 (read_int 4 s).2).1 = 1)
    (h3 : 1 ≤ (read_int 2 (read_int 2 (read_int 4 s).2).2).1
      ∧ (read_int 2 (read_int 2 (read_int 4 s).2).2).1 ≤ 1000)
    (h4 : (read_int 2 (read_int 2 (read_int 2 (read_int 4 s).2).2).2).1 = (td : Int))
    (htd : 0x8000 ≤ td ∧ td < 0x10000) :
    (read_smf_tempo (td : Int)
      = if (0x80 : Int) - ((td / 256 % 128 : Nat) : Int) = 24 then
          some (500000, 12 * ((td % 256 : Nat) : Int))
        else if (0x80 : Int) - ((td / 256 % 128 : Nat) : Int) = 25 then
          some (400000, 10 * ((td % 256 : Nat) : Int))
        else if (0x80 : Int) - ((td / 256 % 128 : Nat) : Int) = 29 then
          some (100000000, 2997 * ((td % 256 : Nat) : Int))
        else if (0x80 : Int) - ((td / 256 % 128 : Nat) : Int) = 30 then
          some (500000, 15 * ((td % 256 : Nat) : Int))
        else none)
    ∧ (read_smf_tempo (td : Int) = none → ∃ s', read_smf err s = .ret (0, s'))
    ∧ (∀ tempo ppq : Int, read_smf_tempo (td : Int) = some (tempo, ppq) → 0 ≤ err →
        ∃ s', read_smf_header err s
            = (some (read_int 2 (read_int 2 (read_int 4 s).2).2).1.toNat, s')
          ∧ s'.queue_tempo = (tempo, ppq) ∧ s'.PPQ = (ppq : ℚ)
          ∧ s'.BPM = 60000000 / (tempo : ℚ) ∧ s'.smpte_timing = 1
          ∧ s'.song_length_seconds = 0 ∧ s'.prev_tick = 0)
    ∧ bor (bor 0x8000 (shl (0x80 - 25) 8)) 4 = 0xE704
    ∧ read_smf_tempo 0xE704 = some (400000, 40) := by
  have hh := read_smf_header_eq err s h1 h2 h3.1 h3.2 (by rw [h4]; omega)
  rw [h4] at hh
  have hb : band (td : Int) 0x8000 ≠ 0 := (band_0x8000 td htd.2).mpr htd.1
  refine ⟨read_smf_tempo_smpte td htd.1 htd.2, ?_, ?_, by decide!, by decide!⟩
  · intro hn
    rw [hn] at hh
    unfold read_smf
    rw [hh]
    exact ⟨_, rfl⟩
  · intro tempo ppq hq herr
    rw [hq] at hh
    simp only at hh
    rw [if_neg (by omega), if_pos hb] at hh
    exact ⟨_, hh, rfl, rfl, rfl, rfl, rfl, rfl⟩


/-- The header with time division 0xE704 resolves to tempo 400000, ppq 40. -/
theorem read_smf_smpte_witness :
    ∃ s', read_smf_header 0 state_smpte_header
        = (some (read_int 2 (read_int 2 (read_int 4 state_smpte_header).2).2).1.toNat, s')
      ∧ s'.queue_tempo = (400000, 40) ∧ s'.PPQ = ((40 : Int) : ℚ)
      ∧ s'.BPM = 60000000 / ((400000 : Int) : ℚ) ∧ s'.smpte_timing = 1
      ∧ s'.song_length_seconds = 0 ∧ s'.prev_tick = 0 :=
  (read_smf_smpte 0 state_smpte_header 0xE704 (by decide!) (by decide!) (by decide!)
    (by decide!) (by decide)).2.2.1 400000 40 (by decide!) (by decide)

/-! ## C8: tempo meta-events under SMPTE timing -/

theorem read_byte_file_offset (s : State) :
    (read_byte s).2.file_offset = s.file_offset + 1 := by
  unfold read_byte; split <;> rfl

theorem skip_loop_file_offset (n : Nat) (s : State) :
    (skip_loop n s).file_offset = s.file_offset + (n : Int) := by
  induction n generalizing s with
  | zero => simp [skip_loop]
  | succ n ih =>
    unfold skip_loop
    rw [ih, read_byte_file_offset]
    push_cast
    ring

theorem skip_file_offset (n : Int) (h : 0 ≤ n) (s : State) :
    (skip n s).file_offset = s.file_offset + n := by
  unfold skip
  rw [skip_loop_file_offset, Int.toNat_of_nonneg h]

/-- The seconds of `k` ticks at tempo `t` and resolution `p`, as the source
computes them from `BPM = 60000000 / t`. -/
theorem seconds_eq (t p k : ℚ) :
    60000 / (60000000 / t * p) * k / 1000 = k * t / (1000000 * p) := by
  by_cases ht : t = 0
  · subst ht; simp
  by_cases hp : p = 0
  · subst hp; simp
  field_simp
  ring

/-- What a successful header part leaves in the variables. -/
theorem read_smf_header_some (err : Int) (s sh : State) (n : Nat)
    (h : read_smf_header err s = (some n, sh)) :
    ∃ (td : Int) (q : Int × Int), 0 ≤ td ∧ read_smf_tempo td = some q ∧
      sh.smpte_timing = (if band td 0x8000 ≠ 0 then 1 else 0) ∧ sh.queue_tempo = q ∧
      sh.PPQ = (q.2 : ℚ) ∧ sh.BPM = 60000000 / (q.1 : ℚ) ∧ sh.song_length_seconds = 0 ∧
      sh.prev_tick = 0 := by
  unfold read_smf_header at h
  dsimp only at h
  split at h
  · cases h
  split at h
  · cases h
  split at h
  · cases h
  split at h
  · cases h
  rename_i htd
  split at h
  · cases h
  · rename_i q hq
    split at h
    · cases h
    · cases h
      exact ⟨_, q, not_lt.mp htd, hq, rfl, rfl, rfl, rfl, rfl, rfl⟩


/-- What a returning `read_smf_finish` leaves. -/
theorem read_smf_finish_ret (s1 s' : State) (rc : Int)
    (h : read_smf_finish s1 = .ret (rc, s')) :
    ∃ back, (stable_sort tick_comp s1.all_events).getLast? = some back ∧
      s'.all_events = stable_sort tick_comp s1.all_events ∧
      s'.smpte_timing = s1.smpte_timing ∧ s'.queue_tempo = s1.queue_tempo ∧
      s'.PPQ = s1.PPQ ∧ s'.BPM = s1.BPM ∧
      s'.song_length_seconds
        = (if s1.song_length_seconds = 0 then
            (60000 / (s1.BPM * s1.PPQ)) * (back.tick : ℚ) / 1000
          else
            s1.song_length_seconds
              + (60000 / (s1.BPM * s1.PPQ))
                  * (toU32 ((back.tick : Int) - s1.prev_tick) : ℚ) / 1000) := by
  unfold read_smf_finish at h
  dsimp only at h
  split at h
  · cases h
  · rename_i back hb
    refine ⟨back, hb, ?_⟩
    split at h
    · rename_i h0
      cases h
      refine ⟨rfl, rfl, rfl, rfl, rfl, ?_⟩
      rw [if_pos h0]
    · rename_i h0
      cases h
      refine ⟨rfl, rfl, rfl, rfl, rfl, ?_⟩
      rw [if_neg h0]

/-- C8: tempo meta-events under SMPTE timing. (1) With the SMPTE flag set, the
meta case for type 0x51 with a declared length `len >= 3` stays in the loop,
appends no event, leaves the offset exactly `len` past the length field and
leaves the song length, `BPM`, the tick of the last tempo change, `PPQ` and the
queue tempo as they were. (2) Whenever `parseFile` succeeds on a file with
SMPTE timing (and a resolution other than 0), the song length is
`last_tick * tempo / (1000000 * ppq)` for the tempo and ppq resolved from the
header, whatever the tracks hold. -/
theorem smpte_tempo_meta_ignored :
    (∀ (track_end tick : Int) (last_cmd port : Nat) (Event : event) (s : State),
      s.smpte_timing ≠ 0 → (read_byte s).1 = 0x51 → 3 ≤ (read_var (read_byte s).2).1 →
      ∃ s', read_track_meta track_end tick last_cmd port Event s
          = .next ⟨tick, last_cmd, port, Event⟩ s'
        ∧ s'.all_events = s.all_events
        ∧ s'.file_offset
            = (read_var (read_byte s).2).2.file_offset + (read_var (read_byte s).2).1
        ∧ s'.song_length_seconds = s.song_length_seconds ∧ s'.BPM = s.BPM
        ∧ s'.prev_tick = s.prev_tick ∧ s'.PPQ = s.PPQ ∧ s'.queue_tempo = s.queue_tempo)
    ∧ (∀ (err : Int) (content : List Byte) (s s' : State) (rc : Int),
      parseFile err content s = .ret (rc, s') → rc ≠ 0 → s'.smpte_timing ≠ 0 →
      s'.queue_tempo.2 ≠ 0 →
      ∃ back, s'.all_events.getLast? = some back ∧
        s'.song_length_seconds
          = (back.tick : ℚ) * (s'.queue_tempo.1 : ℚ) / (1000000 * (s'.queue_tempo.2 : ℚ))) := by
  constructor
  · intro track_end tick last_cmd port Event s hs hc hl
    have hv : (read_var (read_byte s).2).2.vars = s.vars := by
      rw [read_var_vars, read_byte_vars]
    have hs2 : (read_var (read_byte s).2).2.smpte_timing ≠ 0 := by
      rw [(vars_eq hv).1]; exact hs
    refine ⟨skip (read_var (read_byte s).2).1 (read_var (read_byte s).2).2, ?_, ?_, ?_, ?_⟩
    · unfold read_track_meta
      dsimp only
      rw [if_neg (by omega), if_neg (by rw [hc]; decide), if_neg (by rw [hc]; decide),
        if_pos hc, if_neg (by omega), if_pos hs2]
    · rw [(vars_eq (skip_vars _ _)).2.2.2.2.2.2.2.2, (vars_eq hv).2.2.2.2.2.2.2.2]
    · exact skip_file_offset _ (by omega) _
    · obtain ⟨k1, k2, k3, k4, k5, k6, k7, k8, k9⟩ := vars_eq (skip_vars
        (read_var (read_byte s).2).1 (read_var (read_byte s).2).2)
      obtain ⟨j1, j2, j3, j4, j5, j6, j7, j8, j9⟩ := vars_eq hv
      exact ⟨k5.trans j5, k3.trans j3, k2.trans j2, k4.trans j4, k8.trans j8⟩
  · intro err content s s' rc h hrc hsm hp
    obtain ⟨s0, -, h0⟩ := parseFile_success err content s s' rc h hrc
    obtain ⟨n, sh, s1, rc1, hh, ht, -, hf⟩ := read_smf_success err s0 s' rc h0 hrc
    obtain ⟨td, q, -, -, g1, g2, g3, g4, g5, g6⟩ := read_smf_header_some err s0 sh n hh
    obtain ⟨l, -, e2, e3, e4, e5⟩ := read_smf_tracks_emits n sh s1 rc1 ht
    obtain ⟨back, hb, f1, f2, f3, f4, f5, f6⟩ := read_smf_finish_ret s1 s' rc hf
    have hsh : sh.smpte_timing ≠ 0 := by rw [← e3, ← f2]; exact hsm
    obtain ⟨e6, e7, e8⟩ := e5 (Or.inl hsh)
    refine ⟨back, by rw [f1]; exact hb, ?_⟩
    rw [f6, e6, g5, if_pos rfl, e8, g4, e2, g3, f3, e4, g2]
    exact seconds_eq _ _ _


theorem parseFile_file_smpte :
    parseFile 0 file_smpte State.start = .ret (1, file_smpte_result) := by
  decide!

/-- The SMPTE file with a tempo meta-event: last tick 40, tempo 400000, ppq 40,
song length 40 * 400000 / (1000000 * 40). -/
theorem smpte_tempo_meta_ignored_witness :
    ∃ back, file_smpte_result.all_events.getLast? = some back ∧
      file_smpte_result.song_length_seconds
        = (back.tick : ℚ) * (file_smpte_result.queue_tempo.1 : ℚ)
            / (1000000 * (file_smpte_result.queue_tempo.2 : ℚ)) :=
  smpte_tempo_meta_ignored.2 0 file_smpte State.start file_smpte_result 1
    parseFile_file_smpte (by decide) (by decide) (by decide)

/-! ## C9 and C10: the song length under quarter-note timing -/

/-- C9: whenever `parseFile` succeeds on a file with quarter-note timing (and
a resolution other than 0) and no tempo event was emitted, the tempo is the
default 500000 and the song length is `last_tick * 500000 / (1000000 * ppq)`
in exact rational arithmetic; and the single-track format-1 file with ppq 96
and track 00 90 3C 40 60 80 3C 40 00 FF 2F 00 decodes to exactly the note-on
at tick 0 and the note-off at tick 96 (channel 0, note 60, velocity 64) with a
song length of 1/2 second. -/
theorem parseFile_no_tempo (err : Int) (content : List Byte) (s s' : State) (rc : Int)
    (h : parseFile err content s = .ret (rc, s')) (hrc : rc ≠ 0)
    (hq : s'.smpte_timing = 0)
    (hno : ∀ e ∈ s'.all_events, e.type ≠ SND_SEQ_EVENT_TEMPO)
    (hp : s'.queue_tempo.2 ≠ 0) :
    (s'.queue_tempo.1 = 500000 ∧ s'.PPQ = (s'.queue_tempo.2 : ℚ) ∧
      ∃ back, s'.all_events.getLast? = some back ∧
        s'.song_length_seconds
          = (back.tick : ℚ) * 500000 / (1000000 * (s'.queue_tempo.2 : ℚ)))
    ∧ parseFile 0 file_one_note State.start = .ret (1, file_one_note_result)
    ∧ file_one_note_result.all_events
        = [{ type := SND_SEQ_EVENT_NOTEON, port := 0, tick := 0, data := ⟨0, 60, 64, 0⟩,
             sysex := [] },
           { type := SND_SEQ_EVENT_NOTEOFF, port := 0, tick := 96, data := ⟨0, 60, 64, 0⟩,
             sysex := [] }]
    ∧ file_one_note_result.song_length_seconds = 1 / 2
    ∧ file_one_note_result.PPQ = 96 := by
  refine ⟨?_, parseFile_file_one_note, by decide, rfl, rfl⟩
  obtain ⟨s0, -, h0⟩ := parseFile_success err content s s' rc h hrc
  obtain ⟨n, sh, s1, rc1, hh, ht, -, hf⟩ := read_smf_success err s0 s' rc h0 hrc
  obtain ⟨td, q, htd, hqt, g1, g2, g3, g4, g5, g6⟩ := read_smf_header_some err s0 sh n hh
  obtain ⟨l, e1, e2, e3, e4, e5⟩ := read_smf_tracks_emits n sh s1 rc1 ht
  obtain ⟨back, hb, f1, f2, f3, f4, f5, f6⟩ := read_smf_finish_ret s1 s' rc hf
  have hsh : sh.smpte_timing = 0 := by rw [← e3, ← f2]; exact hq
  have hband : ¬ (band td 0x8000 ≠ 0) := by
    intro hc
    rw [g1, if_pos hc] at hsh
    exact absurd hsh (by decide)
  have hq1 : q = (500000, td) := by
    unfold read_smf_tempo at hqt
    dsimp only at hqt
    rw [if_neg hband, if_pos rfl] at hqt
    exact (Option.some.inj hqt).symm
  have hl : ∀ e ∈ l, e.type ≠ SND_SEQ_EVENT_TEMPO := by
    intro e he
    apply hno
    rw [f1]
    exact (stable_sort_perm _).mem_iff.mpr (by rw [e1]; exact List.mem_append_right _ he)
  obtain ⟨e6, e7, e8⟩ := e5 (Or.inr hl)
  have hqq : s'.queue_tempo = q := by rw [f3, e4, g2]
  refine ⟨by rw [hqq, hq1], by rw [f4, e2, g3, hqq], back, by rw [f1]; exact hb, ?_⟩
  rw [f6, e6, g5, if_pos rfl, e8, g4, e2, g3, hqq, hq1]
  exact seconds_eq _ _ _


/-- The one-note file: tempo 500000, ppq 96, last tick 96, song length
96 * 500000 / (1000000 * 96). -/
theorem parseFile_no_tempo_witness :
    file_one_note_result.queue_tempo.1 = 500000
      ∧ file_one_note_result.PPQ = (file_one_note_result.queue_tempo.2 : ℚ)
      ∧ ∃ back, file_one_note_result.all_events.getLast? = some back ∧
          file_one_note_result.song_length_seconds
            = (back.tick : ℚ) * 500000 / (1000000 * (file_one_note_result.queue_tempo.2 : ℚ)) :=
  (parseFile_no_tempo 0 file_one_note State.start file_one_note_result 1
    parseFile_file_one_note (by decide) rfl (by decide) (by decide)).1

/-- C10 on the code: for the file with a tempo change in each of two tracks
`parseFile` succeeds and leaves a song length of -1/8 second, while the
tempo-segment integral over the sorted timeline it leaves is 5/8 second: the
accumulation in `read_track` runs in parse order against the global
`prev_tick`. -/
theorem parseFile_two_tempo_tracks :
    parseFile 0 file_two_tempo_tracks State.start = .ret (1, file_two_tempo_tracks_result)
      ∧ file_two_tempo_tracks_result.song_length_seconds = -1 / 8
      ∧ tempo_integral 96 file_two_tempo_tracks_result.all_events = 5 / 8
      ∧ file_two_tempo_tracks_result.song_length_seconds
          ≠ tempo_integral file_two_tempo_tracks_result.PPQ
              file_two_tempo_tracks_result.all_events := by
  refine ⟨by decide!, rfl, by decide!, by decide!⟩

/-! ## The loop bounds of the model are never reached -/

theorem read_var_file_offset (s : State) :
    s.file_offset + 1 ≤ (read_var s).2.file_offset
      ∧ (read_var s).2.file_offset ≤ s.file_offset + 4 := by
  unfold read_var
  dsimp only
  split_ifs <;> simp only [read_byte_file_offset] <;> omega

theorem skip_loop_mono (n : Nat) (s : State) : s.file_offset ≤ (skip_loop n s).file_offset := by
  rw [skip_loop_file_offset]; omega

theorem skip_mono (n : Int) (s : State) : s.file_offset ≤ (skip n s).file_offset :=
  skip_loop_mono _ s

theorem sysex_loop_file_offset (n : Nat) (l : List Nat) (s : State) :
    (sysex_loop n l s).2.file_offset = s.file_offset + (n : Int) := by
  induction n generalizing l s with
  | zero => simp [sysex_loop]
  | succ n ih =>
    unfold sysex_loop
    dsimp only
    rw [ih, read_byte_file_offset]
    push_cast
    ring

theorem read_track_sysex_progress (tick : Int) (last_cmd port : Nat) (Event : event) (cmd : Nat)
    (s s' : State) (L' : Locals)
    (h : read_track_sysex tick last_cmd port Event cmd s = .next L' s') :
    s.file_offset + 1 ≤ s'.file_offset := by
  unfold read_track_sysex at h
  dsimp only at h
  split at h
  · cases h
  · cases h
    simp only [sysex_loop_file_offset]
    have := (read_var_file_offset s).1
    omega

theorem read_track_meta_progress (track_end tick : Int) (last_cmd port : Nat) (Event : event)
    (s s' : State) (L' : Locals)
    (h : read_track_meta track_end tick last_cmd port Event s = .next L' s') :
    s.file_offset + 2 ≤ s'.file_offset := by
  have h1 := read_byte_file_offset s
  have h2 := (read_var_file_offset (read_byte s).2).1
  unfold read_track_meta read_track_tempo at h
  dsimp only at h
  split_ifs at h <;> cases h
  · have := skip_mono (read_var (read_byte s).2).1 (read_var (read_byte s).2).2
    omega
  · have := skip_mono (read_var (read_byte s).2).1 (read_var (read_byte s).2).2
    omega
  · simp only
    refine le_trans ?_ (skip_mono _ _)
    simp only [read_byte_file_offset]
    omega
  · simp only [read_byte_file_offset]
    omega
  · have := skip_mono (read_var (read_byte s).2).1 (read_var (read_byte s).2).2
    omega

theorem read_track_dispatch_progress (track_end tick : Int) (last_cmd port : Nat)
    (Event : event) (cmd : Nat) (s s' : State) (L' : Locals)
    (h : read_track_dispatch track_end tick last_cmd port Event cmd s = .next L' s') :
    s.file_offset + 1 ≤ s'.file_offset := by
  unfold read_track_dispatch at h
  dsimp only at h
  split at h
  · cases h; simp only [read_byte_file_offset]; omega
  split at h
  · cases h; simp only [read_byte_file_offset]; omega
  split at h
  · split at h
    · exact read_track_sysex_progress _ _ _ _ _ _ _ _ h
    split at h
    · have := read_track_meta_progress _ _ _ _ _ _ _ _ h
      omega
    · cases h
  · cases h

/-- An iteration that stays in the loop moves the offset forward by at least
two bytes. -/
theorem read_track_body_progress (track_end : Int) (L L' : Locals) (s s' : State)
    (h : read_track_body track_end L s = .next L' s') :
    s.file_offset + 2 ≤ s'.file_offset := by
  have h1 := (read_var_file_offset s).1
  have h2 := read_byte_file_offset (read_var s).2
  unfold read_track_body at h
  dsimp only at h
  split at h
  · cases h
  split at h
  · cases h
  split at h
  · have := read_track_dispatch_progress _ _ _ _ _ _ _ _ _ h
    omega
  split at h
  · cases h
  · have := read_track_dispatch_progress _ _ _ _ _ _ _ _ _ h
    simp only [ungetc] at this
    omega

/-- With at least `track_end - file_offset` iterations allowed the loop of
`read_track` returns. -/
theorem read_track_loop_ret (track_end : Int) (fuel : Nat) (L : Locals) (s : State)
    (hf : (track_end - s.file_offset).toNat ≤ fuel) :
    ∃ rc s', read_track_loop track_end fuel L s = .ret (rc, s') := by
  induction fuel generalizing L s with
  | zero =>
    unfold read_track_loop
    rw [if_neg (by omega)]
    exact ⟨_, _, rfl⟩
  | succ n ih =>
    unfold read_track_loop
    split
    · dsimp only
      split
      · rename_i L1 s1 hb
        have := read_track_body_progress _ _ _ _ _ hb
        exact ih L1 s1 (by omega)
      · exact ⟨_, _, rfl⟩
    · exact ⟨_, _, rfl⟩

/-- The function `read_track` returns on every input. -/
theorem read_track_ret (track_end : Int) (s : State) :
    ∃ rc s', read_track track_end s = .ret (rc, s') :=
  read_track_loop_ret _ _ _ _ (le_refl _)


/-- A read that leaves the end-of-file indicator clear took one byte. -/
theorem read_byte_rest (s : State) (h : (read_byte s).2.eof = false) :
    (read_byte s).2.rest.length + 1 = s.rest.length ∧ s.eof = false := by
  unfold read_byte at h ⊢
  cases hr : s.rest with
  | nil => rw [hr] at h; simp at h
  | cons b r => rw [hr] at h; simp at h ⊢; exact h

theorem read_byte_rest_le (s : State) : (read_byte s).2.rest.length ≤ s.rest.length := by
  unfold read_byte
  cases hr : s.rest with
  | nil => simp [hr]
  | cons b r => simp

theorem read_32_le_rest (s : State) (h : (read_32_le s).2.eof = false) :
    (read_32_le s).2.rest.length + 4 = s.rest.length ∧ s.eof = false := by
  unfold read_32_le at h ⊢
  dsimp only at h ⊢
  obtain ⟨a4, b4⟩ := read_byte_rest _ h
  obtain ⟨a3, b3⟩ := read_byte_rest _ b4
  obtain ⟨a2, b2⟩ := read_byte_rest _ b3
  obtain ⟨a1, b1⟩ := read_byte_rest _ b2
  exact ⟨by omega, b1⟩

theorem read_int_loop_rest (n : Nat) (v : Int) (s : State)
    (h : (read_int_loop n v s).2.eof = false) :
    (read_int_loop n v s).2.rest.length + 1 ≤ s.rest.length ∧ s.eof = false := by
  induction n generalizing v s with
  | zero =>
    unfold read_int_loop at h ⊢
    dsimp only at h ⊢
    split at h
    · rename_i hc
      rw [if_pos hc]
      obtain ⟨a, b⟩ := read_byte_rest _ h
      exact ⟨by simp only; omega, b⟩
    · rename_i hc
      rw [if_neg hc]
      obtain ⟨a, b⟩ := read_byte_rest _ h
      exact ⟨by simp only; omega, b⟩
  | succ n ih =>
    unfold read_int_loop at h ⊢
    dsimp only at h ⊢
    split at h
    · rename_i hc
      rw [if_pos hc]
      obtain ⟨a, b⟩ := read_byte_rest _ h
      exact ⟨by simp only; omega, b⟩
    · rename_i hc
      rw [if_neg hc]
      obtain ⟨a, b⟩ := ih _ _ h
      obtain ⟨a1, b1⟩ := read_byte_rest _ b
      exact ⟨by omega, b1⟩

theorem skip_loop_rest_le (n : Nat) (s : State) : (skip_loop n s).rest.length ≤ s.rest.length := by
  induction n generalizing s with
  | zero => exact le_refl _
  | succ n ih =>
    unfold skip_loop
    exact le_trans (ih _) (read_byte_rest_le s)

theorem read_smf_search_body_rest (s t : State) (h : read_smf_search_body s = .inr t) :
    t.rest.length + 5 ≤ s.rest.length := by
  unfold read_smf_search_body at h
  dsimp only at h
  split at h
  · cases h
  rename_i he
  split at h
  · cases h
  split at h
  · cases h
  · cases h
    have he' : (read_int 4 (read_id s).2).2.eof = false := by simpa using he
    obtain ⟨a, b⟩ := read_int_loop_rest _ _ _ he'
    obtain ⟨a1, b1⟩ := read_32_le_rest _ b
    have := skip_loop_rest_le (read_int 4 (read_id s).2).1.toNat (read_int 4 (read_id s).2).2
    unfold skip
    unfold read_int read_id at *
    omega

/-- The chunk search returns when it may skip as many chunks as bytes are
left. -/
theorem read_smf_search_ret (fuel : Nat) (s : State) (hf : s.rest.length ≤ fuel) :
    ∃ r, read_smf_search fuel s = .ret r := by
  induction fuel generalizing s with
  | zero =>
    unfold read_smf_search
    split
    · exact ⟨_, rfl⟩
    · rename_i t hb
      have := read_smf_search_body_rest _ _ hb
      omega
  | succ n ih =>
    unfold read_smf_search
    split
    · exact ⟨_, rfl⟩
    · rename_i t hb
      have := read_smf_search_body_rest _ _ hb
      exact ih t (by omega)

theorem read_riff_search_body_rest (s t : State) (h : read_riff_search_body s = .inr t) :
    t.rest.length + 8 ≤ s.rest.length := by
  unfold read_riff_search_body at h
  dsimp only at h
  split at h
  · cases h
  rename_i he
  split at h
  · cases h
  split at h
  · cases h
  · cases h
    have he' : (read_32_le (read_id s).2).2.eof = false := by simpa using he
    obtain ⟨a, b⟩ := read_32_le_rest _ he'
    obtain ⟨a1, b1⟩ := read_32_le_rest _ b
    have := skip_loop_rest_le (band (wrap32 ((read_32_le (read_id s).2).1 + 1)) (-2)).toNat
      (read_32_le (read_id s).2).2
    unfold skip
    unfold read_id at *
    omega

theorem read_riff_search_ret (fuel : Nat) (s : State) (hf : s.rest.length ≤ fuel) :
    ∃ r, read_riff_search fuel s = .ret r := by
  induction fuel generalizing s with
  | zero =>
    unfold read_riff_search
    split
    · exact ⟨_, rfl⟩
    · rename_i t hb
      have := read_riff_search_body_rest _ _ hb
      omega
  | succ n ih =>
    unfold read_riff_search
    split
    · exact ⟨_, rfl⟩
    · rename_i t hb
      have := read_riff_search_body_rest _ _ hb
      exact ih t (by omega)

/-- The loop over the tracks returns on every input. -/
theorem read_smf_tracks_ret (n : Nat) (s : State) : ∃ r, read_smf_tracks n s = .ret r := by
  induction n generalizing s with
  | zero => exact ⟨_, rfl⟩
  | succ n ih =>
    unfold read_smf_tracks
    obtain ⟨⟨r, t⟩, hr⟩ := read_smf_search_ret s.rest.length s (le_refl _)
    rw [hr]
    cases r with
    | none => exact ⟨_, rfl⟩
    | some len =>
      dsimp only
      obtain ⟨rc, u, hu⟩ := read_track_ret (t.file_offset + len) t
      rw [hu]
      dsimp only
      split
      · exact ⟨_, rfl⟩
      · exact ih u.next_call

/-- The model of `read_smf` never stops for lack of iterations. -/
theorem read_smf_ne_nofuel (err : Int) (s : State) : read_smf err s ≠ .nofuel := by
  unfold read_smf
  split
  · simp
  · rename_i n t hh
    obtain ⟨⟨rc, u⟩, hu⟩ := read_smf_tracks_ret n t
    rw [hu]
    dsimp only
    split
    · simp
    · unfold read_smf_finish
      dsimp only
      split
      · simp
      · split <;> simp

theorem read_riff_ne_nofuel (err : Int) (s : State) : read_riff err s ≠ .nofuel := by
  unfold read_riff
  dsimp only
  split
  · simp
  · obtain ⟨⟨r, t⟩, hr⟩ := read_riff_search_ret
      (read_id (read_byte (read_byte (read_byte (read_byte s).2).2).2).2).2.rest.length
      (read_id (read_byte (read_byte (read_byte (read_byte s).2).2).2).2).2 (le_refl _)
    rw [hr]
    cases r with
    | false => simp
    | true =>
      dsimp only
      split
      · simp
      · exact read_smf_ne_nofuel _ _

/-- The model of `parseFile` never stops for lack of iterations: on every
input it returns or meets the undefined `all_events.back()`. -/
theorem parseFile_ne_nofuel (err : Int) (content : List Byte) (s : State) :
    parseFile err content s ≠ .nofuel := by
  unfold parseFile
  dsimp only
  split
  · exact read_smf_ne_nofuel _ _
  · split
    · exact read_riff_ne_nofuel _ _
    · simp

/-! ## The events one loop iteration of `read_track` pushes -/

theorem band_0x7f_le (c : Int) : (band c 0x7f).toNat ≤ 127 := by
  have h1 : toU32 0x7f = 127 := by decide
  have h2 : toU32 c &&& 127 ≤ 127 := Nat.and_le_right
  unfold band
  rw [h1, ofU32_ofNat _ (by omega)]
  simpa using h2

theorem and_0x0f_le (cmd : Nat) : cmd &&& 0x0f ≤ 15 := Nat.and_le_right

theorem pushed_one {s t : State} {port : Nat} {tick : Int} (e : event) (hv : t.vars = s.vars)
    (he : pushed_with port tick e) :
    ∃ l, Emits s { t with all_events := t.all_events ++ [e] } l
      ∧ ∀ x ∈ l, pushed_with port tick x :=
  ⟨[e], Emits.push hv e, fun x hx => by rw [List.mem_singleton.mp hx]; exact he⟩

theorem pushed_none {s t : State} (port : Nat) (tick : Int) (hv : t.vars = s.vars) :
    ∃ l, Emits s t l ∧ ∀ x ∈ l, pushed_with port tick x :=
  ⟨[], Emits.of_vars hv, fun x hx => by cases hx⟩

theorem read_track_sysex_pushed (tick : Int) (last_cmd port : Nat) (Event : event) (cmd : Nat)
    (s : State) :
    ∃ l, Emits s (read_track_sysex tick last_cmd port Event cmd s).state l
      ∧ ∀ x ∈ l, pushed_with port tick x := by
  unfold read_track_sysex
  dsimp only
  split
  · exact pushed_none _ _ (read_var_vars s)
  · refine pushed_one _ (by rw [sysex_loop_vars, read_var_vars]) ⟨rfl, rfl, ?_, ?_⟩
    · intro h
      rcases h with h | h | h | h | h <;> cases h
    · intro h
      rcases h with h | h <;> cases h

theorem read_track_meta_pushed (track_end tick : Int) (last_cmd port : Nat) (Event : event)
    (s : State) :
    ∃ l, Emits s (read_track_meta track_end tick last_cmd port Event s).state l
      ∧ ∀ x ∈ l, pushed_with port tick x := by
  have hv : (read_var (read_byte s).2).2.vars = s.vars := by rw [read_var_vars, read_byte_vars]
  unfold read_track_meta
  dsimp only
  split
  · exact pushed_none _ _ hv
  split
  · split
    · exact pushed_none _ _ hv
    · exact pushed_none _ _ (by rw [Step.state, skip_vars, hv])
  split
  · exact pushed_none _ _ (by rw [Step.state, skip_vars, hv])
  split
  · split
    · exact pushed_none _ _ hv
    split
    · exact pushed_none _ _ (by rw [Step.state, skip_vars, hv])
    · rename_i hs
      have hs0 : s.smpte_timing = 0 := by
        have := (vars_eq hv).1
        rw [this] at hs
        simpa using hs
      have h3 : (read_byte (read_byte (read_byte (read_var (read_byte s).2).2).2).2).2.vars
          = s.vars := by
        simp only [read_byte_vars, hv]
      unfold read_track_tempo
      refine ⟨_, Emits.tempo h3 hs0 _ rfl _ _ _ _, fun x hx => ?_⟩
      rw [List.mem_singleton.mp hx]
      refine ⟨rfl, rfl, ?_, ?_⟩
      · intro h
        rcases h with h | h | h | h | h <;> cases h
      · intro h
        rcases h with h | h <;> cases h
  split
  · split
    · exact pushed_none _ _ hv
    · refine ⟨[], ?_, fun x hx => by cases hx⟩
      have h2 : (read_byte (read_byte (read_var (read_byte s).2).2).2).2.vars = s.vars := by
        simp only [read_byte_vars, hv]
      obtain ⟨h1, h2, h3', h4, h5, h6, h7, h8, h9⟩ := vars_eq h2
      exact ⟨by simp [Step.state, h9], h4, h1, h8, fun _ => ⟨h5, h2, h3'⟩⟩
  · exact pushed_none _ _ (by rw [Step.state, skip_vars, hv])

theorem read_track_dispatch_pushed (track_end tick : Int) (last_cmd port : Nat) (Event : event)
    (cmd : Nat) (s : State) :
    ∃ l, Emits s (read_track_dispatch track_end tick last_cmd port Event cmd s).state l
      ∧ ∀ x ∈ l, pushed_with port tick x := by
  unfold read_track_dispatch
  dsimp only
  split
  · refine pushed_one _ (by simp only [read_byte_vars]) ⟨rfl, rfl, ?_, ?_⟩
    · exact fun _ => ⟨and_0x0f_le cmd, band_0x7f_le _, band_0x7f_le _⟩
    · exact fun _ => ⟨and_0x0f_le cmd, band_0x7f_le _⟩
  split
  · rename_i h2 h1
    refine pushed_one _ (by simp only [read_byte_vars]) ⟨rfl, rfl, ?_, ?_⟩
    · intro h
      exfalso
      dsimp only at h
      rcases h1 with h1 | h1 <;> rw [h1] at h <;> revert h <;> decide
    · exact fun _ => ⟨and_0x0f_le cmd, band_0x7f_le _⟩
  split
  · split
    · exact read_track_sysex_pushed _ _ _ _ _ _
    split
    · exact read_track_meta_pushed _ _ _ _ _ _
    · exact pushed_none _ _ rfl
  · exact pushed_none _ _ rfl

theorem read_track_body_pushed (track_end : Int) (L : Locals) (s : State) :
    ∃ l, Emits s (read_track_body track_end L s).state l
      ∧ ∀ x ∈ l, pushed_with L.port (wrap32 (L.tick + (read_var s).1)) x := by
  unfold read_track_body
  dsimp only
  split
  · exact pushed_none _ _ (read_var_vars s)
  have hv : (read_byte (read_var s).2).2.vars = s.vars := by rw [read_byte_vars, read_var_vars]
  split
  · exact pushed_none _ _ hv
  split
  · obtain ⟨l, hl, hp⟩ := read_track_dispatch_pushed track_end (wrap32 (L.tick + (read_var s).1))
      (if (read_byte (read_var s).2).1.toNat < 0xf0 then (read_byte (read_var s).2).1.toNat
        else L.last_cmd) L.port L.Event (read_byte (read_var s).2).1.toNat
      (read_byte (read_var s).2).2
    exact ⟨_, (Emits.of_vars hv).trans hl, by simpa using hp⟩
  have hu : ({ ungetc (read_byte (read_var s).2).1 (read_byte (read_var s).2).2 with
      file_offset := (read_byte (read_var s).2).2.file_offset - 1 } : State).vars = s.vars := by
    rw [← hv]; rfl
  split
  · exact pushed_none _ _ hu
  · obtain ⟨l, hl, hp⟩ := read_track_dispatch_pushed track_end (wrap32 (L.tick + (read_var s).1))
      L.last_cmd L.port L.Event L.last_cmd
      { ungetc (read_byte (read_var s).2).1 (read_byte (read_var s).2).2 with
        file_offset := (read_byte (read_var s).2).2.file_offset - 1 }
    exact ⟨_, (Emits.of_vars hu).trans hl, by simpa using hp⟩

theorem read_track_body_next (track_end : Int) (L L' : Locals) (s s' : State)
    (h : read_track_body track_end L s = .next L' s') :
    0 ≤ (read_var s).1 ∧ L'.tick = wrap32 (L.tick + (read_var s).1) ∧ L'.port = L.port := by
  unfold read_track_body at h
  dsimp only at h
  split at h
  · cases h
  rename_i hd
  refine ⟨not_lt.mp hd, ?_⟩
  split at h
  · cases h
  split at h
  · obtain ⟨h1, -, h3⟩ := read_track_dispatch_next _ _ _ _ _ _ _ _ _ h
    exact ⟨h1, h3⟩
  split at h
  · cases h
  · obtain ⟨h1, -, h3⟩ := read_track_dispatch_next _ _ _ _ _ _ _ _ _ h
    exact ⟨h1, h3⟩

/-- Induction along the iterations of the loop of `read_track`. -/
theorem read_track_loop_induct (track_end : Int)
    (R : Locals → State → Int → State → Prop)
    (hend : ∀ L s, ¬ s.file_offset < track_end → R L s 0 s)
    (hexit : ∀ L s rc s', s.file_offset < track_end →
      read_track_body track_end L s = .exit rc s' → R L s rc s')
    (hnext : ∀ L s L1 s1 rc s', s.file_offset < track_end →
      read_track_body track_end L s = .next L1 s1 → R L1 s1 rc s' → R L s rc s')
    (fuel : Nat) (L : Locals) (s s' : State) (rc : Int)
    (h : read_track_loop track_end fuel L s = .ret (rc, s')) : R L s rc s' := by
  induction fuel generalizing L s with
  | zero =>
    unfold read_track_loop at h
    split at h
    · simp at h
    · rename_i hlt
      simp only [Run.ret.injEq, Prod.mk.injEq] at h
      rw [← h.1, ← h.2]
      exact hend L s hlt
  | succ n ih =>
    unfold read_track_loop at h
    split at h
    · rename_i hlt
      dsimp only at h
      split at h
      · rename_i L1 s1 hb
        exact hnext L s L1 s1 rc s' hlt hb (ih L1 s1 h)
      · rename_i rc1 s1 hb
        simp only [Run.ret.injEq, Prod.mk.injEq] at h
        rw [← h.1, ← h.2]
        exact hexit L s rc1 s1 hlt hb
    · rename_i hlt
      simp only [Run.ret.injEq, Prod.mk.injEq] at h
      rw [← h.1, ← h.2]
      exact hend L s hlt

/-! ## C11: a file without events -/

theorem read_smf_finish_nil (s : State) (h : s.all_events = []) :
    read_smf_finish s = .undef := by
  have hs : stable_sort tick_comp [] = [] := by
    unfold stable_sort
    exact List.mergeSort_nil
  unfold read_smf_finish
  rw [h]
  simp only [hs, List.getLast?_nil]

/-- A parse that returns a non-zero code leaves a non-empty event list. -/
theorem parseFile_success_nonempty (err : Int) (content : List Byte) (s s' : State) (rc : Int)
    (h : parseFile err content s = .ret (rc, s')) (hrc : rc ≠ 0) : s'.all_events ≠ [] := by
  obtain ⟨s0, -, h0⟩ := parseFile_success err content s s' rc h hrc
  obtain ⟨n, sh, s1, rc1, -, -, -, hf⟩ := read_smf_success err s0 s' rc h0 hrc
  obtain ⟨back, hb, he, -⟩ := read_smf_finish_ret s1 s' rc hf
  rw [he]
  intro hnil
  rw [hnil] at hb
  cases hb

/-- C11 on the code: on `file_no_events` the header and the track are accepted,
`all_events` stays empty, and `read_smf` evaluates `all_events.back()` on the
empty vector, which is undefined behaviour; the parse does not return 1 with
a song length of 0. -/
theorem parseFile_no_events :
    parseFile 0 file_no_events State.start = .undef := by decide!

/-! ## C13: the port of the events -/

theorem read_track_port_meta_eval :
    read_track 13 { State.start with rest := track_port_meta }
      = .ret (1, track_port_meta_result) := by decide!

theorem read_track_loop_pushed (track_end : Int) (fuel : Nat) (L : Locals) (s s' : State)
    (rc : Int) (h : read_track_loop track_end fuel L s = .ret (rc, s')) :
    ∃ l, Emits s s' l ∧ ∀ e ∈ l, e.port = L.port ∧ channel_voice_masked e := by
  refine read_track_loop_induct track_end
    (fun L s _ s' => ∃ l, Emits s s' l ∧ ∀ e ∈ l, e.port = L.port ∧ channel_voice_masked e)
    ?_ ?_ ?_ fuel L s s' rc h
  · intro L s _
    exact ⟨[], Emits.of_vars rfl, fun e he => by cases he⟩
  · intro L s rc s' _ hb
    obtain ⟨l, hl, hp⟩ := read_track_body_pushed track_end L s
    rw [hb] at hl
    exact ⟨l, hl, fun e he => ⟨(hp e he).1, (hp e he).2.2⟩⟩
  · intro L s L1 s1 rc s' _ hb ⟨m, hm, hq⟩
    obtain ⟨l, hl, hp⟩ := read_track_body_pushed track_end L s
    rw [hb] at hl
    obtain ⟨-, -, hport⟩ := read_track_body_next track_end L L1 s s1 hb
    refine ⟨l ++ m, hl.trans hm, fun e he => ?_⟩
    rcases List.mem_append.mp he with he | he
    · exact ⟨(hp e he).1, (hp e he).2.2⟩
    · rw [← hport]
      exact hq e he

/-- C13 on the code: after the port meta-event `FF 21 01 05` the note-on of
`track_port_meta` is pushed with port 0, not 5. -/
theorem read_track_port_meta_example :
    read_track 13 { State.start with rest := track_port_meta }
        = .ret (1, track_port_meta_result)
      ∧ track_port_meta_result.all_events.map event.port = [0] :=
  ⟨read_track_port_meta_eval, rfl⟩

/-- C13, amended: `read_track` never assigns its local `port` (the port
meta-event only skips its payload), so every event a call of `read_track`
appends to `all_events` has port 0, whether it fails or succeeds. -/
theorem read_track_port_zero (track_end : Int) (s s' : State) (rc : Int)
    (h : read_track track_end s = .ret (rc, s')) :
    ∃ l, s'.all_events = s.all_events ++ l ∧ ∀ e ∈ l, e.port = 0 := by
  obtain ⟨l, hl, hp⟩ := read_track_loop_pushed _ _ _ _ _ _ h
  exact ⟨l, hl.1, fun e he => (hp e he).1⟩

theorem read_track_port_zero_witness :
    ∃ l, track_port_meta_result.all_events
        = ({ State.start with rest := track_port_meta } : State).all_events ++ l
      ∧ ∀ e ∈ l, e.port = 0 :=
  read_track_port_zero 13 { State.start with rest := track_port_meta } track_port_meta_result 1
    read_track_port_meta_eval

/-! ## C16: channel-voice events -/

theorem and_0x0f_eq (cmd : Nat) : cmd &&& 0x0f = cmd % 16 :=
  Nat.and_pow_two_sub_one_eq_mod cmd 4

theorem read_track_dispatch_channel (track_end tick : Int) (last_cmd port : Nat)
    (Event : event) (cmd : Nat) (t : State) (d1 d2 : Byte) (r : List Byte)
    (hc : 0x80 ≤ cmd ∧ cmd < 0xf0) (ht : t.rest = d1 :: d2 :: r) :
    ∃ L' t' e, read_track_dispatch track_end tick last_cmd port Event cmd t = .next L' t' ∧
      t'.all_events = t.all_events ++ [e] ∧ e.type = cmd_type (cmd / 16) ∧
      e.data.b0 = cmd % 16 ∧ e.data.b1 = d1.val % 128 ∧
      (if cmd / 16 = 0xc ∨ cmd / 16 = 0xd then t'.rest = d2 :: r
       else e.data.b2 = d2.val % 128 ∧ t'.rest = r) := by
  have hx : cmd >>> 4 = cmd / 16 := Nat.shiftRight_eq_div_pow cmd 4
  have r1 := read_byte_cons t d1 (d2 :: r) ht
  have r2 := read_byte_cons (read_byte t).2 d2 r (by rw [r1])
  have b1 : (band (read_byte t).1 0x7f).toNat = d1.val % 128 := by
    rw [r1]
    simp only [band_0x7f_byte, Int.toNat_ofNat]
  have b2 : (band (read_byte (read_byte t).2).1 0x7f).toNat = d2.val % 128 := by
    rw [r2]
    simp only [band_0x7f_byte, Int.toNat_ofNat]
  have a1 : (read_byte t).2.all_events = t.all_events :=
    (vars_eq (read_byte_vars t)).2.2.2.2.2.2.2.2
  have a2 : (read_byte (read_byte t).2).2.all_events = t.all_events :=
    ((vars_eq (read_byte_vars (read_byte t).2)).2.2.2.2.2.2.2.2).trans a1
  unfold read_track_dispatch
  dsimp only
  rw [hx]
  split
  · rename_i h2
    refine ⟨_, _, _, rfl, congrArg (fun l => l ++ [_]) a2, rfl, and_0x0f_eq cmd, b1, ?_⟩
    rw [if_neg (by omega)]
    refine ⟨b2, ?_⟩
    show (read_byte (read_byte t).2).2.rest = r
    rw [r2]
  split
  · rename_i h2 h1
    refine ⟨_, _, _, rfl, congrArg (fun l => l ++ [_]) a1, rfl, and_0x0f_eq cmd, b1, ?_⟩
    show (read_byte t).2.rest = d2 :: r
    rw [r1]
  · omega

/-- C16: every event a call of `read_track` appends keeps the channel-voice
bounds (channel nibble at most 15, each data byte read at most 127), and for
an effective status byte `cmd` in 0x80..0xEF on a stream holding `d1 d2` the
dispatch pushes exactly one event, of the kind of the high nibble, with
channel `cmd % 16` and first data byte `d1 % 128`; for the nibbles C and D it
reads that one byte, for the others also `d2`, stored as `d2 % 128`. -/
theorem read_track_channel_voice (track_end : Int) (s s' : State) (rc : Int)
    (h : read_track track_end s = .ret (rc, s'))
    (tick : Int) (last_cmd port : Nat) (Event : event) (cmd : Nat) (t : State)
    (d1 d2 : Byte) (r : List Byte) (hc : 0x80 ≤ cmd ∧ cmd < 0xf0) (ht : t.rest = d1 :: d2 :: r) :
    (∃ l, s'.all_events = s.all_events ++ l ∧ ∀ e ∈ l, channel_voice_masked e) ∧
    ∃ L' t' e, read_track_dispatch track_end tick last_cmd port Event cmd t = .next L' t' ∧
      t'.all_events = t.all_events ++ [e] ∧ e.type = cmd_type (cmd / 16) ∧
      e.data.b0 = cmd % 16 ∧ e.data.b1 = d1.val % 128 ∧
      (if cmd / 16 = 0xc ∨ cmd / 16 = 0xd then t'.rest = d2 :: r
       else e.data.b2 = d2.val % 128 ∧ t'.rest = r) := by
  obtain ⟨l, hl, hp⟩ := read_track_loop_pushed _ _ _ _ _ _ h
  exact ⟨⟨l, hl.1, fun e he => (hp e he).2⟩,
    read_track_dispatch_channel track_end tick last_cmd port Event cmd t d1 d2 r hc ht⟩

theorem read_track_channel_voice_witness :
    (∃ l, track_port_meta_result.all_events
        = ({ State.start with rest := track_port_meta } : State).all_events ++ l
      ∧ ∀ e ∈ l, channel_voice_masked e) ∧
    ∃ L' t' e, read_track_dispatch 13 5 0x91 0 Event_init 0x91 state_note_on_data = .next L' t' ∧
      t'.all_events = state_note_on_data.all_events ++ [e] ∧ e.type = cmd_type (0x91 / 16) ∧
      e.data.b0 = 0x91 % 16 ∧ e.data.b1 = (0x40 : Byte).val % 128 ∧
      (if 0x91 / 16 = 0xc ∨ 0x91 / 16 = 0xd then t'.rest = 0x7F :: [0x00, 0xFF, 0x2F, 0x00]
       else e.data.b2 = (0x7F : Byte).val % 128 ∧ t'.rest = [0x00, 0xFF, 0x2F, 0x00]) :=
  read_track_channel_voice 13 { State.start with rest := track_port_meta }
    track_port_meta_result 1 read_track_port_meta_eval 5 0x91 0 Event_init 0x91
    state_note_on_data 0x40 0x7F [0x00, 0xFF, 0x2F, 0x00] (by decide) rfl

/-! ## C14: how far a meta-event moves the offset -/

theorem read_track_meta_advance (track_end tick : Int) (last_cmd port : Nat) (Event : event)
    (s s' : State) (L' : Locals)
    (h : read_track_meta track_end tick last_cmd port Event s = .next L' s') :
    s'.file_offset = (read_var (read_byte s).2).2.file_offset
      + (if (read_byte s).1 = 0x59 then 2 else (read_var (read_byte s).2).1) := by
  unfold read_track_meta at h
  dsimp only at h
  split at h
  · cases h
  rename_i hlen
  split at h
  · rename_i hc
    split at h
    · cases h
    · cases h
      rw [hc, if_neg (by decide), skip_file_offset _ (by omega)]
  split at h
  · cases h
  split at h
  · rename_i hc
    split at h
    · cases h
    split at h
    · cases h
      rw [hc, if_neg (by decide), skip_file_offset _ (by omega)]
    · unfold read_track_tempo at h
      cases h
      rw [hc, if_neg (by decide)]
      dsimp only
      rw [skip_file_offset _ (by omega)]
      simp only [read_byte_file_offset]
      omega
  split at h
  · rename_i hc
    split at h
    · cases h
    · cases h
      rw [if_pos hc]
      simp only [read_byte_file_offset]
      omega
  · rename_i hc
    cases h
    rw [if_neg hc, skip_file_offset _ (by omega)]

/-- C14 on the code: the key-signature case reads two bytes and never skips
the rest of its declared length. For `FF 59 03 02 00 7F` the length field ends
at offset 4 and declares 3 bytes, the case leaves the offset at 6, and the
stray `7F` is then taken as a delta-time: `read_track` returns 0 on
`track_key_signature`. -/
theorem read_track_key_signature_len3 :
    (read_var (read_byte state_key_signature).2).1 = 3
      ∧ (read_var (read_byte state_key_signature).2).2.file_offset = 4
      ∧ (read_track_meta 11 0 0 0 Event_init state_key_signature).state.file_offset = 6
      ∧ read_track 11 { State.start with rest := track_key_signature }
          = .ret (0, track_key_signature_result) := by
  refine ⟨by decide!, by decide!, by decide!, by decide!⟩

/-! ## C15: the payload of SysEx events -/

theorem sysex_loop_append (n : Nat) (l : List Nat) (s : State) :
    ∃ m, (sysex_loop n l s).1 = l ++ m ∧ m.length = n := by
  induction n generalizing l s with
  | zero => exact ⟨[], by simp [sysex_loop], rfl⟩
  | succ n ih =>
    unfold sysex_loop
    dsimp only
    obtain ⟨m, hm, hn⟩ := ih (l ++ [toU32 (read_byte s).1 % 256]) (read_byte s).2
    exact ⟨toU32 (read_byte s).1 % 256 :: m, by rw [hm, List.append_assoc]; rfl, by simp [hn]⟩

theorem read_track_sysex_accumulates (tick : Int) (last_cmd port : Nat) (Event : event)
    (cmd : Nat) (s s' : State) (L' : Locals)
    (h : read_track_sysex tick last_cmd port Event cmd s = .next L' s') :
    s'.all_events = s.all_events ++ [L'.Event] ∧ ∃ m, L'.Event.sysex = Event.sysex ++ m := by
  unfold read_track_sysex at h
  dsimp only at h
  split at h
  · cases h
  · cases h
    dsimp only
    constructor
    · have hv := (vars_eq (sysex_loop_vars
        ((if cmd = 0xf0 then (read_var s).1 + 1 else (read_var s).1)
          - (if cmd = 0xf0 then 1 else 0)).toNat
        (if cmd = 0xf0 then Event.sysex ++ [0xf0] else Event.sysex) (read_var s).2)).2.2.2.2.2.2.2.2
      rw [hv, (vars_eq (read_var_vars s)).2.2.2.2.2.2.2.2]
    · obtain ⟨m, hm, -⟩ := sysex_loop_append
        ((if cmd = 0xf0 then (read_var s).1 + 1 else (read_var s).1)
          - (if cmd = 0xf0 then 1 else 0)).toNat
        (if cmd = 0xf0 then Event.sysex ++ [0xf0] else Event.sysex) (read_var s).2
      rw [hm]
      split
      · exact ⟨[0xf0] ++ m, by rw [List.append_assoc]⟩
      · exact ⟨m, rfl⟩

/-- C15 on the code: `Event.sysex` is never cleared between the iterations of
`read_track`, so the second SysEx event of `track_two_sysex` (`F0 02 7D F7`)
carries the payload `F0 7E F7 F0 7D F7` with recorded length 3, not
`F0 7D F7`. -/
theorem read_track_two_sysex :
    read_track 14 { State.start with rest := track_two_sysex }
        = .ret (1, track_two_sysex_result)
      ∧ track_two_sysex_result.all_events.map event.sysex
          = [[0xF0, 0x7E, 0xF7], [0xF0, 0x7E, 0xF7, 0xF0, 0x7D, 0xF7]]
      ∧ track_two_sysex_result.all_events.map (fun e => e.data.length) = [3, 3] := by
  refine ⟨by decide!, rfl, rfl⟩

/-! ## C18: the event list after a failure -/

theorem read_smf_failure (err : Int) (s s' : State) (h : read_smf err s = .ret (0, s')) :
    ∃ l, s'.all_events = s.all_events ++ l := by
  unfold read_smf at h
  rcases hh : read_smf_header err s with ⟨_ | n, sh⟩
  · rw [hh] at h
    simp only [Run.ret.injEq, Prod.mk.injEq, true_and] at h
    rw [← h]
    exact ⟨[], by rw [read_smf_header_vars err s sh none hh, List.append_nil]⟩
  · rw [hh] at h
    simp only at h
    have hs := read_smf_header_vars err s sh (some n) hh
    rcases ht : read_smf_tracks n sh with ⟨rc1, s1⟩ | _ | _
    · rw [ht] at h
      simp only at h
      obtain ⟨l, hl⟩ := read_smf_tracks_emits n sh s1 rc1 ht
      by_cases h0 : rc1 = 0
      · rw [if_pos h0] at h
        simp only [Run.ret.injEq, Prod.mk.injEq, true_and] at h
        rw [← h]
        exact ⟨l, by rw [hl.1, hs]⟩
      · rw [if_neg h0] at h
        exact absurd (read_smf_finish_events s1 s' 0 h).2 (by decide)
    · rw [ht] at h; simp at h
    · rw [ht] at h; simp at h

theorem read_riff_failure (err : Int) (s s' : State) (h : read_riff err s = .ret (0, s')) :
    ∃ l, s'.all_events = s.all_events ++ l := by
  have hv : (read_id (read_byte (read_byte (read_byte (read_byte s).2).2).2).2).2.vars
      = s.vars := by
    simp only [read_id_vars, read_byte_vars]
  unfold read_riff at h
  dsimp only at h
  split at h
  · simp only [Run.ret.injEq, Prod.mk.injEq, true_and] at h
    rw [← h]
    exact ⟨[], by rw [(vars_eq hv).2.2.2.2.2.2.2.2, List.append_nil]⟩
  · split at h
    · rename_i s1 hs
      simp only [Run.ret.injEq, Prod.mk.injEq, true_and] at h
      rw [← h]
      have h1 := (read_riff_search_vars _ _ _ _ hs).trans hv
      exact ⟨[], by rw [(vars_eq h1).2.2.2.2.2.2.2.2, List.append_nil]⟩
    · rename_i s1 hs
      have h1 := (read_riff_search_vars _ _ _ _ hs).trans hv
      split at h
      · simp only [Run.ret.injEq, Prod.mk.injEq, true_and] at h
        rw [← h]
        have h2 := (read_id_vars s1).trans h1
        exact ⟨[], by rw [(vars_eq h2).2.2.2.2.2.2.2.2, List.append_nil]⟩
      · obtain ⟨l, hl⟩ := read_smf_failure err _ s' h
        have h2 := (read_id_vars s1).trans h1
        exact ⟨l, by rw [hl, (vars_eq h2).2.2.2.2.2.2.2.2]⟩
    · simp at h
    · simp at h

theorem parseFile_file_bad_second_track :
    parseFile 0 file_bad_second_track State.start = .ret (0, file_bad_second_track_result) := by
  decide!

/-- C18 on the code: on `file_bad_second_track` `parseFile` returns 0 and
leaves the two events of the first track in `all_events`. -/
theorem parseFile_bad_second_track :
    parseFile 0 file_bad_second_track State.start = .ret (0, file_bad_second_track_result)
      ∧ State.start.all_events = []
      ∧ file_bad_second_track_result.all_events.length = 2 :=
  ⟨parseFile_file_bad_second_track, rfl, rfl⟩

/-! ## C17: the ticks of the events of one track -/

theorem wrap32_add_wrap32 (a b : Int) : wrap32 (wrap32 a + b) = wrap32 (a + b) := by
  rw [wrap32_eq, wrap32_eq, wrap32_eq]
  omega

theorem toU32_wrap32 (a : Int) : toU32 (wrap32 a) = toU32 a := by
  have h := toU32_eq (wrap32 a)
  have h1 := wrap32_eq a
  have h2 := toU32_eq a
  omega

theorem tick_overflow_eval :
    read_track 107 { State.start with rest := track_tick_overflow }
      = .ret (1, track_tick_overflow_result) := by decide!

theorem tick_overflow_sums :
    ((read_track_tick_sums 107 { State.start with rest := track_tick_overflow }).map
        Prod.fst).drop 15 = [4294967280, 4563402735] := by decide!

theorem read_track_body_delta_neg (track_end : Int) (L : Locals) (s : State)
    (h : (read_var s).1 < 0) : read_track_body track_end L s = .exit 0 (read_var s).2 := by
  unfold read_track_body
  dsimp only
  rw [if_pos h]

theorem read_track_sums_head (sum d : Int) (l : List event) (tr : List (Int × event))
    (tick : Int) (hd : 0 ≤ d)
    (hp : ∀ x ∈ l, x.tick = toU32 tick) (ht : toU32 tick = toU32 (sum + d))
    (i2 : ∀ p ∈ tr, sum + d ≤ p.1 ∧ p.2.tick = toU32 p.1)
    (i3 : (tr.map Prod.fst).Pairwise (· ≤ ·)) :
    (l.map (fun e => (sum + d, e)) ++ tr).map Prod.snd = l ++ tr.map Prod.snd ∧
    (∀ p ∈ l.map (fun e => (sum + d, e)) ++ tr, sum ≤ p.1 ∧ p.2.tick = toU32 p.1) ∧
    ((l.map (fun e => (sum + d, e)) ++ tr).map Prod.fst).Pairwise (· ≤ ·) := by
  refine ⟨?_, ?_, ?_⟩
  · rw [List.map_append, List.map_map]
    congr 1
    exact List.map_id' l
  · intro p hp'
    rcases List.mem_append.mp hp' with hm | hm
    · obtain ⟨e, he, rfl⟩ := List.mem_map.mp hm
      exact ⟨by dsimp only; omega, by dsimp only; rw [hp e he, ht]⟩
    · exact ⟨by have := (i2 p hm).1; omega, (i2 p hm).2⟩
  · rw [List.map_append, List.map_map]
    refine List.pairwise_append.mpr ⟨?_, i3, ?_⟩
    · apply List.pairwise_of_forall_mem_list
      intro a ha b hb
      obtain ⟨e, -, rfl⟩ := List.mem_map.mp ha
      obtain ⟨e', -, rfl⟩ := List.mem_map.mp hb
      exact le_refl _
    · intro a ha b hb
      obtain ⟨e, -, rfl⟩ := List.mem_map.mp ha
      obtain ⟨p, hp', rfl⟩ := List.mem_map.mp hb
      exact (i2 p hp').1

theorem read_track_sums_spec (track_end : Int) (fuel : Nat) (sum : Int) (L : Locals)
    (s s' : State) (rc : Int)
    (h : read_track_loop track_end fuel L s = .ret (rc, s')) (hL : L.tick = wrap32 sum)
    (h0 : 0 ≤ sum) :
    s'.all_events = s.all_events ++ (read_track_sums track_end fuel sum L s).map Prod.snd ∧
    (∀ p ∈ read_track_sums track_end fuel sum L s, sum ≤ p.1 ∧ p.2.tick = toU32 p.1) ∧
    ((read_track_sums track_end fuel sum L s).map Prod.fst).Pairwise (· ≤ ·) := by
  induction fuel generalizing sum L s with
  | zero =>
    unfold read_track_loop at h
    split at h
    · simp at h
    · cases h
      simp [read_track_sums]
  | succ n ih =>
    unfold read_track_loop at h
    unfold read_track_sums
    split at h
    · rename_i hlt
      rw [if_pos hlt]
      dsimp only at h
      by_cases hd : (read_var s).1 < 0
      · rw [if_pos hd]
        rw [read_track_body_delta_neg track_end L s hd] at h
        cases h
        have ha := (vars_eq (read_var_vars s)).2.2.2.2.2.2.2.2
        simp [ha]
      · rw [if_neg hd]
        obtain ⟨l, hl, hp⟩ := read_track_body_pushed track_end L s
        have hdrop : (read_track_body track_end L s).state.all_events.drop s.all_events.length
            = l := by
          rw [hl.1, List.drop_left]
        rw [hdrop]
        have ht : toU32 (wrap32 (L.tick + (read_var s).1)) = toU32 (sum + (read_var s).1) := by
          rw [hL, wrap32_add_wrap32, toU32_wrap32]
        split at h
        · rename_i L1 s1 hb
          rw [hb] at hl
          have hL1 : L1.tick = wrap32 (sum + (read_var s).1) := by
            rw [(read_track_body_next track_end L L1 s s1 hb).2.1, hL, wrap32_add_wrap32]
          obtain ⟨i1, i2, i3⟩ := ih (sum + (read_var s).1) L1 s1 h hL1 (by omega)
          obtain ⟨k1, k2, k3⟩ := read_track_sums_head sum (read_var s).1 l
            (read_track_sums track_end n (sum + (read_var s).1) L1 s1) _ (by omega)
            (fun x hx => (hp x hx).2.1) ht i2 i3
          try dsimp only
          refine ⟨?_, k2, k3⟩
          have hl1 : s1.all_events = s.all_events ++ l := hl.1
          rw [k1, i1, hl1, List.append_assoc]
        · rename_i rc1 s1 hb
          rw [hb] at hl
          cases h
          obtain ⟨k1, k2, k3⟩ := read_track_sums_head sum (read_var s).1 l [] _ (by omega)
            (fun x hx => (hp x hx).2.1) ht (fun p hp' => by cases hp') List.Pairwise.nil
          try dsimp only
          refine ⟨?_, k2, k3⟩
          have hl1 : s'.all_events = s.all_events ++ l := hl.1
          rw [k1, hl1]
          simp
    · rename_i hlt
      rw [if_neg hlt]
      cases h
      simp

/-- C17 on the code: the 17 delta-times of `track_tick_overflow` add up to
4563402735 at the last note-on, which is pushed with tick 268435439 after an
event with tick 4294967280: the counter is a 32-bit integer. -/
theorem read_track_tick_overflow :
    read_track 107 { State.start with rest := track_tick_overflow }
        = .ret (1, track_tick_overflow_result)
      ∧ (track_tick_overflow_result.all_events.map event.tick).drop 15
          = [4294967280, 268435439]
      ∧ ((read_track_tick_sums 107 { State.start with rest := track_tick_overflow }).map
          Prod.fst).drop 15 = [4294967280, 4563402735] :=
  ⟨tick_overflow_eval, by decide, tick_overflow_sums⟩

/-- C17, amended: the events a call of `read_track` appends are those of
`read_track_tick_sums`, each with the sum of the delta-times decoded up to and
including its own, counted from 0; its tick is that sum modulo 2^32, and when
the sums stay below 2^32 the tick is the sum itself and the ticks are
non-decreasing in the order of the pushes. -/
theorem read_track_ticks (track_end : Int) (s s' : State) (rc : Int)
    (h : read_track track_end s = .ret (rc, s')) :
    s'.all_events = s.all_events ++ (read_track_tick_sums track_end s).map Prod.snd ∧
    (∀ p ∈ read_track_tick_sums track_end s, 0 ≤ p.1 ∧ (p.2.tick : Int) = p.1 % 4294967296) ∧
    ((∀ p ∈ read_track_tick_sums track_end s, p.1 < 4294967296) →
      (∀ p ∈ read_track_tick_sums track_end s, (p.2.tick : Int) = p.1) ∧
      ((read_track_tick_sums track_end s).map (fun p => p.2.tick)).Pairwise (· ≤ ·)) := by
  obtain ⟨k1, k2, k3⟩ := read_track_sums_spec track_end _ 0 _ s s' rc h
    (show (0 : Int) = wrap32 0 by decide) (le_refl 0)
  have k4 : ∀ p ∈ read_track_tick_sums track_end s,
      0 ≤ p.1 ∧ (p.2.tick : Int) = p.1 % 4294967296 := by
    intro p hp
    obtain ⟨h1, h2⟩ := k2 p hp
    exact ⟨h1, by rw [h2, toU32_eq]⟩
  refine ⟨k1, k4, fun hlt => ?_⟩
  have k5 : ∀ p ∈ read_track_tick_sums track_end s, (p.2.tick : Int) = p.1 := by
    intro p hp
    rw [(k4 p hp).2, Int.emod_eq_of_lt (k4 p hp).1 (hlt p hp)]
  refine ⟨k5, ?_⟩
  rw [List.pairwise_map]
  rw [List.pairwise_map] at k3
  refine k3.imp_of_mem ?_
  intro a b ha hb hab
  have h1 := k5 a ha
  have h2 := k5 b hb
  omega

theorem running_status_track_eval :
    read_track 11 { State.start with rest := track_running_status }
      = .ret (1, track_running_status_result) := by decide!

theorem read_track_ticks_witness :
    (∀ p ∈ read_track_tick_sums 11 { State.start with rest := track_running_status },
        p.1 < 4294967296)
      ∧ track_running_status_result.all_events
          = ({ State.start with rest := track_running_status } : State).all_events
            ++ (read_track_tick_sums 11 { State.start with rest := track_running_status }).map
                Prod.snd
      ∧ (∀ p ∈ read_track_tick_sums 11 { State.start with rest := track_running_status },
          (p.2.tick : Int) = p.1)
      ∧ ((read_track_tick_sums 11 { State.start with rest := track_running_status }).map
          (fun p => p.2.tick)).Pairwise (· ≤ ·) :=
  ⟨by decide!,
    (read_track_ticks 11 { State.start with rest := track_running_status }
      track_running_status_result 1 running_status_track_eval).1,
    (read_track_ticks 11 { State.start with rest := track_running_status }
      track_running_status_result 1 running_status_track_eval).2.2 (by decide!)⟩

/-! ## C19 and C20: where a successful `read_track` leaves the stream -/

theorem read_byte_ends (E : Int) (s : State) (h : ends_at E s) : ends_at E (read_byte s).2 := by
  intro he
  obtain ⟨h1, h2⟩ := read_byte_rest s he
  have h3 := read_byte_file_offset s
  have h4 := h h2
  omega

theorem read_var_ends (E : Int) (s : State) (h : ends_at E s) : ends_at E (read_var s).2 := by
  have h1 := read_byte_ends E _ h
  have h2 := read_byte_ends E _ h1
  have h3 := read_byte_ends E _ h2
  have h4 := read_byte_ends E _ h3
  unfold read_var
  dsimp only
  split_ifs <;> assumption

theorem skip_loop_ends (E : Int) (n : Nat) (s : State) (h : ends_at E s) :
    ends_at E (skip_loop n s) := by
  induction n generalizing s with
  | zero => exact h
  | succ n ih =>
    unfold skip_loop
    exact ih _ (read_byte_ends E s h)

theorem skip_ends (E : Int) (n : Int) (s : State) (h : ends_at E s) : ends_at E (skip n s) :=
  skip_loop_ends E _ s h

theorem sysex_loop_ends (E : Int) (n : Nat) (l : List Nat) (s : State) (h : ends_at E s) :
    ends_at E (sysex_loop n l s).2 := by
  induction n generalizing l s with
  | zero => exact h
  | succ n ih =>
    unfold sysex_loop
    dsimp only
    exact ih _ _ (read_byte_ends E s h)

theorem read_track_sysex_ends (E tick : Int) (last_cmd port : Nat) (Event : event) (cmd : Nat)
    (s : State) (h : ends_at E s) :
    ends_at E (read_track_sysex tick last_cmd port Event cmd s).state := by
  unfold read_track_sysex
  dsimp only
  split
  · exact read_var_ends E s h
  · exact sysex_loop_ends E _ _ _ (read_var_ends E s h)

theorem read_track_meta_ends (E track_end tick : Int) (last_cmd port : Nat) (Event : event)
    (s s' : State) (L' : Locals) (h : ends_at E s)
    (hn : read_track_meta track_end tick last_cmd port Event s = .next L' s') :
    ends_at E s' := by
  have hv : ends_at E (read_var (read_byte s).2).2 := read_var_ends E _ (read_byte_ends E s h)
  unfold read_track_meta read_track_tempo at hn
  dsimp only at hn
  split_ifs at hn <;> cases hn
  · exact skip_ends E _ _ hv
  · exact skip_ends E _ _ hv
  · exact skip_ends E (_ - 3) _
      (read_byte_ends E _ (read_byte_ends E _ (read_byte_ends E _ hv)))
  · exact read_byte_ends E _ (read_byte_ends E _ hv)
  · exact skip_ends E _ _ hv

theorem read_track_dispatch_ends (E track_end tick : Int) (last_cmd port : Nat)
    (Event : event) (cmd : Nat) (s s' : State) (L' : Locals) (h : ends_at E s)
    (hn : read_track_dispatch track_end tick last_cmd port Event cmd s = .next L' s') :
    ends_at E s' := by
  unfold read_track_dispatch at hn
  dsimp only at hn
  split at hn
  · cases hn
    exact read_byte_ends E _ (read_byte_ends E _ h)
  split at hn
  · cases hn
    exact read_byte_ends E _ h
  split at hn
  · split at hn
    · have := read_track_sysex_ends E tick last_cmd port Event cmd s h
      rw [hn] at this
      exact this
    split at hn
    · exact read_track_meta_ends E _ _ _ _ _ _ _ _ h hn
    · cases hn
  · cases hn

theorem read_byte_nonneg (s : State) (h : 0 ≤ (read_byte s).1) :
    ∃ d r, s.rest = d :: r := by
  cases hr : s.rest with
  | nil =>
    rw [read_byte_nil s hr] at h
    simp at h
  | cons d r => exact ⟨d, r, rfl⟩

theorem read_track_body_ends (E track_end : Int) (L L' : Locals) (s s' : State)
    (h : ends_at E s) (hn : read_track_body track_end L s = .next L' s') : ends_at E s' := by
  have h1 : ends_at E (read_var s).2 := read_var_ends E s h
  have h2 : ends_at E (read_byte (read_var s).2).2 := read_byte_ends E _ h1
  unfold read_track_body at hn
  dsimp only at hn
  split at hn
  · cases hn
  rename_i hd
  split at hn
  · cases hn
  rename_i hc
  split at hn
  · exact read_track_dispatch_ends E _ _ _ _ _ _ _ _ _ h2 hn
  split at hn
  · cases hn
  · obtain ⟨d, r, hr⟩ := read_byte_nonneg _ (not_lt.mp hc)
    have he := read_var_nonneg_eof s (not_lt.mp hd)
    rw [unget_read_byte _ d r he hr] at hn
    exact read_track_dispatch_ends E _ _ _ _ _ _ _ _ _ h1 hn

theorem read_track_body_last_cmd (track_end : Int) (L L' : Locals) (s s' : State)
    (hL : L.last_cmd < 0xf0) (hn : read_track_body track_end L s = .next L' s') :
    L'.last_cmd < 0xf0 := by
  unfold read_track_body at hn
  dsimp only at hn
  split at hn
  · cases hn
  split at hn
  · cases hn
  split at hn
  · rw [(read_track_dispatch_next _ _ _ _ _ _ _ _ _ hn).2.1]
    split
    · assumption
    · exact hL
  split at hn
  · cases hn
  · rw [(read_track_dispatch_next _ _ _ _ _ _ _ _ _ hn).2.1]
    exact hL

theorem read_track_sysex_exit (tick : Int) (last_cmd port : Nat) (Event : event) (cmd : Nat)
    (s s' : State) (rc : Int)
    (h : read_track_sysex tick last_cmd port Event cmd s = .exit rc s') : rc = 0 := by
  unfold read_track_sysex at h
  dsimp only at h
  split at h
  · cases h; rfl
  · cases h

theorem read_track_meta_exit (track_end tick : Int) (last_cmd port : Nat) (Event : event)
    (s s' : State) (rc : Int)
    (h : read_track_meta track_end tick last_cmd port Event s = .exit rc s') (hrc : rc ≠ 0) :
    rc = 1 ∧ (read_byte s).1 = 0x2f ∧ 0 ≤ (read_var (read_byte s).2).1 ∧
      s' = skip (track_end - (read_var (read_byte s).2).2.file_offset)
            (read_var (read_byte s).2).2 := by
  unfold read_track_meta read_track_tempo at h
  dsimp only at h
  split_ifs at h <;> cases h <;> first | exact absurd rfl hrc | skip
  rename_i h1 h2 h3
  exact ⟨rfl, h3, not_lt.mp h1, rfl⟩

theorem read_track_dispatch_exit (track_end tick : Int) (last_cmd port : Nat) (Event : event)
    (cmd : Nat) (s s' : State) (rc : Int)
    (h : read_track_dispatch track_end tick last_cmd port Event cmd s = .exit rc s')
    (hrc : rc ≠ 0) :
    cmd = 0xff ∧ rc = 1 ∧ (read_byte s).1 = 0x2f ∧ 0 ≤ (read_var (read_byte s).2).1 ∧
      s' = skip (track_end - (read_var (read_byte s).2).2.file_offset)
            (read_var (read_byte s).2).2 := by
  unfold read_track_dispatch at h
  dsimp only at h
  split at h
  · cases h
  split at h
  · cases h
  split at h
  · split at h
    · exact absurd (read_track_sysex_exit _ _ _ _ _ _ _ _ h) hrc
    split at h
    · rename_i hc
      exact ⟨hc, read_track_meta_exit _ _ _ _ _ _ _ _ h hrc⟩
    · cases h
      exact absurd rfl hrc
  · cases h
    exact absurd rfl hrc

theorem read_track_body_exit (track_end : Int) (L : Locals) (s s' : State) (rc : Int)
    (hL : L.last_cmd < 0xf0) (h : read_track_body track_end L s = .exit rc s') (hrc : rc ≠ 0) :
    rc = 1 ∧ (read_byte (read_var s).2).1 = 0xff ∧
      (read_byte (read_byte (read_var s).2).2).1 = 0x2f ∧
      (after_meta_length s).eof = false ∧
      s' = skip (track_end - (after_meta_length s).file_offset) (after_meta_length s) := by
  unfold read_track_body at h
  dsimp only at h
  split at h
  · cases h
    exact absurd rfl hrc
  split at h
  · cases h
    exact absurd rfl hrc
  rename_i hc
  split at h
  · obtain ⟨h1, h2, h3, h4, h5⟩ := read_track_dispatch_exit _ _ _ _ _ _ _ _ _ h hrc
    refine ⟨h2, ?_, h3, read_var_nonneg_eof _ h4, h5⟩
    have := Int.toNat_of_nonneg (not_lt.mp hc)
    omega
  split at h
  · cases h
    exact absurd rfl hrc
  · obtain ⟨h1, -⟩ := read_track_dispatch_exit _ _ _ _ _ _ _ _ _ h hrc
    omega

theorem after_meta_length_ends (E : Int) (s : State) (h : ends_at E s) :
    ends_at E (after_meta_length s) :=
  read_var_ends E _ (read_byte_ends E _ (read_byte_ends E _ (read_var_ends E s h)))

theorem after_meta_length_offset (s : State) :
    (after_meta_length s).file_offset ≤ s.file_offset + 10 := by
  have h1 := (read_var_file_offset s).2
  have h2 := read_byte_file_offset (read_var s).2
  have h3 := read_byte_file_offset (read_byte (read_var s).2).2
  have h4 := (read_var_file_offset (read_byte (read_byte (read_var s).2).2).2).2
  unfold after_meta_length
  omega

/-- A call of `read_track` that returns a non-zero code left the loop in the
end-of-track case of an iteration that began in some state `t`. -/
theorem read_track_loop_success (E track_end : Int) (fuel : Nat) (L : Locals) (s s' : State)
    (rc : Int) (h : read_track_loop track_end fuel L s = .ret (rc, s'))
    (hL : L.last_cmd < 0xf0) (hrc : rc ≠ 0) :
    rc = 1 ∧ ∃ t, t.file_offset < track_end ∧ (read_byte (read_var t).2).1 = 0xff ∧
      (read_byte (read_byte (read_var t).2).2).1 = 0x2f ∧
      (after_meta_length t).eof = false ∧
      (ends_at E s → ends_at E (after_meta_length t)) ∧
      s' = skip (track_end - (after_meta_length t).file_offset) (after_meta_length t) := by
  refine read_track_loop_induct track_end
    (fun L s rc s' => L.last_cmd < 0xf0 → rc ≠ 0 →
      rc = 1 ∧ ∃ t, t.file_offset < track_end ∧ (read_byte (read_var t).2).1 = 0xff ∧
        (read_byte (read_byte (read_var t).2).2).1 = 0x2f ∧
        (after_meta_length t).eof = false ∧
        (ends_at E s → ends_at E (after_meta_length t)) ∧
        s' = skip (track_end - (after_meta_length t).file_offset) (after_meta_length t))
    ?_ ?_ ?_ fuel L s s' rc h hL hrc
  · intro L s _ _ h0
    exact absurd rfl h0
  · intro L s rc s' hlt hb hL hrc
    obtain ⟨h1, h2, h3, h4, h5⟩ := read_track_body_exit track_end L s s' rc hL hb hrc
    exact ⟨h1, s, hlt, h2, h3, h4, after_meta_length_ends E s, h5⟩
  · intro L s L1 s1 rc s' _ hb ih hL hrc
    obtain ⟨h1, t, h2, h3, h4, h5, h6, h7⟩ :=
      ih (read_track_body_last_cmd track_end L L1 s s1 hL hb) hrc
    exact ⟨h1, t, h2, h3, h4, h5,
      fun he => h6 (read_track_body_ends E track_end L L1 s s1 he hb), h7⟩

theorem skip_nonpos (n : Int) (h : n ≤ 0) (s : State) : skip n s = s := by
  unfold skip
  rw [Int.toNat_eq_zero.mpr h]
  rfl

theorem skip_to_offset (track_end : Int) (s : State) :
    (skip (track_end - s.file_offset) s).file_offset = max track_end s.file_offset := by
  by_cases h : s.file_offset ≤ track_end
  · rw [skip_file_offset _ (by omega), max_eq_left h]
    omega
  · rw [skip_nonpos _ (by omega), max_eq_right (by omega)]

/-! ## C20: the offset after a successful `read_track` -/

theorem eot_past_end_eval :
    read_track 7 { State.start with rest := stream_eot_past_end }
      = .ret (1, stream_eot_past_end_result) := by decide!

/-- C20 on the code: the loop guard is tested only at the start of an
iteration, so an end-of-track event that begins before the declared end 7 and
ends after it leaves the offset at 8; `skip` of a negative count does nothing. -/
theorem read_track_eot_past_end :
    read_track 7 { State.start with rest := stream_eot_past_end }
        = .ret (1, stream_eot_past_end_result)
      ∧ stream_eot_past_end_result.file_offset = 8 :=
  ⟨eot_past_end_eval, rfl⟩

/-! ## C19: a track chunk that ends after the input -/

theorem parseFile_file_truncated_last_track :
    parseFile 0 file_truncated_last_track State.start
      = .ret (1, file_truncated_last_track_result) := by decide!

theorem read_smf_search_truncated :
    read_smf_search state_truncated_tracks.rest.length state_truncated_tracks
      = .ret (some 20, state_truncated_track) := by decide!

theorem truncated_tracks_eval :
    read_smf_tracks 1 state_truncated_tracks = .ret (1, state_truncated_tracks_result) := by
  decide!

theorem skip_loop_eof (n : Nat) (s : State) (hr : s.rest = []) (he : s.eof = true) :
    (skip_loop n s).rest = [] ∧ (skip_loop n s).eof = true := by
  induction n generalizing s with
  | zero => exact ⟨hr, he⟩
  | succ n ih =>
    unfold skip_loop
    rw [read_byte_nil s hr]
    exact ih _ hr rfl

theorem skip_loop_past_end (n : Nat) (s : State) (h : s.rest.length < n) :
    (skip_loop n s).rest = [] ∧ (skip_loop n s).eof = true := by
  induction n generalizing s with
  | zero => omega
  | succ n ih =>
    unfold skip_loop
    cases hr : s.rest with
    | nil =>
      rw [read_byte_nil s hr]
      exact skip_loop_eof n _ hr rfl
    | cons d r =>
      rw [read_byte_cons s d r hr]
      exact ih _ (by rw [hr] at h; simp only [List.length_cons] at h ⊢; omega)

theorem read_32_le_nil (s : State) (hr : s.rest = []) : (read_32_le s).2.rest = [] := by
  have h1 := read_byte_nil s hr
  have r1 : (read_byte s).2.rest = [] := by rw [h1]; exact hr
  have h2 := read_byte_nil _ r1
  have r2 : (read_byte (read_byte s).2).2.rest = [] := by rw [h2]; exact r1
  have h3 := read_byte_nil _ r2
  have r3 : (read_byte (read_byte (read_byte s).2).2).2.rest = [] := by rw [h3]; exact r2
  have h4 := read_byte_nil _ r3
  have r4 : (read_byte (read_byte (read_byte (read_byte s).2).2).2).2.rest = [] := by
    rw [h4]; exact r3
  unfold read_32_le
  exact r4

theorem read_int_loop_nil (n : Nat) (v : Int) (s : State) (hr : s.rest = []) :
    (read_int_loop n v s).2.eof = true := by
  unfold read_int_loop
  dsimp only
  rw [read_byte_nil s hr]
  simp

theorem read_smf_search_nil (fuel : Nat) (s : State) (hr : s.rest = []) :
    ∃ t, read_smf_search fuel s = .ret (none, t) := by
  have he : (read_int 4 (read_id s).2).2.eof = true :=
    read_int_loop_nil _ _ _ (read_32_le_nil s hr)
  have hb : read_smf_search_body s = .inl (none, (read_int 4 (read_id s).2).2) := by
    unfold read_smf_search_body
    dsimp only
    rw [if_pos he]
  unfold read_smf_search
  rw [hb]
  exact ⟨_, rfl⟩

theorem read_track_truncated (track_end : Int) (t u : State) (rc : Int)
    (htr : t.file_offset + (t.rest.length : Int) < track_end)
    (h : read_track track_end t = .ret (rc, u)) (hrc : rc ≠ 0) :
    rc = 1 ∧ u.rest = [] ∧ u.eof = true ∧
    ∃ t0, t0.file_offset < track_end ∧ (read_byte (read_var t0).2).1 = 0xff ∧
      (read_byte (read_byte (read_var t0).2).2).1 = 0x2f ∧
      (after_meta_length t0).eof = false ∧
      u = skip (track_end - (after_meta_length t0).file_offset) (after_meta_length t0) := by
  obtain ⟨h1, t0, h2, h3, h4, h5, h6, h7⟩ :=
    read_track_loop_success (t.file_offset + (t.rest.length : Int)) track_end _ _ t u rc h
      (show (0 : Nat) < 240 by decide) hrc
  have hw := h6 (fun _ => rfl) h5
  have hp := skip_loop_past_end (track_end - (after_meta_length t0).file_offset).toNat
    (after_meta_length t0) (by omega)
  refine ⟨h1, ?_, ?_, t0, h2, h3, h4, h5, h7⟩
  · rw [h7]; exact hp.1
  · rw [h7]; exact hp.2

/-- C19 on the code: `file_truncated_last_track` declares a track of 20 bytes
and holds 12 of them, ending with the end-of-track event; `parseFile` returns
1 with the two-note timeline, the end-of-file indicator set by the `skip` of
the end-of-track case. -/
theorem parseFile_truncated_last_track :
    parseFile 0 file_truncated_last_track State.start
        = .ret (1, file_truncated_last_track_result)
      ∧ file_truncated_last_track.length = 34
      ∧ file_truncated_last_track_result.file_offset = 42
      ∧ file_truncated_last_track_result.eof = true :=
  ⟨parseFile_file_truncated_last_track, by decide, rfl, rfl⟩

/-! ## C12: what a parse takes from the state before it -/

theorem mapVars_rest (g : Vars → Vars) (s : State) : (s.mapVars g).rest = s.rest := rfl

theorem mapVars_eof (g : Vars → Vars) (s : State) : (s.mapVars g).eof = s.eof := rfl

theorem mapVars_file_offset (g : Vars → Vars) (s : State) :
    (s.mapVars g).file_offset = s.file_offset := rfl

theorem read_byte_mapVars (g : Vars → Vars) (s : State) :
    read_byte (s.mapVars g) = ((read_byte s).1, (read_byte s).2.mapVars g) := by
  unfold read_byte State.mapVars
  cases s.rest with
  | nil => rfl
  | cons b r => rfl

theorem read_32_le_mapVars (g : Vars → Vars) (s : State) :
    read_32_le (s.mapVars g) = ((read_32_le s).1, (read_32_le s).2.mapVars g) := by
  simp only [read_32_le, read_byte_mapVars, mapVars_eof]

theorem read_id_mapVars (g : Vars → Vars) (s : State) :
    read_id (s.mapVars g) = ((read_id s).1, (read_id s).2.mapVars g) := read_32_le_mapVars g s

theorem read_int_loop_mapVars (g : Vars → Vars) (n : Nat) (v : Int) (s : State) :
    read_int_loop n v (s.mapVars g)
      = ((read_int_loop n v s).1, (read_int_loop n v s).2.mapVars g) := by
  induction n generalizing v s with
  | zero =>
    unfold read_int_loop
    simp only [read_byte_mapVars]
    split <;> rfl
  | succ n ih =>
    unfold read_int_loop
    simp only [read_byte_mapVars]
    split
    · rfl
    · exact ih _ _

theorem read_int_mapVars (g : Vars → Vars) (n : Nat) (s : State) :
    read_int n (s.mapVars g) = ((read_int n s).1, (read_int n s).2.mapVars g) :=
  read_int_loop_mapVars g _ _ s

theorem read_var_mapVars (g : Vars → Vars) (s : State) :
    read_var (s.mapVars g) = ((read_var s).1, (read_var s).2.mapVars g) := by
  unfold read_var
  simp only [read_byte_mapVars, mapVars_eof]
  split_ifs <;> rfl

theorem skip_loop_mapVars (g : Vars → Vars) (n : Nat) (s : State) :
    skip_loop n (s.mapVars g) = (skip_loop n s).mapVars g := by
  induction n generalizing s with
  | zero => rfl
  | succ n ih => unfold skip_loop; rw [read_byte_mapVars]; exact ih _

theorem skip_mapVars (g : Vars → Vars) (n : Int) (s : State) :
    skip n (s.mapVars g) = (skip n s).mapVars g :=
  skip_loop_mapVars g _ s

theorem sysex_loop_mapVars (g : Vars → Vars) (n : Nat) (l : List Nat) (s : State) :
    sysex_loop n l (s.mapVars g) = ((sysex_loop n l s).1, (sysex_loop n l s).2.mapVars g) := by
  induction n generalizing l s with
  | zero => rfl
  | succ n ih => unfold sysex_loop; simp only [read_byte_mapVars]; exact ih _ _

theorem setKey_smpte_timing (k : Int × Bool) (s : State) :
    (s.mapVars (keyVars k)).smpte_timing = s.smpte_timing := rfl

theorem setKey_all_events (k : Int × Bool) (s : State) :
    (s.mapVars (keyVars k)).all_events = s.all_events := rfl

theorem setKey_mk_all_events (k : Int × Bool) (t : State) (X : List event) :
    State.mk (t.mapVars (keyVars k)).rest (t.mapVars (keyVars k)).eof
        (t.mapVars (keyVars k)).file_offset (t.mapVars (keyVars k)).smpte_timing
        (t.mapVars (keyVars k)).prev_tick (t.mapVars (keyVars k)).BPM
        (t.mapVars (keyVars k)).PPQ (t.mapVars (keyVars k)).song_length_seconds
        (t.mapVars (keyVars k)).sf (t.mapVars (keyVars k)).minor_key
        (t.mapVars (keyVars k)).queue_tempo X (t.mapVars (keyVars k)).residues
      = State.mapVars (keyVars k) { t with all_events := X } := rfl

theorem read_track_sysex_setKey (k : Int × Bool) (tick : Int) (last_cmd port : Nat)
    (Event : event) (cmd : Nat) (s : State) :
    read_track_sysex tick last_cmd port Event cmd (s.setKey k)
      = (read_track_sysex tick last_cmd port Event cmd s).setKey k := by
  unfold read_track_sysex State.setKey
  simp only [read_var_mapVars, sysex_loop_mapVars]
  split <;> rfl

theorem read_track_tempo_setKey (k : Int × Bool) (tick : Int) (last_cmd port : Nat)
    (Event : event) (len : Int) (s : State) :
    read_track_tempo tick last_cmd port Event len (s.setKey k)
      = (read_track_tempo tick last_cmd port Event len s).setKey k := by
  unfold read_track_tempo State.setKey
  simp only [read_byte_mapVars, setKey_mk_all_events, skip_mapVars]
  rfl

theorem read_track_meta_setKey (k : Int × Bool) (track_end tick : Int) (last_cmd port : Nat)
    (Event : event) (s : State) :
    read_track_meta track_end tick last_cmd port Event (s.setKey k)
        = (read_track_meta track_end tick last_cmd port Event s).setKey k
      ∨ read_track_meta track_end tick last_cmd port Event (s.setKey k)
        = read_track_meta track_end tick last_cmd port Event s := by
  have ht := read_track_tempo_setKey k tick last_cmd port Event
    (read_var (read_byte s).2).1 (read_var (read_byte s).2).2
  unfold State.setKey at ht
  by_cases h59 : (read_byte s).1 = 0x59 ∧ ¬ (read_var (read_byte s).2).1 < 2
  · right
    unfold read_track_meta State.setKey
    simp only [read_byte_mapVars, read_var_mapVars, skip_mapVars, mapVars_file_offset,
      setKey_smpte_timing]
    split_ifs <;> first | rfl | (exfalso; omega)
  · left
    unfold read_track_meta State.setKey
    simp only [read_byte_mapVars, read_var_mapVars, skip_mapVars, mapVars_file_offset,
      setKey_smpte_timing, ht]
    split_ifs <;> first | rfl | (exfalso; exact h59 ⟨by assumption, by assumption⟩)

theorem read_track_dispatch_setKey (k : Int × Bool) (track_end tick : Int)
    (last_cmd port : Nat) (Event : event) (cmd : Nat) (s : State) :
    read_track_dispatch track_end tick last_cmd port Event cmd (s.setKey k)
        = (read_track_dispatch track_end tick last_cmd port Event cmd s).setKey k
      ∨ read_track_dispatch track_end tick last_cmd port Event cmd (s.setKey k)
        = read_track_dispatch track_end tick last_cmd port Event cmd s := by
  have hs := read_track_sysex_setKey k tick last_cmd port Event cmd s
  unfold State.setKey at hs
  rcases read_track_meta_setKey k track_end tick last_cmd port Event s with hm | hm
  · left
    unfold State.setKey at hm
    unfold read_track_dispatch State.setKey
    simp only [read_byte_mapVars, hs, hm]
    split_ifs <;> rfl
  · by_cases hx : cmd >>> 4 = 0xf ∧ cmd = 0xff
    · right
      unfold State.setKey at hm
      unfold read_track_dispatch State.setKey
      simp only [read_byte_mapVars, hs, hm]
      split_ifs <;> first | rfl | (exfalso; omega)
    · left
      unfold read_track_dispatch State.setKey
      simp only [read_byte_mapVars, hs]
      split_ifs <;> first | rfl | (exfalso; exact hx ⟨by assumption, by assumption⟩)

theorem setKey_ungetc (k : Int × Bool) (c : Int) (t : State) :
    ({ ungetc c (t.mapVars (keyVars k)) with
        file_offset := (t.mapVars (keyVars k)).file_offset - 1 } : State)
      = State.mapVars (keyVars k) { ungetc c t with file_offset := t.file_offset - 1 } := rfl

theorem read_track_body_setKey (k : Int × Bool) (track_end : Int) (L : Locals) (s : State) :
    read_track_body track_end L (s.setKey k) = (read_track_body track_end L s).setKey k
      ∨ read_track_body track_end L (s.setKey k) = read_track_body track_end L s := by
  by_cases h1 : (read_var s).1 < 0
  · left
    unfold read_track_body State.setKey
    simp only [read_var_mapVars, if_pos h1]
    rfl
  by_cases h2 : (read_byte (read_var s).2).1 < 0
  · left
    unfold read_track_body State.setKey
    simp only [read_var_mapVars, read_byte_mapVars, if_neg h1, if_pos h2]
    rfl
  by_cases h3 : band (read_byte (read_var s).2).1 0x80 ≠ 0
  · rcases read_track_dispatch_setKey k track_end (wrap32 (L.tick + (read_var s).1))
      (if (read_byte (read_var s).2).1.toNat < 0xf0 then (read_byte (read_var s).2).1.toNat
        else L.last_cmd) L.port L.Event (read_byte (read_var s).2).1.toNat
      (read_byte (read_var s).2).2 with hd | hd
    · left
      unfold State.setKey at hd
      unfold read_track_body State.setKey
      simp only [read_var_mapVars, read_byte_mapVars, if_neg h1, if_neg h2, if_pos h3, hd]
    · right
      unfold State.setKey at hd
      unfold read_track_body State.setKey
      simp only [read_var_mapVars, read_byte_mapVars, if_neg h1, if_neg h2, if_pos h3, hd]
  by_cases h4 : L.last_cmd = 0
  · left
    unfold read_track_body State.setKey
    simp only [read_var_mapVars, read_byte_mapVars, if_neg h1, if_neg h2, if_neg h3, if_pos h4]
    rfl
  · rcases read_track_dispatch_setKey k track_end (wrap32 (L.tick + (read_var s).1))
      L.last_cmd L.port L.Event L.last_cmd
      { ungetc (read_byte (read_var s).2).1 (read_byte (read_var s).2).2 with
        file_offset := (read_byte (read_var s).2).2.file_offset - 1 } with hd | hd
    · left
      unfold State.setKey at hd
      unfold read_track_body State.setKey
      simp only [read_var_mapVars, read_byte_mapVars, if_neg h1, if_neg h2, if_neg h3,
        if_neg h4, setKey_ungetc, hd]
    · right
      unfold State.setKey at hd
      unfold read_track_body State.setKey
      simp only [read_var_mapVars, read_byte_mapVars, if_neg h1, if_neg h2, if_neg h3,
        if_neg h4, setKey_ungetc, hd]

theorem read_track_loop_setKey (k : Int × Bool) (track_end : Int) (fuel : Nat) (L : Locals)
    (s : State) :
    read_track_loop track_end fuel L (s.setKey k) = (read_track_loop track_end fuel L s).setKey k
      ∨ read_track_loop track_end fuel L (s.setKey k) = read_track_loop track_end fuel L s := by
  induction fuel generalizing L s with
  | zero =>
    left
    unfold read_track_loop
    simp only [State.setKey, mapVars_file_offset]
    split <;> rfl
  | succ n ih =>
    rcases read_track_body_setKey k track_end L s with hb | hb
    · cases hn : read_track_body track_end L s with
      | next L1 s1 =>
        rw [hn] at hb
        rcases ih L1 s1 with h1 | h1
        · left
          unfold read_track_loop
          rw [hb, hn]
          simp only [State.setKey, mapVars_file_offset, Step.setKey]
          split
          · exact h1
          · rfl
        · by_cases hlt : s.file_offset < track_end
          · right
            unfold read_track_loop
            rw [hb, hn]
            simp only [State.setKey, mapVars_file_offset, Step.setKey, if_pos hlt]
            exact h1
          · left
            unfold read_track_loop
            simp only [State.setKey, mapVars_file_offset, if_neg hlt]
            rfl
      | exit rc s1 =>
        rw [hn] at hb
        left
        unfold read_track_loop
        rw [hb, hn]
        simp only [State.setKey, mapVars_file_offset, Step.setKey]
        split <;> rfl
    · by_cases hlt : s.file_offset < track_end
      · right
        unfold read_track_loop
        rw [hb]
        simp only [State.setKey, mapVars_file_offset, if_pos hlt]
      · left
        unfold read_track_loop
        simp only [State.setKey, mapVars_file_offset, if_neg hlt]
        rfl

theorem read_track_setKey (k : Int × Bool) (track_end : Int) (s : State) :
    read_track track_end (s.setKey k) = (read_track track_end s).setKey k
      ∨ read_track track_end (s.setKey k) = read_track track_end s :=
  read_track_loop_setKey k track_end _ _ s

theorem read_smf_search_body_setKey (k : Int × Bool) (s : State) :
    read_smf_search_body (s.setKey k)
      = (match read_smf_search_body s with
          | .inl (r, t) => .inl (r, t.setKey k)
          | .inr t => .inr (t.setKey k)) := by
  unfold read_smf_search_body State.setKey
  simp only [read_id_mapVars, read_int_mapVars, mapVars_eof, skip_mapVars]
  split_ifs <;> rfl

theorem read_smf_search_setKey (k : Int × Bool) (fuel : Nat) (s : State) :
    read_smf_search fuel (s.setKey k) = (read_smf_search fuel s).setKey k := by
  induction fuel generalizing s with
  | zero =>
    unfold read_smf_search
    rw [read_smf_search_body_setKey]
    rcases read_smf_search_body s with ⟨r, t⟩ | t <;> rfl
  | succ n ih =>
    unfold read_smf_search
    rw [read_smf_search_body_setKey]
    rcases read_smf_search_body s with ⟨r, t⟩ | t
    · rfl
    · exact ih _

theorem read_smf_tracks_setKey (k : Int × Bool) (n : Nat) (s : State) :
    read_smf_tracks n (s.setKey k) = (read_smf_tracks n s).setKey k
      ∨ read_smf_tracks n (s.setKey k) = read_smf_tracks n s := by
  induction n generalizing s with
  | zero => left; rfl
  | succ n ih =>
    have hr : (s.setKey k).rest.length = s.rest.length := rfl
    unfold read_smf_tracks
    rw [hr, read_smf_search_setKey]
    rcases read_smf_search s.rest.length s with ⟨_ | len, t⟩ | _ | _
    · left; rfl
    · have ho : (t.setKey k).file_offset = t.file_offset := rfl
      simp only [Run.setKey, ho]
      rcases read_track_setKey k (t.file_offset + len) t with ht | ht
      · rw [ht]
        rcases read_track (t.file_offset + len) t with ⟨rc, u⟩ | _ | _
        · simp only [Run.setKey]
          by_cases h0 : rc = 0
          · left
            simp only [if_pos h0]
          · simp only [if_neg h0]
            exact ih u.next_call
        · left; rfl
        · left; rfl
      · right
        rw [ht]
    · left; rfl
    · left; rfl

theorem read_smf_finish_setKey (k : Int × Bool) (s : State) :
    read_smf_finish (s.setKey k) = (read_smf_finish s).setKey k := by
  unfold read_smf_finish
  simp only [show (s.setKey k).all_events = s.all_events from rfl,
    show (s.setKey k).song_length_seconds = s.song_length_seconds from rfl]
  split
  · rfl
  · split_ifs <;> rfl

theorem read_smf_header_mapVars_fst (g : Vars → Vars) (err : Int) (s : State) :
    (read_smf_header err (s.mapVars g)).1 = (read_smf_header err s).1 := by
  unfold read_smf_header
  simp only [read_int_mapVars]
  split_ifs <;> first | rfl | (split <;> rfl)

theorem mapVars_header (w : Vars) (t : State) (a : Int) (q : Int × Int) (p b : ℚ)
    (hev : w.2.2.2.2.2.2.2.2 = t.all_events) :
    ({ t.mapVars (fun _ => w) with
        smpte_timing := a, queue_tempo := q, PPQ := p, BPM := b, song_length_seconds := 0,
        prev_tick := 0 } : State)
      = State.setKey (w.2.2.2.2.2.1, w.2.2.2.2.2.2.1)
          { t with
            smpte_timing := a, queue_tempo := q, PPQ := p, BPM := b, song_length_seconds := 0,
            prev_tick := 0 } := by
  unfold State.setKey State.mapVars keyVars State.vars
  simp only [State.mk.injEq, true_and, and_true]
  exact hev

theorem read_smf_header_mapVars_snd (w : Vars) (err : Int) (s : State)
    (hev : w.2.2.2.2.2.2.2.2 = s.all_events) (n : Nat)
    (hn : (read_smf_header err s).1 = some n) :
    (read_smf_header err (s.mapVars (fun _ => w))).2
      = (read_smf_header err s).2.setKey (w.2.2.2.2.2.1, w.2.2.2.2.2.2.1) := by
  have h4 : (read_int 2 (read_int 2 (read_int 2 (read_int 4 s).2).2).2).2.all_events
      = s.all_events := by
    have : (read_int 2 (read_int 2 (read_int 2 (read_int 4 s).2).2).2).2.vars = s.vars := by
      simp only [read_int_vars]
    exact (vars_eq this).2.2.2.2.2.2.2.2
  unfold read_smf_header at hn ⊢
  simp only [read_int_mapVars]
  dsimp only at hn
  split_ifs at hn ⊢
  all_goals
    rcases hq : read_smf_tempo (read_int 2 (read_int 2 (read_int 2 (read_int 4 s).2).2).2).1
      with _ | q
    · rw [hq] at hn
      cases hn
    · rw [hq] at hn
      first
        | exact mapVars_header w _ _ _ _ _ (hev.trans h4.symm)
        | cases hn

theorem read_smf_mapVars (w : Vars) (err : Int) (s : State)
    (hev : w.2.2.2.2.2.2.2.2 = s.all_events) :
    (read_smf err (s.mapVars (fun _ => w))).success
        = ((read_smf err s).setKey (w.2.2.2.2.2.1, w.2.2.2.2.2.2.1)).success
      ∨ (read_smf err (s.mapVars (fun _ => w))).success = (read_smf err s).success := by
  have h1 := read_smf_header_mapVars_fst (fun _ => w) err s
  unfold read_smf
  rcases hh : read_smf_header err s with ⟨_ | n, sh⟩
  · right
    rcases hh' : read_smf_header err (s.mapVars (fun _ => w)) with ⟨r', sh'⟩
    rw [hh, hh'] at h1
    dsimp only at h1
    subst h1
    rfl
  · have h2 := read_smf_header_mapVars_snd w err s hev n (by rw [hh])
    rcases hh' : read_smf_header err (s.mapVars (fun _ => w)) with ⟨r', sh'⟩
    rw [hh, hh'] at h1
    rw [hh, hh'] at h2
    dsimp only at h1 h2
    subst h1 h2
    dsimp only
    rcases read_smf_tracks_setKey (w.2.2.2.2.2.1, w.2.2.2.2.2.2.1) n sh with ht | ht
    · left
      rw [ht]
      rcases read_smf_tracks n sh with ⟨rc, u⟩ | _ | _
      · simp only [Run.setKey]
        by_cases h0 : rc = 0
        · simp only [if_pos h0]
        · simp only [if_neg h0]
          rw [read_smf_finish_setKey]
          rfl
      · rfl
      · rfl
    · right
      rw [ht]

theorem read_riff_search_body_mapVars (g : Vars → Vars) (s : State) :
    read_riff_search_body (s.mapVars g)
      = (match read_riff_search_body s with
          | .inl (r, t) => .inl (r, t.mapVars g)
          | .inr t => .inr (t.mapVars g)) := by
  unfold read_riff_search_body
  simp only [read_id_mapVars, read_32_le_mapVars, mapVars_eof, skip_mapVars]
  split_ifs <;> rfl

theorem read_riff_search_mapVars (g : Vars → Vars) (fuel : Nat) (s : State) :
    read_riff_search fuel (s.mapVars g) = (read_riff_search fuel s).mapVars g := by
  induction fuel generalizing s with
  | zero =>
    unfold read_riff_search
    rw [read_riff_search_body_mapVars]
    rcases read_riff_search_body s with ⟨r, t⟩ | t <;> rfl
  | succ n ih =>
    unfold read_riff_search
    rw [read_riff_search_body_mapVars]
    rcases read_riff_search_body s with ⟨r, t⟩ | t
    · rfl
    · exact ih _

theorem read_riff_mapVars (w : Vars) (err : Int) (s : State)
    (hev : w.2.2.2.2.2.2.2.2 = s.all_events) :
    (read_riff err (s.mapVars (fun _ => w))).success
        = ((read_riff err s).setKey (w.2.2.2.2.2.1, w.2.2.2.2.2.2.1)).success
      ∨ (read_riff err (s.mapVars (fun _ => w))).success = (read_riff err s).success := by
  have hv : (read_id (read_byte (read_byte (read_byte (read_byte s).2).2).2).2).2.vars
      = s.vars := by
    simp only [read_id_vars, read_byte_vars]
  unfold read_riff
  simp only [read_byte_mapVars, read_id_mapVars, mapVars_rest, read_riff_search_mapVars]
  by_cases hid : (read_id (read_byte (read_byte (read_byte (read_byte s).2).2).2).2).1
      ≠ MAKE_ID 'R' 'M' 'I' 'D'
  · right
    simp only [if_pos hid]
    rfl
  · simp only [if_neg hid]
    rcases hs : read_riff_search
        (read_id (read_byte (read_byte (read_byte (read_byte s).2).2).2).2).2.rest.length
        (read_id (read_byte (read_byte (read_byte (read_byte s).2).2).2).2).2
      with ⟨_ | _, t⟩ | _ | _
    · right; rfl
    · simp only [Run.mapVars, read_id_mapVars]
      by_cases hm : (read_id t).1 ≠ MAKE_ID 'M' 'T' 'h' 'd'
      · right
        simp only [if_pos hm]
        rfl
      · simp only [if_neg hm]
        have h1 := (read_riff_search_vars _ _ _ _ hs).trans hv
        have h2 := (read_id_vars t).trans h1
        exact read_smf_mapVars w err _ (hev.trans (vars_eq h2).2.2.2.2.2.2.2.2.symm)
    · right; rfl
    · right; rfl

theorem parseFile_mapVars (w : Vars) (err : Int) (content : List Byte) (s : State)
    (hev : w.2.2.2.2.2.2.2.2 = s.all_events) :
    (parseFile err content (s.mapVars (fun _ => w))).success
        = ((parseFile err content s).setKey (w.2.2.2.2.2.1, w.2.2.2.2.2.2.1)).success
      ∨ (parseFile err content (s.mapVars (fun _ => w))).success
        = (parseFile err content s).success := by
  have ho : ({ s.mapVars (fun _ => w) with rest := content, eof := false, file_offset := 0 }
      : State) = State.mapVars (fun _ => w)
        { s with rest := content, eof := false, file_offset := 0 } := rfl
  have hv : (read_id { s with rest := content, eof := false, file_offset := 0 }).2.vars
      = s.vars := by
    rw [read_id_vars]; rfl
  have hev' := hev.trans (vars_eq hv).2.2.2.2.2.2.2.2.symm
  unfold parseFile
  simp only [ho, read_id_mapVars]
  split_ifs
  · exact read_smf_mapVars w err _ hev'
  · exact read_riff_mapVars w err _ hev'
  · right; rfl

theorem parseFile_file_key_signature :
    parseFile 0 file_key_signature State.start = .ret (1, file_key_signature_result) := by
  decide!

theorem parseFile_file_one_note_after_key :
    parseFile 0 file_one_note { file_key_signature_result with all_events := [] }
      = .ret (1, { file_one_note_result with sf := 2, minor_key := true }) := by
  decide!

theorem timeline_congr (r1 r2 : Run (Int × State)) (h : r1.success = r2.success) :
    r1.timeline = r2.timeline := by
  rcases r1 with ⟨rc1, t1⟩ | _ | _ <;> rcases r2 with ⟨rc2, t2⟩ | _ | _ <;>
    simp only [Run.success, Run.timeline] at h ⊢ <;>
    (try split_ifs at h ⊢) <;> simp_all

theorem timeline_setKey (k : Int × Bool) (r : Run (Int × State)) :
    (r.setKey k).timeline = r.timeline := by
  rcases r with ⟨rc, t⟩ | _ | _ <;> rfl

theorem success_ret (r : Run (Int × State)) (rc : Int) (s : State) (hrc : rc ≠ 0)
    (h : r.success = (Run.ret (rc, s)).success) : r = .ret (rc, s) := by
  rcases r with ⟨rc1, t1⟩ | _ | _ <;> simp only [Run.success, if_neg hrc] at h
  · split_ifs at h
    · simp at h
    · simp only [Run.ret.injEq, Option.some.injEq, Prod.mk.injEq] at h
      rw [h.1, h.2]
  · cases h
  · cases h

theorem parseFile_vars (err : Int) (content : List Byte) (s t : State)
    (hr : t.residues = s.residues) :
    parseFile err content s = parseFile err content (t.mapVars (fun _ => s.vars)) := by
  have e : ({ t.mapVars (fun _ => s.vars) with rest := content, eof := false, file_offset := 0 }
      : State) = { s with rest := content, eof := false, file_offset := 0 } := by
    simp only [State.mapVars, State.vars, hr]
  unfold parseFile
  dsimp only
  rw [e]

theorem setKey_self (s : State) : s.setKey (s.sf, s.minor_key) = s := rfl

/-- C12 on the code: `sf` and `minor_key` are written only by a key-signature
event and never reset, so `file_one_note`, which has none, parsed after
`file_key_signature` ends with the key signature of that file (2, minor)
while parsed first it ends with (0, major). -/
theorem parseFile_key_signature_leak :
    parseFile 0 file_key_signature State.start = .ret (1, file_key_signature_result)
      ∧ parseFile 0 file_one_note { file_key_signature_result with all_events := [] }
          = .ret (1, { file_one_note_result with sf := 2, minor_key := true })
      ∧ parseFile 0 file_one_note State.start = .ret (1, file_one_note_result)
      ∧ file_one_note_result.sf = 0 ∧ file_one_note_result.minor_key = false :=
  ⟨parseFile_file_key_signature, parseFile_file_one_note_after_key, parseFile_file_one_note,
    rfl, rfl⟩

/-! ## Big-endian and little-endian fields read from given bytes -/

theorem toU32_ofU32 (n : Nat) (h : n < 4294967296) : toU32 (ofU32 n) = n := by
  unfold ofU32
  split
  · exact toU32_ofNat n h
  · unfold toU32
    simp only
    omega

/-- Appending a byte: `(x << 8) | y`, taken in 32 bits. -/
theorem bor_shl8 (x y : Nat) (hx : x < 16777216) (hy : y < 256) :
    bor (shl (x : Int) 8) (y : Int) = ofU32 (x * 256 + y) := by
  have h1 : shl (x : Int) 8 = ofU32 (x * 256) := by
    unfold shl wrap32
    have : ((x : Int) * 2 ^ 8) = ((x * 256 : Nat) : Int) := by push_cast; ring
    rw [this, toU32_ofNat _ (by omega)]
  have h := Nat.mul_add_lt_is_or (i := 8) (b := y) (by omega) x
  rw [h1]
  unfold bor
  rw [toU32_ofU32 _ (by omega), toU32_ofNat y (by omega)]
  congr 1
  rw [Nat.mul_comm x 256]
  exact h.symm

theorem read_int_loop_zero_cons (v : Nat) (hv : v < 16777216) (s : State) (b : Byte)
    (r : List Byte) (hr : s.rest = b :: r) :
    read_int_loop 0 (v : Int) s
      = (ofU32 (v * 256 + b.val), { s with file_offset := s.file_offset + 1, rest := r }) := by
  unfold read_int_loop
  rw [read_byte_cons s b r hr]
  dsimp only
  rw [if_neg (by omega), bor_shl8 v b.val hv b.isLt]

theorem read_int_loop_succ_cons (n : Nat) (v : Nat) (hv : v < 65536) (s : State) (b : Byte)
    (r : List Byte) (hr : s.rest = b :: r) :
    read_int_loop (n + 1) (v : Int) s
      = read_int_loop n ((v * 256 + b.val : Nat) : Int)
          { s with file_offset := s.file_offset + 1, rest := r } := by
  have hb := b.isLt
  rw [read_int_loop]
  rw [read_byte_cons s b r hr]
  dsimp only
  rw [if_neg (by omega), bor_shl8 v b.val (by omega) b.isLt, ofU32_ofNat _ (by omega)]

/-- A 2-byte big-endian field read from the bytes `a b`. -/
theorem read_int_two (s : State) (a b : Byte) (r : List Byte) (hr : s.rest = a :: b :: r) :
    read_int 2 s
      = (((a.val * 256 + b.val : Nat) : Int),
          { s with file_offset := s.file_offset + 2, rest := r }) := by
  have ha := a.isLt
  have hb := b.isLt
  unfold read_int
  have h0 : ((0 : Nat) : Int) = 0 := rfl
  rw [← h0, read_int_loop_succ_cons 0 0 (by omega) s a (b :: r) hr,
    read_int_loop_zero_cons _ (by omega) _ b r rfl, ofU32_ofNat _ (by omega)]
  simp only [Prod.mk.injEq, State.mk.injEq, true_and, and_true, Nat.zero_mul, Nat.zero_add]
  omega

/-- A 4-byte big-endian field read from the bytes `a b c d`, as a 32-bit
`int`. -/
theorem read_int_four (s : State) (a b c d : Byte) (r : List Byte)
    (hr : s.rest = a :: b :: c :: d :: r) :
    read_int 4 s
      = (ofU32 (((a.val * 256 + b.val) * 256 + c.val) * 256 + d.val),
          { s with file_offset := s.file_offset + 4, rest := r }) := by
  have ha := a.isLt
  have hb := b.isLt
  have hc := c.isLt
  unfold read_int
  have h0 : ((0 : Nat) : Int) = 0 := rfl
  rw [← h0, read_int_loop_succ_cons 2 0 (by omega) s a (b :: c :: d :: r) hr,
    read_int_loop_succ_cons 1 _ (by omega) _ b (c :: d :: r) rfl,
    read_int_loop_succ_cons 0 _ (by omega) _ c (d :: r) rfl,
    read_int_loop_zero_cons _ (by omega) _ d r rfl]
  simp only [Prod.mk.injEq, State.mk.injEq, true_and, and_true, Nat.zero_mul, Nat.zero_add]
  omega

theorem shl_ofU32 (x k : Nat) (h : x * 2 ^ k < 4294967296) :
    shl (x : Int) k = ofU32 (x * 2 ^ k) := by
  unfold shl wrap32
  have : ((x : Int) * 2 ^ k) = ((x * 2 ^ k : Nat) : Int) := by push_cast; ring
  rw [this, toU32_ofNat _ h]

theorem bor_ofU32 (n m : Nat) (hn : n < 4294967296) (hm : m < 4294967296) :
    bor (ofU32 n) (ofU32 m) = ofU32 (n ||| m) := by
  unfold bor
  rw [toU32_ofU32 n hn, toU32_ofU32 m hm]

theorem ofU32_inj (n m : Nat) (hn : n < 4294967296) (hm : m < 4294967296)
    (h : ofU32 n = ofU32 m) : n = m := by
  have := congrArg toU32 h
  rwa [toU32_ofU32 n hn, toU32_ofU32 m hm] at this

/-- The value `read_32_le` builds from the bytes `b0 b1 b2 b3`. -/
theorem le_value (b0 b1 b2 b3 : Nat) (h0 : b0 < 256) (h1 : b1 < 256) (h2 : b2 < 256)
    (h3 : b3 < 256) :
    bor (bor (bor (b0 : Int) (shl (b1 : Int) 8)) (shl (b2 : Int) 16)) (shl (b3 : Int) 24)
      = ofU32 (b0 + 256 * b1 + 65536 * b2 + 16777216 * b3) := by
  have e1 := Nat.mul_add_lt_is_or (i := 8) (b := b0) (by omega) b1
  have e2 := Nat.mul_add_lt_is_or (i := 16) (b := 2 ^ 8 * b1 + b0) (by omega) b2
  have e3 := Nat.mul_add_lt_is_or (i := 24) (b := 2 ^ 16 * b2 + (2 ^ 8 * b1 + b0)) (by omega) b3
  rw [shl_ofU32 b1 8 (by omega), shl_ofU32 b2 16 (by omega), shl_ofU32 b3 24 (by omega),
    ← ofU32_ofNat b0 (by omega), bor_ofU32 _ _ (by omega) (by omega),
    Nat.lor_comm b0, Nat.mul_comm b1, ← e1, bor_ofU32 _ _ (by omega) (by omega),
    Nat.lor_comm, Nat.mul_comm b2, ← e2, bor_ofU32 _ _ (by omega) (by omega),
    Nat.lor_comm, Nat.mul_comm b3, ← e3]
  congr 1
  omega

theorem MAKE_ID_MTrk : MAKE_ID 'M' 'T' 'r' 'k' = ofU32 1802654797 := by decide!

theorem ascii_MTrk : ascii "MTrk" = [77, 84, 114, 107] := by decide

theorem read_id_four (s : State) (b0 b1 b2 b3 : Byte) (r : List Byte) (he : s.eof = false)
    (hr : s.rest = b0 :: b1 :: b2 :: b3 :: r) :
    read_id s
      = (ofU32 (b0.val + 256 * b1.val + 65536 * b2.val + 16777216 * b3.val),
          { s with file_offset := s.file_offset + 4, rest := r }) := by
  obtain ⟨rest, eof, off, a1, a2, a3, a4, a5, a6, a7, a8, a9⟩ := s
  simp only at he hr
  subst he hr
  rw [read_id, read_32_le_mk, le_value _ _ _ _ b0.isLt b1.isLt b2.isLt b3.isLt]
  simp only [Prod.mk.injEq, State.mk.injEq, true_and, and_true]
  omega

/-- The four bytes are the tag "MTrk" exactly when `read_id` gives its id. -/
theorem read_id_MTrk (b0 b1 b2 b3 : Byte) :
    ofU32 (b0.val + 256 * b1.val + 65536 * b2.val + 16777216 * b3.val)
        = MAKE_ID 'M' 'T' 'r' 'k'
      ↔ [b0, b1, b2, b3] = ascii "MTrk" := by
  have h0 := b0.isLt
  have h1 := b1.isLt
  have h2 := b2.isLt
  have h3 := b3.isLt
  rw [MAKE_ID_MTrk, ascii_MTrk]
  constructor
  · intro h
    have := ofU32_inj _ _ (by omega) (by omega) h
    simp only [List.cons.injEq, and_true]
    exact ⟨Fin.ext (show b0.val = 77 by omega), Fin.ext (show b1.val = 84 by omega),
      Fin.ext (show b2.val = 114 by omega), Fin.ext (show b3.val = 107 by omega)⟩
  · intro h
    simp only [List.cons.injEq, and_true] at h
    obtain ⟨rfl, rfl, rfl, rfl⟩ := h
    decide

/-! ## The iterations of `read_track` -/

theorem iterations_lt (track_end : Int) (fuel : Nat) (L : Locals) (s : State)
    (p : Locals × State) (hp : p ∈ read_track_iterations track_end fuel L s) :
    p.2.file_offset < track_end := by
  induction fuel generalizing L s with
  | zero => simp [read_track_iterations] at hp
  | succ n ih =>
    unfold read_track_iterations at hp
    split at hp
    · rename_i hlt
      rcases List.mem_cons.mp hp with rfl | hp
      · exact hlt
      · split at hp
        · exact ih _ _ hp
        · cases hp
    · cases hp

/-- An iteration of the list that leaves the function gives the result of the loop. -/
theorem iterations_exit (track_end : Int) (fuel : Nat) (L : Locals) (s : State)
    (p : Locals × State) (hp : p ∈ read_track_iterations track_end fuel L s)
    (rc : Int) (u : State) (hb : read_track_body track_end p.1 p.2 = .exit rc u) :
    read_track_loop track_end fuel L s = .ret (rc, u) := by
  induction fuel generalizing L s with
  | zero => simp [read_track_iterations] at hp
  | succ n ih =>
    unfold read_track_iterations at hp
    unfold read_track_loop
    split at hp
    · rename_i hlt
      rw [if_pos hlt]
      dsimp only
      rcases List.mem_cons.mp hp with rfl | hp
      · rw [hb]
      · split at hp
        · rename_i L1 s1 hn
          first | rw [hn] | skip
          exact ih _ _ hp
        · cases hp
    · cases hp

/-- A loop that returns a non-zero code was left by an iteration of the list. -/
theorem iterations_success (track_end : Int) (fuel : Nat) (L : Locals) (s : State)
    (rc : Int) (u : State) (h : read_track_loop track_end fuel L s = .ret (rc, u))
    (hrc : rc ≠ 0) :
    ∃ p ∈ read_track_iterations track_end fuel L s,
      read_track_body track_end p.1 p.2 = .exit rc u := by
  induction fuel generalizing L s with
  | zero =>
    unfold read_track_loop at h
    split at h
    · cases h
    · cases h
      exact absurd rfl hrc
  | succ n ih =>
    unfold read_track_loop at h
    unfold read_track_iterations
    split at h
    · rename_i hlt
      rw [if_pos hlt]
      dsimp only at h
      split at h
      · rename_i L1 s1 hn
        obtain ⟨p, hp, hb⟩ := ih _ _ h
        first | rw [hn] | skip
        exact ⟨p, List.mem_cons_of_mem _ hp, hb⟩
      · rename_i rc1 s1 hn
        cases h
        exact ⟨(L, s), List.mem_cons_self _ _, hn⟩
    · cases h
      exact absurd rfl hrc

/-- One iteration on a stream that holds the byte `d` after a delta-time that
decodes: the dispatch for `d` as status byte, or, when the high bit of `d` is
clear, the error exit without running status and otherwise the dispatch for
the running status on the stream that still holds `d`. -/
theorem read_track_body_eq (track_end : Int) (L : Locals) (s : State)
    (hd : 0 ≤ delta_time s) (d : Byte) (r : List Byte) (hr : (read_var s).2.rest = d :: r) :
    read_track_body track_end L s
      = if 0x80 ≤ d.val then
          read_track_dispatch track_end (wrap32 (L.tick + delta_time s))
            (if d.val < 0xf0 then d.val else L.last_cmd) L.port L.Event d.val
            (read_byte (read_var s).2).2
        else if L.last_cmd = 0 then .exit 0 (read_var s).2
        else
          read_track_dispatch track_end (wrap32 (L.tick + delta_time s)) L.last_cmd L.port
            L.Event L.last_cmd (read_var s).2 := by
  unfold delta_time at hd ⊢
  have he := read_var_nonneg_eof s hd
  have hu := unget_read_byte _ d r he hr
  have hrb := read_byte_cons _ d r hr
  have hc : (read_byte (read_var s).2).1 = (d.val : Int) := by rw [hrb]
  have hn : ¬ (read_byte (read_var s).2).1 < 0 := by rw [hc]; omega
  by_cases h80 : 0x80 ≤ d.val
  · have hb : band (read_byte (read_var s).2).1 0x80 ≠ 0 := by
      rw [hc, band_0x80_byte]; exact h80
    have ht : (read_byte (read_var s).2).1.toNat = d.val := by rw [hc]; rfl
    rw [if_pos h80]
    unfold read_track_body
    dsimp only
    rw [if_neg (by omega), if_neg hn, if_pos hb, ht]
  · have hb : ¬ (band (read_byte (read_var s).2).1 0x80 ≠ 0) := by
      rw [hc, band_0x80_byte]; exact h80
    rw [if_neg h80]
    unfold read_track_body
    dsimp only
    rw [if_neg (by omega), if_neg hn, if_neg hb, hu]

theorem status_byte_range (s : State) : -1 ≤ status_byte s ∧ status_byte s ≤ 255 := by
  unfold status_byte
  cases hr : (read_var s).2.rest with
  | nil =>
    rw [read_byte_nil _ hr]
    simp
  | cons d r =>
    rw [read_byte_cons _ d r hr]
    have := d.isLt
    simp only
    omega

theorem status_byte_cons (s : State) (h : 0 ≤ status_byte s) :
    ∃ (d : Byte) (r : List Byte), (read_var s).2.rest = d :: r ∧ status_byte s = (d.val : Int) := by
  unfold status_byte at h ⊢
  obtain ⟨d, r, hr⟩ := read_byte_nonneg _ h
  exact ⟨d, r, hr, by rw [read_byte_cons _ d r hr]⟩

/-- The running status after an iteration that stays in the loop. -/
theorem read_track_body_running (track_end : Int) (L L' : Locals) (s s' : State)
    (h : read_track_body track_end L s = .next L' s') :
    L'.last_cmd = next_last_cmd L.last_cmd (status_byte s) := by
  have hd : 0 ≤ delta_time s := (read_track_body_next track_end L L' s s' h).1
  have hc : 0 ≤ status_byte s := by
    by_contra hneg
    unfold read_track_body at h
    dsimp only at h
    unfold delta_time at hd
    unfold status_byte at hneg
    rw [if_neg (by omega), if_pos (by omega)] at h
    cases h
  obtain ⟨d, r, hr, hs⟩ := status_byte_cons s hc
  have hlt := d.isLt
  rw [read_track_body_eq track_end L s hd d r hr] at h
  unfold next_last_cmd
  rw [hs]
  split at h
  · rename_i h80
    rw [(read_track_dispatch_next _ _ _ _ _ _ _ _ _ h).2.1]
    by_cases hf : d.val < 0xf0
    · rw [if_pos hf, if_pos (by omega)]
      simp
    · rw [if_neg hf, if_neg (by omega)]
  · rename_i h80
    rw [if_neg (by omega)]
    split at h
    · cases h
    · exact (read_track_dispatch_next _ _ _ _ _ _ _ _ _ h).2.1

theorem read_track_iters_exit (track_end : Int) (s : State) (p : Locals × State)
    (hp : p ∈ read_track_iters track_end s) (rc : Int) (u : State)
    (hb : read_track_body track_end p.1 p.2 = .exit rc u) :
    read_track track_end s = .ret (rc, u) :=
  iterations_exit track_end _ _ s p hp rc u hb

theorem read_smf_tracks_fail (n : Nat) (s t u : State) (len : Int)
    (hs : read_smf_search s.rest.length s = .ret (some len, t))
    (ht : read_track (t.file_offset + len) t = .ret (0, u)) :
    read_smf_tracks (n + 1) s = .ret (0, u) := by
  unfold read_smf_tracks
  rw [hs]
  dsimp only
  rw [ht]
  dsimp only
  rw [if_pos rfl]

theorem read_smf_of_tracks_fail (err : Int) (s sh u : State) (n : Nat)
    (hh : read_smf_header err s = (some n, sh)) (ht : read_smf_tracks n sh = .ret (0, u)) :
    read_smf err s = .ret (0, u) := by
  unfold read_smf
  rw [hh]
  dsimp only
  rw [ht]
  dsimp only
  rw [if_pos rfl]

/-- The dispatch for a status byte 0xF0..0xFF: SysEx for F0 and F7, a
meta-event for FF, the error exit for every other value. -/
theorem read_track_dispatch_fx (track_end tick : Int) (last_cmd port : Nat) (Event : event)
    (cmd : Nat) (s : State) (h : 0xF0 ≤ cmd ∧ cmd ≤ 0xFF) :
    read_track_dispatch track_end tick last_cmd port Event cmd s
      = if cmd = 0xf0 ∨ cmd = 0xf7 then read_track_sysex tick last_cmd port Event cmd s
        else if cmd = 0xff then read_track_meta track_end tick last_cmd port Event s
        else .exit 0 s := by
  have hx : cmd >>> 4 = 0xf := by
    rw [Nat.shiftRight_eq_div_pow]
    omega
  unfold read_track_dispatch
  dsimp only
  rw [hx]
  simp only [Nat.reduceEqDiff, or_self, if_false, if_true]

theorem read_track_meta_short_tempo (track_end tick : Int) (last_cmd port : Nat)
    (Event : event) (s : State) (hc : (read_byte s).1 = 0x51)
    (hl : 0 ≤ (read_var (read_byte s).2).1 ∧ (read_var (read_byte s).2).1 < 3) :
    read_track_meta track_end tick last_cmd port Event s
      = .exit 0 (read_var (read_byte s).2).2 := by
  unfold read_track_meta
  dsimp only
  rw [if_neg (by omega), hc, if_neg (by decide), if_neg (by decide), if_pos rfl,
    if_pos (by omega)]

theorem read_track_meta_eot (track_end tick : Int) (last_cmd port : Nat)
    (Event : event) (s : State) (hc : (read_byte s).1 = 0x2f)
    (hl : 0 ≤ (read_var (read_byte s).2).1) :
    read_track_meta track_end tick last_cmd port Event s
      = .exit 1 (skip (track_end - (read_var (read_byte s).2).2.file_offset)
          (read_var (read_byte s).2).2) := by
  unfold read_track_meta
  dsimp only
  rw [if_neg (by omega), hc, if_neg (by decide), if_pos rfl]

/-- One iteration whose status byte is `c` in 0xF0..0xFF. -/
theorem read_track_body_fx (track_end : Int) (L : Locals) (s : State)
    (hd : 0 ≤ delta_time s) (h : 0xF0 ≤ status_byte s) :
    read_track_body track_end L s
      = if status_byte s = 0xf0 ∨ status_byte s = 0xf7 then
          read_track_sysex (wrap32 (L.tick + delta_time s)) L.last_cmd L.port L.Event
            (status_byte s).toNat (read_byte (read_var s).2).2
        else if status_byte s = 0xff then
          read_track_meta track_end (wrap32 (L.tick + delta_time s)) L.last_cmd L.port L.Event
            (read_byte (read_var s).2).2
        else .exit 0 (read_byte (read_var s).2).2 := by
  obtain ⟨d, r, hr, hs⟩ := status_byte_cons s (by omega)
  have hlt := d.isLt
  rw [read_track_body_eq track_end L s hd d r hr, hs]
  rw [hs] at h
  rw [if_pos (by omega), if_neg (by omega), read_track_dispatch_fx _ _ _ _ _ _ _ (by omega)]
  simp only [Int.toNat_ofNat]
  have e1 : ((d.val : Int) = 0xf0 ∨ (d.val : Int) = 0xf7) ↔ (d.val = 0xf0 ∨ d.val = 0xf7) := by
    omega
  have e2 : ((d.val : Int) = 0xff) ↔ (d.val = 0xff) := by omega
  simp only [e1, e2]
/-- Reading `k` tracks with success and then going on with `n` more is the
loop over `k + n` tracks. -/
theorem read_smf_tracks_add (k n : Nat) (s s0 : State)
    (h : read_smf_tracks k s = .ret (1, s0)) :
    read_smf_tracks (k + n) s = read_smf_tracks n s0 := by
  induction k generalizing s with
  | zero =>
    unfold read_smf_tracks at h
    simp only [Run.ret.injEq, Prod.mk.injEq, true_and] at h
    rw [h, Nat.zero_add]
  | succ k ih =>
    have e : k + 1 + n = (k + n) + 1 := by omega
    rw [e]
    unfold read_smf_tracks at h
    conv_lhs => unfold read_smf_tracks
    split at h
    · cases h
    · rename_i len t hs
      first | rw [hs] | skip
      try dsimp only
      split at h
      · rename_i rc u ht
        first | rw [ht] | skip
        try dsimp only
        split at h
        · cases h
        · rename_i hrc
          first | rw [if_neg hrc] | skip
          exact ih u.next_call h
      · cases h
      · cases h
    · cases h
    · cases h

/-- The whole decode fails when a track fails after `k` tracks were read. -/
theorem read_smf_track_fail (err : Int) (k n : Nat) (s sh s0 t u : State) (len : Int)
    (hh : read_smf_header err s = (some (k + (n + 1)), sh))
    (hk : read_smf_tracks k sh = .ret (1, s0))
    (hs : read_smf_search s0.rest.length s0 = .ret (some len, t))
    (ht : read_track (t.file_offset + len) t = .ret (0, u)) :
    read_smf err s = .ret (0, u) := by
  apply read_smf_of_tracks_fail err s sh u _ hh
  rw [read_smf_tracks_add k (n + 1) sh s0 hk]
  exact read_smf_tracks_fail n s0 t u len hs ht

/-- The whole decode fails when the chunk search fails after `k` tracks were
read. -/
theorem read_smf_search_fail (err : Int) (k n : Nat) (s sh s0 u : State)
    (hh : read_smf_header err s = (some (k + (n + 1)), sh))
    (hk : read_smf_tracks k sh = .ret (1, s0))
    (hs : read_smf_search s0.rest.length s0 = .ret (none, u)) :
    read_smf err s = .ret (0, u) := by
  apply read_smf_of_tracks_fail err s sh u _ hh
  rw [read_smf_tracks_add k (n + 1) sh s0 hk]
  unfold read_smf_tracks
  rw [hs]

/-! ## C22: a tempo meta-event shorter than three bytes -/

/-- C22: when an iteration of `read_track` decodes a delta-time, reads the
status byte FF and the type 51 and decodes a length below 3, it leaves the
function through `_error` right after the length field, whatever the SMPTE
flag is: no event is pushed and no variable changes, `read_track` returns 0,
and so does `read_smf` when this is one of the tracks it reads. -/
theorem read_track_short_tempo (track_end : Int) (s : State) (p : Locals × State)
    (hp : p ∈ read_track_iters track_end s)
    (hd : 0 ≤ delta_time p.2) (hs : status_byte p.2 = 0xff) (hm : meta_type p.2 = 0x51)
    (hl : 0 ≤ meta_length p.2 ∧ meta_length p.2 < 3) :
    read_track_body track_end p.1 p.2 = .exit 0 (after_meta_length p.2)
      ∧ (after_meta_length p.2).vars = p.2.vars
      ∧ read_track track_end s = .ret (0, after_meta_length p.2)
      ∧ ∀ (err : Int) (k n : Nat) (s00 sh s0 : State) (len : Int),
          read_smf_header err s00 = (some (k + (n + 1)), sh) →
          read_smf_tracks k sh = .ret (1, s0) →
          read_smf_search s0.rest.length s0 = .ret (some len, s) →
          track_end = s.file_offset + len →
          read_smf err s00 = .ret (0, after_meta_length p.2) := by
  have hb : read_track_body track_end p.1 p.2 = .exit 0 (after_meta_length p.2) := by
    rw [read_track_body_fx track_end p.1 p.2 hd (by omega), hs, if_neg (by decide),
      if_pos rfl]
    exact read_track_meta_short_tempo _ _ _ _ _ _ hm hl
  have ht := read_track_iters_exit track_end s p hp 0 _ hb
  refine ⟨hb, ?_, ht, ?_⟩
  · unfold after_meta_length
    simp only [read_var_vars, read_byte_vars]
  · intro err k n s00 sh s0 len hh hk h1 h2
    rw [h2] at ht
    exact read_smf_track_fail err k n s00 sh s0 s _ len hh hk h1 ht

theorem read_track_short_tempo_witness :
    read_track_body 10 ⟨0, 0, 0, Event_init⟩ state_short_tempo_smpte
        = .exit 0 (after_meta_length state_short_tempo_smpte)
      ∧ read_track 10 state_short_tempo_smpte
        = .ret (0, after_meta_length state_short_tempo_smpte) :=
  ⟨(read_track_short_tempo 10 state_short_tempo_smpte
      (⟨0, 0, 0, Event_init⟩, state_short_tempo_smpte)
      (by decide!) (by decide!) (by decide!) (by decide!) (by decide!)).1,
    (read_track_short_tempo 10 state_short_tempo_smpte
      (⟨0, 0, 0, Event_init⟩, state_short_tempo_smpte)
      (by decide!) (by decide!) (by decide!) (by decide!) (by decide!)).2.2.1⟩

/-! ## C24: the status bytes F1..F6 and F8..FE -/

/-- C24: an iteration of `read_track` whose byte at the status position is
`c` in 0xF0..0xFF is the SysEx case for F0 and F7, the meta case for FF, and
the error exit for every other `c`. So when an iteration of a call reads a
status byte in F1..F6 or F8..FE after a delta-time that decodes, it leaves
through `_error` right after that byte without pushing an event,
`read_track` returns 0, and so does `read_smf` when this is one of the tracks
it reads. -/
theorem read_track_invalid_status (track_end : Int) (s : State) (p : Locals × State)
    (hp : p ∈ read_track_iters track_end s) (hd : 0 ≤ delta_time p.2)
    (hs : (0xF1 ≤ status_byte p.2 ∧ status_byte p.2 ≤ 0xF6)
      ∨ (0xF8 ≤ status_byte p.2 ∧ status_byte p.2 ≤ 0xFE)) :
    read_track_body track_end p.1 p.2 = .exit 0 (read_byte (read_var p.2).2).2
      ∧ (read_byte (read_var p.2).2).2.all_events = p.2.all_events
      ∧ read_track track_end s = .ret (0, (read_byte (read_var p.2).2).2)
      ∧ (∀ (err : Int) (k n : Nat) (s00 sh s0 : State) (len : Int),
          read_smf_header err s00 = (some (k + (n + 1)), sh) →
          read_smf_tracks k sh = .ret (1, s0) →
          read_smf_search s0.rest.length s0 = .ret (some len, s) →
          track_end = s.file_offset + len →
          read_smf err s00 = .ret (0, (read_byte (read_var p.2).2).2))
      ∧ ∀ (L : Locals) (t : State), 0 ≤ delta_time t → 0xF0 ≤ status_byte t →
          read_track_body track_end L t
            = if status_byte t = 0xf0 ∨ status_byte t = 0xf7 then
                read_track_sysex (wrap32 (L.tick + delta_time t)) L.last_cmd L.port L.Event
                  (status_byte t).toNat (read_byte (read_var t).2).2
              else if status_byte t = 0xff then
                read_track_meta track_end (wrap32 (L.tick + delta_time t)) L.last_cmd L.port
                  L.Event (read_byte (read_var t).2).2
              else .exit 0 (read_byte (read_var t).2).2 := by
  have hb : read_track_body track_end p.1 p.2 = .exit 0 (read_byte (read_var p.2).2).2 := by
    rw [read_track_body_fx track_end p.1 p.2 hd (by omega), if_neg (by omega),
      if_neg (by omega)]
  have ht := read_track_iters_exit track_end s p hp 0 _ hb
  refine ⟨hb, ?_, ht, ?_, fun L t h1 h2 => read_track_body_fx track_end L t h1 h2⟩
  · have hv : (read_byte (read_var p.2).2).2.vars = p.2.vars := by
      simp only [read_var_vars, read_byte_vars]
    exact (vars_eq hv).2.2.2.2.2.2.2.2
  · intro err k n s00 sh s0 len hh hk h1 h2
    rw [h2] at ht
    exact read_smf_track_fail err k n s00 sh s0 s _ len hh hk h1 ht

theorem read_track_invalid_status_witness :
    read_track_body 11 iteration_invalid_status.1 iteration_invalid_status.2
        = .exit 0 (read_byte (read_var iteration_invalid_status.2).2).2
      ∧ (read_byte (read_var iteration_invalid_status.2).2).2.all_events
        = iteration_invalid_status.2.all_events
      ∧ read_track 11 { State.start with rest := track_invalid_status }
        = .ret (0, (read_byte (read_var iteration_invalid_status.2).2).2) :=
  ⟨(read_track_invalid_status 11 { State.start with rest := track_invalid_status }
      iteration_invalid_status (by decide!) (by decide!) (by decide!)).1,
    (read_track_invalid_status 11 { State.start with rest := track_invalid_status }
      iteration_invalid_status (by decide!) (by decide!) (by decide!)).2.1,
    (read_track_invalid_status 11 { State.start with rest := track_invalid_status }
      iteration_invalid_status (by decide!) (by decide!) (by decide!)).2.2.1⟩

/-! ## The running status along the iterations -/

theorem foldl_next_last_cmd (pre : List (Locals × State)) (lc : Nat)
    (h : ∀ q ∈ pre, ¬ (0x80 ≤ status_byte q.2 ∧ status_byte q.2 ≤ 0xEF)) :
    pre.foldl (fun lc q => next_last_cmd lc (status_byte q.2)) lc = lc := by
  induction pre generalizing lc with
  | nil => rfl
  | cons q pre ih =>
    rw [List.foldl_cons]
    have hq := h q (List.mem_cons_self _ _)
    have : next_last_cmd lc (status_byte q.2) = lc := by
      unfold next_last_cmd
      rw [if_neg hq]
    rw [this]
    exact ih lc (fun x hx => h x (List.mem_cons_of_mem _ hx))

/-- The running status with which an iteration starts is the one the call
started with, updated by the status bytes of the iterations before it. -/
theorem iterations_running (track_end : Int) (fuel : Nat) (L : Locals) (s : State)
    (pre post : List (Locals × State)) (p : Locals × State)
    (h : read_track_iterations track_end fuel L s = pre ++ p :: post) :
    p.1.last_cmd = pre.foldl (fun lc q => next_last_cmd lc (status_byte q.2)) L.last_cmd := by
  induction fuel generalizing L s pre with
  | zero =>
    unfold read_track_iterations at h
    simp at h
  | succ n ih =>
    unfold read_track_iterations at h
    split at h
    · cases pre with
      | nil =>
        simp only [List.nil_append, List.cons.injEq] at h
        rw [← h.1]
        rfl
      | cons q pre =>
        simp only [List.cons_append, List.cons.injEq] at h
        obtain ⟨hq, ht⟩ := h
        split at ht
        · rename_i L1 s1 hn
          rw [List.foldl_cons, ← hq, ← read_track_body_running track_end L L1 s s1 hn]
          exact ih L1 s1 pre ht
        · simp at ht
    · simp at h

theorem iterations_last_cmd_lt (track_end : Int) (fuel : Nat) (L : Locals) (s : State)
    (hL : L.last_cmd < 0xf0) (p : Locals × State)
    (hp : p ∈ read_track_iterations track_end fuel L s) : p.1.last_cmd < 0xf0 := by
  induction fuel generalizing L s with
  | zero => simp [read_track_iterations] at hp
  | succ n ih =>
    unfold read_track_iterations at hp
    split at hp
    · rcases List.mem_cons.mp hp with rfl | hp
      · exact hL
      · split at hp
        · rename_i L1 s1 hn
          exact ih L1 s1 (read_track_body_last_cmd track_end L L1 s s1 hL hn) hp
        · cases hp
    · cases hp

theorem iterations_length (track_end : Int) (fuel : Nat) (L : Locals) (s : State) :
    2 * (read_track_iterations track_end fuel L s).length
      ≤ (track_end - s.file_offset).toNat + 1 := by
  induction fuel generalizing L s with
  | zero => simp [read_track_iterations]
  | succ n ih =>
    unfold read_track_iterations
    split
    · rename_i hlt
      rw [List.length_cons]
      split
      · rename_i L1 s1 hn
        have hpr := read_track_body_progress track_end L L1 s s1 hn
        have hi := ih L1 s1
        by_cases h1 : s1.file_offset < track_end
        · omega
        · have : read_track_iterations track_end n L1 s1 = [] := by
            cases n with
            | zero => rfl
            | succ m =>
              unfold read_track_iterations
              rw [if_neg h1]
          rw [this]
          simp only [List.length_nil]
          omega
      · simp only [List.length_nil]
        omega
    · simp

/-- An iteration leaves `read_track` with a non-zero code exactly when it
decodes a delta-time, reads the status byte FF and the type 2F, and decodes
the length of the meta-event. -/
theorem read_track_body_exit_iff (track_end : Int) (L : Locals) (t : State)
    (hL : L.last_cmd < 0xf0) :
    (∃ rc u, rc ≠ 0 ∧ read_track_body track_end L t = .exit rc u)
      ↔ (0 ≤ delta_time t ∧ status_byte t = 0xff ∧ meta_type t = 0x2f ∧ 0 ≤ meta_length t) := by
  constructor
  · rintro ⟨rc, u, hrc, hb⟩
    have hd : 0 ≤ delta_time t := by
      by_contra hneg
      unfold delta_time at hneg
      rw [read_track_body_delta_neg track_end L t (by omega)] at hb
      cases hb
      exact hrc rfl
    obtain ⟨-, h2, h3, -, -⟩ := read_track_body_exit track_end L t u rc hL hb hrc
    refine ⟨hd, h2, h3, ?_⟩
    rw [read_track_body_fx track_end L t hd (by unfold status_byte; omega)] at hb
    unfold status_byte at hb
    rw [h2, if_neg (by decide), if_pos rfl] at hb
    exact (read_track_meta_exit _ _ _ _ _ _ _ _ hb hrc).2.2.1
  · rintro ⟨hd, hs, hm, hl⟩
    refine ⟨1, skip (track_end - (after_meta_length t).file_offset) (after_meta_length t),
      by decide, ?_⟩
    rw [read_track_body_fx track_end L t hd (by omega), hs, if_neg (by decide), if_pos rfl]
    exact read_track_meta_eot _ _ _ _ _ _ hm hl

/-! ## C23: a data byte with no running status -/

theorem read_track_loop_stop (track_end : Int) (fuel : Nat) (L : Locals) (s : State)
    (h : track_end ≤ s.file_offset) : read_track_loop track_end fuel L s = .ret (0, s) := by
  unfold read_track_loop
  rw [if_neg (by omega)]

/-- C23: when an iteration of `read_track` decodes a delta-time and then reads
a byte below 0x80 at the status position, and no iteration before it in the
same call read a status byte in 0x80..0xEF, the running status is still 0 and
the iteration leaves through `_error` with the data byte put back: no event
is pushed, `read_track` returns 0, and so does `read_smf` when this is one of
the tracks it reads. -/
theorem read_track_no_running_status (track_end : Int) (s : State)
    (pre post : List (Locals × State)) (p : Locals × State)
    (hsplit : read_track_iters track_end s = pre ++ p :: post)
    (hpre : ∀ q ∈ pre, ¬ (0x80 ≤ status_byte q.2 ∧ status_byte q.2 ≤ 0xEF))
    (hd : 0 ≤ delta_time p.2)
    (hs : 0 ≤ status_byte p.2 ∧ status_byte p.2 < 0x80) :
    p.1.last_cmd = 0
      ∧ read_track_body track_end p.1 p.2 = .exit 0 (read_var p.2).2
      ∧ (read_var p.2).2.all_events = p.2.all_events
      ∧ read_track track_end s = .ret (0, (read_var p.2).2)
      ∧ ∀ (err : Int) (k n : Nat) (s00 sh s0 : State) (len : Int),
          read_smf_header err s00 = (some (k + (n + 1)), sh) →
          read_smf_tracks k sh = .ret (1, s0) →
          read_smf_search s0.rest.length s0 = .ret (some len, s) →
          track_end = s.file_offset + len →
          read_smf err s00 = .ret (0, (read_var p.2).2) := by
  have hlc : p.1.last_cmd = 0 := by
    rw [iterations_running track_end _ _ s pre post p hsplit]
    exact foldl_next_last_cmd pre 0 hpre
  have hp : p ∈ read_track_iters track_end s := by
    rw [hsplit]
    simp
  have hb : read_track_body track_end p.1 p.2 = .exit 0 (read_var p.2).2 := by
    obtain ⟨d, r, hr, hsd⟩ := status_byte_cons p.2 hs.1
    rw [read_track_body_eq track_end p.1 p.2 hd d r hr, if_neg (by omega), if_pos hlc]
  have ht := read_track_iters_exit track_end s p hp 0 _ hb
  refine ⟨hlc, hb, ?_, ht, ?_⟩
  · have hv : (read_var p.2).2.vars = p.2.vars := read_var_vars p.2
    exact (vars_eq hv).2.2.2.2.2.2.2.2
  · intro err k n s00 sh s0 len hh hk h1 h2
    rw [h2] at ht
    exact read_smf_track_fail err k n s00 sh s0 s _ len hh hk h1 ht

theorem read_track_no_running_status_witness :
    iteration_no_running_status.1.last_cmd = 0
      ∧ read_track_body 12 iteration_no_running_status.1 iteration_no_running_status.2
        = .exit 0 (read_var iteration_no_running_status.2).2
      ∧ read_track 12 { State.start with rest := track_no_running_status }
        = .ret (0, (read_var iteration_no_running_status.2).2) :=
  ⟨(read_track_no_running_status 12 { State.start with rest := track_no_running_status }
      [(⟨0, 0, 0, Event_init⟩, { State.start with rest := track_no_running_status })] []
      iteration_no_running_status (by decide!) (by decide!) (by decide!) (by decide!)).1,
    (read_track_no_running_status 12 { State.start with rest := track_no_running_status }
      [(⟨0, 0, 0, Event_init⟩, { State.start with rest := track_no_running_status })] []
      iteration_no_running_status (by decide!) (by decide!) (by decide!) (by decide!)).2.1,
    (read_track_no_running_status 12 { State.start with rest := track_no_running_status }
      [(⟨0, 0, 0, Event_init⟩, { State.start with rest := track_no_running_status })] []
      iteration_no_running_status (by decide!) (by decide!) (by decide!) (by decide!)).2.2.2.1⟩

/-! ## C27: the return value of `read_track` -/

/-- C27: `read_track` returns, and its return value is non-zero exactly when
one of its iterations (each of which starts with the offset counter below
`track_end`) decodes a delta-time, reads the status byte FF and the type 2F
and decodes the length of the meta-event. When the offset counter is not
below `track_end` at the call, as for a declared length 0, no iteration runs
and it returns 0 with the state untouched; and whenever it returns 0,
`read_smf` returns 0 when this is one of the tracks it reads. -/
theorem read_track_success_iff (track_end : Int) (s : State) :
    (∃ rc s1, read_track track_end s = .ret (rc, s1))
      ∧ ∀ (rc : Int) (s' : State), read_track track_end s = .ret (rc, s') →
        (rc ≠ 0 ↔ ∃ p ∈ read_track_iters track_end s,
            0 ≤ delta_time p.2 ∧ status_byte p.2 = 0xff ∧ meta_type p.2 = 0x2f
              ∧ 0 ≤ meta_length p.2)
        ∧ (∀ p ∈ read_track_iters track_end s, p.2.file_offset < track_end)
        ∧ (track_end ≤ s.file_offset → rc = 0 ∧ s' = s)
        ∧ (rc = 0 → ∀ (err : Int) (k n : Nat) (s00 sh s0 : State) (len : Int),
            read_smf_header err s00 = (some (k + (n + 1)), sh) →
            read_smf_tracks k sh = .ret (1, s0) →
            read_smf_search s0.rest.length s0 = .ret (some len, s) →
            track_end = s.file_offset + len →
            read_smf err s00 = .ret (0, s')) := by
  refine ⟨read_track_ret track_end s, ?_⟩
  intro rc s' h
  refine ⟨⟨?_, ?_⟩, fun p hp => iterations_lt track_end _ _ s p hp, ?_, ?_⟩
  · intro hrc
    obtain ⟨p, hp, hb⟩ := iterations_success track_end _ _ s rc s' h hrc
    have hlt := iterations_last_cmd_lt track_end _ _ s (show (0 : Nat) < 240 by decide) p hp
    exact ⟨p, hp, (read_track_body_exit_iff track_end p.1 p.2 hlt).mp ⟨rc, s', hrc, hb⟩⟩
  · rintro ⟨p, hp, hc⟩
    have hlt := iterations_last_cmd_lt track_end _ _ s (show (0 : Nat) < 240 by decide) p hp
    obtain ⟨rc1, u, hrc1, hb⟩ := (read_track_body_exit_iff track_end p.1 p.2 hlt).mpr hc
    have ht := read_track_iters_exit track_end s p hp rc1 u hb
    rw [h] at ht
    simp only [Run.ret.injEq, Prod.mk.injEq] at ht
    rw [ht.1]
    exact hrc1
  · intro hle
    have e : read_track track_end s = .ret (0, s) := read_track_loop_stop track_end _ _ s hle
    rw [h] at e
    simp only [Run.ret.injEq, Prod.mk.injEq] at e
    exact ⟨e.1, e.2⟩
  · intro hrc err k n s00 sh s0 len hh hk h1 h2
    rw [hrc, h2] at h
    exact read_smf_track_fail err k n s00 sh s0 s _ len hh hk h1 h

theorem read_track_success_iff_witness :
    ((1 : Int) ≠ 0 ↔ ∃ p ∈ read_track_iters 11 { State.start with rest := track_running_status },
        0 ≤ delta_time p.2 ∧ status_byte p.2 = 0xff ∧ meta_type p.2 = 0x2f
          ∧ 0 ≤ meta_length p.2)
      ∧ ∀ p ∈ read_track_iters 11 { State.start with rest := track_running_status },
          p.2.file_offset < 11 :=
  ⟨((read_track_success_iff 11 { State.start with rest := track_running_status }).2 1
      track_running_status_result running_status_track_eval).1,
    ((read_track_success_iff 11 { State.start with rest := track_running_status }).2 1
      track_running_status_result running_status_track_eval).2.1⟩

/-! ## C29: termination of `read_track` -/

/-- The payload loop of the SysEx case runs as many times as the length field
says. -/
theorem read_track_sysex_count (tick : Int) (last_cmd port : Nat) (Event : event) (cmd : Nat)
    (s s' : State) (L' : Locals)
    (h : read_track_sysex tick last_cmd port Event cmd s = .next L' s') :
    0 ≤ (read_var s).1
      ∧ L'.Event.sysex
          = (sysex_loop (read_var s).1.toNat
              (if cmd = 0xf0 then Event.sysex ++ [0xf0] else Event.sysex) (read_var s).2).1
      ∧ s'.file_offset = (read_var s).2.file_offset + (read_var s).1 := by
  have hc : ((if cmd = 0xf0 then (read_var s).1 + 1 else (read_var s).1)
      - (if cmd = 0xf0 then 1 else 0)).toNat = (read_var s).1.toNat := by
    split_ifs <;> congr 1 <;> omega
  unfold read_track_sysex at h
  dsimp only at h
  split at h
  · cases h
  · rename_i hlen
    rw [hc] at h
    simp only [Step.next.injEq] at h
    obtain ⟨hL, hs⟩ := h
    refine ⟨by omega, ?_, ?_⟩
    · rw [← hL]
    · rw [← hs]
      dsimp only
      rw [sysex_loop_file_offset]
      omega

/-- More fuel than the distance to the end of the track does not change the
sequence of iterations. -/
theorem iterations_fuel (track_end : Int) (fuel1 fuel2 : Nat) (L : Locals) (s : State)
    (h1 : (track_end - s.file_offset).toNat ≤ fuel1)
    (h2 : (track_end - s.file_offset).toNat ≤ fuel2) :
    read_track_iterations track_end fuel1 L s = read_track_iterations track_end fuel2 L s := by
  induction fuel1 generalizing fuel2 L s with
  | zero =>
    have hle : ¬ s.file_offset < track_end := by omega
    cases fuel2 with
    | zero => rfl
    | succ m =>
      conv_rhs => unfold read_track_iterations
      rw [if_neg hle]
      rfl
  | succ n ih =>
    cases fuel2 with
    | zero =>
      have hle : ¬ s.file_offset < track_end := by omega
      unfold read_track_iterations
      rw [if_neg hle]
    | succ m =>
      unfold read_track_iterations
      by_cases hlt : s.file_offset < track_end
      · rw [if_pos hlt, if_pos hlt]
        cases hb : read_track_body track_end L s with
        | next L1 s1 =>
          have hpr := read_track_body_progress track_end L L1 s s1 hb
          dsimp only
          rw [ih m L1 s1 (by omega) (by omega)]
        | exit rc u => rfl
      · rw [if_neg hlt, if_neg hlt]

/-- C29: `read_track` returns for every input. Each iteration that stays in
the loop moves the offset counter forward by at least 2, so the loop runs at
most `track_end - file_offset` times (and at most half of that, rounded up),
and giving the loop more fuel does not add an iteration; the payload loop of
a SysEx event runs exactly as many times as its length field says. -/
theorem read_track_terminates (track_end : Int) (s : State) :
    (∃ rc s1, read_track track_end s = .ret (rc, s1))
      ∧ (read_track_iters track_end s).length ≤ (track_end - s.file_offset).toNat
      ∧ 2 * (read_track_iters track_end s).length ≤ (track_end - s.file_offset).toNat + 1
      ∧ (∀ k : Nat, read_track_iterations track_end ((track_end - s.file_offset).toNat + k)
            ⟨0, 0, 0, s.Event0⟩ s = read_track_iters track_end s)
      ∧ (∀ (L L1 : Locals) (t t1 : State), read_track_body track_end L t = .next L1 t1 →
            t.file_offset + 2 ≤ t1.file_offset)
      ∧ ∀ (tick : Int) (last_cmd port : Nat) (Event : event) (cmd : Nat) (t t1 : State)
          (L1 : Locals), read_track_sysex tick last_cmd port Event cmd t = .next L1 t1 →
            0 ≤ (read_var t).1
              ∧ L1.Event.sysex
                  = (sysex_loop (read_var t).1.toNat
                      (if cmd = 0xf0 then Event.sysex ++ [0xf0] else Event.sysex)
                      (read_var t).2).1
              ∧ t1.file_offset = (read_var t).2.file_offset + (read_var t).1 := by
  have hlen := iterations_length track_end (track_end - s.file_offset).toNat
    ⟨0, 0, 0, s.Event0⟩ s
  refine ⟨read_track_ret track_end s, ?_, hlen, ?_, ?_, ?_⟩
  · unfold read_track_iters
    omega
  · intro k
    exact iterations_fuel track_end _ _ _ s (by omega) (le_refl _)
  · intro L L1 t t1 h
    exact read_track_body_progress track_end L L1 t t1 h
  · intro tick last_cmd port Event cmd t t1 L1 h
    exact read_track_sysex_count tick last_cmd port Event cmd t t1 L1 h
theorem read_track_terminates_witness :
    (∃ rc s1, read_track 14 { State.start with rest := track_two_sysex } = .ret (rc, s1))
      ∧ (read_track_iters 14 { State.start with rest := track_two_sysex }).length
          ≤ (14 - ({ State.start with rest := track_two_sysex } : State).file_offset).toNat
      ∧ (0 ≤ (read_var state_sysex_payload).1
          ∧ step_sysex_payload.1.Event.sysex
              = (sysex_loop (read_var state_sysex_payload).1.toNat
                  (if 0xf0 = 0xf0 then Event_init.sysex ++ [0xf0] else Event_init.sysex)
                  (read_var state_sysex_payload).2).1
          ∧ step_sysex_payload.2.file_offset
              = (read_var state_sysex_payload).2.file_offset + (read_var state_sysex_payload).1) :=
  ⟨(read_track_terminates 14 { State.start with rest := track_two_sysex }).1,
    (read_track_terminates 14 { State.start with rest := track_two_sysex }).2.1,
    (read_track_terminates 14 { State.start with rest := track_two_sysex }).2.2.2.2.2
      0 0 0 Event_init 0xf0 state_sysex_payload step_sysex_payload.2 step_sysex_payload.1
      (by decide!)⟩

/-! ## C30: the running status belongs to one call of `read_track` -/

/-- C30: the running status `last_cmd` is a local of `read_track` that starts
at 0 in every call, whatever the state left by earlier tracks. An iteration
that stays in the loop replaces it by its status byte when that byte is in
0x80..0xEF and leaves it unchanged otherwise, in particular after F0, F7
and FF; so the value an iteration starts with is the last status byte in
0x80..0xEF read by the earlier iterations of the same call, or 0. An
iteration that reads a byte below 0x80 at the status position while the
running status is not 0 puts the byte back and decodes the event of the
running status. -/
theorem read_track_status_per_track (track_end : Int) (s : State)
    (pre post : List (Locals × State)) (p : Locals × State)
    (hsplit : read_track_iters track_end s = pre ++ p :: post) :
    p.1.last_cmd = pre.foldl (fun lc q => next_last_cmd lc (status_byte q.2)) 0
      ∧ (pre = [] → p = (⟨0, 0, 0, s.Event0⟩, s))
      ∧ (∀ (L1 : Locals) (s1 : State), read_track_body track_end p.1 p.2 = .next L1 s1 →
          L1.last_cmd
            = if 0x80 ≤ status_byte p.2 ∧ status_byte p.2 ≤ 0xEF then (status_byte p.2).toNat
              else p.1.last_cmd)
      ∧ (∀ (L1 : Locals) (s1 : State), read_track_body track_end p.1 p.2 = .next L1 s1 →
          status_byte p.2 = 0xf0 ∨ status_byte p.2 = 0xf7 ∨ status_byte p.2 = 0xff →
          L1.last_cmd = p.1.last_cmd)
      ∧ (0 ≤ delta_time p.2 → 0 ≤ status_byte p.2 ∧ status_byte p.2 < 0x80 →
          p.1.last_cmd ≠ 0 →
          read_track_body track_end p.1 p.2
            = read_track_dispatch track_end (wrap32 (p.1.tick + delta_time p.2)) p.1.last_cmd
                p.1.port p.1.Event p.1.last_cmd (read_var p.2).2) := by
  refine ⟨iterations_running track_end _ _ s pre post p hsplit, ?_, ?_, ?_, ?_⟩
  · intro hpre
    rw [hpre] at hsplit
    unfold read_track_iters at hsplit
    generalize (track_end - s.file_offset).toNat = fuel at hsplit
    cases fuel with
    | zero =>
      unfold read_track_iterations at hsplit
      simp at hsplit
    | succ n =>
      unfold read_track_iterations at hsplit
      split at hsplit
      · simp only [List.nil_append, List.cons.injEq] at hsplit
        exact hsplit.1.symm
      · simp at hsplit
  · intro L1 s1 h
    exact read_track_body_running track_end p.1 L1 p.2 s1 h
  · intro L1 s1 h hs
    rw [read_track_body_running track_end p.1 L1 p.2 s1 h]
    unfold next_last_cmd
    rw [if_neg (by omega)]
  · intro hd hs hlc
    obtain ⟨d, r, hr, hsd⟩ := status_byte_cons p.2 hs.1
    rw [read_track_body_eq track_end p.1 p.2 hd d r hr, if_neg (by omega), if_neg hlc]

theorem read_track_status_per_track_witness :
    iteration_data_byte.1.last_cmd
        = iterations_before_data_byte.foldl (fun lc q => next_last_cmd lc (status_byte q.2)) 0
      ∧ read_track_body 16 iteration_data_byte.1 iteration_data_byte.2
          = read_track_dispatch 16
              (wrap32 (iteration_data_byte.1.tick + delta_time iteration_data_byte.2))
              iteration_data_byte.1.last_cmd iteration_data_byte.1.port
              iteration_data_byte.1.Event iteration_data_byte.1.last_cmd
              (read_var iteration_data_byte.2).2 :=
  ⟨(read_track_status_per_track 16 { State.start with rest := track_status_after_meta }
      iterations_before_data_byte [iteration_after_data_byte] iteration_data_byte
      (by decide!)).1,
    (read_track_status_per_track 16 { State.start with rest := track_status_after_meta }
      iterations_before_data_byte [iteration_after_data_byte] iteration_data_byte
      (by decide!)).2.2.2.2 (by decide!) (by decide!) (by decide!)⟩

/-- The data bytes `3E 40` after the text meta-event are decoded as a note-on
of channel 0, the status of the first event of the track. -/
theorem read_track_status_after_meta_eval :
    read_track_body 16 iteration_data_byte.1 iteration_data_byte.2
      = .next iteration_after_data_byte.1 iteration_after_data_byte.2 := by decide!

/-! ## The bytes the header fields are read from -/

/-- A big-endian field that is read as a non-negative value was read from
bytes that are there. -/
theorem read_int_loop_drop (n : Nat) (v : Int) (s : State)
    (h : 0 ≤ (read_int_loop n v s).1) :
    (read_int_loop n v s).2.rest = s.rest.drop (n + 1)
      ∧ n + 1 ≤ s.rest.length
      ∧ (read_int_loop n v s).2.file_offset = s.file_offset + ((n + 1 : Nat) : Int)
      ∧ (read_int_loop n v s).2.vars = s.vars
      ∧ (read_int_loop n v s).2.eof = s.eof := by
  induction n generalizing v s with
  | zero =>
    rw [read_int_loop] at h ⊢
    cases hr : s.rest with
    | nil =>
      rw [read_byte_nil s hr] at h
      simp at h
    | cons b r =>
      rw [read_byte_cons s b r hr]
      dsimp only
      rw [if_neg (by omega)]
      simp [State.vars]
  | succ n ih =>
    rw [read_int_loop] at h ⊢
    cases hr : s.rest with
    | nil =>
      rw [read_byte_nil s hr] at h
      simp at h
    | cons b r =>
      rw [read_byte_cons s b r hr] at h ⊢
      dsimp only at h ⊢
      rw [if_neg (by omega)] at h ⊢
      obtain ⟨h1, h2, h3, h4, h5⟩ := ih _ _ h
      refine ⟨?_, ?_, ?_, ?_, ?_⟩
      · rw [h1]
        rfl
      · simp only [List.length_cons]
        exact Nat.succ_le_succ h2
      · rw [h3]
        push_cast
        ring
      · rw [h4]
        rfl
      · rw [h5]

theorem read_int_drop (k : Nat) (hk : 1 ≤ k) (s : State) (h : 0 ≤ (read_int k s).1) :
    (read_int k s).2.rest = s.rest.drop k
      ∧ k ≤ s.rest.length
      ∧ (read_int k s).2.file_offset = s.file_offset + (k : Int)
      ∧ (read_int k s).2.vars = s.vars
      ∧ (read_int k s).2.eof = s.eof := by
  unfold read_int at h ⊢
  have e : k - 1 + 1 = k := by omega
  have := read_int_loop_drop (k - 1) 0 s h
  rw [e] at this
  exact this
/-- What a header that passes its checks was read from: the ten bytes of its
four fields, whatever the length field says. -/
theorem read_smf_header_drop (err : Int) (s sh : State) (n : Nat)
    (h : read_smf_header err s = (some n, sh)) :
    sh.rest = s.rest.drop 10 ∧ 10 ≤ s.rest.length ∧ sh.file_offset = s.file_offset + 10
      ∧ 6 ≤ (read_int 4 s).1
      ∧ ((read_int 2 (read_int 4 s).2).1 = 0 ∨ (read_int 2 (read_int 4 s).2).1 = 1)
      ∧ (n : Int) = (read_int 2 (read_int 2 (read_int 4 s).2).2).1
      ∧ 1 ≤ n ∧ n ≤ 1000 := by
  unfold read_smf_header at h
  dsimp only at h
  split at h
  · cases h
  rename_i h1
  split at h
  · cases h
  rename_i h2
  split at h
  · cases h
  rename_i h3
  split at h
  · cases h
  rename_i h4
  have e1 := read_int_drop 4 (by decide) s (by omega)
  have e2 := read_int_drop 2 (by decide) (read_int 4 s).2 (by omega)
  have e3 := read_int_drop 2 (by decide) (read_int 2 (read_int 4 s).2).2 (by omega)
  have e4 := read_int_drop 2 (by decide)
    (read_int 2 (read_int 2 (read_int 4 s).2).2).2 (by omega)
  have hrest : (read_int 2 (read_int 2 (read_int 2 (read_int 4 s).2).2).2).2.rest
      = s.rest.drop 10 := by
    rw [e4.1, e3.1, e2.1, e1.1]
    simp only [List.drop_drop]
  have hlen : 10 ≤ s.rest.length := by
    have a2 := e2.2.1
    have a3 := e3.2.1
    have a4 := e4.2.1
    rw [e3.1, e2.1, e1.1] at a4
    simp only [List.length_drop] at a4
    omega
  have hoff : (read_int 2 (read_int 2 (read_int 2 (read_int 4 s).2).2).2).2.file_offset
      = s.file_offset + 10 := by
    rw [e4.2.2.1, e3.2.2.1, e2.2.2.1, e1.2.2.1]
    push_cast
    ring
  split at h
  · cases h
  · split at h
    · cases h
    · simp only [Prod.mk.injEq, Option.some.injEq] at h
      obtain ⟨hn, hs⟩ := h
      rw [← hs, ← hn]
      refine ⟨hrest, hlen, hoff, by omega, by omega, ?_, ?_, ?_⟩
      · exact Int.toNat_of_nonneg (by omega)
      · omega
      · omega

theorem parseFile_MThd (err : Int) (T : List Byte) (s : State) :
    parseFile err (ascii "MThd" ++ T) s
      = read_smf err { s with rest := T, eof := false, file_offset := 4 } := by
  unfold parseFile
  simp only [ascii_MThd, List.cons_append, List.nil_append,
    read_id, read_32_le_mk, id_MThd, if_true]
  rfl
theorem read_smf_header_none (err : Int) (s s1 : State)
    (h : read_smf_header err s = (none, s1)) : read_smf err s = .ret (0, s1) := by
  unfold read_smf
  rw [h]

theorem read_smf_header_tracks (err : Int) (s sh u : State) (n : Nat) (rc : Int)
    (h : read_smf_header err s = (some n, sh)) (ht : read_smf_tracks n sh = .ret (rc, u)) :
    read_smf err s = if rc = 0 then .ret (0, u) else read_smf_finish u := by
  unfold read_smf
  rw [h]
  dsimp only
  rw [ht]

/-! ## C21: the track count of the header -/

/-- C21: the header part of `read_smf` passes only with a track-count field
between 1 and 1000, and hands that value to the track loop. When the field,
as the third field read, is below 1 or above 1000, `read_smf` returns 0 from
the header part, in the state one of the first three reads left and with
every variable as it was: no chunk is searched and no track is read. When
the length, format, track-count and time-division fields pass their checks
and the ALSA call succeeds, the header part passes with that count and
`read_smf` goes on with the loop over that many tracks. -/
theorem read_smf_track_count (err : Int) (s : State) :
    (∀ (n : Nat) (sh : State), read_smf_header err s = (some n, sh) →
        (n : Int) = (read_int 2 (read_int 2 (read_int 4 s).2).2).1 ∧ 1 ≤ n ∧ n ≤ 1000)
      ∧ ((read_int 2 (read_int 2 (read_int 4 s).2).2).1 < 1
            ∨ 1000 < (read_int 2 (read_int 2 (read_int 4 s).2).2).1 →
          ∃ s1, read_smf_header err s = (none, s1) ∧ read_smf err s = .ret (0, s1)
            ∧ s1.vars = s.vars
            ∧ (s1 = (read_int 4 s).2 ∨ s1 = (read_int 2 (read_int 4 s).2).2
                ∨ s1 = (read_int 2 (read_int 2 (read_int 4 s).2).2).2))
      ∧ (6 ≤ (read_int 4 s).1 →
          (read_int 2 (read_int 4 s).2).1 = 0 ∨ (read_int 2 (read_int 4 s).2).1 = 1 →
          1 ≤ (read_int 2 (read_int 2 (read_int 4 s).2).2).1
            ∧ (read_int 2 (read_int 2 (read_int 4 s).2).2).1 ≤ 1000 →
          0 ≤ (read_int 2 (read_int 2 (read_int 2 (read_int 4 s).2).2).2).1 →
          (∃ q, read_smf_tempo (read_int 2 (read_int 2 (read_int 2 (read_int 4 s).2).2).2).1
              = some q) →
          0 ≤ err →
          ∃ sh, read_smf_header err s
                = (some (read_int 2 (read_int 2 (read_int 4 s).2).2).1.toNat, sh)
            ∧ sh.all_events = s.all_events
            ∧ ∀ (rc : Int) (u : State),
                read_smf_tracks (read_int 2 (read_int 2 (read_int 4 s).2).2).1.toNat sh
                  = .ret (rc, u) →
                read_smf err s = if rc = 0 then .ret (0, u) else read_smf_finish u) := by
  refine ⟨?_, ?_, ?_⟩
  · intro n sh h
    exact (read_smf_header_drop err s sh n h).2.2.2.2.2
  · intro hnt
    have key : ∃ s1, read_smf_header err s = (none, s1) ∧ s1.vars = s.vars
        ∧ (s1 = (read_int 4 s).2 ∨ s1 = (read_int 2 (read_int 4 s).2).2
            ∨ s1 = (read_int 2 (read_int 2 (read_int 4 s).2).2).2) := by
      unfold read_smf_header
      dsimp only
      by_cases h1 : (read_int 4 s).1 < 6
      · rw [if_pos h1]
        exact ⟨_, rfl, read_int_vars 4 s, Or.inl rfl⟩
      · rw [if_neg h1]
        by_cases h2 : (read_int 2 (read_int 4 s).2).1 ≠ 0 ∧ (read_int 2 (read_int 4 s).2).1 ≠ 1
        · rw [if_pos h2]
          refine ⟨_, rfl, ?_, Or.inr (Or.inl rfl)⟩
          rw [read_int_vars, read_int_vars]
        · rw [if_neg h2, if_pos (by omega)]
          refine ⟨_, rfl, ?_, Or.inr (Or.inr rfl)⟩
          rw [read_int_vars, read_int_vars, read_int_vars]
    obtain ⟨s1, h1, h2, h3⟩ := key
    exact ⟨s1, h1, read_smf_header_none err s s1 h1, h2, h3⟩
  · intro h1 h2 h3 h4 h5 h6
    have hh := read_smf_header_eq err s h1 h2 h3.1 h3.2 h4
    obtain ⟨q, hq⟩ := h5
    rw [hq] at hh
    dsimp only at hh
    rw [if_neg (by omega)] at hh
    refine ⟨_, hh, ?_, ?_⟩
    · dsimp only
      have hv : (read_int 2 (read_int 2 (read_int 2 (read_int 4 s).2).2).2).2.vars = s.vars := by
        rw [read_int_vars, read_int_vars, read_int_vars, read_int_vars]
      exact (vars_eq hv).2.2.2.2.2.2.2.2
    · intro rc u ht
      exact read_smf_header_tracks err s _ u _ rc hh ht

theorem read_smf_track_count_witness :
    (∃ s1, read_smf_header 0 (state_header_count 0 0) = (none, s1)
        ∧ read_smf 0 (state_header_count 0 0) = .ret (0, s1)
        ∧ s1.vars = (state_header_count 0 0).vars
        ∧ (s1 = (read_int 4 (state_header_count 0 0)).2
            ∨ s1 = (read_int 2 (read_int 4 (state_header_count 0 0)).2).2
            ∨ s1 = (read_int 2 (read_int 2 (read_int 4 (state_header_count 0 0)).2).2).2))
      ∧ (∃ s1, read_smf_header 0 (state_header_count 3 233) = (none, s1)
        ∧ read_smf 0 (state_header_count 3 233) = .ret (0, s1)
        ∧ s1.vars = (state_header_count 3 233).vars
        ∧ (s1 = (read_int 4 (state_header_count 3 233)).2
            ∨ s1 = (read_int 2 (read_int 4 (state_header_count 3 233)).2).2
            ∨ s1 = (read_int 2 (read_int 2 (read_int 4 (state_header_count 3 233)).2).2).2))
      ∧ ∀ (n : Nat) (sh : State), read_smf_header 0 (state_header_count 3 232) = (some n, sh) →
          (n : Int) = (read_int 2 (read_int 2 (read_int 4 (state_header_count 3 232)).2).2).1
            ∧ 1 ≤ n ∧ n ≤ 1000 :=
  ⟨(read_smf_track_count 0 (state_header_count 0 0)).2.1 (by decide!),
    (read_smf_track_count 0 (state_header_count 3 233)).2.1 (by decide!),
    (read_smf_track_count 0 (state_header_count 3 232)).1⟩

/-- The header with the track count 1000 = 0x03E8 passes, and the counts 0 and
1001 = 0x03E9 do not. -/
theorem read_smf_header_count_eval :
    (read_smf_header 0 (state_header_count 3 232)).1 = some 1000
      ∧ (read_smf_header 0 (state_header_count 3 233)).1 = none
      ∧ (read_smf_header 0 (state_header_count 0 0)).1 = none
      ∧ (read_smf_header 0 (state_header_count 0 1)).1 = some 1 := by decide!

/-! ## C28: the length field of the header -/

/-- C28: the length field of the header is used for the check
`header_len < 6` and for nothing else. With two length fields that both pass
the check in front of the same bytes, `read_smf` and `parseFile` end with the
same result: the same return code, events, variables, stream and offset
counter. A header that passes its checks was read from exactly ten bytes,
whatever its length field says, and the chunk search of the track loop starts
in the state the header part left, right after the time-division field; a
length field below 6 makes `read_smf` return 0 right after it. -/
theorem read_smf_header_len (err : Int) (s : State) (a1 b1 c1 d1 a2 b2 c2 d2 : Byte)
    (tail : List Byte)
    (h1 : 6 ≤ (read_int 4 { s with rest := a1 :: b1 :: c1 :: d1 :: tail }).1)
    (h2 : 6 ≤ (read_int 4 { s with rest := a2 :: b2 :: c2 :: d2 :: tail }).1) :
    read_smf err { s with rest := a1 :: b1 :: c1 :: d1 :: tail }
        = read_smf err { s with rest := a2 :: b2 :: c2 :: d2 :: tail }
      ∧ parseFile err (ascii "MThd" ++ a1 :: b1 :: c1 :: d1 :: tail) s
        = parseFile err (ascii "MThd" ++ a2 :: b2 :: c2 :: d2 :: tail) s
      ∧ (∀ (x sh : State) (n : Nat), read_smf_header err x = (some n, sh) →
          sh.rest = x.rest.drop 10 ∧ sh.file_offset = x.file_offset + 10
            ∧ ∀ (rc : Int) (u : State), read_smf_tracks n sh = .ret (rc, u) →
                read_smf err x = if rc = 0 then .ret (0, u) else read_smf_finish u)
      ∧ ∀ x : State, (read_int 4 x).1 < 6 → read_smf err x = .ret (0, (read_int 4 x).2) := by
  have key : ∀ (x : State), 6 ≤ (read_int 4 { x with rest := a1 :: b1 :: c1 :: d1 :: tail }).1 →
      6 ≤ (read_int 4 { x with rest := a2 :: b2 :: c2 :: d2 :: tail }).1 →
      read_smf err { x with rest := a1 :: b1 :: c1 :: d1 :: tail }
        = read_smf err { x with rest := a2 :: b2 :: c2 :: d2 :: tail } := by
    intro x k1 k2
    have e1 := read_int_four { x with rest := a1 :: b1 :: c1 :: d1 :: tail } a1 b1 c1 d1 tail rfl
    have e2 := read_int_four { x with rest := a2 :: b2 :: c2 :: d2 :: tail } a2 b2 c2 d2 tail rfl
    have hs : (read_int 4 { x with rest := a1 :: b1 :: c1 :: d1 :: tail }).2
        = (read_int 4 { x with rest := a2 :: b2 :: c2 :: d2 :: tail }).2 := by
      rw [e1, e2]
    have hh : read_smf_header err { x with rest := a1 :: b1 :: c1 :: d1 :: tail }
        = read_smf_header err { x with rest := a2 :: b2 :: c2 :: d2 :: tail } := by
      unfold read_smf_header
      dsimp only
      rw [if_neg (not_lt.mpr k1), if_neg (not_lt.mpr k2), hs]
    unfold read_smf
    rw [hh]
  refine ⟨key s h1 h2, ?_, ?_, ?_⟩
  · rw [parseFile_MThd, parseFile_MThd]
    have e1 := read_int_four { s with rest := a1 :: b1 :: c1 :: d1 :: tail } a1 b1 c1 d1 tail rfl
    have e2 := read_int_four { s with rest := a2 :: b2 :: c2 :: d2 :: tail } a2 b2 c2 d2 tail rfl
    rw [e1] at h1
    rw [e2] at h2
    apply key { s with eof := false, file_offset := 4 }
    · rw [read_int_four _ a1 b1 c1 d1 tail rfl]
      exact h1
    · rw [read_int_four _ a2 b2 c2 d2 tail rfl]
      exact h2
  · intro x sh n h
    have hd := read_smf_header_drop err x sh n h
    exact ⟨hd.1, hd.2.2.1, fun rc u ht => read_smf_header_tracks err x sh u n rc h ht⟩
  · intro x hx
    apply read_smf_header_none
    unfold read_smf_header
    dsimp only
    rw [if_pos hx]

theorem read_smf_header_len_witness :
    read_smf 0 { State.start with rest := 0 :: 0 :: 0 :: 6 :: one_note_after_header_len }
        = read_smf 0 { State.start with rest := 0 :: 0 :: 0 :: 10 :: one_note_after_header_len }
      ∧ parseFile 0 (ascii "MThd" ++ 0 :: 0 :: 0 :: 6 :: one_note_after_header_len) State.start
        = parseFile 0 (ascii "MThd" ++ 0 :: 0 :: 0 :: 10 :: one_note_after_header_len)
            State.start :=
  ⟨(read_smf_header_len 0 State.start 0 0 0 6 0 0 0 10 one_note_after_header_len
      (by decide!) (by decide!)).1,
    (read_smf_header_len 0 State.start 0 0 0 6 0 0 0 10 one_note_after_header_len
      (by decide!) (by decide!)).2.1⟩

/-- The file of the end-to-end example with the length field 10 in place of 6
decodes as the example does, four bytes of the track chunk are not skipped. -/
theorem parseFile_header_len_ten_eval :
    parseFile 0 (ascii "MThd" ++ 0 :: 0 :: 0 :: 10 :: one_note_after_header_len) State.start
      = .ret (1, file_one_note_result) := by decide!

/-! ## C26: the length field of a chunk -/

theorem read_id_state (s : State) (b0 b1 b2 b3 : Byte) (r : List Byte)
    (hr : s.rest = b0 :: b1 :: b2 :: b3 :: r) :
    (read_id s).2 = { s with file_offset := s.file_offset + 4, rest := r } := by
  obtain ⟨rest, eof, off, a1, a2, a3, a4, a5, a6, a7, a8, a9⟩ := s
  simp only at hr
  subst hr
  simp only [read_id, read_32_le, read_byte_mk, State.mk.injEq, true_and, and_true]
  omega

/-- The length field of a chunk whose eight header bytes are there. -/
theorem chunk_length_field (s : State) (i0 i1 i2 i3 a b c d : Byte) (r : List Byte)
    (hr : s.rest = i0 :: i1 :: i2 :: i3 :: a :: b :: c :: d :: r) :
    read_int 4 (read_id s).2
      = (ofU32 (((a.val * 256 + b.val) * 256 + c.val) * 256 + d.val),
          { s with file_offset := s.file_offset + 8, rest := r }) := by
  rw [read_id_state s i0 i1 i2 i3 _ hr, read_int_four _ a b c d r rfl]
  simp only [Prod.mk.injEq, State.mk.injEq, true_and, and_true]
  omega

/-- A round of the chunk search that leaves the loop decides the search. -/
theorem search_rounds_ret (fuel : Nat) (s x : State) (res : Option Int × State)
    (hx : x ∈ read_smf_search_rounds fuel s) (hb : read_smf_search_body x = .inl res) :
    read_smf_search fuel s = .ret res := by
  induction fuel generalizing s with
  | zero =>
    unfold read_smf_search_rounds at hx
    unfold read_smf_search
    rcases List.mem_cons.mp hx with rfl | hx
    · rw [hb]
    · cases hs : read_smf_search_body s with
      | inl v => rw [hs] at hx; cases hx
      | inr s1 => rw [hs] at hx; cases hx
  | succ n ih =>
    unfold read_smf_search_rounds at hx
    unfold read_smf_search
    rcases List.mem_cons.mp hx with rfl | hx
    · rw [hb]
    · cases hs : read_smf_search_body s with
      | inl v => rw [hs] at hx; cases hx
      | inr s1 =>
        rw [hs] at hx
        exact ih s1 hx

/-- One round of the chunk search on a chunk whose eight header bytes are
there. -/
theorem read_smf_search_body_eq (s : State) (i0 i1 i2 i3 a b c d : Byte) (r : List Byte)
    (he : s.eof = false) (hr : s.rest = i0 :: i1 :: i2 :: i3 :: a :: b :: c :: d :: r) :
    read_smf_search_body s
      = if (read_int 4 (read_id s).2).1 < 0 ∨ 0x10000000 ≤ (read_int 4 (read_id s).2).1 then
          .inl (none, { s with file_offset := s.file_offset + 8, rest := r })
        else if [i0, i1, i2, i3] = ascii "MTrk" then
          .inl (some (read_int 4 (read_id s).2).1,
            { s with file_offset := s.file_offset + 8, rest := r })
        else .inr (skip (read_int 4 (read_id s).2).1
            { s with file_offset := s.file_offset + 8, rest := r }) := by
  have hid := read_id_four s i0 i1 i2 i3 _ he hr
  have hlen := chunk_length_field s i0 i1 i2 i3 a b c d r hr
  have hs2 : (read_int 4 (read_id s).2).2
      = { s with file_offset := s.file_offset + 8, rest := r } := by rw [hlen]
  have hid1 : (read_id s).1
      = ofU32 (i0.val + 256 * i1.val + 65536 * i2.val + 16777216 * i3.val) := by rw [hid]
  unfold read_smf_search_body
  dsimp only
  rw [hs2, hid1]
  dsimp only
  rw [he]
  simp only [Bool.false_eq_true, if_false, ge_iff_le, read_id_MTrk]
/-- C26: in every round of the chunk search that finds the eight bytes of a
chunk header, the length is the big-endian value of the last four as a 32-bit
`int`. When it is negative or at least 0x10000000 the round leaves the search
with a failure, whatever the tag is, and `read_smf` returns 0; when it is
between 0 and 0x0FFFFFFF and the end-of-file indicator is clear the round
passes the check: it finds the track for the tag "MTrk" and skips the chunk
for every other tag. The bytes `0F FF FF FF` give the length 0x0FFFFFFF. -/
theorem read_smf_chunk_length (s0 x : State) (i0 i1 i2 i3 a b c d : Byte) (r : List Byte)
    (hx : x ∈ read_smf_search_rounds s0.rest.length s0)
    (hr : x.rest = i0 :: i1 :: i2 :: i3 :: a :: b :: c :: d :: r) :
    (read_int 4 (read_id x).2).1
        = ofU32 (((a.val * 256 + b.val) * 256 + c.val) * 256 + d.val)
      ∧ ((read_int 4 (read_id x).2).1 < 0 ∨ (read_int 4 (read_id x).2).1 ≥ 0x10000000 →
          ∃ u, read_smf_search_body x = .inl (none, u)
            ∧ read_smf_search s0.rest.length s0 = .ret (none, u)
            ∧ ∀ (err : Int) (k n : Nat) (s00 sh : State),
                read_smf_header err s00 = (some (k + (n + 1)), sh) →
                read_smf_tracks k sh = .ret (1, s0) →
                read_smf err s00 = .ret (0, u))
      ∧ (x.eof = false →
          0 ≤ (read_int 4 (read_id x).2).1 ∧ (read_int 4 (read_id x).2).1 < 0x10000000 →
          read_smf_search_body x
            = if [i0, i1, i2, i3] = ascii "MTrk" then
                .inl (some (read_int 4 (read_id x).2).1,
                  { x with file_offset := x.file_offset + 8, rest := r })
              else .inr (skip (read_int 4 (read_id x).2).1
                  { x with file_offset := x.file_offset + 8, rest := r }))
      ∧ (a = 0x0F → b = 0xFF → c = 0xFF → d = 0xFF →
          (read_int 4 (read_id x).2).1 = 0x0FFFFFFF) := by
  have hlen := chunk_length_field x i0 i1 i2 i3 a b c d r hr
  have hl1 : (read_int 4 (read_id x).2).1
      = ofU32 (((a.val * 256 + b.val) * 256 + c.val) * 256 + d.val) := by rw [hlen]
  refine ⟨hl1, ?_, ?_, ?_⟩
  · intro hbad
    have hb : read_smf_search_body x = .inl (none, (read_int 4 (read_id x).2).2) := by
      unfold read_smf_search_body
      dsimp only
      by_cases he : (read_int 4 (read_id x).2).2.eof = true
      · rw [if_pos he]
      · rw [if_neg he, if_pos hbad]
    have hs := search_rounds_ret _ s0 x _ hx hb
    refine ⟨_, hb, hs, ?_⟩
    intro err k n s00 sh hh hk
    exact read_smf_search_fail err k n s00 sh s0 _ hh hk hs
  · intro he hok
    rw [read_smf_search_body_eq x i0 i1 i2 i3 a b c d r he hr, if_neg (by omega)]
  · intro ha hb hc hd
    rw [hl1, ha, hb, hc, hd]
    decide

theorem read_smf_chunk_length_witness :
    ∃ u, read_smf_search_body round_negative_chunk_length = .inl (none, u)
      ∧ read_smf_search state_negative_chunk_length.rest.length state_negative_chunk_length
          = .ret (none, u)
      ∧ ∀ (err : Int) (k n : Nat) (s00 sh : State),
          read_smf_header err s00 = (some (k + (n + 1)), sh) →
          read_smf_tracks k sh = .ret (1, state_negative_chunk_length) →
          read_smf err s00 = .ret (0, u) :=
  (read_smf_chunk_length state_negative_chunk_length round_negative_chunk_length
    77 84 114 107 0x80 0 0 0 [] (by decide!) (by decide)).2.1 (by decide!)

/-! ## C25: a chunk that is not a track -/

/-- Skipping the bytes of `content` when they are the next bytes of the
stream. -/
theorem skip_loop_content (content r : List Byte) (s : State)
    (hr : s.rest = content ++ r) :
    skip_loop content.length s
      = { s with rest := r, file_offset := s.file_offset + (content.length : Int) } := by
  induction content generalizing s with
  | nil =>
    simp only [List.nil_append] at hr
    simp only [List.length_nil, skip_loop, Nat.cast_zero, add_zero]
    rw [← hr]
  | cons b content ih =>
    simp only [List.cons_append] at hr
    simp only [List.length_cons]
    unfold skip_loop
    rw [read_byte_cons s b _ hr]
    dsimp only
    rw [ih _ rfl]
    simp only [State.mk.injEq, true_and, and_true]
    push_cast
    ring

/-- Fuel beyond the number of bytes left does not change the chunk search. -/
theorem read_smf_search_fuel (f1 f2 : Nat) (x : State)
    (h1 : x.rest.length ≤ f1) (h2 : x.rest.length ≤ f2) :
    read_smf_search f1 x = read_smf_search f2 x := by
  induction f1 generalizing f2 x with
  | zero =>
    unfold read_smf_search
    cases hb : read_smf_search_body x with
    | inl v => rfl
    | inr t =>
      have := read_smf_search_body_rest x t hb
      omega
  | succ n ih =>
    cases f2 with
    | zero =>
      unfold read_smf_search
      cases hb : read_smf_search_body x with
      | inl v => rfl
      | inr t =>
        have := read_smf_search_body_rest x t hb
        omega
    | succ m =>
      unfold read_smf_search
      cases hb : read_smf_search_body x with
      | inl v => rfl
      | inr t =>
        have := read_smf_search_body_rest x t hb
        dsimp only
        exact ih m t (by omega) (by omega)

/-- One round of the chunk search on a chunk that is not a track and holds as
many bytes as it declares: the chunk is skipped. -/
theorem read_smf_search_body_skip (s : State) (i0 i1 i2 i3 a b c d : Byte)
    (content r : List Byte) (he : s.eof = false)
    (hr : s.rest = i0 :: i1 :: i2 :: i3 :: a :: b :: c :: d :: (content ++ r))
    (htag : [i0, i1, i2, i3] ≠ ascii "MTrk")
    (hv : ((a.val * 256 + b.val) * 256 + c.val) * 256 + d.val < 0x10000000)
    (hc : content.length = ((a.val * 256 + b.val) * 256 + c.val) * 256 + d.val) :
    read_smf_search_body s
      = .inr (({ s with rest := r } : State).shift (8 + (content.length : Int))) := by
  have hlen := chunk_length_field s i0 i1 i2 i3 a b c d _ hr
  have hl1 : (read_int 4 (read_id s).2).1 = (content.length : Int) := by
    rw [hlen, hc]
    exact ofU32_ofNat _ (by omega)
  rw [read_smf_search_body_eq s i0 i1 i2 i3 a b c d _ he hr, hl1,
    if_neg (by omega), if_neg htag]
  unfold skip
  rw [Int.toNat_ofNat, skip_loop_content content r _ rfl]
  simp only [State.shift, Sum.inr.injEq, State.mk.injEq, true_and, and_true]
  ring

/-- The track loop in front of a chunk that is not a track. -/
theorem read_smf_tracks_skip (n : Nat) (s : State) (i0 i1 i2 i3 a b c d : Byte)
    (content r : List Byte) (he : s.eof = false)
    (hr : s.rest = i0 :: i1 :: i2 :: i3 :: a :: b :: c :: d :: (content ++ r))
    (htag : [i0, i1, i2, i3] ≠ ascii "MTrk")
    (hv : ((a.val * 256 + b.val) * 256 + c.val) * 256 + d.val < 0x10000000)
    (hc : content.length = ((a.val * 256 + b.val) * 256 + c.val) * 256 + d.val) :
    read_smf_tracks (n + 1) s
      = (read_smf_tracks (n + 1) { s with rest := r }).shift (8 + (content.length : Int)) := by
  have hb := read_smf_search_body_skip s i0 i1 i2 i3 a b c d content r he hr htag hv hc
  have hl : s.rest.length = (7 + content.length + r.length) + 1 := by
    rw [hr]
    simp only [List.length_cons, List.length_append]
    omega
  have hsearch : read_smf_search s.rest.length s
      = read_smf_search r.length
          (({ s with rest := r } : State).shift (8 + (content.length : Int))) := by
    rw [hl]
    conv_lhs => unfold read_smf_search
    rw [hb]
    dsimp only
    exact read_smf_search_fuel _ _ _ (by simp [State.shift]) (by simp [State.shift])
  rw [← read_smf_tracks_shift]
  conv_lhs => unfold read_smf_tracks
  conv_rhs => unfold read_smf_tracks
  rw [hsearch]
  rfl
/-! ### Bytes after the ones a function reads -/

theorem read_int_loop_append (n : Nat) (v : Int) (s : State) (X : List Byte)
    (h : n + 1 ≤ s.rest.length) :
    read_int_loop n v (s.append X)
        = ((read_int_loop n v s).1, (read_int_loop n v s).2.append X)
      ∧ (read_int_loop n v s).2.rest.length + (n + 1) = s.rest.length
      ∧ (read_int_loop n v s).2.eof = s.eof := by
  induction n generalizing v s with
  | zero =>
    cases hr : s.rest with
    | nil =>
      rw [hr] at h
      simp at h
    | cons b r =>
      have hr2 : (s.append X).rest = b :: (r ++ X) := by simp [State.append, hr]
      rw [read_int_loop, read_int_loop, read_byte_cons s b r hr,
        read_byte_cons (s.append X) b _ hr2]
      dsimp only
      rw [if_neg (by omega)]
      simp [State.append]
  | succ n ih =>
    cases hr : s.rest with
    | nil =>
      rw [hr] at h
      simp at h
    | cons b r =>
      have hr2 : (s.append X).rest = b :: (r ++ X) := by simp [State.append, hr]
      have eA : read_int_loop (n + 1) v (s.append X)
          = read_int_loop n (bor (shl v 8) (b.val : Int))
              (State.append X { s with file_offset := s.file_offset + 1, rest := r }) := by
        rw [read_int_loop, read_byte_cons _ b _ hr2]
        dsimp only
        rw [if_neg (by omega)]
        rfl
      have eB : read_int_loop (n + 1) v s
          = read_int_loop n (bor (shl v 8) (b.val : Int))
              { s with file_offset := s.file_offset + 1, rest := r } := by
        rw [read_int_loop, read_byte_cons _ b _ hr]
        dsimp only
        rw [if_neg (by omega)]
      rw [hr] at h
      simp only [List.length_cons] at h
      obtain ⟨h1, h2, h3⟩ := ih (bor (shl v 8) (b.val : Int))
        { s with file_offset := s.file_offset + 1, rest := r } (by simpa using h)
      rw [eA, eB]
      dsimp only at h2 h3
      refine ⟨h1, ?_, h3⟩
      simp only [List.length_cons]
      omega

theorem read_int_append (k : Nat) (hk : 1 ≤ k) (s : State) (X : List Byte)
    (h : k ≤ s.rest.length) :
    read_int k (s.append X) = ((read_int k s).1, (read_int k s).2.append X)
      ∧ (read_int k s).2.rest.length + k = s.rest.length
      ∧ (read_int k s).2.eof = s.eof := by
  unfold read_int
  have e : k - 1 + 1 = k := by omega
  have := read_int_loop_append (k - 1) 0 s X (by omega)
  rw [e] at this
  exact this

/-- With its ten bytes there, the header part does not look at what comes
next. -/
theorem read_smf_header_append (err : Int) (s : State) (X : List Byte)
    (h : 10 ≤ s.rest.length) :
    read_smf_header err (s.append X)
        = ((read_smf_header err s).1, (read_smf_header err s).2.append X)
      ∧ ∀ (n : Nat) (sh : State), read_smf_header err s = (some n, sh) → sh.eof = s.eof := by
  obtain ⟨e1, l1, f1⟩ := read_int_append 4 (by decide) s X (by omega)
  obtain ⟨e2, l2, f2⟩ := read_int_append 2 (by decide) (read_int 4 s).2 X (by omega)
  obtain ⟨e3, l3, f3⟩ := read_int_append 2 (by decide) (read_int 2 (read_int 4 s).2).2 X
    (by omega)
  obtain ⟨e4, l4, f4⟩ := read_int_append 2 (by decide)
    (read_int 2 (read_int 2 (read_int 4 s).2).2).2 X (by omega)
  constructor
  · unfold read_smf_header
    dsimp only
    rw [e1]
    dsimp only
    rw [e2]
    dsimp only
    rw [e3]
    dsimp only
    rw [e4]
    dsimp only
    split_ifs <;> first | rfl | (split <;> rfl)
  · intro n sh hh
    unfold read_smf_header at hh
    dsimp only at hh
    split at hh
    · cases hh
    split at hh
    · cases hh
    split at hh
    · cases hh
    split at hh
    · cases hh
    split at hh
    · cases hh
    · split at hh
      · cases hh
      · simp only [Prod.mk.injEq, Option.some.injEq] at hh
        rw [← hh.2]
        dsimp only
        rw [f4, f3, f2, f1]

theorem append_vars (X : List Byte) (s : State) : (s.append X).vars = s.vars := rfl

/-- The whole decode of a stream with a chunk that is not a track right after
the header. -/
theorem read_smf_insert_chunk (err : Int) (s : State) (i0 i1 i2 i3 a b c d : Byte)
    (content r : List Byte) (he : s.eof = false) (hs : s.rest.length = 10)
    (htag : [i0, i1, i2, i3] ≠ ascii "MTrk")
    (hv : ((a.val * 256 + b.val) * 256 + c.val) * 256 + d.val < 0x10000000)
    (hc : content.length = ((a.val * 256 + b.val) * 256 + c.val) * 256 + d.val) :
    (read_smf err (s.append (i0 :: i1 :: i2 :: i3 :: a :: b :: c :: d :: (content ++ r)))).outcome
      = (read_smf err (s.append r)).outcome := by
  have hA := (read_smf_header_append err s
    (i0 :: i1 :: i2 :: i3 :: a :: b :: c :: d :: (content ++ r)) (by omega)).1
  have hB := (read_smf_header_append err s r (by omega)).1
  have hE := (read_smf_header_append err s r (by omega)).2
  unfold read_smf
  rw [hA, hB]
  rcases hh : read_smf_header err s with ⟨_ | n, sh⟩
  · rfl
  · dsimp only
    have hd := read_smf_header_drop err s sh n hh
    have hrest : sh.rest = [] := by
      rw [hd.1]
      exact List.drop_of_length_le (by omega)
    have heof : sh.eof = false := by rw [hE n sh hh, he]
    obtain ⟨m, rfl⟩ : ∃ m, n = m + 1 := ⟨n - 1, by omega⟩
    have hr : (sh.append (i0 :: i1 :: i2 :: i3 :: a :: b :: c :: d :: (content ++ r))).rest
        = i0 :: i1 :: i2 :: i3 :: a :: b :: c :: d :: (content ++ r) := by
      simp [State.append, hrest]
    have e : ({ sh.append (i0 :: i1 :: i2 :: i3 :: a :: b :: c :: d :: (content ++ r)) with
                rest := r } : State) = sh.append r := by
      simp [State.append, hrest]
    rw [read_smf_tracks_skip m
      (sh.append (i0 :: i1 :: i2 :: i3 :: a :: b :: c :: d :: (content ++ r)))
      i0 i1 i2 i3 a b c d content r heof hr htag hv hc, e]
    rcases read_smf_tracks (m + 1) (sh.append r) with ⟨rc, u⟩ | _ | _
    · simp only [Run.shift]
      split
      · rfl
      · rw [read_smf_finish_shift, outcome_shift]
    · rfl
    · rfl

/-- C25: a chunk whose tag is not "MTrk", whose length field is below
0x10000000 and which holds as many bytes as the field says is skipped by one
round of the chunk search: the round ends right after the content, with only
the offset counter moved. So the track loop that starts in front of such a
chunk ends as the loop that starts after it, with the offset counter higher
by the size of the chunk, and `parseFile` on a file with the chunk right
after the ten bytes of the header gives the return code, the events and the
variables (`PPQ`, the song length, ...) it gives on the file without it. -/
theorem read_smf_skip_chunk (s : State) (i0 i1 i2 i3 a b c d : Byte) (content r : List Byte)
    (he : s.eof = false)
    (hr : s.rest = i0 :: i1 :: i2 :: i3 :: a :: b :: c :: d :: (content ++ r))
    (htag : [i0, i1, i2, i3] ≠ ascii "MTrk")
    (hv : ((a.val * 256 + b.val) * 256 + c.val) * 256 + d.val < 0x10000000)
    (hc : content.length = ((a.val * 256 + b.val) * 256 + c.val) * 256 + d.val) :
    read_smf_search_body s
        = .inr (({ s with rest := r } : State).shift (8 + (content.length : Int)))
      ∧ (∀ n : Nat, read_smf_tracks (n + 1) s
          = (read_smf_tracks (n + 1) { s with rest := r }).shift (8 + (content.length : Int)))
      ∧ (∀ n : Nat, (read_smf_tracks (n + 1) s).outcome
          = (read_smf_tracks (n + 1) { s with rest := r }).outcome)
      ∧ ∀ (err : Int) (H : List Byte) (s0 : State), H.length = 10 →
          (parseFile err
              (ascii "MThd" ++ (H ++ i0 :: i1 :: i2 :: i3 :: a :: b :: c :: d :: (content ++ r)))
              s0).outcome
            = (parseFile err (ascii "MThd" ++ (H ++ r)) s0).outcome := by
  have ht := fun n => read_smf_tracks_skip n s i0 i1 i2 i3 a b c d content r he hr htag hv hc
  refine ⟨read_smf_search_body_skip s i0 i1 i2 i3 a b c d content r he hr htag hv hc, ht, ?_, ?_⟩
  · intro n
    rw [ht n, outcome_shift]
  · intro err H s0 hH
    rw [parseFile_MThd, parseFile_MThd]
    exact read_smf_insert_chunk err { s0 with rest := H, eof := false, file_offset := 4 }
      i0 i1 i2 i3 a b c d content r rfl hH htag hv hc

theorem read_smf_skip_chunk_witness :
    (parseFile 0
        (ascii "MThd" ++ ([0, 0, 0, 6, 0, 1, 0, 1, 0, 96]
          ++ 88 :: 88 :: 88 :: 88 :: 0 :: 0 :: 0 :: 2 :: ([7, 9] ++ one_note_track_chunk)))
        State.start).outcome
      = (parseFile 0 (ascii "MThd" ++ ([0, 0, 0, 6, 0, 1, 0, 1, 0, 96] ++ one_note_track_chunk))
          State.start).outcome :=
  (read_smf_skip_chunk
    { State.start with
      rest := 88 :: 88 :: 88 :: 88 :: 0 :: 0 :: 0 :: 2 :: ([7, 9] ++ one_note_track_chunk) }
    88 88 88 88 0 0 0 2 [7, 9] one_note_track_chunk rfl rfl (by decide) (by decide)
    (by decide)).2.2.2 0 [0, 0, 0, 6, 0, 1, 0, 1, 0, 96] State.start rfl

/-- The file of the end-to-end example with the chunk "XXXX" of two bytes in
front of its track decodes to the events of the example. -/
theorem parseFile_extra_chunk_eval :
    parseFile 0
        (ascii "MThd" ++ ([0, 0, 0, 6, 0, 1, 0, 1, 0, 96]
          ++ 88 :: 88 :: 88 :: 88 :: 0 :: 0 :: 0 :: 2 :: ([7, 9] ++ one_note_track_chunk)))
        State.start
      = .ret (1, { file_one_note_result with file_offset := 44 }) := by decide!

/-! ## C20 and C19: the iteration that ends a successful `read_track` -/

/-- A loop that returns a non-zero code was left by its last iteration. -/
theorem iterations_success_last (track_end : Int) (fuel : Nat) (L : Locals) (s : State)
    (rc : Int) (u : State) (h : read_track_loop track_end fuel L s = .ret (rc, u))
    (hrc : rc ≠ 0) :
    ∃ p, (read_track_iterations track_end fuel L s).getLast? = some p
      ∧ p ∈ read_track_iterations track_end fuel L s
      ∧ read_track_body track_end p.1 p.2 = .exit rc u := by
  induction fuel generalizing L s with
  | zero =>
    unfold read_track_loop at h
    split at h
    · cases h
    · cases h
      exact absurd rfl hrc
  | succ n ih =>
    unfold read_track_loop at h
    unfold read_track_iterations
    split at h
    · rename_i hlt
      rw [if_pos hlt]
      dsimp only at h
      split at h
      · rename_i L1 s1 hn
        obtain ⟨p, hlast, hp, hb⟩ := ih _ _ h
        first | rw [hn] | skip
        try dsimp only
        refine ⟨p, ?_, List.mem_cons_of_mem _ hp, hb⟩
        cases hl : read_track_iterations track_end n L1 s1 with
        | nil =>
          rw [hl] at hp
          cases hp
        | cons b l =>
          rw [hl] at hlast
          rw [List.getLast?_cons_cons]
          exact hlast
      · rename_i rc1 s1 hn
        cases h
        first | rw [hn] | skip
        exact ⟨(L, s), rfl, List.mem_cons_self _ _, hn⟩
    · cases h
      exact absurd rfl hrc

/-- What the last iteration of a call of `read_track` that returns a non-zero
code did: it began before the track end, decoded a delta-time, the status
byte FF, the type 2F and a length, and skipped to the track end. -/
theorem read_track_last_iteration (track_end : Int) (s s' : State) (rc : Int)
    (h : read_track track_end s = .ret (rc, s')) (hrc : rc ≠ 0) :
    rc = 1 ∧
    ∃ p, (read_track_iters track_end s).getLast? = some p
      ∧ p.2.file_offset < track_end
      ∧ 0 ≤ delta_time p.2 ∧ status_byte p.2 = 0xff ∧ meta_type p.2 = 0x2f
      ∧ 0 ≤ meta_length p.2
      ∧ (after_meta_length p.2).eof = false
      ∧ s' = skip (track_end - (after_meta_length p.2).file_offset) (after_meta_length p.2) := by
  obtain ⟨p, hlast, hp, hb⟩ := iterations_success_last track_end _ _ s rc s' h hrc
  have hlt := iterations_last_cmd_lt track_end _ _ s (show (0 : Nat) < 240 by decide) p hp
  have hpos := iterations_lt track_end _ _ s p hp
  obtain ⟨hd, hs, hm, hl⟩ :=
    (read_track_body_exit_iff track_end p.1 p.2 hlt).mp ⟨rc, s', hrc, hb⟩
  obtain ⟨h1, -, -, h4, h5⟩ := read_track_body_exit track_end p.1 p.2 s' rc hlt hb hrc
  exact ⟨h1, p, hlast, hpos, hd, hs, hm, hl, h4, h5⟩

/-- C20, amended: when `read_track` returns a non-zero code, the code is 1 and
the last iteration of the call is an end-of-track event: it began before the
track end, decoded a delta-time, the status byte FF, the type 2F and a
length. The state returned is the one `skip` leaves when it is called right
after that length field, so the offset on return is the larger of the track
end and the offset after the length field: at least the track end, at most 9
above it, and the track end itself whenever the event ends within the
track. -/
theorem read_track_success_offset (track_end : Int) (s s' : State) (rc : Int)
    (h : read_track track_end s = .ret (rc, s')) (hrc : rc ≠ 0) :
    rc = 1 ∧
    ∃ p, (read_track_iters track_end s).getLast? = some p
      ∧ p.2.file_offset < track_end
      ∧ 0 ≤ delta_time p.2 ∧ status_byte p.2 = 0xff ∧ meta_type p.2 = 0x2f
      ∧ 0 ≤ meta_length p.2
      ∧ s' = skip (track_end - (after_meta_length p.2).file_offset) (after_meta_length p.2)
      ∧ s'.file_offset = max track_end (after_meta_length p.2).file_offset
      ∧ track_end ≤ s'.file_offset ∧ s'.file_offset ≤ track_end + 9
      ∧ ((after_meta_length p.2).file_offset ≤ track_end → s'.file_offset = track_end) := by
  obtain ⟨h1, p, hlast, hpos, hd, hs, hm, hl, -, h5⟩ :=
    read_track_last_iteration track_end s s' rc h hrc
  have h8 : s'.file_offset = max track_end (after_meta_length p.2).file_offset := by
    rw [h5, skip_to_offset]
  have h9 := after_meta_length_offset p.2
  refine ⟨h1, p, hlast, hpos, hd, hs, hm, hl, h5, h8, ?_, ?_, ?_⟩
  · rw [h8]; exact le_max_left _ _
  · rw [h8]; exact max_le (by omega) (by omega)
  · intro hle
    rw [h8]
    exact max_eq_left hle

theorem read_track_success_offset_witness :
    (1 : Int) = 1 ∧
    ∃ p, (read_track_iters 7 { State.start with rest := stream_eot_past_end }).getLast? = some p
      ∧ p.2.file_offset < 7
      ∧ 0 ≤ delta_time p.2 ∧ status_byte p.2 = 0xff ∧ meta_type p.2 = 0x2f
      ∧ 0 ≤ meta_length p.2
      ∧ stream_eot_past_end_result
          = skip (7 - (after_meta_length p.2).file_offset) (after_meta_length p.2)
      ∧ stream_eot_past_end_result.file_offset = max 7 (after_meta_length p.2).file_offset
      ∧ 7 ≤ stream_eot_past_end_result.file_offset
      ∧ stream_eot_past_end_result.file_offset ≤ 7 + 9
      ∧ ((after_meta_length p.2).file_offset ≤ 7
          → stream_eot_past_end_result.file_offset = 7) :=
  read_track_success_offset 7 { State.start with rest := stream_eot_past_end }
    stream_eot_past_end_result 1 eot_past_end_eval (by decide)

/-- The return code of `read_track` is non-zero exactly when one of its
iterations is an end-of-track event decoded up to its length field. -/
theorem read_track_nonzero_iff (track_end : Int) (s s' : State) (rc : Int)
    (h : read_track track_end s = .ret (rc, s')) :
    rc ≠ 0 ↔ ∃ p ∈ read_track_iters track_end s,
      0 ≤ delta_time p.2 ∧ status_byte p.2 = 0xff ∧ meta_type p.2 = 0x2f
        ∧ 0 ≤ meta_length p.2 := by
  constructor
  · intro hrc
    obtain ⟨p, hp, hb⟩ := iterations_success track_end _ _ s rc s' h hrc
    have hlt := iterations_last_cmd_lt track_end _ _ s (show (0 : Nat) < 240 by decide) p hp
    exact ⟨p, hp, (read_track_body_exit_iff track_end p.1 p.2 hlt).mp ⟨rc, s', hrc, hb⟩⟩
  · rintro ⟨p, hp, hc⟩
    have hlt := iterations_last_cmd_lt track_end _ _ s (show (0 : Nat) < 240 by decide) p hp
    obtain ⟨rc1, u, hrc1, hb⟩ := (read_track_body_exit_iff track_end p.1 p.2 hlt).mpr hc
    have ht := read_track_iters_exit track_end s p hp rc1 u hb
    rw [h] at ht
    simp only [Run.ret.injEq, Prod.mk.injEq] at ht
    rw [ht.1]
    exact hrc1

/-- The track loop with one track left, once the chunk search and
`read_track` have returned. -/
theorem read_smf_tracks_one (s t u : State) (len rc1 : Int)
    (hs : read_smf_search s.rest.length s = .ret (some len, t))
    (hu : read_track (t.file_offset + len) t = .ret (rc1, u)) :
    read_smf_tracks 1 s = if rc1 = 0 then .ret (0, u) else .ret (1, u.next_call) := by
  unfold read_smf_tracks
  rw [hs]
  dsimp only
  rw [hu]
  dsimp only
  split
  · rfl
  · unfold read_smf_tracks
    rfl

/-- C19, amended: let the chunk search of the track loop find a track chunk
whose declared length `len` is more than the bytes left. If at least one more
track is declared after it, the track loop returns 0. If it is the last
declared track, the loop returns, and its code is non-zero exactly when an
iteration of the call of `read_track` for this chunk is an end-of-track event
decoded up to its length field; that iteration is then the last one of the
call, the loop returns 1, and the state it returns is the one left by the
`skip` to the declared end, which runs into the end of the input: the stream
is empty and the end-of-file indicator is set, with no error reported. -/
theorem read_smf_tracks_truncated (n : Nat) (s t : State) (len : Int)
    (hs : read_smf_search s.rest.length s = .ret (some len, t))
    (htr : (t.rest.length : Int) < len) :
    (∃ s', read_smf_tracks (n + 2) s = .ret (0, s')) ∧
    (∃ rc s', read_smf_tracks 1 s = .ret (rc, s')) ∧
    (∀ rc s', read_smf_tracks 1 s = .ret (rc, s') →
      (rc ≠ 0 ↔ ∃ p ∈ read_track_iters (t.file_offset + len) t,
          0 ≤ delta_time p.2 ∧ status_byte p.2 = 0xff ∧ meta_type p.2 = 0x2f
            ∧ 0 ≤ meta_length p.2) ∧
      (rc ≠ 0 → rc = 1 ∧ s'.rest = [] ∧ s'.eof = true ∧
        ∃ p, (read_track_iters (t.file_offset + len) t).getLast? = some p
          ∧ p.2.file_offset < t.file_offset + len
          ∧ 0 ≤ delta_time p.2 ∧ status_byte p.2 = 0xff ∧ meta_type p.2 = 0x2f
          ∧ 0 ≤ meta_length p.2
          ∧ (after_meta_length p.2).eof = false
          ∧ s' = (skip (t.file_offset + len - (after_meta_length p.2).file_offset)
                  (after_meta_length p.2)).next_call)) := by
  obtain ⟨rc1, u, hu⟩ := read_track_ret (t.file_offset + len) t
  have hone := read_smf_tracks_one s t u len rc1 hs hu
  have hiff := read_track_nonzero_iff _ t u rc1 hu
  refine ⟨?_, ?_, ?_⟩
  · unfold read_smf_tracks
    rw [hs]
    dsimp only
    rw [hu]
    dsimp only
    by_cases h0 : rc1 = 0
    · rw [if_pos h0]
      exact ⟨u, rfl⟩
    · rw [if_neg h0]
      obtain ⟨-, hr, -⟩ := read_track_truncated _ t u rc1 (by omega) hu h0
      have hr1 : u.next_call.rest = [] := hr
      obtain ⟨v, hv⟩ := read_smf_search_nil u.next_call.rest.length u.next_call hr1
      unfold read_smf_tracks
      rw [hv]
      exact ⟨v, rfl⟩
  · rw [hone]
    by_cases h0 : rc1 = 0
    · rw [if_pos h0]
      exact ⟨_, _, rfl⟩
    · rw [if_neg h0]
      exact ⟨_, _, rfl⟩
  · intro rc s' h
    rw [hone] at h
    by_cases h0 : rc1 = 0
    · rw [if_pos h0] at h
      simp only [Run.ret.injEq, Prod.mk.injEq] at h
      constructor
      · rw [← h.1, ← hiff]
        simp [h0]
      · intro hrc
        exact absurd h.1.symm hrc
    · rw [if_neg h0] at h
      simp only [Run.ret.injEq, Prod.mk.injEq] at h
      obtain ⟨-, hr, he, -⟩ := read_track_truncated _ t u rc1 (by omega) hu h0
      obtain ⟨-, p, hlast, hpos, hd, hst, hm, hl, hae, hsk⟩ :=
        read_track_last_iteration _ t u rc1 hu h0
      constructor
      · rw [← h.1, ← hiff]
        simp [h0]
      · intro _
        refine ⟨h.1.symm, ?_, ?_, p, hlast, hpos, hd, hst, hm, hl, hae, ?_⟩
        · rw [← h.2]; exact hr
        · rw [← h.2]; exact he
        · rw [← h.2, hsk]

theorem read_smf_tracks_truncated_witness :
    (∃ s', read_smf_tracks (0 + 2) state_truncated_tracks = .ret (0, s')) ∧
    ((1 : Int) ≠ 0 ↔ ∃ p ∈ read_track_iters (state_truncated_track.file_offset + 20)
          state_truncated_track,
        0 ≤ delta_time p.2 ∧ status_byte p.2 = 0xff ∧ meta_type p.2 = 0x2f
          ∧ 0 ≤ meta_length p.2) ∧
    ((1 : Int) = 1 ∧ state_truncated_tracks_result.rest = []
      ∧ state_truncated_tracks_result.eof = true ∧
      ∃ p, (read_track_iters (state_truncated_track.file_offset + 20)
            state_truncated_track).getLast? = some p
        ∧ p.2.file_offset < state_truncated_track.file_offset + 20
        ∧ 0 ≤ delta_time p.2 ∧ status_byte p.2 = 0xff ∧ meta_type p.2 = 0x2f
        ∧ 0 ≤ meta_length p.2
        ∧ (after_meta_length p.2).eof = false
        ∧ state_truncated_tracks_result
          = (skip (state_truncated_track.file_offset + 20 - (after_meta_length p.2).file_offset)
              (after_meta_length p.2)).next_call) :=
  ⟨(read_smf_tracks_truncated 0 state_truncated_tracks state_truncated_track 20
      read_smf_search_truncated (by decide)).1,
    ((read_smf_tracks_truncated 0 state_truncated_tracks state_truncated_track 20
      read_smf_search_truncated (by decide)).2.2 1 state_truncated_tracks_result
      truncated_tracks_eval).1,
    ((read_smf_tracks_truncated 0 state_truncated_tracks state_truncated_track 20
      read_smf_search_truncated (by decide)).2.2 1 state_truncated_tracks_result
      truncated_tracks_eval).2 (by decide)⟩

/-! ## C2: the calls of `read_track` follow the file -/

theorem calls_order_nil :
    (∀ c ∈ ([] : List (Int × State)), c.2.file_offset ≤ c.1)
      ∧ ([] : List (Int × State)).Pairwise (fun a b => a.1 ≤ b.2.file_offset) :=
  ⟨fun _ hc => absurd hc (List.not_mem_nil _), List.Pairwise.nil⟩

theorem read_32_le_file_offset (s : State) :
    (read_32_le s).2.file_offset = s.file_offset + 4 := by
  unfold read_32_le
  dsimp only
  rw [read_byte_file_offset, read_byte_file_offset, read_byte_file_offset,
    read_byte_file_offset]
  omega

theorem read_int_loop_file_offset_le (n : Nat) (v : Int) (s : State) :
    s.file_offset ≤ (read_int_loop n v s).2.file_offset := by
  induction n generalizing v s with
  | zero =>
    unfold read_int_loop
    dsimp only
    have := read_byte_file_offset s
    split <;> (dsimp only; omega)
  | succ n ih =>
    unfold read_int_loop
    dsimp only
    have := read_byte_file_offset s
    split
    · dsimp only; omega
    · have := ih (bor (shl v 8) (read_byte s).1) (read_byte s).2
      omega

theorem skip_file_offset_le (n : Int) (s : State) : s.file_offset ≤ (skip n s).file_offset := by
  unfold skip
  rw [skip_loop_file_offset]
  omega

theorem read_smf_search_body_order (s : State) :
    (∀ r t, read_smf_search_body s = .inl (r, t) →
        s.file_offset ≤ t.file_offset ∧ ∀ len, r = some len → 0 ≤ len) ∧
    (∀ t, read_smf_search_body s = .inr t → s.file_offset ≤ t.file_offset) := by
  have h1 : s.file_offset ≤ (read_int 4 (read_id s).2).2.file_offset := by
    have a := read_32_le_file_offset s
    have b := read_int_loop_file_offset_le (4 - 1) 0 (read_id s).2
    unfold read_id at b ⊢
    unfold read_int
    omega
  unfold read_smf_search_body
  dsimp only
  split
  · refine ⟨fun r t h => ?_, fun t h => (by cases h)⟩
    cases h
    exact ⟨h1, fun len hl => (by cases hl)⟩
  split
  · refine ⟨fun r t h => ?_, fun t h => (by cases h)⟩
    cases h
    exact ⟨h1, fun len hl => (by cases hl)⟩
  split
  · rename_i hlen _
    refine ⟨fun r t h => ?_, fun t h => (by cases h)⟩
    cases h
    refine ⟨h1, fun len hl => ?_⟩
    cases hl
    omega
  · refine ⟨fun r t h => (by cases h), fun t h => ?_⟩
    cases h
    exact le_trans h1 (skip_file_offset_le _ _)

theorem read_smf_search_order (fuel : Nat) (s t : State) (r : Option Int)
    (h : read_smf_search fuel s = .ret (r, t)) :
    s.file_offset ≤ t.file_offset ∧ ∀ len, r = some len → 0 ≤ len := by
  induction fuel generalizing s with
  | zero =>
    unfold read_smf_search at h
    split at h
    · rename_i r1 hb
      cases h
      exact (read_smf_search_body_order s).1 _ _ hb
    · simp at h
  | succ n ih =>
    unfold read_smf_search at h
    split at h
    · rename_i r1 hb
      cases h
      exact (read_smf_search_body_order s).1 _ _ hb
    · rename_i s1 hb
      have h1 := (read_smf_search_body_order s).2 _ hb
      have h2 := ih _ h
      exact ⟨le_trans h1 h2.1, h2.2⟩

/-- A call of `read_track` that returns a non-zero code leaves the offset at
or after the track end. -/
theorem read_track_success_end (track_end : Int) (s s' : State) (rc : Int)
    (h : read_track track_end s = .ret (rc, s')) (hrc : rc ≠ 0) :
    track_end ≤ s'.file_offset := by
  obtain ⟨-, p, -, -, -, -, -, -, -, h5⟩ := read_track_last_iteration track_end s s' rc h hrc
  rw [h5, skip_to_offset]
  exact le_max_left _ _

/-- The calls of the track loop begin at or after the offset the loop starts
at, and each call after the first begins at or after the track end of every
call before it. -/
theorem read_smf_tracks_calls_order (n : Nat) (s : State) :
    (∀ c ∈ read_smf_tracks_calls n s, s.file_offset ≤ c.2.file_offset ∧ c.2.file_offset ≤ c.1)
      ∧ (read_smf_tracks_calls n s).Pairwise (fun a b => a.1 ≤ b.2.file_offset) := by
  induction n generalizing s with
  | zero =>
    unfold read_smf_tracks_calls
    exact (⟨fun _ hc => absurd hc (List.not_mem_nil _), List.Pairwise.nil⟩)
  | succ n ih =>
    unfold read_smf_tracks_calls
    rcases hs : read_smf_search s.rest.length s with ⟨_ | len, t⟩ | _ | _
    · exact (⟨fun _ hc => absurd hc (List.not_mem_nil _), List.Pairwise.nil⟩)
    · dsimp only
      obtain ⟨h1, h2⟩ := read_smf_search_order _ _ _ _ hs
      have hlen := h2 len rfl
      rcases ht : read_track (t.file_offset + len) t with ⟨rc1, u⟩ | _ | _
      · dsimp only
        by_cases h0 : rc1 = 0
        · rw [if_pos h0]
          refine ⟨fun c hc => ?_, List.pairwise_singleton _ _⟩
          rw [List.mem_singleton] at hc
          subst hc
          exact ⟨h1, (by dsimp only; omega)⟩
        · rw [if_neg h0]
          have h3 := read_track_success_end _ _ _ _ ht h0
          have h4 : u.next_call.file_offset = u.file_offset := rfl
          obtain ⟨i1, i2⟩ := ih u.next_call
          refine ⟨fun c hc => ?_, List.pairwise_cons.mpr ⟨fun c hc => ?_, i2⟩⟩
          · rcases List.mem_cons.mp hc with rfl | hc
            · exact ⟨h1, (by dsimp only; omega)⟩
            · have := i1 c hc
              exact ⟨(by omega), this.2⟩
          · have := i1 c hc
            dsimp only
            omega
      · refine ⟨fun c hc => ?_, List.pairwise_singleton _ _⟩
        rw [List.mem_singleton] at hc
        subst hc
        exact ⟨h1, (by dsimp only; omega)⟩
      · refine ⟨fun c hc => ?_, List.pairwise_singleton _ _⟩
        rw [List.mem_singleton] at hc
        subst hc
        exact ⟨h1, (by dsimp only; omega)⟩
    · exact (⟨fun _ hc => absurd hc (List.not_mem_nil _), List.Pairwise.nil⟩)
    · exact (⟨fun _ hc => absurd hc (List.not_mem_nil _), List.Pairwise.nil⟩)

theorem read_smf_calls_order (err : Int) (s : State) :
    (∀ c ∈ read_smf_calls err s, c.2.file_offset ≤ c.1)
      ∧ (read_smf_calls err s).Pairwise (fun a b => a.1 ≤ b.2.file_offset) := by
  unfold read_smf_calls
  rcases read_smf_header err s with ⟨_ | n, sh⟩
  · exact calls_order_nil
  · exact ⟨fun c hc => ((read_smf_tracks_calls_order n sh).1 c hc).2,
      (read_smf_tracks_calls_order n sh).2⟩

theorem read_riff_calls_order (err : Int) (s : State) :
    (∀ c ∈ read_riff_calls err s, c.2.file_offset ≤ c.1)
      ∧ (read_riff_calls err s).Pairwise (fun a b => a.1 ≤ b.2.file_offset) := by
  unfold read_riff_calls
  dsimp only
  split
  · exact calls_order_nil
  · split
    · exact calls_order_nil
    · split
      · exact calls_order_nil
      · exact read_smf_calls_order _ _
    · exact calls_order_nil
    · exact calls_order_nil

/-- The calls of `read_track` in a parse are in file order: each one begins
at or before its track end, and at or after the track end of every call
before it. -/
theorem parseFile_calls_order (err : Int) (content : List Byte) (s : State) :
    (∀ c ∈ parseFile_calls err content s, c.2.file_offset ≤ c.1)
      ∧ (parseFile_calls err content s).Pairwise (fun a b => a.1 ≤ b.2.file_offset) := by
  unfold parseFile_calls
  dsimp only
  split
  · exact read_smf_calls_order _ _
  · split
    · exact read_riff_calls_order _ _
    · exact calls_order_nil

/-! ## C2 and C18: the events a parse pushes -/

/-- What one call of `read_track` appends to `all_events`, whatever it
returns. -/
theorem read_track_pushed_spec (track_end : Int) (s s' : State) (rc : Int)
    (h : read_track track_end s = .ret (rc, s')) :
    s'.all_events = s.all_events ++ read_track_pushed track_end s :=
  (read_track_sums_spec track_end _ 0 _ s s' rc h
    (show (0 : Int) = wrap32 0 by decide) (le_refl 0)).1

/-- What the track loop appends to `all_events`, whatever it returns: the
events of its calls of `read_track`, call after call. -/
theorem read_smf_tracks_pushed (n : Nat) (s s' : State) (rc : Int)
    (h : read_smf_tracks n s = .ret (rc, s')) :
    s'.all_events = s.all_events
      ++ ((read_smf_tracks_calls n s).map (fun c => read_track_pushed c.1 c.2)).flatten := by
  induction n generalizing s with
  | zero =>
    unfold read_smf_tracks at h
    simp only [Run.ret.injEq, Prod.mk.injEq] at h
    rw [← h.2]
    simp [read_smf_tracks_calls]
  | succ n ih =>
    unfold read_smf_tracks at h
    unfold read_smf_tracks_calls
    rcases hs : read_smf_search s.rest.length s with ⟨_ | len, t⟩ | _ | _
    · rw [hs] at h
      simp only [Run.ret.injEq, Prod.mk.injEq] at h
      rw [← h.2, (vars_eq (read_smf_search_vars _ _ _ _ hs)).2.2.2.2.2.2.2.2]
      simp
    · rw [hs] at h
      have ht0 := (vars_eq (read_smf_search_vars _ _ _ _ hs)).2.2.2.2.2.2.2.2
      dsimp only at h ⊢
      rcases ht : read_track (t.file_offset + len) t with ⟨rc1, u⟩ | _ | _
      · rw [ht] at h
        have hu := read_track_pushed_spec _ t u rc1 ht
        dsimp only at h ⊢
        by_cases h0 : rc1 = 0
        · rw [if_pos h0] at h
          simp only [Run.ret.injEq, Prod.mk.injEq] at h
          rw [if_pos h0, ← h.2, hu, ht0]
          simp
        · rw [if_neg h0] at h
          have hi := ih u.next_call h
          rw [if_neg h0, hi]
          have e : u.next_call.all_events = u.all_events := rfl
          rw [e, hu, ht0]
          simp
      · rw [ht] at h
        cases h
      · rw [ht] at h
        cases h
    · rw [hs] at h
      cases h
    · rw [hs] at h
      cases h

/-- The event list `read_smf` leaves: what it found followed by the events
pushed, sorted when it returns a non-zero code. -/
theorem read_smf_pushed (err : Int) (s s' : State) (rc : Int)
    (h : read_smf err s = .ret (rc, s')) :
    s'.all_events
      = if rc = 0 then
          s.all_events ++ ((read_smf_calls err s).map (fun c => read_track_pushed c.1 c.2)).flatten
        else
          stable_sort tick_comp (s.all_events
            ++ ((read_smf_calls err s).map (fun c => read_track_pushed c.1 c.2)).flatten) := by
  unfold read_smf at h
  unfold read_smf_calls
  rcases hh : read_smf_header err s with ⟨_ | n, sh⟩
  · rw [hh] at h
    simp only [Run.ret.injEq, Prod.mk.injEq] at h
    rw [← h.1, ← h.2, if_pos rfl, read_smf_header_vars err s sh none hh]
    simp
  · rw [hh] at h
    have hs := read_smf_header_vars err s sh (some n) hh
    dsimp only at h ⊢
    rcases ht : read_smf_tracks n sh with ⟨rc1, s1⟩ | _ | _
    · rw [ht] at h
      have hp := read_smf_tracks_pushed n sh s1 rc1 ht
      dsimp only at h
      by_cases h0 : rc1 = 0
      · rw [if_pos h0] at h
        simp only [Run.ret.injEq, Prod.mk.injEq] at h
        rw [← h.1, ← h.2, if_pos rfl, hp, hs]
      · rw [if_neg h0] at h
        obtain ⟨e1, e2⟩ := read_smf_finish_events s1 s' rc h
        rw [e2, if_neg (by decide), e1, hp, hs]
    · rw [ht] at h
      cases h
    · rw [ht] at h
      cases h

theorem read_riff_pushed (err : Int) (s s' : State) (rc : Int)
    (h : read_riff err s = .ret (rc, s')) :
    s'.all_events
      = if rc = 0 then
          s.all_events
            ++ ((read_riff_calls err s).map (fun c => read_track_pushed c.1 c.2)).flatten
        else
          stable_sort tick_comp (s.all_events
            ++ ((read_riff_calls err s).map (fun c => read_track_pushed c.1 c.2)).flatten) := by
  have hv : (read_id (read_byte (read_byte (read_byte (read_byte s).2).2).2).2).2.vars
      = s.vars := by
    simp only [read_id_vars, read_byte_vars]
  unfold read_riff at h
  unfold read_riff_calls
  dsimp only at h ⊢
  by_cases hid : (read_id (read_byte (read_byte (read_byte (read_byte s).2).2).2).2).1
      ≠ MAKE_ID 'R' 'M' 'I' 'D'
  · rw [if_pos hid] at h
    simp only [Run.ret.injEq, Prod.mk.injEq] at h
    rw [if_pos hid, ← h.1, ← h.2, if_pos rfl, (vars_eq hv).2.2.2.2.2.2.2.2]
    simp
  · rw [if_neg hid] at h
    rw [if_neg hid]
    rcases hs : read_riff_search
        (read_id (read_byte (read_byte (read_byte (read_byte s).2).2).2).2).2.rest.length
        (read_id (read_byte (read_byte (read_byte (read_byte s).2).2).2).2).2
      with ⟨_ | _, t⟩ | _ | _
    · rw [hs] at h
      have h1 := (read_riff_search_vars _ _ _ _ hs).trans hv
      simp only [Run.ret.injEq, Prod.mk.injEq] at h
      rw [← h.1, ← h.2, if_pos rfl, (vars_eq h1).2.2.2.2.2.2.2.2]
      simp
    · rw [hs] at h
      have h1 := (read_riff_search_vars _ _ _ _ hs).trans hv
      have h2 := (read_id_vars t).trans h1
      dsimp only at h ⊢
      by_cases hm : (read_id t).1 ≠ MAKE_ID 'M' 'T' 'h' 'd'
      · rw [if_pos hm] at h
        simp only [Run.ret.injEq, Prod.mk.injEq] at h
        rw [if_pos hm, ← h.1, ← h.2, if_pos rfl, (vars_eq h2).2.2.2.2.2.2.2.2]
        simp
      · rw [if_neg hm] at h
        rw [if_neg hm, read_smf_pushed err _ s' rc h, (vars_eq h2).2.2.2.2.2.2.2.2]
    · rw [hs] at h
      cases h
    · rw [hs] at h
      cases h

/-- The event list `parseFile` leaves: what it found followed by the events
pushed, sorted when it returns a non-zero code. -/
theorem parseFile_pushed_spec (err : Int) (content : List Byte) (s s' : State) (rc : Int)
    (h : parseFile err content s = .ret (rc, s')) :
    s'.all_events
      = if rc = 0 then s.all_events ++ parseFile_pushed err content s
        else stable_sort tick_comp (s.all_events ++ parseFile_pushed err content s) := by
  have hv : (read_id { s with rest := content, eof := false, file_offset := 0 }).2.vars
      = s.vars := by
    rw [read_id_vars]; rfl
  have ha := (vars_eq hv).2.2.2.2.2.2.2.2
  unfold parseFile at h
  unfold parseFile_pushed parseFile_calls
  dsimp only at h ⊢
  by_cases h1 : (read_id { s with rest := content, eof := false, file_offset := 0 }).1
      = MAKE_ID 'M' 'T' 'h' 'd'
  · rw [if_pos h1] at h
    rw [if_pos h1, read_smf_pushed err _ s' rc h, ha]
  · rw [if_neg h1] at h
    rw [if_neg h1]
    by_cases h2 : (read_id { s with rest := content, eof := false, file_offset := 0 }).1
        = MAKE_ID 'R' 'I' 'F' 'F'
    · rw [if_pos h2] at h
      rw [if_pos h2, read_riff_pushed err _ s' rc h, ha]
    · rw [if_neg h2] at h
      simp only [Run.ret.injEq, Prod.mk.injEq] at h
      rw [if_neg h2, ← h.1, ← h.2, if_pos rfl, ha]
      simp

/-- Every call in the list of calls appends its own list of pushed events. -/
theorem read_track_pushed_calls (calls : List (Int × State)) :
    ∀ c ∈ calls, ∀ (rc1 : Int) (u : State), read_track c.1 c.2 = .ret (rc1, u) →
      u.all_events = c.2.all_events ++ read_track_pushed c.1 c.2 :=
  fun c _ rc1 u h => read_track_pushed_spec c.1 c.2 u rc1 h

/-- C2: whenever `parseFile` succeeds, the final `all_events` is the stable
sort by tick of the list it found at the call followed by the events this
parse pushed, in the order of the pushes: those of its calls of `read_track`
(one per track chunk, in the order the track loop reads them), each call
with the events of its iterations in the order it ran them. The final list
is a permutation of that list in which, for every tick, the events of that
tick stand in the order in which they were pushed. Each call appends its
events to the list it finds, and the calls follow the file: every call
begins at or after the track end of each call before it. -/
theorem parseFile_stable_sort (err : Int) (content : List Byte) (s s' : State) (rc : Int)
    (h : parseFile err content s = .ret (rc, s')) (hrc : rc ≠ 0) :
    s'.all_events = stable_sort tick_comp (s.all_events ++ parseFile_pushed err content s)
      ∧ s'.all_events.Perm (s.all_events ++ parseFile_pushed err content s)
      ∧ (∀ t : Nat, s'.all_events.filter (fun e => decide (e.tick = t))
          = (s.all_events ++ parseFile_pushed err content s).filter
              (fun e => decide (e.tick = t)))
      ∧ (∀ c ∈ parseFile_calls err content s, ∀ (rc1 : Int) (u : State),
          read_track c.1 c.2 = .ret (rc1, u) →
          u.all_events = c.2.all_events ++ read_track_pushed c.1 c.2)
      ∧ (parseFile_calls err content s).Pairwise (fun a b => a.1 ≤ b.2.file_offset) := by
  have e := parseFile_pushed_spec err content s s' rc h
  rw [if_neg hrc] at e
  refine ⟨e, ?_, ?_, read_track_pushed_calls _, (parseFile_calls_order err content s).2⟩
  · rw [e]; exact stable_sort_perm _
  · intro t; rw [e]; exact stable_sort_filter _ t

/-- The events the two-track file pushes: the note-on and the note-off of the
first track at ticks 0 and 10, then the program change and the note-on of the
second track at ticks 0 and 5. -/
theorem parseFile_pushed_two_tracks_eval :
    parseFile_pushed 0 file_two_tracks State.start
      = [{ type := 6, port := 0, tick := 0, data := ⟨0, 60, 64, 0⟩, sysex := [] },
         { type := 7, port := 0, tick := 10, data := ⟨0, 60, 64, 0⟩, sysex := [] },
         { type := 11, port := 0, tick := 0, data := ⟨1, 5, 0, 0⟩, sysex := [] },
         { type := 6, port := 0, tick := 5, data := ⟨1, 64, 127, 0⟩, sysex := [] }] := by
  decide!

/-- For the two-track file the sorted list is the stable sort of the four
events in the order the parse pushed them, and the events of each tick keep
that order. -/
theorem parseFile_stable_sort_witness :
    file_two_tracks_result.all_events
        = stable_sort tick_comp
            (State.start.all_events ++ parseFile_pushed 0 file_two_tracks State.start)
      ∧ ∀ t : Nat, file_two_tracks_result.all_events.filter (fun e => decide (e.tick = t))
          = (State.start.all_events ++ parseFile_pushed 0 file_two_tracks State.start).filter
              (fun e => decide (e.tick = t)) :=
  ⟨(parseFile_stable_sort 0 file_two_tracks State.start file_two_tracks_result 1
      parseFile_file_two_tracks (by decide)).1,
    (parseFile_stable_sort 0 file_two_tracks State.start file_two_tracks_result 1
      parseFile_file_two_tracks (by decide)).2.2.1⟩

/-- C18, amended: when `parseFile` returns 0 the list `all_events` is the one
it had at the call followed by the events this parse pushed before the
error, in the order of the pushes: those of its calls of `read_track`, the
failing call included, the calls following the file. Nothing is removed
and nothing is sorted, so the list is empty only when it was empty at the
call and no event was pushed. -/
theorem parseFile_failure_events (err : Int) (content : List Byte) (s s' : State)
    (h : parseFile err content s = .ret (0, s')) :
    s'.all_events = s.all_events ++ parseFile_pushed err content s
      ∧ (s'.all_events = [] ↔ s.all_events = [] ∧ parseFile_pushed err content s = [])
      ∧ (∀ c ∈ parseFile_calls err content s, ∀ (rc1 : Int) (u : State),
          read_track c.1 c.2 = .ret (rc1, u) →
          u.all_events = c.2.all_events ++ read_track_pushed c.1 c.2)
      ∧ (parseFile_calls err content s).Pairwise (fun a b => a.1 ≤ b.2.file_offset) := by
  have e := parseFile_pushed_spec err content s s' 0 h
  rw [if_pos rfl] at e
  refine ⟨e, ?_, read_track_pushed_calls _, (parseFile_calls_order err content s).2⟩
  rw [e]
  exact List.append_eq_nil

/-- The events `file_bad_second_track` pushes before the status byte F1 of its
second track: the two events of the first track. -/
theorem parseFile_pushed_bad_second_track_eval :
    parseFile_pushed 0 file_bad_second_track State.start
      = [{ type := 6, port := 0, tick := 0, data := ⟨0, 60, 64, 0⟩, sysex := [] },
         { type := 7, port := 0, tick := 96, data := ⟨0, 60, 64, 0⟩, sysex := [] }] := by
  decide!

theorem parseFile_failure_events_witness :
    file_bad_second_track_result.all_events
        = State.start.all_events ++ parseFile_pushed 0 file_bad_second_track State.start
      ∧ (file_bad_second_track_result.all_events = []
          ↔ State.start.all_events = []
            ∧ parseFile_pushed 0 file_bad_second_track State.start = []) :=
  ⟨(parseFile_failure_events 0 file_bad_second_track State.start file_bad_second_track_result
      parseFile_file_bad_second_track).1,
    (parseFile_failure_events 0 file_bad_second_track State.start file_bad_second_track_result
      parseFile_file_bad_second_track).2.1⟩

/-! ## C12: what the uninitialised `Event` brings into a parse -/

theorem written_rest (s : State) : s.written.rest = s.rest := rfl

theorem written_eof (s : State) : s.written.eof = s.eof := rfl

theorem written_file_offset (s : State) : s.written.file_offset = s.file_offset := rfl

theorem written_written (e : event) : e.written.written = e.written := by
  unfold event.written
  split_ifs <;> simp_all

theorem map_written_written (l : List event) :
    (l.map event.written).map event.written = l.map event.written := by
  rw [List.map_map]
  apply List.map_congr_left
  intro e _
  exact written_written e

theorem state_written_idem (s : State) : s.written.written = s.written := by
  simp only [State.written, map_written_written]

theorem written_tick (e : event) : e.written.tick = e.tick := by
  unfold event.written
  split_ifs <;> rfl

theorem read_byte_written (s : State) :
    read_byte s.written = ((read_byte s).1, (read_byte s).2.written) := by
  unfold read_byte State.written
  cases s.rest with
  | nil => rfl
  | cons b r => rfl

theorem read_32_le_written (s : State) :
    read_32_le s.written = ((read_32_le s).1, (read_32_le s).2.written) := by
  simp only [read_32_le, read_byte_written, written_eof]

theorem read_id_written (s : State) :
    read_id s.written = ((read_id s).1, (read_id s).2.written) := read_32_le_written s

theorem read_int_loop_written (n : Nat) (v : Int) (s : State) :
    read_int_loop n v s.written
      = ((read_int_loop n v s).1, (read_int_loop n v s).2.written) := by
  induction n generalizing v s with
  | zero =>
    unfold read_int_loop
    simp only [read_byte_written]
    split <;> rfl
  | succ n ih =>
    unfold read_int_loop
    simp only [read_byte_written]
    split
    · rfl
    · exact ih _ _

theorem read_int_written (n : Nat) (s : State) :
    read_int n s.written = ((read_int n s).1, (read_int n s).2.written) :=
  read_int_loop_written _ _ s

theorem read_var_written (s : State) :
    read_var s.written = ((read_var s).1, (read_var s).2.written) := by
  unfold read_var
  simp only [read_byte_written, written_eof]
  split_ifs <;> rfl

theorem skip_loop_written (n : Nat) (s : State) :
    skip_loop n s.written = (skip_loop n s).written := by
  induction n generalizing s with
  | zero => rfl
  | succ n ih => unfold skip_loop; rw [read_byte_written]; exact ih _

theorem skip_written (n : Int) (s : State) : skip n s.written = (skip n s).written :=
  skip_loop_written _ s

theorem sysex_loop_written (n : Nat) (l : List Nat) (s : State) :
    sysex_loop n l s.written = ((sysex_loop n l s).1, (sysex_loop n l s).2.written) := by
  induction n generalizing l s with
  | zero => rfl
  | succ n ih => unfold sysex_loop; simp only [read_byte_written]; exact ih _ _

/-- The SysEx case gives the same events and the same `sysex` vector whatever
the scalar fields of `Event` held. -/
theorem read_track_sysex_written (tick : Int) (last_cmd port : Nat) (Event : event) (cmd : Nat)
    (s : State) :
    (read_track_sysex tick last_cmd port Event cmd s).written
      = (read_track_sysex tick last_cmd port { Event_init with sysex := Event.sysex } cmd
          s.written).written := by
  unfold read_track_sysex
  simp only [read_var_written, sysex_loop_written]
  split
  · simp only [Step.written, state_written_idem]
  · simp only [Step.written, State.written, Locals.written, List.map_append,
      map_written_written, List.map_cons, List.map_nil, written_written]

/-- Pushing an event that `event.written` leaves as it is. -/
theorem push_written (t : State) (E : event) (hE : E.written = E) :
    ({ t.written with all_events := t.written.all_events ++ [E] } : State)
      = State.written { t with all_events := t.all_events ++ [E] } := by
  simp only [State.written, List.map_append, List.map_cons, List.map_nil, hE]

theorem step_next_written (L1 L2 : Locals) (s : State) (h : L1.written = L2.written) :
    (Step.next L1 s).written = (Step.next L2 s.written).written := by
  simp only [Step.written, state_written_idem, h]

theorem read_track_tempo_written (tick : Int) (last_cmd port : Nat) (Event : event)
    (len : Int) (s : State) :
    (read_track_tempo tick last_cmd port Event len s).written
      = (read_track_tempo tick last_cmd port { Event_init with sysex := Event.sysex } len
          s.written).written := by
  unfold read_track_tempo
  simp only [read_byte_written]
  rw [push_written _ _ (by rfl), skip_written]
  exact step_next_written _ _ _ rfl

theorem written_smpte_timing (s : State) : s.written.smpte_timing = s.smpte_timing := rfl

theorem step_exit_written (rc : Int) (s : State) :
    (Step.exit rc s).written = (Step.exit rc s.written).written := by
  simp only [Step.written, state_written_idem]

theorem read_track_meta_written (track_end tick : Int) (last_cmd port : Nat) (Event : event)
    (s : State) :
    (read_track_meta track_end tick last_cmd port Event s).written
      = (read_track_meta track_end tick last_cmd port { Event_init with sysex := Event.sysex }
          s.written).written := by
  unfold read_track_meta
  simp only [read_byte_written, read_var_written, skip_written, written_smpte_timing,
    written_file_offset]
  split_ifs <;>
    first
      | exact step_exit_written _ _
      | exact step_next_written _ _ _ rfl
      | exact read_track_tempo_written _ _ _ _ _ _

theorem step_push_written (L1 L2 : Locals) (x : State) (E1 E2 : event)
    (hL : L1.written = L2.written) (hE : E1.written = E2.written) :
    (Step.next L1 { x with all_events := x.all_events ++ [E1] }).written
      = (Step.next L2
          { x.written with all_events := x.written.all_events ++ [E2] }).written := by
  simp only [Step.written, State.written, List.map_append, List.map_cons, List.map_nil,
    map_written_written, hL, hE]

/-- A channel message with two data bytes: the fourth byte of the union is
not part of what `event.written` keeps. -/
theorem written_two_bytes (x port tick b0 b1 b2 b3 b3' : Nat) (sysex : List Nat)
    (h : x = 0x8 ∨ x = 0x9 ∨ x = 0xa ∨ x = 0xb ∨ x = 0xe) :
    event.written { type := cmd_type x, port := port, tick := tick,
                    data := { b0 := b0, b1 := b1, b2 := b2, b3 := b3 }, sysex := sysex }
      = event.written { type := cmd_type x, port := port, tick := tick,
                        data := { b0 := b0, b1 := b1, b2 := b2, b3 := b3' }, sysex := sysex } := by
  rcases h with h | h | h | h | h <;> subst h <;> rfl

/-- A channel message with one data byte: `d[2]` and the fourth byte of the
union are not part of what `event.written` keeps. -/
theorem written_one_byte (x port tick b0 b1 b2 b3 b2' b3' : Nat) (sysex : List Nat)
    (h : x = 0xc ∨ x = 0xd) :
    event.written { type := cmd_type x, port := port, tick := tick,
                    data := { b0 := b0, b1 := b1, b2 := b2, b3 := b3 }, sysex := sysex }
      = event.written { type := cmd_type x, port := port, tick := tick,
                        data := { b0 := b0, b1 := b1, b2 := b2', b3 := b3' }, sysex := sysex } := by
  rcases h with h | h <;> subst h <;> rfl

theorem read_track_dispatch_written (track_end tick : Int) (last_cmd port : Nat)
    (Event : event) (cmd : Nat) (s : State) :
    (read_track_dispatch track_end tick last_cmd port Event cmd s).written
      = (read_track_dispatch track_end tick last_cmd port
          { Event_init with sysex := Event.sysex } cmd s.written).written := by
  unfold read_track_dispatch
  simp only [read_byte_written]
  by_cases h1 : cmd >>> 4 = 0x8 ∨ cmd >>> 4 = 0x9 ∨ cmd >>> 4 = 0xa ∨ cmd >>> 4 = 0xb
      ∨ cmd >>> 4 = 0xe
  · rw [if_pos h1, if_pos h1]
    exact step_push_written _ _ _ _ _ rfl (written_two_bytes _ _ _ _ _ _ _ _ _ h1)
  · rw [if_neg h1, if_neg h1]
    by_cases h2 : cmd >>> 4 = 0xc ∨ cmd >>> 4 = 0xd
    · rw [if_pos h2, if_pos h2]
      exact step_push_written _ _ _ _ _ rfl (written_one_byte _ _ _ _ _ _ _ _ _ _ h2)
    · rw [if_neg h2, if_neg h2]
      by_cases h3 : cmd >>> 4 = 0xf
      · rw [if_pos h3, if_pos h3]
        by_cases h4 : cmd = 0xf0 ∨ cmd = 0xf7
        · rw [if_pos h4, if_pos h4]
          exact read_track_sysex_written _ _ _ _ _ _
        · rw [if_neg h4, if_neg h4]
          by_cases h5 : cmd = 0xff
          · rw [if_pos h5, if_pos h5]
            exact read_track_meta_written _ _ _ _ _ _
          · rw [if_neg h5, if_neg h5]
            exact step_exit_written _ _
      · rw [if_neg h3, if_neg h3]
        exact step_exit_written _ _

theorem read_track_body_written (track_end : Int) (L : Locals) (s : State) :
    (read_track_body track_end L s).written
      = (read_track_body track_end L.written s.written).written := by
  have e : ∀ (c : Int) (x : State),
      ({ ungetc c x.written with file_offset := x.written.file_offset - 1 } : State)
        = State.written { ungetc c x with file_offset := x.file_offset - 1 } := fun _ _ => rfl
  have e1 : L.written.tick = L.tick := rfl
  have e2 : L.written.last_cmd = L.last_cmd := rfl
  have e3 : L.written.port = L.port := rfl
  have e4 : L.written.Event = { Event_init with sysex := L.Event.sysex } := rfl
  unfold read_track_body
  simp only [read_var_written, read_byte_written, e, e1, e2, e3, e4]
  by_cases h1 : (read_var s).1 < 0
  · rw [if_pos h1, if_pos h1]
    exact step_exit_written _ _
  · rw [if_neg h1, if_neg h1]
    by_cases h2 : (read_byte (read_var s).2).1 < 0
    · rw [if_pos h2, if_pos h2]
      exact step_exit_written _ _
    · rw [if_neg h2, if_neg h2]
      by_cases h3 : band (read_byte (read_var s).2).1 0x80 ≠ 0
      · rw [if_pos h3, if_pos h3]
        exact read_track_dispatch_written _ _ _ _ _ _ _
      · rw [if_neg h3, if_neg h3]
        by_cases h4 : L.last_cmd = 0
        · rw [if_pos h4, if_pos h4]
          exact step_exit_written _ _
        · rw [if_neg h4, if_neg h4]
          exact read_track_dispatch_written _ _ _ _ _ _ _

theorem run_ret_written {α : Type} (a : α) (s : State) :
    (Run.ret (a, s)).written = (Run.ret (a, s.written)).written := by
  simp only [Run.written, state_written_idem]

theorem read_track_loop_written (track_end : Int) (fuel : Nat) (L : Locals) (s : State) :
    (read_track_loop track_end fuel L s).written
      = (read_track_loop track_end fuel L.written s.written).written := by
  induction fuel generalizing L s with
  | zero =>
    unfold read_track_loop
    simp only [written_file_offset]
    split
    · rfl
    · exact run_ret_written _ _
  | succ n ih =>
    have hb := read_track_body_written track_end L s
    unfold read_track_loop
    simp only [written_file_offset]
    split
    · try dsimp only
      rcases h1 : read_track_body track_end L s with ⟨L1, s1⟩ | ⟨rc1, u1⟩ <;>
        rcases h2 : read_track_body track_end L.written s.written with ⟨L2, s2⟩ | ⟨rc2, u2⟩ <;>
        rw [h1, h2] at hb <;>
        simp only [Step.written, Step.next.injEq, Step.exit.injEq] at hb
      · try dsimp only
        rw [ih L1 s1, ih L2 s2, hb.1, hb.2]
      · cases hb
      · cases hb
      · try dsimp only
        simp only [Run.written, hb.1, hb.2]
    · exact run_ret_written _ _

theorem Event0_sysex (s : State) : s.Event0.sysex = [] := by
  unfold State.Event0
  split <;> rfl

theorem read_track_written (track_end : Int) (s : State) :
    (read_track track_end s).written = (read_track track_end s.written).written := by
  unfold read_track
  rw [read_track_loop_written,
    read_track_loop_written track_end _ ⟨0, 0, 0, s.written.Event0⟩ s.written,
    state_written_idem]
  have e : (⟨0, 0, 0, s.Event0⟩ : Locals).written
      = (⟨0, 0, 0, s.written.Event0⟩ : Locals).written := by
    simp only [Locals.written, Event0_sysex]
  rw [e]
  rfl

theorem read_smf_search_body_written (s : State) :
    read_smf_search_body s.written
      = (match read_smf_search_body s with
          | .inl (r, t) => .inl (r, t.written)
          | .inr t => .inr t.written) := by
  unfold read_smf_search_body
  simp only [read_id_written, read_int_written, written_eof, skip_written]
  split_ifs <;> rfl

theorem read_smf_search_written (fuel : Nat) (s : State) :
    read_smf_search fuel s.written = (read_smf_search fuel s).written := by
  induction fuel generalizing s with
  | zero =>
    unfold read_smf_search
    rw [read_smf_search_body_written]
    rcases read_smf_search_body s with ⟨r, t⟩ | t <;> rfl
  | succ n ih =>
    unfold read_smf_search
    rw [read_smf_search_body_written]
    rcases read_smf_search_body s with ⟨r, t⟩ | t
    · rfl
    · exact ih _

theorem next_call_written (s : State) : s.next_call.written = s.written := rfl

theorem read_smf_tracks_written (n : Nat) (s : State) :
    (read_smf_tracks n s).written = (read_smf_tracks n s.written).written := by
  induction n generalizing s with
  | zero =>
    unfold read_smf_tracks
    exact run_ret_written _ _
  | succ n ih =>
    unfold read_smf_tracks
    rw [written_rest, read_smf_search_written]
    rcases read_smf_search s.rest.length s with ⟨_ | len, t⟩ | _ | _
    · exact run_ret_written _ _
    · rw [show (Run.ret (some len, t) : Run (Option Int × State)).written
          = .ret (some len, t.written) from rfl]
      dsimp only
      rw [written_file_offset]
      have ht := read_track_written (t.file_offset + len) t
      rcases h1 : read_track (t.file_offset + len) t with ⟨rc1, u1⟩ | _ | _ <;>
        rcases h2 : read_track (t.file_offset + len) t.written with ⟨rc2, u2⟩ | _ | _ <;>
        rw [h1, h2] at ht <;>
        simp only [Run.written, Run.ret.injEq, Prod.mk.injEq] at ht <;>
        try cases ht
      · try dsimp only
        rename_i hrc hu
        rw [← hrc]
        by_cases h0 : rc1 = 0
        · rw [if_pos h0, if_pos h0]
          simp only [Run.written, hu, state_written_idem]
        · rw [if_neg h0, if_neg h0, ih u1.next_call, ih u2.next_call, next_call_written,
            next_call_written, hu]
      all_goals rfl
    · rfl
    · rfl

theorem read_smf_header_written (err : Int) (s : State) :
    read_smf_header err s.written
      = ((read_smf_header err s).1, (read_smf_header err s).2.written) := by
  unfold read_smf_header
  simp only [read_int_written]
  split_ifs <;> first | rfl | (split <;> rfl)

theorem stable_sort_written (l : List event) :
    stable_sort tick_comp (l.map event.written)
      = (stable_sort tick_comp l).map event.written := by
  unfold stable_sort
  symm
  apply List.map_mergeSort
  intro a _ b _
  simp only [tick_comp, written_tick]

theorem read_smf_finish_written (s : State) :
    (read_smf_finish s).written = (read_smf_finish s.written).written := by
  have e : stable_sort tick_comp s.written.all_events
      = (stable_sort tick_comp s.all_events).map event.written := stable_sort_written _
  unfold read_smf_finish
  simp only [e, List.getLast?_map]
  rcases (stable_sort tick_comp s.all_events).getLast? with _ | back
  · rfl
  · simp only [Option.map_some', written_tick,
      show s.written.song_length_seconds = s.song_length_seconds from rfl,
      show s.written.BPM = s.BPM from rfl, show s.written.PPQ = s.PPQ from rfl,
      show s.written.prev_tick = s.prev_tick from rfl]
    split_ifs <;>
      simp only [Run.written, State.written, map_written_written]

theorem read_smf_written (err : Int) (s : State) :
    (read_smf err s).written = (read_smf err s.written).written := by
  unfold read_smf
  rw [read_smf_header_written]
  rcases read_smf_header err s with ⟨_ | n, sh⟩
  · exact run_ret_written _ _
  · dsimp only
    have ht := read_smf_tracks_written n sh
    rcases h1 : read_smf_tracks n sh with ⟨rc1, u1⟩ | _ | _ <;>
      rcases h2 : read_smf_tracks n sh.written with ⟨rc2, u2⟩ | _ | _ <;>
      rw [h1, h2] at ht <;>
      simp only [Run.written, Run.ret.injEq, Prod.mk.injEq] at ht <;>
      try cases ht
    · try dsimp only
      rename_i hrc hu
      rw [← hrc]
      by_cases h0 : rc1 = 0
      · rw [if_pos h0, if_pos h0]
        simp only [Run.written, hu, state_written_idem]
      · rw [if_neg h0, if_neg h0, read_smf_finish_written u1, read_smf_finish_written u2, hu]
    all_goals rfl

theorem read_riff_search_body_written (s : State) :
    read_riff_search_body s.written
      = (match read_riff_search_body s with
          | .inl (r, t) => .inl (r, t.written)
          | .inr t => .inr t.written) := by
  unfold read_riff_search_body
  simp only [read_id_written, read_32_le_written, written_eof, skip_written]
  split_ifs <;> rfl

theorem read_riff_search_written (fuel : Nat) (s : State) :
    read_riff_search fuel s.written = (read_riff_search fuel s).written := by
  induction fuel generalizing s with
  | zero =>
    unfold read_riff_search
    rw [read_riff_search_body_written]
    rcases read_riff_search_body s with ⟨r, t⟩ | t <;> rfl
  | succ n ih =>
    unfold read_riff_search
    rw [read_riff_search_body_written]
    rcases read_riff_search_body s with ⟨r, t⟩ | t
    · rfl
    · exact ih _

theorem read_riff_written (err : Int) (s : State) :
    (read_riff err s).written = (read_riff err s.written).written := by
  unfold read_riff
  simp only [read_byte_written, read_id_written, written_rest, read_riff_search_written]
  by_cases hid : (read_id (read_byte (read_byte (read_byte (read_byte s).2).2).2).2).1
      ≠ MAKE_ID 'R' 'M' 'I' 'D'
  · simp only [if_pos hid]
    exact run_ret_written _ _
  · simp only [if_neg hid]
    rcases read_riff_search
        (read_id (read_byte (read_byte (read_byte (read_byte s).2).2).2).2).2.rest.length
        (read_id (read_byte (read_byte (read_byte (read_byte s).2).2).2).2).2
      with ⟨_ | _, t⟩ | _ | _
    · exact run_ret_written _ _
    · simp only [Run.written, read_id_written]
      by_cases hm : (read_id t).1 ≠ MAKE_ID 'M' 'T' 'h' 'd'
      · simp only [if_pos hm, state_written_idem]
      · simp only [if_neg hm]
        exact read_smf_written err _
    · rfl
    · rfl

/-- What a parse leaves, reduced to the bytes that were assigned, is what the
parse leaves when it starts from the reduced state: the values the
uninitialised `Event` held show only in the bytes `event.written` sets to
zero. -/
theorem parseFile_written (err : Int) (content : List Byte) (s : State) :
    (parseFile err content s).written = (parseFile err content s.written).written := by
  have ho : ({ s.written with rest := content, eof := false, file_offset := 0 } : State)
      = State.written { s with rest := content, eof := false, file_offset := 0 } := rfl
  unfold parseFile
  simp only [ho, read_id_written]
  split_ifs
  · exact read_smf_written err _
  · exact read_riff_written err _
  · exact run_ret_written _ _

/-! ## C12: the key signature moves only at a key-signature event -/

theorem key_of_vars {s t : State} (h : t.vars = s.vars) : t.key = s.key := by
  obtain ⟨-, -, -, -, -, h6, h7, -, -⟩ := vars_eq h
  simp only [State.key, h6, h7]

theorem read_byte_key (s : State) : (read_byte s).2.key = s.key :=
  key_of_vars (read_byte_vars s)

theorem read_var_key (s : State) : (read_var s).2.key = s.key :=
  key_of_vars (read_var_vars s)

theorem skip_key (n : Int) (s : State) : (skip n s).key = s.key :=
  key_of_vars (skip_vars n s)

theorem read_track_sysex_key (tick : Int) (last_cmd port : Nat) (Event : event) (cmd : Nat)
    (s : State) : (read_track_sysex tick last_cmd port Event cmd s).state.key = s.key := by
  unfold read_track_sysex
  dsimp only
  split
  · exact read_var_key s
  · exact (key_of_vars (sysex_loop_vars _ _ _)).trans (read_var_key s)

theorem read_track_tempo_key (tick : Int) (last_cmd port : Nat) (Event : event) (len : Int)
    (s : State) : (read_track_tempo tick last_cmd port Event len s).state.key = s.key := by
  unfold read_track_tempo
  dsimp only
  show (skip (len - 3) _).key = s.key
  rw [skip_key]
  show (read_byte (read_byte (read_byte s).2).2).2.key = s.key
  rw [read_byte_key, read_byte_key, read_byte_key]

theorem read_track_meta_key (track_end tick : Int) (last_cmd port : Nat) (Event : event)
    (s : State) :
    (read_track_meta track_end tick last_cmd port Event s).state.key = s.key
      ∨ ((read_byte s).1 = 0x59 ∧ 2 ≤ (read_var (read_byte s).2).1) := by
  have hv : (read_var (read_byte s).2).2.key = s.key := by rw [read_var_key, read_byte_key]
  by_cases h59 : (read_byte s).1 = 0x59 ∧ 2 ≤ (read_var (read_byte s).2).1
  · exact Or.inr h59
  left
  unfold read_track_meta
  dsimp only
  by_cases h0 : (read_var (read_byte s).2).1 < 0
  · rw [if_pos h0]; exact hv
  rw [if_neg h0]
  by_cases h21 : (read_byte s).1 = 0x21
  · rw [if_pos h21]
    split
    · exact hv
    · exact (skip_key _ _).trans hv
  rw [if_neg h21]
  by_cases h2f : (read_byte s).1 = 0x2f
  · rw [if_pos h2f]
    exact (skip_key _ _).trans hv
  rw [if_neg h2f]
  by_cases h51 : (read_byte s).1 = 0x51
  · rw [if_pos h51]
    split
    · exact hv
    · split
      · exact (skip_key _ _).trans hv
      · exact (read_track_tempo_key _ _ _ _ _ _).trans hv
  rw [if_neg h51]
  by_cases h9 : (read_byte s).1 = 0x59
  · rw [if_pos h9, if_pos (by have := h59; omega)]
    exact hv
  · rw [if_neg h9]
    exact (skip_key _ _).trans hv

theorem read_track_dispatch_key (track_end tick : Int) (last_cmd port : Nat) (Event : event)
    (cmd : Nat) (s : State) :
    (read_track_dispatch track_end tick last_cmd port Event cmd s).state.key = s.key
      ∨ (cmd = 0xff ∧ (read_byte s).1 = 0x59 ∧ 2 ≤ (read_var (read_byte s).2).1) := by
  unfold read_track_dispatch
  dsimp only
  split
  · left
    show (read_byte (read_byte s).2).2.key = s.key
    rw [read_byte_key, read_byte_key]
  split
  · left
    show (read_byte s).2.key = s.key
    rw [read_byte_key]
  split
  · split
    · exact Or.inl (read_track_sysex_key _ _ _ _ _ _)
    · split
      · rename_i hff
        rcases read_track_meta_key track_end tick last_cmd port Event s with h | h
        · exact Or.inl h
        · exact Or.inr ⟨hff, h⟩
      · exact Or.inl rfl
  · exact Or.inl rfl

theorem read_track_body_key (track_end : Int) (L : Locals) (s : State)
    (hL : L.last_cmd < 0xf0) :
    (read_track_body track_end L s).state.key = s.key ∨ key_signature_at s = true := by
  have hv : (read_var s).2.key = s.key := read_var_key s
  have hb : (read_byte (read_var s).2).2.key = s.key := by rw [read_byte_key, hv]
  unfold read_track_body
  dsimp only
  by_cases h1 : (read_var s).1 < 0
  · rw [if_pos h1]; exact Or.inl hv
  rw [if_neg h1]
  by_cases h2 : (read_byte (read_var s).2).1 < 0
  · rw [if_pos h2]; exact Or.inl hb
  rw [if_neg h2]
  by_cases h3 : band (read_byte (read_var s).2).1 0x80 ≠ 0
  · rw [if_pos h3]
    rcases read_track_dispatch_key track_end (wrap32 (L.tick + (read_var s).1))
      (if (read_byte (read_var s).2).1.toNat < 0xf0 then (read_byte (read_var s).2).1.toNat
        else L.last_cmd) L.port L.Event (read_byte (read_var s).2).1.toNat
      (read_byte (read_var s).2).2 with h | ⟨hc, h59, hl⟩
    · exact Or.inl (h.trans hb)
    · right
      unfold key_signature_at delta_time status_byte meta_type meta_length
      exact decide_eq_true ⟨by omega, by omega, h59, hl⟩
  · rw [if_neg h3]
    by_cases h4 : L.last_cmd = 0
    · rw [if_pos h4]
      exact Or.inl hb
    · rw [if_neg h4]
      rcases read_track_dispatch_key track_end (wrap32 (L.tick + (read_var s).1))
        L.last_cmd L.port L.Event L.last_cmd
        { ungetc (read_byte (read_var s).2).1 (read_byte (read_var s).2).2 with
          file_offset := (read_byte (read_var s).2).2.file_offset - 1 } with h | ⟨hc, -, -⟩
      · exact Or.inl (h.trans hb)
      · omega

/-- A loop of `read_track` none of whose iterations is a key-signature event
returns with the key signature it started with. -/
theorem read_track_loop_key (track_end : Int) (fuel : Nat) (L : Locals) (s s' : State)
    (rc : Int) (hL : L.last_cmd < 0xf0)
    (h : read_track_loop track_end fuel L s = .ret (rc, s'))
    (hk : ∀ p ∈ read_track_iterations track_end fuel L s, key_signature_at p.2 = false) :
    s'.key = s.key := by
  induction fuel generalizing L s with
  | zero =>
    unfold read_track_loop at h
    split at h
    · cases h
    · cases h; rfl
  | succ n ih =>
    unfold read_track_loop at h
    unfold read_track_iterations at hk
    split at h
    · rename_i hlt
      rw [if_pos hlt] at hk
      have hs : key_signature_at s = false := hk (L, s) (List.mem_cons_self _ _)
      have hb := read_track_body_key track_end L s hL
      rw [hs] at hb
      dsimp only at h
      split at h
      · rename_i L1 s1 hn
        rw [hn] at hb
        first | rw [hn] at hk | skip
        try dsimp only at hk
        rcases hb with hb | hb
        · exact (ih L1 s1 (read_track_body_last_cmd track_end L L1 s s1 hL hn) h
            (fun p hp => hk p (List.mem_cons_of_mem _ hp))).trans hb
        · cases hb
      · rename_i rc1 s1 hn
        rw [hn] at hb
        cases h
        rcases hb with hb | hb
        · exact hb
        · cases hb
    · cases h; rfl

theorem read_track_key (track_end : Int) (s s' : State) (rc : Int)
    (h : read_track track_end s = .ret (rc, s'))
    (hk : ∀ p ∈ read_track_iters track_end s, key_signature_at p.2 = false) :
    s'.key = s.key :=
  read_track_loop_key track_end _ _ s s' rc (show (0 : Nat) < 240 by decide) h hk

theorem read_smf_search_key (fuel : Nat) (s s' : State) (r : Option Int)
    (h : read_smf_search fuel s = .ret (r, s')) : s'.key = s.key :=
  key_of_vars (read_smf_search_vars fuel s s' r h)

theorem read_smf_tracks_key (n : Nat) (s s' : State) (rc : Int)
    (h : read_smf_tracks n s = .ret (rc, s'))
    (hk : ∀ c ∈ read_smf_tracks_calls n s, ∀ p ∈ read_track_iters c.1 c.2,
      key_signature_at p.2 = false) :
    s'.key = s.key := by
  induction n generalizing s with
  | zero =>
    unfold read_smf_tracks at h
    cases h; rfl
  | succ n ih =>
    unfold read_smf_tracks at h
    unfold read_smf_tracks_calls at hk
    rcases hs : read_smf_search s.rest.length s with ⟨_ | len, t⟩ | _ | _
    · rw [hs] at h
      cases h
      exact read_smf_search_key _ _ _ _ hs
    · rw [hs] at h hk
      dsimp only at h hk
      have h1 := read_smf_search_key _ _ _ _ hs
      rcases ht : read_track (t.file_offset + len) t with ⟨rc1, u⟩ | _ | _
      · rw [ht] at h hk
        dsimp only at h hk
        have h2 := read_track_key _ _ _ _ ht (hk _ (List.mem_cons_self _ _))
        by_cases h0 : rc1 = 0
        · rw [if_pos h0] at h
          cases h
          exact h2.trans h1
        · rw [if_neg h0] at h hk
          have h3 := ih u.next_call h (fun c hc => hk c (List.mem_cons_of_mem _ hc))
          exact h3.trans (h2.trans h1)
      · rw [ht] at h; cases h
      · rw [ht] at h; cases h
    · rw [hs] at h; cases h
    · rw [hs] at h; cases h

theorem read_smf_header_key (err : Int) (s : State) :
    (read_smf_header err s).2.key = s.key := by
  have h1 : (read_int 4 s).2.key = s.key := key_of_vars (read_int_vars _ _)
  have h2 : (read_int 2 (read_int 4 s).2).2.key = s.key :=
    (key_of_vars (read_int_vars _ _)).trans h1
  have h3 : (read_int 2 (read_int 2 (read_int 4 s).2).2).2.key = s.key :=
    (key_of_vars (read_int_vars _ _)).trans h2
  have h4 : (read_int 2 (read_int 2 (read_int 2 (read_int 4 s).2).2).2).2.key = s.key :=
    (key_of_vars (read_int_vars _ _)).trans h3
  unfold read_smf_header
  dsimp only
  split
  · exact h1
  split
  · exact h2
  split
  · exact h3
  split
  · exact h4
  split
  · exact h4
  split
  · exact h4
  · exact h4

theorem read_smf_finish_key (s s' : State) (rc : Int)
    (h : read_smf_finish s = .ret (rc, s')) : s'.key = s.key := by
  unfold read_smf_finish at h
  dsimp only at h
  split at h
  · cases h
  · split at h <;> (cases h; rfl)

theorem read_smf_key (err : Int) (s s' : State) (rc : Int)
    (h : read_smf err s = .ret (rc, s'))
    (hk : ∀ c ∈ read_smf_calls err s, ∀ p ∈ read_track_iters c.1 c.2,
      key_signature_at p.2 = false) :
    s'.key = s.key := by
  have hh := read_smf_header_key err s
  unfold read_smf at h
  unfold read_smf_calls at hk
  rcases hd : read_smf_header err s with ⟨_ | n, sh⟩
  · rw [hd] at h hh
    cases h
    exact hh
  · rw [hd] at h hk hh
    dsimp only at h hk hh
    rcases ht : read_smf_tracks n sh with ⟨rc1, u⟩ | _ | _
    · rw [ht] at h
      dsimp only at h
      have h2 := read_smf_tracks_key n sh u rc1 ht hk
      by_cases h0 : rc1 = 0
      · rw [if_pos h0] at h
        cases h
        exact h2.trans hh
      · rw [if_neg h0] at h
        exact (read_smf_finish_key _ _ _ h).trans (h2.trans hh)
    · rw [ht] at h; cases h
    · rw [ht] at h; cases h

theorem read_riff_key (err : Int) (s s' : State) (rc : Int)
    (h : read_riff err s = .ret (rc, s'))
    (hk : ∀ c ∈ read_riff_calls err s, ∀ p ∈ read_track_iters c.1 c.2,
      key_signature_at p.2 = false) :
    s'.key = s.key := by
  have hv : (read_id (read_byte (read_byte (read_byte (read_byte s).2).2).2).2).2.key
      = s.key := by
    rw [key_of_vars (read_id_vars _), read_byte_key, read_byte_key, read_byte_key, read_byte_key]
  unfold read_riff at h
  unfold read_riff_calls at hk
  dsimp only at h hk
  by_cases hid : (read_id (read_byte (read_byte (read_byte (read_byte s).2).2).2).2).1
      ≠ MAKE_ID 'R' 'M' 'I' 'D'
  · rw [if_pos hid] at h
    cases h
    exact hv
  · rw [if_neg hid] at h hk
    rcases hs : read_riff_search
        (read_id (read_byte (read_byte (read_byte (read_byte s).2).2).2).2).2.rest.length
        (read_id (read_byte (read_byte (read_byte (read_byte s).2).2).2).2).2
      with ⟨_ | _, t⟩ | _ | _
    · rw [hs] at h
      cases h
      exact (key_of_vars (read_riff_search_vars _ _ _ _ hs)).trans hv
    · rw [hs] at h hk
      dsimp only at h hk
      have h1 := (key_of_vars (read_riff_search_vars _ _ _ _ hs)).trans hv
      have h2 : (read_id t).2.key = s.key := (key_of_vars (read_id_vars t)).trans h1
      by_cases hm : (read_id t).1 ≠ MAKE_ID 'M' 'T' 'h' 'd'
      · rw [if_pos hm] at h
        cases h
        exact h2
      · rw [if_neg hm] at h hk
        exact (read_smf_key err _ _ _ h hk).trans h2
    · rw [hs] at h; cases h
    · rw [hs] at h; cases h

/-- A parse none of whose track iterations is a key-signature event returns
with the key signature it was called with. -/
theorem parseFile_key (err : Int) (content : List Byte) (s s' : State) (rc : Int)
    (h : parseFile err content s = .ret (rc, s'))
    (hk : ∀ c ∈ parseFile_calls err content s, ∀ p ∈ read_track_iters c.1 c.2,
      key_signature_at p.2 = false) :
    s'.key = s.key := by
  have hv : (read_id { s with rest := content, eof := false, file_offset := 0 }).2.key
      = s.key := by
    rw [key_of_vars (read_id_vars _)]; rfl
  unfold parseFile at h
  unfold parseFile_calls at hk
  dsimp only at h hk
  by_cases h1 : (read_id { s with rest := content, eof := false, file_offset := 0 }).1
      = MAKE_ID 'M' 'T' 'h' 'd'
  · rw [if_pos h1] at h hk
    exact (read_smf_key err _ _ _ h hk).trans hv
  · rw [if_neg h1] at h hk
    by_cases h2 : (read_id { s with rest := content, eof := false, file_offset := 0 }).1
        = MAKE_ID 'R' 'I' 'F' 'F'
    · rw [if_pos h2] at h hk
      exact (read_riff_key err _ _ _ h hk).trans hv
    · rw [if_neg h2] at h
      cases h
      exact hv

/-! ## C12: a parse after another parse -/

theorem timeline_written (r1 r2 : Run (Int × State)) (h : r1.timeline = r2.timeline) :
    r1.written.timeline = r2.written.timeline := by
  rcases r1 with ⟨rc1, t1⟩ | _ | _ <;> rcases r2 with ⟨rc2, t2⟩ | _ | _ <;>
    simp only [Run.written, Run.timeline, State.written] at h ⊢ <;>
    (try split_ifs at h ⊢) <;> simp_all

theorem written_ret_inv (r : Run (Int × State)) (rc : Int) (s : State)
    (h : r.written = .ret (rc, s.written)) :
    ∃ u, r = .ret (rc, u) ∧ u.written = s.written := by
  rcases r with ⟨rc1, u⟩ | _ | _
  · simp only [Run.written, Run.ret.injEq, Prod.mk.injEq] at h
    exact ⟨u, by rw [h.1], h.2⟩
  · cases h
  · cases h

theorem written_key (s : State) : s.written.key = s.key := rfl

/-- Two parses of one buffer that start with the same events and the same
indeterminate values in `Event` agree on the timeline. -/
theorem parseFile_timeline (err : Int) (content : List Byte) (s1 s2 : State)
    (h : s1.all_events = s2.all_events) (hr : s1.residues = s2.residues) :
    (parseFile err content s1).timeline = (parseFile err content s2).timeline := by
  rw [parseFile_vars err content s2 s1 hr]
  rcases parseFile_mapVars s2.vars err content s1 h.symm with hp | hp
  · rw [timeline_congr _ _ hp, timeline_setKey]
  · rw [timeline_congr _ _ hp]

/-- A parse from the state a successful parse left, with the events and the
indeterminate values of `Event` set back, returns that state again. -/
theorem parseFile_again (err : Int) (content : List Byte) (s1 s' : State) (rc : Int)
    (E : List event) (R : List event) (hE : E = s1.all_events) (hR : R = s1.residues)
    (h1 : parseFile err content s1 = .ret (rc, s')) (hrc : rc ≠ 0) :
    parseFile err content { s' with all_events := E, residues := R } = .ret (rc, s') := by
  subst hE hR
  rw [parseFile_vars err content
    { s' with all_events := s1.all_events, residues := s1.residues } s1 rfl]
  rcases parseFile_mapVars
    ({ s' with all_events := s1.all_events, residues := s1.residues } : State).vars err content
    s1 rfl with hp | hp
  · rw [h1] at hp
    exact success_ret _ rc s' hrc hp
  · rw [h1] at hp
    exact success_ret _ rc s' hrc hp

/-- C12, amended: with the same `all_events` at the call (the caller clears
it), two parses of one buffer from any two states agree on the return code
being zero, on undefined behaviour, and on success on `PPQ`, the SMPTE flag,
the song length and the events up to the bytes of `data` that `read_track`
never assigns (`event.written`), which hold what the uninitialised local
`Event` held; they agree on these bytes too when `Event` starts with the same
values in both. A second parse of the buffer from the state a successful parse
left, `all_events` reset, returns the same code and the same state, key
signature included, again up to those bytes, and exactly so when `Event`
starts with the same values. The key signature is not determined by the
buffer: a parse none of whose track iterations is a key-signature event
(status FF, type 59, length at least 2) returns with the `sf` and `minor_key`
it was called with. -/
theorem parseFile_prior_state (err : Int) (content : List Byte) (s1 s2 : State)
    (h : s1.all_events = s2.all_events) :
    (parseFile err content s1).written.timeline = (parseFile err content s2).written.timeline
    ∧ (s1.residues = s2.residues →
        (parseFile err content s1).timeline = (parseFile err content s2).timeline)
    ∧ (∀ rc s', parseFile err content s1 = .ret (rc, s') → rc ≠ 0 →
        parseFile err content
            { s' with all_events := s1.all_events, residues := s1.residues } = .ret (rc, s')
        ∧ ∀ R : List event,
            (parseFile err content { s' with all_events := s1.all_events, residues := R }).written
              = .ret (rc, s'.written))
    ∧ (∀ rc s', parseFile err content s1 = .ret (rc, s') →
        (∀ c ∈ parseFile_calls err content s1, ∀ p ∈ read_track_iters c.1 c.2,
          key_signature_at p.2 = false) →
        s'.sf = s1.sf ∧ s'.minor_key = s1.minor_key) := by
  refine ⟨?_, parseFile_timeline err content s1 s2 h, ?_, ?_⟩
  · rw [parseFile_written err content s1, parseFile_written err content s2]
    apply timeline_written
    apply parseFile_timeline err content s1.written s2.written _ rfl
    simp only [State.written, h]
  · intro rc s' h1 hrc
    refine ⟨parseFile_again err content s1 s' rc _ _ rfl rfl h1 hrc, ?_⟩
    intro R
    have hw := parseFile_written err content s1
    rw [h1] at hw
    obtain ⟨u, hu, huw⟩ := written_ret_inv _ rc s' hw.symm
    have h2 := parseFile_again err content s1.written u rc
      s1.written.all_events [] rfl rfl hu hrc
    rw [parseFile_written]
    have e : ({ s' with all_events := s1.all_events, residues := R } : State).written
        = { u with all_events := s1.written.all_events, residues := [] } := by
      have e1 := congrArg State.rest huw
      have e2 := congrArg State.eof huw
      have e3 := congrArg State.file_offset huw
      have e4 := congrArg State.smpte_timing huw
      have e5 := congrArg State.prev_tick huw
      have e6 := congrArg State.BPM huw
      have e7 := congrArg State.PPQ huw
      have e8 := congrArg State.song_length_seconds huw
      have e9 := congrArg State.sf huw
      have e10 := congrArg State.minor_key huw
      have e11 := congrArg State.queue_tempo huw
      simp only [State.written] at e1 e2 e3 e4 e5 e6 e7 e8 e9 e10 e11 ⊢
      simp only [e1, e2, e3, e4, e5, e6, e7, e8, e9, e10, e11]
    rw [e, h2]
    show Run.ret (rc, u.written) = Run.ret (rc, s'.written)
    rw [huw]
  · intro rc s' h1 hk
    have hkey := parseFile_key err content s1 s' rc h1 hk
    simp only [State.key, Prod.mk.injEq] at hkey
    exact hkey

/-- The bytes `read_track` never assigns, on the code: `file_two_tracks`
parsed with the residue of a note-on in `Event` at both calls of `read_track`
gives events whose fourth `data` byte is the 9 of the residue, and a program
change whose `d[2]` is its 127; parsed on a stack of zero bytes it gives
zeros there. -/
theorem parseFile_residue_leak :
    parseFile 0 file_two_tracks
        { State.start with residues := [residue_note_on, residue_note_on] }
      = .ret (1, { file_two_tracks_result with
          all_events :=
            [{ type := 6, port := 0, tick := 0, data := ⟨0, 60, 64, 9⟩, sysex := [] },
             { type := 11, port := 0, tick := 0, data := ⟨1, 5, 127, 9⟩, sysex := [] },
             { type := 6, port := 0, tick := 5, data := ⟨1, 64, 127, 9⟩, sysex := [] },
             { type := 7, port := 0, tick := 10, data := ⟨0, 60, 64, 9⟩, sysex := [] }] })
    ∧ parseFile 0 file_two_tracks State.start = .ret (1, file_two_tracks_result)
    ∧ (file_two_tracks_result.all_events.map (fun e => e.data.b3)) = [0, 0, 0, 0] := by
  refine ⟨?_, ?_, ?_⟩ <;> decide!

theorem parseFile_one_note_no_key_signature :
    ∀ c ∈ parseFile_calls 0 file_one_note State.start, ∀ p ∈ read_track_iters c.1 c.2,
      key_signature_at p.2 = false := by
  decide!

theorem parseFile_prior_state_witness :
    State.start.all_events
        = ({ file_key_signature_result with
              all_events := [], residues := [residue_note_on] } : State).all_events
      ∧ (parseFile 0 file_one_note State.start).written.timeline
        = (parseFile 0 file_one_note
            { file_key_signature_result with
              all_events := [], residues := [residue_note_on] }).written.timeline
      ∧ (parseFile 0 file_one_note
            { file_one_note_result with
              all_events := State.start.all_events, residues := [residue_note_on] }).written
          = .ret (1, file_one_note_result.written)
      ∧ file_one_note_result.sf = State.start.sf
      ∧ file_one_note_result.minor_key = State.start.minor_key :=
  ⟨rfl,
    (parseFile_prior_state 0 file_one_note State.start
      { file_key_signature_result with all_events := [], residues := [residue_note_on] }
      rfl).1,
    ((parseFile_prior_state 0 file_one_note State.start
      { file_key_signature_result with all_events := [], residues := [residue_note_on] }
      rfl).2.2.1 1 file_one_note_result parseFile_file_one_note (by decide)).2
      [residue_note_on],
    (parseFile_prior_state 0 file_one_note State.start
      { file_key_signature_result with all_events := [], residues := [residue_note_on] }
      rfl).2.2.2 1 file_one_note_result parseFile_file_one_note
      parseFile_one_note_no_key_signature⟩

end MidiSequencer
